import Mathlib

/-!
# js-yaml (vendored in `dist/bundle.js`): loader and dumper

A shallow embedding of the YAML engine bundled in
`src/internal/services/jslibs/dist/bundle.js` (`node_modules/js-yaml/lib/*`).

JavaScript strings are sequences of UTF-16 code units and are modelled as
`List Nat`.  A character code read from a string is an `Option Nat`: `none`
stands for the `NaN` that `charCodeAt` gives outside the string (and for the
`null` that `chooseScalarStyle` starts `prevChar` with); every comparison with
`none` is false, as it is for `NaN`.
-/

set_option autoImplicit false

namespace JsYaml

/-- A JavaScript string: its UTF-16 code units. -/
abbrev JSString := List Nat

/-- The code units of a Lean string literal (UTF-16 encoding). -/
def js (s : String) : JSString :=
  s.data.flatMap fun c =>
    if c.toNat < 65536 then [c.toNat]
    else [(c.toNat - 65536) / 1024 + 55296, (c.toNat - 65536) % 1024 + 56320]

/-- `String.prototype.charCodeAt`: `none` is `NaN`. -/
def charCodeAt (s : JSString) (pos : Int) : Option Nat :=
  if pos < 0 then none else s[pos.toNat]?

/-- `common.repeat`. -/
def «repeat» (string : JSString) : Nat → JSString
  | 0 => []
  | count + 1 => «repeat» string count ++ string

/-- `string.slice(start, end)` for `0 ≤ start`. -/
def slice (s : JSString) (start end_ : Nat) : JSString :=
  (s.drop start).take (end_ - start)

namespace Dumper

def CHAR_BOM : Nat := 65279
def CHAR_TAB : Nat := 9
def CHAR_LINE_FEED : Nat := 10
def CHAR_CARRIAGE_RETURN : Nat := 13
def CHAR_SPACE : Nat := 32
def CHAR_EXCLAMATION : Nat := 33
def CHAR_DOUBLE_QUOTE : Nat := 34
def CHAR_SHARP : Nat := 35
def CHAR_PERCENT : Nat := 37
def CHAR_AMPERSAND : Nat := 38
def CHAR_SINGLE_QUOTE : Nat := 39
def CHAR_ASTERISK : Nat := 42
def CHAR_COMMA : Nat := 44
def CHAR_MINUS : Nat := 45
def CHAR_COLON : Nat := 58
def CHAR_EQUALS : Nat := 61
def CHAR_GREATER_THAN : Nat := 62
def CHAR_QUESTION : Nat := 63
def CHAR_COMMERCIAL_AT : Nat := 64
def CHAR_LEFT_SQUARE_BRACKET : Nat := 91
def CHAR_RIGHT_SQUARE_BRACKET : Nat := 93
def CHAR_GRAVE_ACCENT : Nat := 96
def CHAR_LEFT_CURLY_BRACKET : Nat := 123
def CHAR_VERTICAL_LINE : Nat := 124
def CHAR_RIGHT_CURLY_BRACKET : Nat := 125

def QUOTING_TYPE_SINGLE : Nat := 1
def QUOTING_TYPE_DOUBLE : Nat := 2

def STYLE_PLAIN : Nat := 1
def STYLE_SINGLE : Nat := 2
def STYLE_LITERAL : Nat := 3
def STYLE_FOLDED : Nat := 4
def STYLE_DOUBLE : Nat := 5

/-- `isWhitespace(c)`. -/
def isWhitespace (c : Option Nat) : Bool :=
  c == some CHAR_SPACE || c == some CHAR_TAB

/-- `isPrintable(c)`. -/
def isPrintable : Option Nat → Bool
  | none => false
  | some c =>
    (decide (32 ≤ c) && decide (c ≤ 126))
    || (decide (161 ≤ c) && decide (c ≤ 55295) && c != 8232 && c != 8233)
    || (decide (57344 ≤ c) && decide (c ≤ 65533) && c != CHAR_BOM)
    || (decide (65536 ≤ c) && decide (c ≤ 1114111))

/-- `isNsCharOrWhitespace(c)`. -/
def isNsCharOrWhitespace (c : Option Nat) : Bool :=
  isPrintable c && c != some CHAR_BOM && c != some CHAR_CARRIAGE_RETURN
    && c != some CHAR_LINE_FEED

/-- `isPlainSafe(c, prev, inblock)`. -/
def isPlainSafe (c prev : Option Nat) (inblock : Bool) : Bool :=
  let cIsNsCharOrWhitespace := isNsCharOrWhitespace c
  let cIsNsChar := cIsNsCharOrWhitespace && !isWhitespace c
  ((if inblock then cIsNsCharOrWhitespace
    else cIsNsCharOrWhitespace && c != some CHAR_COMMA
      && c != some CHAR_LEFT_SQUARE_BRACKET && c != some CHAR_RIGHT_SQUARE_BRACKET
      && c != some CHAR_LEFT_CURLY_BRACKET && c != some CHAR_RIGHT_CURLY_BRACKET)
    && c != some CHAR_SHARP && !(prev == some CHAR_COLON && !cIsNsChar))
  || (isNsCharOrWhitespace prev && !isWhitespace prev && c == some CHAR_SHARP)
  || (prev == some CHAR_COLON && cIsNsChar)

/-- `isPlainSafeFirst(c)`. -/
def isPlainSafeFirst (c : Option Nat) : Bool :=
  isPrintable c && c != some CHAR_BOM && !isWhitespace c
    && c != some CHAR_MINUS && c != some CHAR_QUESTION && c != some CHAR_COLON
    && c != some CHAR_COMMA && c != some CHAR_LEFT_SQUARE_BRACKET
    && c != some CHAR_RIGHT_SQUARE_BRACKET && c != some CHAR_LEFT_CURLY_BRACKET
    && c != some CHAR_RIGHT_CURLY_BRACKET && c != some CHAR_SHARP
    && c != some CHAR_AMPERSAND && c != some CHAR_ASTERISK
    && c != some CHAR_EXCLAMATION && c != some CHAR_VERTICAL_LINE
    && c != some CHAR_EQUALS && c != some CHAR_GREATER_THAN
    && c != some CHAR_SINGLE_QUOTE && c != some CHAR_DOUBLE_QUOTE
    && c != some CHAR_PERCENT && c != some CHAR_COMMERCIAL_AT
    && c != some CHAR_GRAVE_ACCENT

/-- `isPlainSafeLast(c)`. -/
def isPlainSafeLast (c : Option Nat) : Bool :=
  !isWhitespace c && c != some CHAR_COLON

/-- `codePointAt(string, pos)`. -/
def codePointAt (string : JSString) (pos : Int) : Option Nat :=
  match charCodeAt string pos with
  | none => none
  | some first =>
    if first ≥ 55296 ∧ first ≤ 56319 ∧ pos + 1 < (string.length : Int) then
      match charCodeAt string (pos + 1) with
      | some second =>
        if second ≥ 56320 ∧ second ≤ 57343 then
          some ((first - 55296) * 1024 + second - 56320 + 65536)
        else some first
      | none => some first
    else some first

/-- The regular expression `/^\n* /` of `needIndentIndicator`. -/
def needIndentIndicator : JSString → Bool
  | [] => false
  | c :: cs => if c = 10 then needIndentIndicator cs else c == 32

/-- The local variables of `chooseScalarStyle` that its loops update. -/
structure Scan where
  i : Nat := 0
  char : Option Nat := some 0
  prevChar : Option Nat := none
  hasLineBreak : Bool := false
  hasFoldableLine : Bool := false
  previousLineBreak : Int := -1
  plain : Bool

/-- The loop increment `char >= 65536 ? i += 2 : i++`. -/
def Scan.next (st : Scan) : Nat :=
  match st.char with
  | some c => if c ≥ 65536 then st.i + 2 else st.i + 1
  | none => st.i + 1

/-- The first loop of `chooseScalarStyle` (`singleLineOnly || forceQuotes`);
`none` is the early `return STYLE_DOUBLE`.  Every iteration advances `i`, so
`string.length` units of fuel run the loop to its end. -/
def scanSingleLine (string : JSString) (inblock : Bool) : Nat → Scan → Option Scan
  | 0, st => some st
  | fuel + 1, st =>
    if st.i < string.length then
      let char := codePointAt string st.i
      if !isPrintable char then none
      else
        let st1 := { st with
          char := char
          plain := st.plain && isPlainSafe char st.prevChar inblock
          prevChar := char }
        scanSingleLine string inblock fuel { st1 with i := st1.next }
    else some st

/-- The second loop of `chooseScalarStyle`; `none` is the early
`return STYLE_DOUBLE`. -/
def scanMultiLine (string : JSString) (shouldTrackWidth : Bool) (lineWidth : Int)
    (inblock : Bool) : Nat → Scan → Option Scan
  | 0, st => some st
  | fuel + 1, st =>
    if st.i < string.length then
      let char := codePointAt string st.i
      if char == some CHAR_LINE_FEED then
        let st1 := { st with char := char, hasLineBreak := true }
        let st2 :=
          if shouldTrackWidth then
            { st1 with
              hasFoldableLine := st1.hasFoldableLine
                || (decide ((st1.i : Int) - st1.previousLineBreak - 1 > lineWidth)
                    && charCodeAt string (st1.previousLineBreak + 1) != some 32)
              previousLineBreak := st1.i }
          else st1
        let st3 := { st2 with
          plain := st2.plain && isPlainSafe char st2.prevChar inblock
          prevChar := char }
        scanMultiLine string shouldTrackWidth lineWidth inblock fuel
          { st3 with i := st3.next }
      else if !isPrintable char then none
      else
        let st1 := { st with
          char := char
          plain := st.plain && isPlainSafe char st.prevChar inblock
          prevChar := char }
        scanMultiLine string shouldTrackWidth lineWidth inblock fuel
          { st1 with i := st1.next }
    else some st

/-- `chooseScalarStyle(string, singleLineOnly, indentPerLevel, lineWidth,
testAmbiguousType, quotingType, forceQuotes, inblock)`. -/
def chooseScalarStyle (string : JSString) (singleLineOnly : Bool) (indentPerLevel : Nat)
    (lineWidth : Int) (testAmbiguousType : JSString → Bool) (quotingType : Nat)
    (forceQuotes : Bool) (inblock : Bool) : Nat :=
  let shouldTrackWidth := lineWidth != -1
  let plain := isPlainSafeFirst (codePointAt string 0)
    && isPlainSafeLast (codePointAt string ((string.length : Int) - 1))
  let scanned :=
    if singleLineOnly || forceQuotes then
      scanSingleLine string inblock string.length { plain := plain }
    else
      match scanMultiLine string shouldTrackWidth lineWidth inblock string.length
          { plain := plain } with
      | none => none
      | some st =>
        some { st with
          hasFoldableLine := st.hasFoldableLine
            || (shouldTrackWidth
                && (decide ((st.i : Int) - st.previousLineBreak - 1 > lineWidth)
                    && charCodeAt string (st.previousLineBreak + 1) != some 32)) }
  match scanned with
  | none => STYLE_DOUBLE
  | some st =>
    if !st.hasLineBreak && !st.hasFoldableLine then
      if st.plain && !forceQuotes && !testAmbiguousType string then STYLE_PLAIN
      else if quotingType = QUOTING_TYPE_DOUBLE then STYLE_DOUBLE else STYLE_SINGLE
    else if indentPerLevel > 9 && needIndentIndicator string then STYLE_DOUBLE
    else if !forceQuotes then
      if st.hasFoldableLine then STYLE_FOLDED else STYLE_LITERAL
    else if quotingType = QUOTING_TYPE_DOUBLE then STYLE_DOUBLE else STYLE_SINGLE

end Dumper

namespace Dumper

/-- The code points of a string, in order: a high surrogate followed by a low
surrogate is one code point (as `codePointAt` composes it), every other code
unit stands for itself.  These are the characters the scanning loops of
`chooseScalarStyle` visit. -/
def codePoints : JSString → List Nat
  | [] => []
  | [a] => [a]
  | a :: b :: rest =>
    if a ≥ 55296 ∧ a ≤ 56319 ∧ b ≥ 56320 ∧ b ≤ 57343 then
      ((a - 55296) * 1024 + b - 56320 + 65536) :: codePoints rest
    else a :: codePoints (b :: rest)

/-- The lines of a string: the pieces between its line feeds. -/
def splitLines : JSString → List JSString
  | [] => [[]]
  | c :: cs =>
    if c = 10 then [] :: splitLines cs
    else
      match splitLines cs with
      | [] => [[c]]
      | l :: ls => (c :: l) :: ls

/-- Some line is longer than `lineWidth` and does not start with a space. -/
def hasLongLine (lineWidth : Int) (lines : List JSString) : Bool :=
  lines.any fun l => decide ((l.length : Int) > lineWidth) && l.head? != some 32

/-- Every character is plain-safe relative to its predecessor (`prev` for the
first one). -/
def allPlainSafe (inblock : Bool) : Option Nat → List Nat → Bool
  | _, [] => true
  | prev, c :: cs => isPlainSafe (some c) prev inblock && allPlainSafe inblock (some c) cs

end Dumper

/-! ## Values and the object heap

Arrays, plain objects, dates and typed arrays are objects with an identity:
they live in a heap and a value refers to them by address.  Finite numbers that
are not integers are kept as the text `Number.prototype.toString` gives for
them; conversions between texts and such numbers are host operations (see
`Host`). -/

/-- A JavaScript value. -/
inductive JSVal where
  | undefined
  | null
  | bool (b : Bool)
  /-- An integer-valued number other than `-0`. -/
  | num (n : Int)
  /-- A finite number that is not an integer, by its decimal text. -/
  | float (text : JSString)
  | negZero
  | posInf
  | negInf
  | nan
  | str (s : JSString)
  /-- A function object. -/
  | fn (id : Nat)
  /-- An array, a plain object, a `Date` or a `Uint8Array` of the heap. -/
  | ref (addr : Nat)
  deriving DecidableEq, Repr, Inhabited

/-- The `[[Prototype]]` of a plain object. -/
inductive Proto where
  | objectPrototype
  | null
  | ref (addr : Nat)
  deriving DecidableEq, Repr, Inhabited

/-- An object of the heap.  The own properties of a plain object are
enumerable, writable data properties, kept in creation order. -/
inductive HeapObj where
  | array (items : List JSVal)
  | object (proto : Proto) (props : List (JSString × JSVal))
  /-- A `Date` with its time value in milliseconds (`none` is an invalid date). -/
  | date (time : Option Int)
  | bytes (data : List Nat)
  deriving DecidableEq, Repr, Inhabited

abbrev Heap := List HeapObj

/-- Number conversions of the host that involve floating point or are left to
the implementation. -/
structure Host where
  /-- `parseFloat(text)`. -/
  parseFloat : JSString → JSVal
  /-- The Number value of an integer beyond `2^53`. -/
  toNumber : Int → JSVal
  /-- `Number.prototype.toString` in base ten for an integer with `|n| ≥ 10^21`. -/
  bigToString : Int → JSString
  /-- `String(date)`: the local-time text of a date. -/
  dateToString : Option Int → JSString

/-- A host for evaluating the model on concrete inputs: a number that is not a
safe integer is kept as the text it was read from, a large integer is printed
with all its digits, and a date is printed as its time value. -/
def Host.reference : Host where
  parseFloat := fun text => .float text
  toNumber := fun n => .num n
  bigToString := fun n =>
    if n < 0 then 45 :: (Nat.toDigits 10 n.natAbs).map Char.toNat
    else (Nat.toDigits 10 n.natAbs).map Char.toNat
  dateToString := fun t =>
    match t with
    | some t =>
      if t < 0 then 45 :: (Nat.toDigits 10 t.natAbs).map Char.toNat
      else (Nat.toDigits 10 t.natAbs).map Char.toNat
    | none => [73, 110, 118, 97, 108, 105, 100, 32, 68, 97, 116, 101]

deriving instance DecidableEq for Except

/-- An error thrown by the library: a `YAMLException` with its reason, or
another JavaScript error with its message. -/
inductive JSError where
  | yaml (reason : String)
  | other (message : String)
  /-- Not a JavaScript error: the model's recursion bound was reached. -/
  | fuel
  deriving DecidableEq, Repr, Inhabited

/-- The result of `Object.prototype.toString.call`. -/
inductive Class where
  | undefined | null | boolean | number | string | function
  | array | object | date | uint8Array
  deriving DecidableEq, Repr, Inhabited

def Class.text : Class → String
  | .undefined => "[object Undefined]"
  | .null => "[object Null]"
  | .boolean => "[object Boolean]"
  | .number => "[object Number]"
  | .string => "[object String]"
  | .function => "[object Function]"
  | .array => "[object Array]"
  | .object => "[object Object]"
  | .date => "[object Date]"
  | .uint8Array => "[object Uint8Array]"

/-- `Object.prototype.toString.call(v)`.  A dangling address does not occur
in a well-formed heap; it is classed as a plain object. -/
def classOf (heap : Heap) : JSVal → Class
  | .undefined => .undefined
  | .null => .null
  | .bool _ => .boolean
  | .num _ | .float _ | .negZero | .posInf | .negInf | .nan => .number
  | .str _ => .string
  | .fn _ => .function
  | .ref a =>
    match heap[a]? with
    | some (.array _) => .array
    | some (.object _ _) => .object
    | some (.date _) => .date
    | some (.bytes _) => .uint8Array
    | none => .object

/-- `typeof v === "object"`. -/
def typeofObject : JSVal → Bool
  | .null => true
  | .ref _ => true
  | _ => false

/-- `Array.isArray(v)`. -/
def isArray (heap : Heap) (v : JSVal) : Bool := classOf heap v == .array

/-- Allocation of a new object. -/
def Heap.alloc (heap : Heap) (o : HeapObj) : JSVal × Heap :=
  (.ref heap.length, heap ++ [o])

/-- The decimal digits of a natural number. -/
def natDigits (base : Nat) : Nat → Nat → List Nat
  | 0, _ => []
  | fuel + 1, n =>
    if n < base then [n] else natDigits base fuel (n / base) ++ [n % base]

/-- The character of a digit (upper case beyond nine when `upper`). -/
def digitChar (upper : Bool) (d : Nat) : Nat :=
  if d < 10 then 48 + d else if upper then 55 + d else 87 + d

/-- The text of a natural number in a base (2 to 36), lower case. -/
def natToString (base : Nat) (n : Nat) : JSString :=
  (natDigits base (n + 1) n).map (digitChar false)

/-- `Number.prototype.toString(radix)` of an integer-valued number; base ten
switches to exponent notation from `10^21` on, which is left to the host. -/
def intToString (host : Host) (radix : Nat) (n : Int) : JSString :=
  if radix = 10 ∧ n.natAbs ≥ 10 ^ 21 then host.bigToString n
  else if n < 0 then 45 :: natToString radix n.natAbs else natToString radix n.natAbs

/-- An array index: the canonical decimal text of an integer below `2^32 - 1`. -/
def arrayIndex? (key : JSString) : Option Nat :=
  if key = [] then none
  else if key.all (fun c => decide (48 ≤ c) && decide (c ≤ 57)) then
    let n := key.foldl (fun acc c => acc * 10 + (c - 48)) 0
    if (key.head? = some 48 ∧ key.length > 1) ∨ n ≥ 4294967295 then none else some n
  else none

/-- Insertion of a key into a list ordered by array index. -/
def insertIndexKey (k : JSString) (n : Nat) : List (JSString × Nat) → List (JSString × Nat)
  | [] => [(k, n)]
  | (k', n') :: rest =>
    if n < n' then (k, n) :: (k', n') :: rest else (k', n') :: insertIndexKey k n rest

/-- The order of `Object.keys` on a plain object: array indices ascending, then
the other keys in creation order. -/
def orderKeys (keys : List JSString) : List JSString :=
  let idx := keys.foldl
    (fun acc k => match arrayIndex? k with
      | some n => insertIndexKey k n acc
      | none => acc) []
  idx.map Prod.fst ++ keys.filter (fun k => (arrayIndex? k).isNone)

/-- The indices `0 .. n-1` as property keys. -/
def indexKeys (n : Nat) : List JSString :=
  (List.range n).map (natToString 10)

/-- `Object.keys(v)` for an object value. -/
def objectKeys (heap : Heap) : JSVal → List JSString
  | .ref a =>
    match heap[a]? with
    | some (.array items) => indexKeys items.length
    | some (.object _ props) => orderKeys (props.map Prod.fst)
    | some (.date _) => []
    | some (.bytes data) => indexKeys data.length
    | none => []
  | .str s => indexKeys s.length
  | _ => []

/-- The own property `key` of an object value, if it has one (the `length` of
arrays and typed arrays included). -/
def getOwn? (heap : Heap) (v : JSVal) (key : JSString) : Option JSVal :=
  match v with
  | .ref a =>
    match heap[a]? with
    | some (.array items) =>
      if key = js "length" then some (.num items.length)
      else match arrayIndex? key with
        | some i => items[i]?
        | none => none
    | some (.object _ props) => (props.find? (fun p => p.1 == key)).map Prod.snd
    | some (.date _) => none
    | some (.bytes data) =>
      match arrayIndex? key with
      | some i => (data[i]?).map (fun b => JSVal.num b)
      | none => none
    | none => none
  | _ => none

/-- `Object.prototype.hasOwnProperty.call(v, key)`. -/
def hasOwnProperty (heap : Heap) (v : JSVal) (key : JSString) : Bool :=
  (getOwn? heap v key).isSome

/-- Lookup in a property list or a map made by `Object.create(null)`. -/
def lookup {α : Type} (m : List (JSString × α)) (key : JSString) : Option α :=
  (m.find? (fun p => p.1 == key)).map Prod.snd

/-- Assignment in a property list: an existing key keeps its place. -/
def assign {α : Type} (m : List (JSString × α)) (key : JSString) (v : α) :
    List (JSString × α) :=
  if m.any (fun p => p.1 == key) then m.map (fun p => if p.1 == key then (key, v) else p)
  else m ++ [(key, v)]

/-- Removal of a key (`delete m[key]`). -/
def remove {α : Type} (m : List (JSString × α)) (key : JSString) : List (JSString × α) :=
  m.filter (fun p => !(p.1 == key))

/-- Replacement of the object at an address. -/
def Heap.put (heap : Heap) (a : Nat) (o : HeapObj) : Heap := heap.set a o

/-- Creation or update of an own data property of a plain object
(`Object.defineProperty` with a value, and the outcome of an assignment that
reaches no setter). -/
def defineOwn (heap : Heap) (target : JSVal) (key : JSString) (v : JSVal) : Heap :=
  match target with
  | .ref a =>
    match heap[a]? with
    | some (.object proto props) => heap.put a (.object proto (assign props key v))
    | _ => heap
  | _ => heap

/-- The prototype of an object of the heap that is itself in the heap. -/
def protoOf (heap : Heap) (a : Nat) : Proto :=
  match heap[a]? with
  | some (.object proto _) => proto
  | _ => .objectPrototype

/-- Whether the prototype chain that starts at `p` passes through `target`. -/
def chainReaches (heap : Heap) (target : Nat) : Nat → Proto → Bool
  | 0, _ => false
  | fuel + 1, p =>
    match p with
    | .ref a => if a = target then true else chainReaches heap target fuel (protoOf heap a)
    | _ => false

/-- Whether an assignment to `key` that starts its lookup at the prototype `p`
ends in the `__proto__` setter of `Object.prototype`: no object of the chain has
an own property `key`, and the chain ends in `Object.prototype`. -/
def reachesProtoSetter (heap : Heap) (key : JSString) : Nat → Proto → Bool
  | 0, _ => false
  | fuel + 1, p =>
    match p with
    | .objectPrototype => key == js "__proto__"
    | .null => false
    | .ref a =>
      if hasOwnProperty heap (.ref a) key then false
      else reachesProtoSetter heap key fuel (protoOf heap a)

/-- The assignment `target[key] = v` on a plain object.  An own property is
updated; otherwise the prototype chain decides: through the `__proto__` setter
of `Object.prototype` the assignment changes the prototype when `v` is an object
or `null` (a cyclic chain is a `TypeError`) and does nothing for another value;
in every other case it creates an own property. -/
def setProperty (heap : Heap) (target : JSVal) (key : JSString) (v : JSVal) :
    Except JSError Heap :=
  match target with
  | .ref a =>
    match heap[a]? with
    | some (.object proto props) =>
      if props.any (fun p => p.1 == key) then
        .ok (heap.put a (.object proto (assign props key v)))
      else if reachesProtoSetter heap key (heap.length + 1) proto then
        match v with
        | .null => .ok (heap.put a (.object .null props))
        | .ref b =>
          if b = a ∨ chainReaches heap a (heap.length + 1) (protoOf heap b) then
            .error (.other "TypeError: Cyclic __proto__ value")
          else .ok (heap.put a (.object (.ref b) props))
        | _ => .ok heap
      else .ok (heap.put a (.object proto (assign props key v)))
    | _ => .ok heap
  | _ => .ok heap

/-- Reading `v[key]` where `key` is an own key of `v`. -/
def getProperty (heap : Heap) (v : JSVal) (key : JSString) : JSVal :=
  (getOwn? heap v key).getD .undefined

/-- The items of an array value. -/
def arrayItems (heap : Heap) : JSVal → List JSVal
  | .ref a =>
    match heap[a]? with
    | some (.array items) => items
    | some (.bytes data) => data.map (fun b => JSVal.num b)
    | _ => []
  | _ => []

/-- `array.push(v)`. -/
def arrayPush (heap : Heap) (target : JSVal) (v : JSVal) : Heap :=
  match target with
  | .ref a =>
    match heap[a]? with
    | some (.array items) => heap.put a (.array (items ++ [v]))
    | _ => heap
  | _ => heap

/-! ## Regular expressions

The regular expressions of the library that are used as tests are kept as
syntax trees and matched with derivatives. -/

/-- A regular expression over code units. -/
inductive RE where
  | none
  | eps
  | cls (p : Nat → Bool)
  | cat (a b : RE)
  | alt (a b : RE)
  | star (a : RE)
  deriving Inhabited

namespace RE

/-- A single character. -/
def chr (c : Nat) : RE := cls (fun x => x == c)

/-- One of the characters of a text. -/
def oneOf (s : String) : RE := cls (fun x => (js s).contains x)

/-- A character in a range. -/
def range (lo hi : Nat) : RE := cls (fun x => decide (lo ≤ x) && decide (x ≤ hi))

/-- The class `[0-9]`. -/
def digit : RE := range 48 57

/-- A literal text. -/
def lit (s : String) : RE := (js s).foldr (fun c r => cat (chr c) r) eps

/-- Zero or one. -/
def opt (a : RE) : RE := alt a eps

/-- One or more. -/
def plus (a : RE) : RE := cat a (star a)

/-- Any text. -/
def any : RE := star (cls (fun _ => true))

def nullable : RE → Bool
  | none => false
  | eps => true
  | cls _ => false
  | cat a b => nullable a && nullable b
  | alt a b => nullable a || nullable b
  | star _ => true

/-- The derivative by a character. -/
def deriv (c : Nat) : RE → RE
  | none => none
  | eps => none
  | cls p => if p c then eps else none
  | cat a b => if nullable a then alt (cat (deriv c a) b) (deriv c b) else cat (deriv c a) b
  | alt a b => alt (deriv c a) (deriv c b)
  | star a => cat (deriv c a) (star a)

/-- Whether nothing matches: a cheap test that keeps derivatives small. -/
def isNone : RE → Bool
  | none => true
  | cat a b => isNone a || isNone b
  | alt a b => isNone a && isNone b
  | _ => false

/-- Whether the whole text matches (`/^...$/.test(text)`). -/
def «matches» (r : RE) : JSString → Bool
  | [] => nullable r
  | c :: cs => if isNone r then false else «matches» (deriv c r) cs

/-- Whether some part of the text matches (an unanchored test). -/
def search (r : RE) (s : JSString) : Bool := «matches» (cat any (cat r any)) s

/-- Whether the text starts with a match (`/^.../.test(text)`). -/
def matchesPrefix (r : RE) (s : JSString) : Bool := «matches» (cat r any) s

end RE

/-! ## Types (`lib/type.js`, `lib/type/*.js`) -/

/-- The node kinds a `Type` may have (`YAML_NODE_KINDS`). -/
inductive Kind where
  | scalar
  | sequence
  | mapping
  deriving DecidableEq, Repr, Inhabited

def Kind.text : Kind → String
  | .scalar => "scalar"
  | .sequence => "sequence"
  | .mapping => "mapping"

/-- The `represent` option of a `Type`: one function, or one function per
style. -/
inductive Represent where
  | function (f : Heap → JSVal → Option JSString → Except JSError JSVal)
  | styles (m : List (JSString × (Heap → JSVal → Except JSError JSVal)))

/-- A `Type` as its constructor leaves it.  `resolve` and `construct` receive
the node's value and, as second argument, the node's tag. -/
structure YType where
  tag : JSString
  kind : Kind
  resolve : Heap → JSVal → Option JSString → Bool := fun _ _ _ => true
  construct : Heap → JSVal → Option JSString → Except JSError (JSVal × Heap) :=
    fun heap data _ => .ok (data, heap)
  instanceOf : Option (Heap → JSVal → Bool) := none
  predicate : Option (Heap → JSVal → Bool) := none
  represent : Option Represent := none
  representName : Option (Heap → JSVal → JSString) := none
  defaultStyle : Option JSString := none
  multi : Bool := false
  styleAliases : List (JSString × JSString) := []

instance : Inhabited YType := ⟨{ tag := [], kind := .scalar }⟩

/-- The property `loadKind` of a `Type`: the constructor sets no such property
(and refuses an option of that name), so that it reads as `undefined`. -/
def YType.loadKind (_type : YType) : Option Kind := none

/-- `compileStyleAliases(map)`: every alias is mapped to its style. -/
def compileStyleAliases (map : List (JSString × List JSString)) : List (JSString × JSString) :=
  map.foldl (fun result entry =>
    entry.2.foldl (fun result aliasName => assign result aliasName entry.1) result) []

/-! ### str, seq, map -/

def strType : YType :=
  { tag := js "tag:yaml.org,2002:str", kind := .scalar
    construct := fun heap data _ => .ok (if data ≠ .null then data else .str [], heap) }

def seqType : YType :=
  { tag := js "tag:yaml.org,2002:seq", kind := .sequence
    construct := fun heap data _ =>
      .ok (if data ≠ .null then (data, heap) else heap.alloc (.array [])) }

def mapType : YType :=
  { tag := js "tag:yaml.org,2002:map", kind := .mapping
    construct := fun heap data _ =>
      .ok (if data ≠ .null then (data, heap) else heap.alloc (.object .objectPrototype [])) }

/-! ### null -/

def resolveYamlNull : JSVal → Bool
  | .null => true
  | .str data =>
    let max := data.length
    (max == 1 && data == js "~")
      || (max == 4 && (data == js "null" || data == js "Null" || data == js "NULL"))
  | _ => false

def constructYamlNull : JSVal := .null

def isNull (object : JSVal) : Bool := object == .null

def nullType : YType :=
  { tag := js "tag:yaml.org,2002:null", kind := .scalar
    resolve := fun _ data _ => resolveYamlNull data
    construct := fun heap _ _ => .ok (constructYamlNull, heap)
    predicate := some (fun _ object => isNull object)
    represent := some (.styles [
      (js "canonical", fun _ _ => .ok (.str (js "~"))),
      (js "lowercase", fun _ _ => .ok (.str (js "null"))),
      (js "uppercase", fun _ _ => .ok (.str (js "NULL"))),
      (js "camelcase", fun _ _ => .ok (.str (js "Null"))),
      (js "empty", fun _ _ => .ok (.str []))])
    defaultStyle := some (js "lowercase") }

/-! ### bool -/

def resolveYamlBoolean : JSVal → Bool
  | .str data =>
    let max := data.length
    (max == 4 && (data == js "true" || data == js "True" || data == js "TRUE"))
      || (max == 5 && (data == js "false" || data == js "False" || data == js "FALSE"))
  | _ => false

def constructYamlBoolean (data : JSVal) : JSVal :=
  .bool (data == .str (js "true") || data == .str (js "True") || data == .str (js "TRUE"))

def isBoolean (heap : Heap) (object : JSVal) : Bool := classOf heap object == .boolean

/-- The truth value of a value in a condition. -/
def truthy : JSVal → Bool
  | .undefined | .null | .nan | .negZero => false
  | .bool b => b
  | .num n => n != 0
  | .str s => s != []
  | _ => true

def boolType : YType :=
  { tag := js "tag:yaml.org,2002:bool", kind := .scalar
    resolve := fun _ data _ => resolveYamlBoolean data
    construct := fun heap data _ => .ok (constructYamlBoolean data, heap)
    predicate := some isBoolean
    represent := some (.styles [
      (js "lowercase", fun _ object => .ok (.str (if truthy object then js "true" else js "false"))),
      (js "uppercase", fun _ object => .ok (.str (if truthy object then js "TRUE" else js "FALSE"))),
      (js "camelcase", fun _ object => .ok (.str (if truthy object then js "True" else js "False")))])
    defaultStyle := some (js "lowercase") }

/-! ### int -/

def isHexCode (c : Nat) : Bool :=
  (decide (48 ≤ c) && decide (c ≤ 57)) || (decide (65 ≤ c) && decide (c ≤ 70))
    || (decide (97 ≤ c) && decide (c ≤ 102))

def isOctCode (c : Nat) : Bool := decide (48 ≤ c) && decide (c ≤ 55)

def isDecCode (c : Nat) : Bool := decide (48 ≤ c) && decide (c ≤ 57)

/-- The digit loops of `resolveYamlInteger`: from `index` on, every character
is an underscore or a digit accepted by `isDigit`; the result is
`hasDigits && ch !== "_"` (`none` is the `return false` inside the loop).
`ch` is the last character read. -/
def digitLoop (isDigit : Nat → Bool) : JSString → Bool → Option Nat → Bool
  | [], hasDigits, ch => hasDigits && ch != some 95
  | c :: rest, hasDigits, _ =>
    if c = 95 then digitLoop isDigit rest hasDigits (some c)
    else if !isDigit c then false
    else digitLoop isDigit rest true (some c)

/-- `resolveYamlInteger(data)`. -/
def resolveYamlInteger : JSVal → Bool
  | .str data =>
    let max := data.length
    if max = 0 then false
    else
      let index0 : Nat := 0
      let ch0 := data[index0]?
      let (index1, ch1) :=
        if ch0 == some 45 || ch0 == some 43 then (index0 + 1, data[index0 + 1]?)
        else (index0, ch0)
      if ch1 == some 48 then
        if index1 + 1 = max then true
        else
          let index2 := index1 + 1
          let ch2 := data[index2]?
          if ch2 == some 98 then
            digitLoop (fun c => c == 48 || c == 49) (data.drop (index2 + 1)) false ch2
          else if ch2 == some 120 then
            digitLoop isHexCode (data.drop (index2 + 1)) false ch2
          else if ch2 == some 111 then
            digitLoop isOctCode (data.drop (index2 + 1)) false ch2
          else if ch2 == some 95 then false
          else digitLoop isDecCode (data.drop index2) false ch2
      else if ch1 == some 95 then false
      else digitLoop isDecCode (data.drop index1) false ch1
  | _ => false

/-- The value of a digit character in a radix, if it is one. -/
def digitValue (radix : Nat) (c : Nat) : Option Nat :=
  let v :=
    if 48 ≤ c ∧ c ≤ 57 then some (c - 48)
    else if 97 ≤ c ∧ c ≤ 122 then some (c - 87)
    else if 65 ≤ c ∧ c ≤ 90 then some (c - 55)
    else none
  match v with
  | some d => if d < radix then some d else none
  | none => none

/-- The leading digits of a text in a radix. -/
def leadingDigits (radix : Nat) : JSString → List Nat
  | [] => []
  | c :: rest =>
    match digitValue radix c with
    | some d => d :: leadingDigits radix rest
    | none => []

/-- The Number for an integer: exact up to `2^53`, the host's rounding beyond. -/
def numberOfInt (host : Host) (n : Int) : JSVal :=
  if n.natAbs ≤ 2 ^ 53 then .num n else host.toNumber n

/-- `parseInt(text, radix)` for a text without leading white space, sign or
radix prefix, as `constructYamlInteger` calls it. -/
def parseInt (host : Host) (text : JSString) (radix : Nat) : JSVal :=
  match leadingDigits radix text with
  | [] => .nan
  | ds => numberOfInt host (ds.foldl (fun acc d => acc * radix + d) (0 : Nat) : Nat)

/-- The product `sign * v` for `sign = -1`. -/
def negate : JSVal → JSVal
  | .num n => if n = 0 then .negZero else .num (-n)
  | .negZero => .num 0
  | .float (45 :: t) => .float t
  | .float t => .float (45 :: t)
  | .posInf => .negInf
  | .negInf => .posInf
  | v => v

/-- `constructYamlInteger(data)`. -/
def constructYamlInteger (host : Host) (data : JSString) : JSVal :=
  let value := if data.contains 95 then data.filter (· != 95) else data
  let ch := value[0]?
  let (sign, value, ch) :=
    if ch == some 45 || ch == some 43 then
      ((if ch == some 45 then (-1 : Int) else 1), value.drop 1, (value.drop 1)[0]?)
    else ((1 : Int), value, ch)
  let times (v : JSVal) : JSVal := if sign = -1 then negate v else v
  if value == js "0" then .num 0
  else if ch == some 48 && value[1]? == some 98 then times (parseInt host (value.drop 2) 2)
  else if ch == some 48 && value[1]? == some 120 then times (parseInt host (value.drop 2) 16)
  else if ch == some 48 && value[1]? == some 111 then times (parseInt host (value.drop 2) 8)
  else times (parseInt host value 10)

def isInteger : JSVal → Bool
  | .num _ => true
  | _ => false

/-- `String.prototype.toUpperCase` on the digits of a number. -/
def upperAscii (s : JSString) : JSString :=
  s.map fun c => if 97 ≤ c ∧ c ≤ 122 then c - 32 else c

/-- `String.prototype.toLowerCase` on an ASCII text. -/
def lowerAscii (s : JSString) : JSString :=
  s.map fun c => if 65 ≤ c ∧ c ≤ 90 then c + 32 else c

/-- The `represent` functions of the int type, for an integer `obj`. -/
def representInt (host : Host) (radix : Nat) (pfx : String) (upper : Bool) : JSVal → JSVal
  | .num obj =>
    let digits := intToString host radix obj
    let digits := if upper then upperAscii digits else digits
    .str (if obj ≥ 0 then js pfx ++ digits else 45 :: js pfx ++ digits.drop 1)
  | v => v

def intType (host : Host) : YType :=
  { tag := js "tag:yaml.org,2002:int", kind := .scalar
    resolve := fun _ data _ => resolveYamlInteger data
    construct := fun heap data _ =>
      match data with
      | .str s => .ok (constructYamlInteger host s, heap)
      | _ => .error (.other "TypeError")
    predicate := some (fun _ object => isInteger object)
    represent := some (.styles [
      (js "binary", fun _ obj => .ok (representInt host 2 "0b" false obj)),
      (js "octal", fun _ obj => .ok (representInt host 8 "0o" false obj)),
      (js "decimal", fun _ obj =>
        .ok (match obj with
          | .num n => .str (intToString host 10 n)
          | v => v)),
      (js "hexadecimal", fun _ obj => .ok (representInt host 16 "0x" true obj))])
    defaultStyle := some (js "decimal")
    styleAliases := compileStyleAliases [
      (js "binary", [js "2", js "bin"]),
      (js "octal", [js "8", js "oct"]),
      (js "decimal", [js "10", js "dec"]),
      (js "hexadecimal", [js "16", js "hex"])] }

/-! ### float -/

/-- The class `[0-9_]`. -/
def digitOrUnderscore : RE := RE.cls (fun x => (decide (48 ≤ x) && decide (x ≤ 57)) || x == 95)

/-- The part `(?:[eE][-+]?[0-9]+)?` of `YAML_FLOAT_PATTERN`. -/
def exponentPart : RE :=
  RE.opt (RE.cat (RE.oneOf "eE") (RE.cat (RE.opt (RE.oneOf "-+")) (RE.plus RE.digit)))

/-- `YAML_FLOAT_PATTERN`. -/
def YAML_FLOAT_PATTERN : RE :=
  RE.alt
    (RE.cat (RE.opt (RE.oneOf "-+"))
      (RE.cat (RE.cat RE.digit (RE.star digitOrUnderscore))
        (RE.cat (RE.opt (RE.cat (RE.chr 46) (RE.star digitOrUnderscore))) exponentPart)))
  (RE.alt
    (RE.cat (RE.chr 46) (RE.cat (RE.plus digitOrUnderscore) exponentPart))
  (RE.alt
    (RE.cat (RE.opt (RE.oneOf "-+"))
      (RE.cat (RE.chr 46) (RE.alt (RE.lit "inf") (RE.alt (RE.lit "Inf") (RE.lit "INF")))))
    (RE.cat (RE.chr 46) (RE.alt (RE.lit "nan") (RE.alt (RE.lit "NaN") (RE.lit "NAN"))))))

/-- `resolveYamlFloat(data)`. -/
def resolveYamlFloat : JSVal → Bool
  | .str data =>
    if !YAML_FLOAT_PATTERN.matches data || data.getLast? == some 95 then false else true
  | _ => false

/-- `constructYamlFloat(data)`. -/
def constructYamlFloat (host : Host) (data : JSString) : JSVal :=
  let value := lowerAscii (data.filter (· != 95))
  let sign : Int := if value[0]? == some 45 then -1 else 1
  let value := if value[0]? == some 43 || value[0]? == some 45 then value.drop 1 else value
  if value == js ".inf" then (if sign = 1 then .posInf else .negInf)
  else if value == js ".nan" then .nan
  else if sign = -1 then negate (host.parseFloat value) else host.parseFloat value

/-- `SCIENTIFIC_WITHOUT_DOT`. -/
def SCIENTIFIC_WITHOUT_DOT : RE :=
  RE.cat (RE.opt (RE.oneOf "-+")) (RE.cat (RE.plus RE.digit) (RE.chr 101))

/-- `String.prototype.replace` with a one-character pattern: the first
occurrence is replaced. -/
def replaceFirst (c : Nat) (by_ : JSString) : JSString → JSString
  | [] => []
  | x :: rest => if x = c then by_ ++ rest else x :: replaceFirst c by_ rest

/-- `Number.prototype.toString(10)`. -/
def numberToString (host : Host) : JSVal → JSString
  | .num n => intToString host 10 n
  | .float t => t
  | .negZero => js "0"
  | .posInf => js "Infinity"
  | .negInf => js "-Infinity"
  | .nan => js "NaN"
  | _ => []

/-- `representYamlFloat(object, style)`. -/
def representYamlFloat (host : Host) (object : JSVal) (style : Option JSString) : JSString :=
  let generic :=
    let res := numberToString host object
    if SCIENTIFIC_WITHOUT_DOT.matchesPrefix res then replaceFirst 101 (js ".e") res else res
  match object with
  | .nan =>
    if style == some (js "lowercase") then js ".nan"
    else if style == some (js "uppercase") then js ".NAN"
    else if style == some (js "camelcase") then js ".NaN"
    else generic
  | .posInf =>
    if style == some (js "lowercase") then js ".inf"
    else if style == some (js "uppercase") then js ".INF"
    else if style == some (js "camelcase") then js ".Inf"
    else generic
  | .negInf =>
    if style == some (js "lowercase") then js "-.inf"
    else if style == some (js "uppercase") then js "-.INF"
    else if style == some (js "camelcase") then js "-.Inf"
    else generic
  | .negZero => js "-0.0"
  | _ => generic

def isFloat : JSVal → Bool
  | .float _ | .negZero | .posInf | .negInf | .nan => true
  | _ => false

def floatType (host : Host) : YType :=
  { tag := js "tag:yaml.org,2002:float", kind := .scalar
    resolve := fun _ data _ => resolveYamlFloat data
    construct := fun heap data _ =>
      match data with
      | .str s => .ok (constructYamlFloat host s, heap)
      | _ => .error (.other "TypeError")
    predicate := some (fun _ object => isFloat object)
    represent := some (.function fun _ object style =>
      .ok (.str (representYamlFloat host object style)))
    defaultStyle := some (js "lowercase") }

/-! ### timestamp -/

/-- `YAML_DATE_REGEXP`. -/
def YAML_DATE_REGEXP : RE :=
  RE.cat RE.digit (RE.cat RE.digit (RE.cat RE.digit (RE.cat RE.digit
  (RE.cat (RE.chr 45) (RE.cat RE.digit (RE.cat RE.digit
  (RE.cat (RE.chr 45) (RE.cat RE.digit RE.digit))))))))

/-- The group `([0-9][0-9]?)`. -/
def oneOrTwoDigits : RE := RE.cat RE.digit (RE.opt RE.digit)

/-- `YAML_TIMESTAMP_REGEXP`. -/
def YAML_TIMESTAMP_REGEXP : RE :=
  RE.cat RE.digit (RE.cat RE.digit (RE.cat RE.digit (RE.cat RE.digit
  (RE.cat (RE.chr 45) (RE.cat oneOrTwoDigits
  (RE.cat (RE.chr 45) (RE.cat oneOrTwoDigits
  (RE.cat (RE.alt (RE.oneOf "Tt") (RE.plus (RE.oneOf " \t")))
  (RE.cat oneOrTwoDigits
  (RE.cat (RE.chr 58) (RE.cat RE.digit (RE.cat RE.digit
  (RE.cat (RE.chr 58) (RE.cat RE.digit (RE.cat RE.digit
  (RE.cat (RE.opt (RE.cat (RE.chr 46) (RE.star RE.digit)))
    (RE.opt (RE.cat (RE.star (RE.oneOf " \t"))
      (RE.alt (RE.chr 90)
        (RE.cat (RE.oneOf "-+") (RE.cat oneOrTwoDigits
          (RE.opt (RE.cat (RE.chr 58) (RE.cat RE.digit RE.digit))))))))
  ))))))))))))))))

/-- `resolveYamlTimestamp(data)`. -/
def resolveYamlTimestamp : JSVal → Bool
  | .str data =>
    if YAML_DATE_REGEXP.matches data then true
    else if YAML_TIMESTAMP_REGEXP.matches data then true
    else false
  | _ => false

/-- The number a text of digits stands for (`+text`). -/
def digitsValue (s : JSString) : Int :=
  (s.foldl (fun acc c => acc * 10 + (c - 48)) (0 : Nat) : Nat)

/-- The leading run of digits of a text, and the rest. -/
def spanDigits (s : JSString) : JSString × JSString :=
  s.span (fun c => decide (48 ≤ c) && decide (c ≤ 57))

/-- The capture groups 1 to 11 of `YAML_TIMESTAMP_REGEXP` (group 8 left out):
year, month, day, hour, minute, second, fraction, zone sign, zone hour, zone
minute; an absent group is `none`. -/
structure TimestampMatch where
  year : JSString
  month : JSString
  day : JSString
  hour : Option JSString := none
  minute : JSString := []
  second : JSString := []
  fraction : Option JSString := none
  sign : Option Nat := none
  tzHour : JSString := []
  tzMinute : Option JSString := none

/-- The match of `YAML_DATE_REGEXP`, or else of `YAML_TIMESTAMP_REGEXP`, on a
text one of them accepts. -/
def timestampMatch (data : JSString) : Option TimestampMatch :=
  if !(YAML_DATE_REGEXP.matches data || YAML_TIMESTAMP_REGEXP.matches data) then none
  else
    let (year, r) := spanDigits data
    let (month, r) := spanDigits (r.drop 1)
    let (day, r) := spanDigits (r.drop 1)
    if r = [] then some { year := year, month := month, day := day }
    else
      let r := if r.head? == some 84 || r.head? == some 116 then r.drop 1
        else r.dropWhile (fun c => c == 32 || c == 9)
      let (hour, r) := spanDigits r
      let (minute, r) := spanDigits (r.drop 1)
      let (second, r) := spanDigits (r.drop 1)
      let (fraction, r) :=
        if r.head? == some 46 then
          let (f, r) := spanDigits (r.drop 1)
          (some f, r)
        else (none, r)
      let r := r.dropWhile (fun c => c == 32 || c == 9)
      let base : TimestampMatch :=
        { year := year, month := month, day := day, hour := some hour,
          minute := minute, second := second, fraction := fraction }
      match r with
      | [] => some base
      | c :: r =>
        if c = 90 then some base
        else
          let (tzHour, r) := spanDigits r
          let tzMinute := if r.head? == some 58 then some (r.drop 1) else none
          some { base with sign := some c, tzHour := tzHour, tzMinute := tzMinute }

/-- Days from 1970-01-01 to the first day of a month (`month` from 0 to 11) of
a year of the proleptic Gregorian calendar. -/
def daysFromCivil (year month : Int) : Int :=
  let y := if month < 2 then year - 1 else year
  let era := y / 400
  let yoe := y - era * 400
  let mp := if month < 2 then month + 10 else month - 2
  let doy := (153 * mp + 2) / 5
  let doe := yoe * 365 + yoe / 4 - yoe / 100 + doy
  era * 146097 + doe - 719468

/-- `MakeDay(year, month, date)`. -/
def makeDay (year month date : Int) : Int :=
  daysFromCivil (year + month / 12) (month % 12) + date - 1

/-- `TimeClip(t)`. -/
def timeClip (t : Int) : Option Int :=
  if t.natAbs ≤ 8640000000000000 then some t else none

/-- `Date.UTC(year, month, day, hour, minute, second, ms)` on integers. -/
def dateUTC (year month day hour minute second ms : Int) : Option Int :=
  let yr := if 0 ≤ year ∧ year ≤ 99 then 1900 + year else year
  timeClip (makeDay yr month day * 86400000
    + (hour * 3600000 + minute * 60000 + second * 1000 + ms))

/-- `constructYamlTimestamp(data)`: the time value of the new `Date`. -/
def constructYamlTimestamp (data : JSString) : Except JSError (Option Int) :=
  match timestampMatch data with
  | none => .error (.other "Date resolve error")
  | some m =>
    let year := digitsValue m.year
    let month := digitsValue m.month - 1
    let day := digitsValue m.day
    match m.hour with
    | none => .ok (dateUTC year month day 0 0 0 0)
    | some h =>
      let hour := digitsValue h
      let minute := digitsValue m.minute
      let second := digitsValue m.second
      let fraction : Int :=
        match m.fraction with
        | some f =>
          if f = [] then 0
          else
            let f3 := f.take 3
            digitsValue (f3 ++ List.replicate (3 - f3.length) 48)
        | none => 0
      let delta : Option Int :=
        match m.sign with
        | some s =>
          let tz_hour := digitsValue m.tzHour
          let tz_minute := match m.tzMinute with
            | some t => if t = [] then 0 else digitsValue t
            | none => 0
          let d := (tz_hour * 60 + tz_minute) * 60000
          some (if s = 45 then -d else d)
        | none => none
      let date := dateUTC year month day hour minute second fraction
      match delta with
      | some d =>
        if d ≠ 0 then
          .ok (match date with
            | some t => timeClip (t - d)
            | none => none)
        else .ok date
      | none => .ok date

/-- A number padded with zeros on the left to a width. -/
def padZero (width : Nat) (n : Nat) : JSString :=
  let s := natToString 10 n
  List.replicate (width - s.length) 48 ++ s

/-- The year, month (1 to 12) and day of a day number. -/
def civilFromDays (days : Int) : Int × Int × Int :=
  let z := days + 719468
  let era := z / 146097
  let doe := z - era * 146097
  let yoe := (doe - doe / 1460 + doe / 36524 - doe / 146096) / 365
  let y := yoe + era * 400
  let doy := doe - (365 * yoe + yoe / 4 - yoe / 100)
  let mp := (5 * doy + 2) / 153
  let d := doy - (153 * mp + 2) / 5 + 1
  let m := if mp < 10 then mp + 3 else mp - 9
  (if m ≤ 2 then y + 1 else y, m, d)

/-- `Date.prototype.toISOString`. -/
def toISOString : Option Int → Except JSError JSString
  | none => .error (.other "RangeError: Invalid time value")
  | some t =>
    let day := t / 86400000
    let ms := (t % 86400000).toNat
    let (y, m, d) := civilFromDays day
    let year :=
      if 0 ≤ y ∧ y ≤ 9999 then padZero 4 y.toNat
      else (if y < 0 then 45 else 43) :: padZero 6 y.natAbs
    .ok (year ++ [45] ++ padZero 2 m.toNat ++ [45] ++ padZero 2 d.toNat ++ [84]
      ++ padZero 2 (ms / 3600000) ++ [58] ++ padZero 2 (ms / 60000 % 60) ++ [58]
      ++ padZero 2 (ms / 1000 % 60) ++ [46] ++ padZero 3 (ms % 1000) ++ [90])

/-- Whether `Date.prototype` is on the prototype chain of a value
(`object instanceof Date`). -/
def instanceOfDate (heap : Heap) : Nat → JSVal → Bool
  | 0, _ => false
  | fuel + 1, v =>
    match v with
    | .ref a =>
      match heap[a]? with
      | some (.date _) => true
      | some (.object (.ref b) _) => instanceOfDate heap fuel (.ref b)
      | _ => false
    | _ => false

/-- `representYamlTimestamp(object)`. -/
def representYamlTimestamp (heap : Heap) : JSVal → Except JSError JSVal
  | .ref a =>
    match heap[a]? with
    | some (.date t) => (toISOString t).map JSVal.str
    | _ => .error (.other "TypeError: this is not a Date object.")
  | _ => .error (.other "TypeError: this is not a Date object.")

def timestampType : YType :=
  { tag := js "tag:yaml.org,2002:timestamp", kind := .scalar
    resolve := fun _ data _ => resolveYamlTimestamp data
    construct := fun heap data _ =>
      match data with
      | .str s =>
        match constructYamlTimestamp s with
        | .ok t => .ok (heap.alloc (.date t))
        | .error e => .error e
      | _ => .error (.other "TypeError")
    instanceOf := some (fun heap object =>
      typeofObject object && instanceOfDate heap (heap.length + 1) object)
    represent := some (.function fun heap object _ => representYamlTimestamp heap object) }

/-! ### merge -/

def resolveYamlMerge (data : JSVal) : Bool :=
  data == .str (js "<<") || data == .null

def mergeType : YType :=
  { tag := js "tag:yaml.org,2002:merge", kind := .scalar
    resolve := fun _ data _ => resolveYamlMerge data }

/-! ### binary -/

def BASE64_MAP : JSString :=
  js "ABCDEFGHIJKLMNOPQRSTUVWXYZabcdefghijklmnopqrstuvwxyz0123456789+/=\n\r"

/-- `map.indexOf(character)`: `none` is `-1`. -/
def base64Index (c : Nat) : Option Nat :=
  let i := BASE64_MAP.indexOf c
  if i < BASE64_MAP.length then some i else none

/-- The loop of `resolveYamlBinary`: the bit length, or `none` for the
`return false`. -/
def binaryBitlen : JSString → Nat → Option Nat
  | [], bitlen => some bitlen
  | c :: rest, bitlen =>
    match base64Index c with
    | none => none
    | some code => if code > 64 then binaryBitlen rest bitlen else binaryBitlen rest (bitlen + 6)

/-- `resolveYamlBinary(data)`. -/
def resolveYamlBinary : JSVal → Bool
  | .str data =>
    match binaryBitlen data 0 with
    | some bitlen => bitlen % 8 == 0
    | none => false
  | _ => false

/-- The 32-bit pattern of `bits << n`. -/
def shl32 (bits n : Nat) : Nat := (bits * 2 ^ n) % 4294967296

/-- The loop of `constructYamlBinary`; `bits` is the 32-bit pattern of the
accumulator. -/
def binaryDecodeLoop : JSString → Nat → Nat → List Nat → Nat × List Nat
  | [], _, bits, result => (bits, result)
  | c :: rest, idx, bits, result =>
    let result :=
      if idx % 4 = 0 ∧ idx ≠ 0 then
        result ++ [bits / 65536 % 256, bits / 256 % 256, bits % 256]
      else result
    let code := match base64Index c with
      | some i => i
      | none => 4294967295
    binaryDecodeLoop rest (idx + 1) (shl32 bits 6 ||| code) result

/-- `constructYamlBinary(data)`: the bytes of the new `Uint8Array`. -/
def constructYamlBinary (data : JSString) : List Nat :=
  let input := data.filter (fun c => !(c == 13 || c == 10 || c == 61))
  let max := input.length
  let (bits, result) := binaryDecodeLoop input 0 0 []
  let tailbits := max % 4 * 6
  if tailbits = 0 then result ++ [bits / 65536 % 256, bits / 256 % 256, bits % 256]
  else if tailbits = 18 then result ++ [bits / 1024 % 256, bits / 4 % 256]
  else if tailbits = 12 then result ++ [bits / 16 % 256]
  else result

/-- The character `map[i]`. -/
def base64Char (i : Nat) : JSString :=
  match BASE64_MAP[i]? with
  | some c => [c]
  | none => []

/-- The loop of `representYamlBinary`. -/
def binaryEncodeLoop : List Nat → Nat → Nat → JSString → Nat × JSString
  | [], _, bits, result => (bits, result)
  | b :: rest, idx, bits, result =>
    let result :=
      if idx % 3 = 0 ∧ idx ≠ 0 then
        result ++ base64Char (bits / 262144 % 64) ++ base64Char (bits / 4096 % 64)
          ++ base64Char (bits / 64 % 64) ++ base64Char (bits % 64)
      else result
    binaryEncodeLoop rest (idx + 1) ((shl32 bits 8 + b) % 4294967296) result

/-- `representYamlBinary(object)` on the bytes of a `Uint8Array`. -/
def representYamlBinary (object : List Nat) : JSString :=
  let max := object.length
  let (bits, result) := binaryEncodeLoop object 0 0 []
  let tail := max % 3
  if tail = 0 then
    result ++ base64Char (bits / 262144 % 64) ++ base64Char (bits / 4096 % 64)
      ++ base64Char (bits / 64 % 64) ++ base64Char (bits % 64)
  else if tail = 2 then
    result ++ base64Char (bits / 1024 % 64) ++ base64Char (bits / 16 % 64)
      ++ base64Char (shl32 bits 2 % 64) ++ base64Char 64
  else
    result ++ base64Char (bits / 4 % 64) ++ base64Char (shl32 bits 4 % 64)
      ++ base64Char 64 ++ base64Char 64

def isBinary (heap : Heap) (obj : JSVal) : Bool := classOf heap obj == .uint8Array

def binaryType : YType :=
  { tag := js "tag:yaml.org,2002:binary", kind := .scalar
    resolve := fun _ data _ => resolveYamlBinary data
    construct := fun heap data _ =>
      match data with
      | .str s => .ok (heap.alloc (.bytes (constructYamlBinary s)))
      | _ => .error (.other "TypeError")
    predicate := some isBinary
    represent := some (.function fun heap object _ =>
      match object with
      | .ref a =>
        match heap[a]? with
        | some (.bytes data) => .ok (.str (representYamlBinary data))
        | _ => .error (.other "TypeError")
      | _ => .error (.other "TypeError")) }

/-! ### omap, pairs, set -/

/-- The keys a `for ... in` loop visits: the own keys, then those of the
prototype chain that were not met before. -/
def forInKeys (heap : Heap) : Nat → JSVal → List JSString
  | 0, _ => []
  | fuel + 1, v =>
    let own := objectKeys heap v
    match v with
    | .ref a =>
      match heap[a]? with
      | some (.object (.ref b) _) =>
        own ++ (forInKeys heap fuel (.ref b)).filter (fun k => !own.contains k)
      | _ => own
    | _ => own

/-- The loop of `resolveYamlOmap` over the items of the sequence. -/
def omapLoop (heap : Heap) : List JSVal → List JSString → Bool
  | [], _ => true
  | pair :: rest, objectKeys =>
    if classOf heap pair != .object then false
    else
      let keys := forInKeys heap (heap.length + 1) pair
      let own := keys.filter (hasOwnProperty heap pair)
      if own.length ≠ 1 then false
      else
        match keys.getLast? with
        | none => false
        | some pairKey =>
          if objectKeys.contains pairKey then false
          else omapLoop heap rest (objectKeys ++ [pairKey])

/-- `resolveYamlOmap(data)`. -/
def resolveYamlOmap (heap : Heap) : JSVal → Bool
  | .null => true
  | data => omapLoop heap (arrayItems heap data) []

def omapType : YType :=
  { tag := js "tag:yaml.org,2002:omap", kind := .sequence
    resolve := fun heap data _ => resolveYamlOmap heap data
    construct := fun heap data _ =>
      .ok (if data ≠ .null then (data, heap) else heap.alloc (.array [])) }

/-- `resolveYamlPairs(data)`. -/
def resolveYamlPairs (heap : Heap) : JSVal → Bool
  | .null => true
  | data =>
    (arrayItems heap data).all fun pair =>
      classOf heap pair == .object && (objectKeys heap pair).length == 1

/-- The loop of `constructYamlPairs`: one new two-item array per pair. -/
def pairsLoop : List JSVal → Heap → List JSVal → List JSVal × Heap
  | [], heap, result => (result, heap)
  | pair :: rest, heap, result =>
    let keys := objectKeys heap pair
    let key0 : JSVal := match keys[0]? with
      | some k => .str k
      | none => .undefined
    let value := match keys[0]? with
      | some k => getProperty heap pair k
      | none => .undefined
    let (item, heap) := heap.alloc (.array [key0, value])
    pairsLoop rest heap (result ++ [item])

/-- `constructYamlPairs(data)`. -/
def constructYamlPairs (heap : Heap) : JSVal → JSVal × Heap
  | .null => heap.alloc (.array [])
  | data =>
    let (result, heap) := pairsLoop (arrayItems heap data) heap []
    heap.alloc (.array result)

def pairsType : YType :=
  { tag := js "tag:yaml.org,2002:pairs", kind := .sequence
    resolve := fun heap data _ => resolveYamlPairs heap data
    construct := fun heap data _ => .ok (constructYamlPairs heap data) }

/-- `resolveYamlSet(data)`. -/
def resolveYamlSet (heap : Heap) : JSVal → Bool
  | .null => true
  | data =>
    ((forInKeys heap (heap.length + 1) data).filter (hasOwnProperty heap data)).all
      fun key => getProperty heap data key == .null

def setType : YType :=
  { tag := js "tag:yaml.org,2002:set", kind := .mapping
    resolve := fun heap data _ => resolveYamlSet heap data
    construct := fun heap data _ =>
      .ok (if data ≠ .null then (data, heap) else heap.alloc (.object .objectPrototype [])) }

/-! ## Schema (`lib/schema.js`, `lib/schema/*.js`) -/

/-- The compiled lookup tables of a schema (`compiledTypeMap`). -/
structure TypeMap where
  scalar : List (JSString × YType) := []
  sequence : List (JSString × YType) := []
  mapping : List (JSString × YType) := []
  fallback : List (JSString × YType) := []
  multiScalar : List YType := []
  multiSequence : List YType := []
  multiMapping : List YType := []
  multiFallback : List YType := []

/-- The table `typeMap[kind]`, `fallback` for no kind. -/
def TypeMap.exact (m : TypeMap) : Option Kind → List (JSString × YType)
  | some .scalar => m.scalar
  | some .sequence => m.sequence
  | some .mapping => m.mapping
  | none => m.fallback

/-- The list `typeMap.multi[kind]`, `fallback` for no kind. -/
def TypeMap.multi (m : TypeMap) : Option Kind → List YType
  | some .scalar => m.multiScalar
  | some .sequence => m.multiSequence
  | some .mapping => m.multiMapping
  | none => m.multiFallback

/-- A schema. -/
structure Schema where
  implicit : List YType := []
  explicit : List YType := []
  compiledImplicit : List YType := []
  compiledExplicit : List YType := []
  compiledTypeMap : TypeMap := {}

/-- The body of the outer `forEach` of `compileList`: the position of the last
earlier type with the same tag, kind and multi, or the end of the list. -/
def compileStep (result : List YType) (currentType : YType) : List YType :=
  let newIndex := (result.enum.foldl
    (fun newIndex (p : Nat × YType) =>
      if p.2.tag = currentType.tag ∧ p.2.kind = currentType.kind ∧ p.2.multi = currentType.multi
      then p.1 else newIndex)
    result.length)
  if newIndex < result.length then result.set newIndex currentType
  else result ++ [currentType]

/-- `compileList(schema, name)` on the list `schema[name]`. -/
def compileList (types : List YType) : List YType :=
  types.foldl compileStep []

/-- `collectType(type)` of `compileMap`. -/
def collectType (result : TypeMap) (type : YType) : TypeMap :=
  if type.multi then
    let result := match type.kind with
      | .scalar => { result with multiScalar := result.multiScalar ++ [type] }
      | .sequence => { result with multiSequence := result.multiSequence ++ [type] }
      | .mapping => { result with multiMapping := result.multiMapping ++ [type] }
    { result with multiFallback := result.multiFallback ++ [type] }
  else
    let result := match type.kind with
      | .scalar => { result with scalar := assign result.scalar type.tag type }
      | .sequence => { result with sequence := assign result.sequence type.tag type }
      | .mapping => { result with mapping := assign result.mapping type.tag type }
    { result with fallback := assign result.fallback type.tag type }

/-- `compileMap(compiledImplicit, compiledExplicit)`. -/
def compileMap (lists : List (List YType)) : TypeMap :=
  lists.foldl (fun result list => list.foldl collectType result) {}

/-- The argument of `Schema.prototype.extend`: a `Type`, an array of types, a
definition object with an `implicit` or an `explicit` array, or something
else. -/
inductive Definition where
  | type (t : YType)
  | types (ts : List YType)
  | lists (implicit explicit : Option (List YType))
  | invalid

/-- The local `implicit` of `Schema.prototype.extend`: the implicit types the
definition brings. -/
def Definition.implicit : Definition → List YType
  | .lists i _ => i.getD []
  | _ => []

/-- The local `explicit` of `Schema.prototype.extend`: the explicit types the
definition brings. -/
def Definition.explicit : Definition → List YType
  | .type t => [t]
  | .types ts => ts
  | .lists _ e => e.getD []
  | .invalid => []

/-- The checks `Schema.prototype.extend` runs on the types of the implicit
list, in order (the lists hold `Type` objects by construction). -/
def checkImplicit : List YType → Except JSError Unit
  | [] => .ok ()
  | type :: rest =>
    if type.loadKind.isSome ∧ type.loadKind ≠ some .scalar then
      .error (.yaml
        "There is a non-scalar type in the implicit list of a schema. Implicit resolving of such types is not supported.")
    else if type.multi then
      .error (.yaml
        "There is a multi type in the implicit list of a schema. Multi tags can only be listed as explicit.")
    else checkImplicit rest

/-- Whether `Schema.prototype.extend` accepts the form of its argument: a
`Type`, an array, or an object with an `implicit` or an `explicit` array. -/
def Definition.accepted : Definition → Bool
  | .type _ => true
  | .types _ => true
  | .lists none none => false
  | .lists _ _ => true
  | .invalid => false

/-- `Schema.prototype.extend(definition)`. -/
def Schema.extend (this : Schema) (definition : Definition) : Except JSError Schema :=
  if !definition.accepted then
    .error (.yaml
      "Schema.extend argument should be a Type, [ Type ], or a schema definition ({ implicit: [...], explicit: [...] })")
  else
    match checkImplicit definition.implicit with
    | .error e => .error e
    | .ok _ =>
      let implicit := this.implicit ++ definition.implicit
      let explicit := this.explicit ++ definition.explicit
      let compiledImplicit := compileList implicit
      let compiledExplicit := compileList explicit
      .ok { implicit := implicit, explicit := explicit
            compiledImplicit := compiledImplicit, compiledExplicit := compiledExplicit
            compiledTypeMap := compileMap [compiledImplicit, compiledExplicit] }

/-- `this.extend(definition)` for schema objects held in a store, `this` being
the object at an address: the result is a new object (`Object.create`), the
only object the function writes to. -/
def Schema.extendAt (store : List Schema) (this : Nat) (definition : Definition) :
    Except JSError (Nat × List Schema) :=
  match store[this]? with
  | none => .error (.other "TypeError: Cannot read properties of undefined")
  | some schema =>
    match schema.extend definition with
    | .error e => .error e
    | .ok result => .ok (store.length, store ++ [result])

/-- The schema an `extend` gives, the receiver when it throws. -/
def Schema.extend! (this : Schema) (definition : Definition) : Schema :=
  match this.extend definition with
  | .ok s => s
  | .error _ => this

/-- `lib/schema/failsafe.js`. -/
def FAILSAFE_SCHEMA : Schema :=
  Schema.extend! {} (.lists none (some [strType, seqType, mapType]))

/-- `lib/schema/json.js`. -/
def JSON_SCHEMA (host : Host) : Schema :=
  FAILSAFE_SCHEMA.extend! (.lists (some [nullType, boolType, intType host, floatType host]) none)

/-- `lib/schema/core.js`. -/
def CORE_SCHEMA (host : Host) : Schema := JSON_SCHEMA host

/-- `lib/schema/default.js`. -/
def DEFAULT_SCHEMA (host : Host) : Schema :=
  (CORE_SCHEMA host).extend! (.lists (some [timestampType, mergeType])
    (some [binaryType, omapType, pairsType, setType]))

/-! ## Loader (`lib/loader.js`)

The loader's `State` object is threaded through the functions.  Errors carry
their reason only (the position mark and the snippet are left out, and so are
the assignments to `state.line`, `state.lineStart` and `state.position` that
only prepare the mark of an error).  The `listener` option is not modelled
(`state.listener === null`).  A warning is recorded in `warnings` when the
`onWarning` option is set.  Loops and recursion are bounded by a fuel
argument; running out of fuel is the error `JSError.fuel`. -/

namespace Loader

def CONTEXT_FLOW_IN : Nat := 1
def CONTEXT_FLOW_OUT : Nat := 2
def CONTEXT_BLOCK_IN : Nat := 3
def CONTEXT_BLOCK_OUT : Nat := 4

def CHOMPING_CLIP : Nat := 1
def CHOMPING_STRIP : Nat := 2
def CHOMPING_KEEP : Nat := 3

/-- The options of `load` and `loadAll` (`onWarning`: whether a callback is
given). -/
structure Options where
  schema : Option Schema := none
  onWarning : Bool := false
  legacy : Bool := false
  json : Bool := false

/-- The loader's `State`. -/
structure State where
  input : JSString
  schema : Schema
  onWarning : Bool
  legacy : Bool
  json : Bool
  implicitTypes : List YType
  typeMap : TypeMap
  length : Nat
  position : Nat := 0
  line : Nat := 0
  lineStart : Nat := 0
  lineIndent : Nat := 0
  firstTabInLine : Int := -1
  documents : List JSVal := []
  version : Option JSString := none
  checkLineBreaks : Bool := false
  tagMap : List (JSString × JSString) := []
  anchorMap : List (JSString × JSVal) := []
  tag : Option JSString := none
  anchor : Option JSString := none
  kind : Option Kind := none
  result : JSVal := .undefined
  heap : Heap := []
  warnings : List String := []

/-- `new State(input, options)`; `host` supplies the default schema. -/
def State.new (host : Host) (input : JSString) (options : Options) : State :=
  let schema := options.schema.getD (DEFAULT_SCHEMA host)
  { input := input, schema := schema, onWarning := options.onWarning
    legacy := options.legacy, json := options.json
    implicitTypes := schema.compiledImplicit, typeMap := schema.compiledTypeMap
    length := input.length }

/-- The text of a string for an error message. -/
def showString (s : JSString) : String :=
  String.mk (s.map Char.ofNat)

def is_EOL (c : Option Nat) : Bool := c == some 10 || c == some 13

def is_WHITE_SPACE (c : Option Nat) : Bool := c == some 9 || c == some 32

def is_WS_OR_EOL (c : Option Nat) : Bool :=
  c == some 9 || c == some 32 || c == some 10 || c == some 13

def is_FLOW_INDICATOR (c : Option Nat) : Bool :=
  c == some 44 || c == some 91 || c == some 93 || c == some 123 || c == some 125

/-- `fromHexCode(c)`. -/
def fromHexCode : Option Nat → Int
  | none => -1
  | some c =>
    if 48 ≤ c ∧ c ≤ 57 then (c : Int) - 48
    else
      let lc := c ||| 32
      if 97 ≤ lc ∧ lc ≤ 102 then (lc : Int) - 97 + 10 else -1

/-- `escapedHexLen(c)`. -/
def escapedHexLen (c : Option Nat) : Nat :=
  if c == some 120 then 2 else if c == some 117 then 4 else if c == some 85 then 8 else 0

/-- `fromDecimalCode(c)`. -/
def fromDecimalCode : Option Nat → Int
  | none => -1
  | some c => if 48 ≤ c ∧ c ≤ 57 then (c : Int) - 48 else -1

/-- `simpleEscapeSequence(c)`. -/
def simpleEscapeSequence (c : Nat) : JSString :=
  if c = 48 then [0] else if c = 97 then [7] else if c = 98 then [8]
  else if c = 116 then [9] else if c = 9 then [9] else if c = 110 then [10]
  else if c = 118 then [11] else if c = 102 then [12] else if c = 114 then [13]
  else if c = 101 then [27] else if c = 32 then [32] else if c = 34 then [34]
  else if c = 47 then [47] else if c = 92 then [92] else if c = 78 then [133]
  else if c = 95 then [160] else if c = 76 then [8232] else if c = 80 then [8233]
  else []

/-- `String.fromCharCode(c)` for one argument: the code unit `ToUint16(c)`. -/
def fromCharCode (c : Int) : Nat := (c % 65536).toNat

/-- `charFromCodepoint(c)`. -/
def charFromCodepoint (c : Int) : JSString :=
  if c ≤ 65535 then [fromCharCode c]
  else [fromCharCode ((c - 65536) / 1024 + 55296), fromCharCode ((c - 65536) % 1024 + 56320)]

/-- `simpleEscapeCheck[ch]` for `ch < 256`. -/
def simpleEscapeCheck (c : Nat) : Bool := simpleEscapeSequence c != []

/-- `simpleEscapeMap[ch]`. -/
def simpleEscapeMap (c : Nat) : JSString := simpleEscapeSequence c

/-- `throwWarning(state, message)`. -/
def throwWarning (state : State) (message : String) : State :=
  if state.onWarning then { state with warnings := state.warnings ++ [message] } else state

/-- The search of `PATTERN_NON_PRINTABLE` from a position with predecessor
`prev`. -/
def nonPrintableFrom : Option Nat → JSString → Bool
  | _, [] => false
  | prev, c :: rest =>
    let high (x : Nat) : Bool := decide (55296 ≤ x) && decide (x ≤ 56319)
    let low (x : Nat) : Bool := decide (56320 ≤ x) && decide (x ≤ 57343)
    (decide (c ≤ 8) || c == 11 || c == 12 || (decide (14 ≤ c) && decide (c ≤ 31))
      || (decide (127 ≤ c) && decide (c ≤ 132)) || (decide (134 ≤ c) && decide (c ≤ 159))
      || c == 65534 || c == 65535)
    || (high c && !(match rest with
        | [] => false
        | d :: _ => low d))
    || (low c && !(match prev with
        | none => false
        | some p => high p))
    || nonPrintableFrom (some c) rest

/-- `PATTERN_NON_PRINTABLE.test(text)`. -/
def PATTERN_NON_PRINTABLE (text : JSString) : Bool := nonPrintableFrom none text

/-- `PATTERN_NON_ASCII_LINE_BREAKS.test(text)`. -/
def PATTERN_NON_ASCII_LINE_BREAKS (text : JSString) : Bool :=
  text.any fun c => c == 133 || c == 8232 || c == 8233

/-- `PATTERN_FLOW_INDICATORS.test(text)`. -/
def PATTERN_FLOW_INDICATORS (text : JSString) : Bool :=
  text.any fun c => c == 44 || c == 91 || c == 93 || c == 123 || c == 125

/-- The class `[a-z\-]` under the flag `i`. -/
def handleChar : RE :=
  RE.cls fun c => (decide (97 ≤ c) && decide (c ≤ 122)) || (decide (65 ≤ c) && decide (c ≤ 90))
    || c == 45

/-- `PATTERN_TAG_HANDLE`. -/
def PATTERN_TAG_HANDLE : RE :=
  RE.alt (RE.chr 33) (RE.alt (RE.lit "!!")
    (RE.cat (RE.chr 33) (RE.cat (RE.plus handleChar) (RE.chr 33))))

/-- The class `[0-9a-f]` under the flag `i`. -/
def hexChar : RE := RE.cls isHexCode

/-- The class ``[0-9a-z\-#;\/\?:@&=\+\$,_\.!~\*'\(\)\[\]]`` under the flag `i`. -/
def uriChar : RE :=
  RE.cls fun c => (decide (48 ≤ c) && decide (c ≤ 57)) || (decide (97 ≤ c) && decide (c ≤ 122))
    || (decide (65 ≤ c) && decide (c ≤ 90)) || (js "-#;/?:@&=+$,_.!~*'()[]").contains c

/-- `PATTERN_TAG_URI`. -/
def PATTERN_TAG_URI : RE :=
  RE.cat
    (RE.alt (RE.chr 33)
      (RE.cls fun c => !(c == 44 || c == 91 || c == 93 || c == 123 || c == 125)))
    (RE.star (RE.alt (RE.cat (RE.chr 37) (RE.cat hexChar hexChar)) uriChar))

/-- The text a value contributes to a string concatenation. -/
def concatText : JSVal → JSString
  | .str s => s
  | .null => js "null"
  | .undefined => js "undefined"
  | .bool b => if b then js "true" else js "false"
  | _ => []

/-- `captureSegment(state, start, end, checkJson)`. -/
def captureSegment (state : State) (start end_ : Nat) (checkJson : Bool) :
    Except JSError State :=
  if start < end_ then
    let _result := slice state.input start end_
    if checkJson then
      if _result.all (fun c => c == 9 || (decide (32 ≤ c) && decide (c ≤ 1114111))) then
        .ok { state with result := .str (concatText state.result ++ _result) }
      else .error (.yaml "expected valid JSON character")
    else if PATTERN_NON_PRINTABLE _result then
      .error (.yaml "the stream contains non-printable characters")
    else .ok { state with result := .str (concatText state.result ++ _result) }
  else .ok state

/-- `common.isObject(subject)`. -/
def isObject : JSVal → Bool
  | .ref _ => true
  | _ => false

/-- The loop of `mergeMappings` over the keys of the source. -/
def mergeLoop (source destination : JSVal) :
    List JSString → Heap → List JSString → Except JSError (Heap × List JSString)
  | [], heap, overridableKeys => .ok (heap, overridableKeys)
  | key :: rest, heap, overridableKeys =>
    if !hasOwnProperty heap destination key then
      match setProperty heap destination key (getProperty heap source key) with
      | .error e => .error e
      | .ok heap =>
        mergeLoop source destination rest heap
          (if overridableKeys.contains key then overridableKeys else overridableKeys ++ [key])
    else mergeLoop source destination rest heap overridableKeys

/-- `mergeMappings(state, destination, source, overridableKeys)`: the heap and
the overridable keys afterwards. -/
def mergeMappings (heap : Heap) (destination source : JSVal)
    (overridableKeys : List JSString) : Except JSError (Heap × List JSString) :=
  if !isObject source then
    .error (.yaml "cannot merge mappings; the provided source object is unacceptable")
  else mergeLoop source destination (objectKeys heap source) heap overridableKeys

/-- Texts joined with commas (`Array.prototype.join`). -/
def joinComma : List JSString → JSString
  | [] => []
  | [a] => a
  | a :: rest => a ++ 44 :: joinComma rest

/-- `String(v)` for a value that is not an array or a plain object. -/
def stringOfScalar (host : Host) (heap : Heap) : JSVal → JSString
  | .undefined => js "undefined"
  | .null => js "null"
  | .bool b => if b then js "true" else js "false"
  | .str s => s
  | .fn _ => js "function () { [native code] }"
  | .ref a =>
    match heap[a]? with
    | some (.date t) => host.dateToString t
    | some (.bytes data) => joinComma (data.map (natToString 10))
    | _ => js "[object Object]"
  | v => numberToString host v

/-- The key text `storeMappingPair` derives from a key node: the items of an
array are joined with commas (a plain object among them counts as
`[object Object]`, an array among them is an error), a plain object is
`[object Object]`, any other value is converted with `String`. -/
def keyText (host : Host) (heap : Heap) (keyNode : JSVal) : Except JSError JSString :=
  if isArray heap keyNode then
    let items := arrayItems heap keyNode
    if items.any (isArray heap) then
      .error (.yaml "nested arrays are not supported inside keys")
    else
      .ok (joinComma (items.map fun item =>
        if typeofObject keyNode && classOf heap item == .object then js "[object Object]"
        else if item == .null || item == .undefined then []
        else stringOfScalar host heap item))
  else if typeofObject keyNode && classOf heap keyNode == .object then .ok (js "[object Object]")
  else .ok (stringOfScalar host heap keyNode)

/-- The loop of `storeMappingPair` over the items of a merged sequence. -/
def mergeAll (destination : JSVal) :
    List JSVal → Heap → List JSString → Except JSError (Heap × List JSString)
  | [], heap, overridableKeys => .ok (heap, overridableKeys)
  | source :: rest, heap, overridableKeys =>
    match mergeMappings heap destination source overridableKeys with
    | .error e => .error e
    | .ok (heap, overridableKeys) => mergeAll destination rest heap overridableKeys

/-- `storeMappingPair(state, _result, overridableKeys, keyTag, keyNode,
valueNode)`: the state (for its heap), the mapping and the overridable keys
afterwards. -/
def storeMappingPair (host : Host) (state : State) (_result : JSVal)
    (overridableKeys : List JSString) (keyTag : Option JSString) (keyNode valueNode : JSVal) :
    Except JSError (State × JSVal × List JSString) :=
  match keyText host state.heap keyNode with
  | .error e => .error e
  | .ok keyNode =>
    let (_result, heap) :=
      if _result == .null then state.heap.alloc (.object .objectPrototype [])
      else (_result, state.heap)
    if keyTag == some (js "tag:yaml.org,2002:merge") then
      let merged :=
        if isArray heap valueNode then
          mergeAll _result (arrayItems heap valueNode) heap overridableKeys
        else mergeMappings heap _result valueNode overridableKeys
      match merged with
      | .error e => .error e
      | .ok (heap, overridableKeys) => .ok ({ state with heap := heap }, _result, overridableKeys)
    else
      if !state.json && !overridableKeys.contains keyNode
          && hasOwnProperty heap _result keyNode then
        .error (.yaml "duplicated mapping key")
      else
        let stored :=
          if keyNode == js "__proto__" then .ok (defineOwn heap _result keyNode valueNode)
          else setProperty heap _result keyNode valueNode
        match stored with
        | .error e => .error e
        | .ok heap =>
          .ok ({ state with heap := heap }, _result, overridableKeys.filter (· != keyNode))

end Loader

namespace Loader

/-- The character at the current position. -/
def State.ch (state : State) : Option Nat := charCodeAt state.input state.position

/-- The character at an offset from the current position. -/
def State.peek (state : State) (offset : Int) : Option Nat :=
  charCodeAt state.input ((state.position : Int) + offset)

/-- `readLineBreak(state)`. -/
def readLineBreak (state : State) : Except JSError State :=
  let ch := state.ch
  let moved : Except JSError State :=
    if ch == some 10 then .ok { state with position := state.position + 1 }
    else if ch == some 13 then
      let state := { state with position := state.position + 1 }
      if state.ch == some 10 then .ok { state with position := state.position + 1 }
      else .ok state
    else .error (.yaml "a line break is expected")
  match moved with
  | .error e => .error e
  | .ok state =>
    .ok { state with line := state.line + 1, lineStart := state.position, firstTabInLine := -1 }

/-- The loop `while (is_WHITE_SPACE(ch))` of `skipSeparationSpace`, which
records the first tab of the line. -/
def skipWhiteSpace : Nat → State → State
  | 0, state => state
  | fuel + 1, state =>
    if is_WHITE_SPACE state.ch then
      let state :=
        if state.ch == some 9 && state.firstTabInLine == -1 then
          { state with firstTabInLine := state.position }
        else state
      skipWhiteSpace fuel { state with position := state.position + 1 }
    else state

/-- A loop `ch = charCodeAt(++position)` that runs while `p ch` holds (the
test comes first). -/
def advanceWhile (p : Option Nat → Bool) : Nat → State → State
  | 0, state => state
  | fuel + 1, state =>
    if p state.ch then advanceWhile p fuel { state with position := state.position + 1 }
    else state

/-- The loop `while (ch === 32)` that counts the indentation of a line. -/
def countIndent : Nat → State → State
  | 0, state => state
  | fuel + 1, state =>
    if state.ch == some 32 then
      countIndent fuel { state with lineIndent := state.lineIndent + 1,
                                    position := state.position + 1 }
    else state

/-- The outer loop of `skipSeparationSpace`. -/
def skipSeparationLoop (allowComments : Bool) : Nat → State → Nat → State × Nat
  | 0, state, lineBreaks => (state, lineBreaks)
  | fuel + 1, state, lineBreaks =>
    if state.ch != some 0 then
      let state := skipWhiteSpace state.input.length state
      let state :=
        if allowComments && state.ch == some 35 then
          advanceWhile (fun ch => ch != some 10 && ch != some 13 && ch != some 0)
            state.input.length { state with position := state.position + 1 }
        else state
      if is_EOL state.ch then
        match readLineBreak state with
        | .error _ => (state, lineBreaks)
        | .ok state =>
          let state := countIndent state.input.length { state with lineIndent := 0 }
          skipSeparationLoop allowComments fuel state (lineBreaks + 1)
      else (state, lineBreaks)
    else (state, lineBreaks)

/-- `skipSeparationSpace(state, allowComments, checkIndent)`: the state
afterwards and the number of line breaks. -/
def skipSeparationSpace (state : State) (allowComments : Bool) (checkIndent : Int) :
    State × Nat :=
  let (state, lineBreaks) := skipSeparationLoop allowComments state.input.length state 0
  if checkIndent != -1 && lineBreaks != 0 && decide ((state.lineIndent : Int) < checkIndent) then
    (throwWarning state "deficient indentation", lineBreaks)
  else (state, lineBreaks)

/-- `testDocumentSeparator(state)`. -/
def testDocumentSeparator (state : State) : Bool :=
  let ch := state.ch
  if (ch == some 45 || ch == some 46) && ch == state.peek 1 && ch == state.peek 2 then
    let ch := state.peek 3
    ch == some 0 || is_WS_OR_EOL ch
  else false

/-- `writeFoldedLines(state, count)`. -/
def writeFoldedLines (state : State) (count : Nat) : State :=
  if count = 1 then { state with result := .str (concatText state.result ++ [32]) }
  else if count > 1 then
    { state with result := .str (concatText state.result ++ «repeat» [10] (count - 1)) }
  else state

/-- The local variables of `readPlainScalar` that its loop updates. -/
structure PlainLocals where
  captureStart : Nat
  captureEnd : Nat
  hasPendingContent : Bool := false
  _line : Nat := 0
  _lineStart : Nat := 0
  _lineIndent : Nat := 0

/-- The loop of `readPlainScalar`; it ends with the state and locals at the
`break` or at the end of the input. -/
def readPlainLoop (nodeIndent : Int) (withinFlowCollection : Bool) :
    Nat → State → PlainLocals → Except JSError (State × PlainLocals)
  | 0, _, _ => .error .fuel
  | fuel + 1, state, l =>
    let ch := state.ch
    if ch == some 0 then .ok (state, l)
    else
      /- the tail of the body, after the chain of tests -/
      let rest (state : State) (l : PlainLocals) : Except JSError (State × PlainLocals) :=
        let flushed : Except JSError (State × PlainLocals) :=
          if l.hasPendingContent then
            match captureSegment state l.captureStart l.captureEnd false with
            | .error e => .error e
            | .ok state =>
              let state := writeFoldedLines state (state.line - l._line)
              .ok (state, { l with captureStart := state.position, captureEnd := state.position,
                                   hasPendingContent := false })
          else .ok (state, l)
        match flushed with
        | .error e => .error e
        | .ok (state, l) =>
          let l := if !is_WHITE_SPACE ch then { l with captureEnd := state.position + 1 } else l
          readPlainLoop nodeIndent withinFlowCollection fuel
            { state with position := state.position + 1 } l
      if ch == some 58 then
        let following := state.peek 1
        if is_WS_OR_EOL following || (withinFlowCollection && is_FLOW_INDICATOR following) then
          .ok (state, l)
        else rest state l
      else if ch == some 35 then
        let preceding := state.peek (-1)
        if is_WS_OR_EOL preceding then .ok (state, l) else rest state l
      else if (state.position == state.lineStart && testDocumentSeparator state)
          || (withinFlowCollection && is_FLOW_INDICATOR ch) then
        .ok (state, l)
      else if is_EOL ch then
        let l := { l with _line := state.line, _lineStart := state.lineStart,
                          _lineIndent := state.lineIndent }
        let (state, _) := skipSeparationSpace state false (-1)
        if (state.lineIndent : Int) ≥ nodeIndent then
          readPlainLoop nodeIndent withinFlowCollection fuel state
            { l with hasPendingContent := true }
        else
          .ok ({ state with position := l.captureEnd, line := l._line,
                            lineStart := l._lineStart, lineIndent := l._lineIndent }, l)
      else rest state l

/-- `readPlainScalar(state, nodeIndent, withinFlowCollection)`. -/
def readPlainScalar (state : State) (nodeIndent : Int) (withinFlowCollection : Bool) :
    Except JSError (State × Bool) :=
  let _kind := state.kind
  let _result := state.result
  let ch := state.ch
  if is_WS_OR_EOL ch || is_FLOW_INDICATOR ch || ch == some 35 || ch == some 38
      || ch == some 42 || ch == some 33 || ch == some 124 || ch == some 62 || ch == some 39
      || ch == some 34 || ch == some 37 || ch == some 64 || ch == some 96 then
    .ok (state, false)
  else if (ch == some 63 || ch == some 45)
      && (is_WS_OR_EOL (state.peek 1)
          || (withinFlowCollection && is_FLOW_INDICATOR (state.peek 1))) then
    .ok (state, false)
  else
    let state := { state with kind := some .scalar, result := .str [] }
    match readPlainLoop nodeIndent withinFlowCollection (state.input.length + 1) state
        { captureStart := state.position, captureEnd := state.position } with
    | .error e => .error e
    | .ok (state, l) =>
      match captureSegment state l.captureStart l.captureEnd false with
      | .error e => .error e
      | .ok state =>
        if truthy state.result then .ok (state, true)
        else .ok ({ state with kind := _kind, result := _result }, false)

/-- The loop of `readSingleQuotedScalar`. -/
def readSingleQuotedLoop (nodeIndent : Int) :
    Nat → State → Nat → Nat → Except JSError (State × Bool)
  | 0, _, _, _ => .error .fuel
  | fuel + 1, state, captureStart, captureEnd =>
    let ch := state.ch
    if ch == some 0 then
      .error (.yaml "unexpected end of the stream within a single quoted scalar")
    else if ch == some 39 then
      match captureSegment state captureStart state.position true with
      | .error e => .error e
      | .ok state =>
        let state := { state with position := state.position + 1 }
        if state.ch == some 39 then
          readSingleQuotedLoop nodeIndent fuel { state with position := state.position + 1 }
            state.position (state.position + 1)
        else .ok (state, true)
    else if is_EOL ch then
      match captureSegment state captureStart captureEnd true with
      | .error e => .error e
      | .ok state =>
        let (state, lineBreaks) := skipSeparationSpace state false nodeIndent
        let state := writeFoldedLines state lineBreaks
        readSingleQuotedLoop nodeIndent fuel state state.position state.position
    else if state.position == state.lineStart && testDocumentSeparator state then
      .error (.yaml "unexpected end of the document within a single quoted scalar")
    else
      readSingleQuotedLoop nodeIndent fuel { state with position := state.position + 1 }
        captureStart (state.position + 1)

/-- `readSingleQuotedScalar(state, nodeIndent)`. -/
def readSingleQuotedScalar (state : State) (nodeIndent : Int) : Except JSError (State × Bool) :=
  if state.ch != some 39 then .ok (state, false)
  else
    let state := { state with kind := some .scalar, result := .str [],
                              position := state.position + 1 }
    readSingleQuotedLoop nodeIndent (state.input.length + 1) state state.position state.position

/-- The 32-bit signed value of `(hexResult << 4) + tmp`. -/
def shiftHex (hexResult tmp : Int) : Int :=
  ((hexResult * 16 + 2147483648) % 4294967296 - 2147483648) + tmp

/-- The `for` loop of `readDoubleQuotedScalar` that reads the digits of a
hexadecimal escape. -/
def readHexDigits : Nat → State → Int → Except JSError (State × Int)
  | 0, state, hexResult => .ok (state, hexResult)
  | hexLength + 1, state, hexResult =>
    let state := { state with position := state.position + 1 }
    let tmp := fromHexCode state.ch
    if tmp ≥ 0 then readHexDigits hexLength state (shiftHex hexResult tmp)
    else .error (.yaml "expected hexadecimal character")

/-- The loop of `readDoubleQuotedScalar`. -/
def readDoubleQuotedLoop (nodeIndent : Int) :
    Nat → State → Nat → Nat → Except JSError (State × Bool)
  | 0, _, _, _ => .error .fuel
  | fuel + 1, state, captureStart, captureEnd =>
    let ch := state.ch
    if ch == some 0 then
      .error (.yaml "unexpected end of the stream within a double quoted scalar")
    else if ch == some 34 then
      match captureSegment state captureStart state.position true with
      | .error e => .error e
      | .ok state => .ok ({ state with position := state.position + 1 }, true)
    else if ch == some 92 then
      match captureSegment state captureStart state.position true with
      | .error e => .error e
      | .ok state =>
        let state := { state with position := state.position + 1 }
        let ch := state.ch
        let escaped : Except JSError State :=
          if is_EOL ch then .ok (skipSeparationSpace state false nodeIndent).1
          else if (match ch with
              | some c => decide (c < 256) && simpleEscapeCheck c
              | none => false) then
            .ok { state with
              result := .str (concatText state.result ++ simpleEscapeMap (ch.getD 0))
              position := state.position + 1 }
          else if escapedHexLen ch > 0 then
            match readHexDigits (escapedHexLen ch) state 0 with
            | .error e => .error e
            | .ok (state, hexResult) =>
              .ok { state with
                result := .str (concatText state.result ++ charFromCodepoint hexResult)
                position := state.position + 1 }
          else .error (.yaml "unknown escape sequence")
        match escaped with
        | .error e => .error e
        | .ok state => readDoubleQuotedLoop nodeIndent fuel state state.position state.position
    else if is_EOL ch then
      match captureSegment state captureStart captureEnd true with
      | .error e => .error e
      | .ok state =>
        let (state, lineBreaks) := skipSeparationSpace state false nodeIndent
        let state := writeFoldedLines state lineBreaks
        readDoubleQuotedLoop nodeIndent fuel state state.position state.position
    else if state.position == state.lineStart && testDocumentSeparator state then
      .error (.yaml "unexpected end of the document within a double quoted scalar")
    else
      readDoubleQuotedLoop nodeIndent fuel { state with position := state.position + 1 }
        captureStart (state.position + 1)

/-- `readDoubleQuotedScalar(state, nodeIndent)`. -/
def readDoubleQuotedScalar (state : State) (nodeIndent : Int) : Except JSError (State × Bool) :=
  if state.ch != some 34 then .ok (state, false)
  else
    let state := { state with kind := some .scalar, result := .str [],
                              position := state.position + 1 }
    readDoubleQuotedLoop nodeIndent (state.input.length + 1) state state.position state.position

end Loader

namespace Loader

/-- The header loop of `readBlockScalar`: chomping and indentation
indicators. -/
def blockHeaderLoop (nodeIndent : Int) :
    Nat → State → Nat → Bool → Int → Except JSError (State × Nat × Bool × Int)
  | 0, _, _, _, _ => .error .fuel
  | fuel + 1, state, chomping, detectedIndent, textIndent =>
    if state.ch != some 0 then
      let state := { state with position := state.position + 1 }
      let ch := state.ch
      if ch == some 43 || ch == some 45 then
        if CHOMPING_CLIP = chomping then
          blockHeaderLoop nodeIndent fuel state
            (if ch == some 43 then CHOMPING_KEEP else CHOMPING_STRIP) detectedIndent textIndent
        else .error (.yaml "repeat of a chomping mode identifier")
      else
        let tmp := fromDecimalCode ch
        if tmp ≥ 0 then
          if tmp = 0 then
            .error (.yaml
              "bad explicit indentation width of a block scalar; it cannot be less than one")
          else if !detectedIndent then
            blockHeaderLoop nodeIndent fuel state chomping true (nodeIndent + tmp - 1)
          else .error (.yaml "repeat of an indentation width identifier")
        else .ok (state, chomping, detectedIndent, textIndent)
    else .ok (state, chomping, detectedIndent, textIndent)

/-- The indentation loop of a line of a block scalar. -/
def blockIndentLoop (detectedIndent : Bool) (textIndent : Int) : Nat → State → State
  | 0, state => state
  | fuel + 1, state =>
    if (!detectedIndent || decide ((state.lineIndent : Int) < textIndent))
        && state.ch == some 32 then
      blockIndentLoop detectedIndent textIndent fuel
        { state with lineIndent := state.lineIndent + 1, position := state.position + 1 }
    else state

/-- The local variables of `readBlockScalar` that its main loop updates. -/
structure BlockLocals where
  folding : Bool
  chomping : Nat
  didReadContent : Bool := false
  detectedIndent : Bool
  textIndent : Int
  emptyLines : Nat := 0
  atMoreIndented : Bool := false

/-- Appends a text to `state.result`. -/
def State.append (state : State) (text : JSString) : State :=
  { state with result := .str (concatText state.result ++ text) }

/-- The main loop of `readBlockScalar`. -/
def blockScalarLoop : Nat → State → BlockLocals → Except JSError State
  | 0, _, _ => .error .fuel
  | fuel + 1, state, l =>
    if state.ch != some 0 then
      match readLineBreak state with
      | .error e => .error e
      | .ok state =>
        let state := blockIndentLoop l.detectedIndent l.textIndent state.input.length
          { state with lineIndent := 0 }
        let l :=
          if !l.detectedIndent && decide ((state.lineIndent : Int) > l.textIndent) then
            { l with textIndent := state.lineIndent }
          else l
        let ch := state.ch
        if is_EOL ch then blockScalarLoop fuel state { l with emptyLines := l.emptyLines + 1 }
        else if (state.lineIndent : Int) < l.textIndent then
          if l.chomping = CHOMPING_KEEP then
            .ok (state.append
              («repeat» [10] (if l.didReadContent then 1 + l.emptyLines else l.emptyLines)))
          else if l.chomping = CHOMPING_CLIP then
            if l.didReadContent then .ok (state.append [10]) else .ok state
          else .ok state
        else
          let (state, l) :=
            if l.folding then
              if is_WHITE_SPACE ch then
                (state.append
                  («repeat» [10] (if l.didReadContent then 1 + l.emptyLines else l.emptyLines)),
                 { l with atMoreIndented := true })
              else if l.atMoreIndented then
                (state.append («repeat» [10] (l.emptyLines + 1)),
                 { l with atMoreIndented := false })
              else if l.emptyLines = 0 then
                (if l.didReadContent then state.append [32] else state, l)
              else (state.append («repeat» [10] l.emptyLines), l)
            else
              (state.append
                («repeat» [10] (if l.didReadContent then 1 + l.emptyLines else l.emptyLines)), l)
          let l := { l with didReadContent := true, detectedIndent := true, emptyLines := 0 }
          let captureStart := state.position
          let state := advanceWhile (fun ch => !is_EOL ch && ch != some 0)
            state.input.length state
          match captureSegment state captureStart state.position false with
          | .error e => .error e
          | .ok state => blockScalarLoop fuel state l
    else .ok state

/-- `readBlockScalar(state, nodeIndent)`. -/
def readBlockScalar (state : State) (nodeIndent : Int) : Except JSError (State × Bool) :=
  let ch := state.ch
  if ch != some 124 && ch != some 62 then .ok (state, false)
  else
    let folding := ch == some 62
    let state := { state with kind := some .scalar, result := .str [] }
    match blockHeaderLoop nodeIndent (state.input.length + 1) state CHOMPING_CLIP false
        nodeIndent with
    | .error e => .error e
    | .ok (state, chomping, detectedIndent, textIndent) =>
      let state :=
        if is_WHITE_SPACE state.ch then
          let state := advanceWhile is_WHITE_SPACE state.input.length
            { state with position := state.position + 1 }
          if state.ch == some 35 then
            advanceWhile (fun ch => !is_EOL ch && ch != some 0) state.input.length
              { state with position := state.position + 1 }
          else state
        else state
      match blockScalarLoop (state.input.length + 1) state
          { folding := folding, chomping := chomping, detectedIndent := detectedIndent,
            textIndent := textIndent } with
      | .error e => .error e
      | .ok state => .ok (state, true)

/-- The value of two hexadecimal digits, if they are such. -/
def hexByte (a b : Nat) : Option Nat :=
  let h1 := fromHexCode (some a)
  let h2 := fromHexCode (some b)
  if h1 ≥ 0 ∧ h2 ≥ 0 then some (h1.toNat * 16 + h2.toNat) else none

/-- The next `n` escaped continuation bytes (`%XX` with `10xxxxxx`) of a text,
and the rest. -/
def continuationBytes : Nat → JSString → Option (List Nat × JSString)
  | 0, s => some ([], s)
  | n + 1, 37 :: a :: b :: rest =>
    match hexByte a b with
    | some v =>
      if v / 64 = 2 then
        match continuationBytes n rest with
        | some (bs, rest) => some (v :: bs, rest)
        | none => none
      else none
    | none => none
  | _ + 1, _ => none

/-- `decodeURIComponent(text)`; `none` is the `URIError`. -/
def decodeURIComponent : Nat → JSString → Option JSString
  | 0, _ => none
  | _ + 1, [] => some []
  | fuel + 1, c :: rest =>
    if c = 37 then
      match rest with
      | a :: b :: rest =>
        match hexByte a b with
        | none => none
        | some v =>
          if v < 128 then (decodeURIComponent fuel rest).map (v :: ·)
          else
            let n := if v / 32 = 6 then 2 else if v / 16 = 14 then 3
              else if v / 8 = 30 then 4 else 0
            if n = 0 then none
            else
              match continuationBytes (n - 1) rest with
              | none => none
              | some (bs, rest) =>
                let lead := if n = 2 then v % 32 else if n = 3 then v % 16 else v % 8
                let cp := bs.foldl (fun acc x => acc * 64 + x % 64) lead
                let least := if n = 2 then 128 else if n = 3 then 2048 else 65536
                if cp < least ∨ cp > 1114111 ∨ (55296 ≤ cp ∧ cp ≤ 57343) then none
                else (decodeURIComponent fuel rest).map
                  ((charFromCodepoint cp) ++ ·)
      | _ => none
    else (decodeURIComponent fuel rest).map (c :: ·)

/-- The loop of `readTagProperty` over a tag that is not verbatim; it gives
the state, `isNamed`, `tagHandle` and `_position`. -/
def tagNameLoop : Nat → State → Bool → JSString → Nat →
    Except JSError (State × Bool × JSString × Nat)
  | 0, _, _, _, _ => .error .fuel
  | fuel + 1, state, isNamed, tagHandle, _position =>
    let ch := state.ch
    if ch != some 0 && !is_WS_OR_EOL ch then
      if ch == some 33 then
        if !isNamed then
          let tagHandle := slice state.input (_position - 1) (state.position + 1)
          if !PATTERN_TAG_HANDLE.matches tagHandle then
            .error (.yaml "named tag handle cannot contain such characters")
          else
            tagNameLoop fuel { state with position := state.position + 1 } true tagHandle
              (state.position + 1)
        else .error (.yaml "tag suffix cannot contain exclamation marks")
      else tagNameLoop fuel { state with position := state.position + 1 } isNamed tagHandle
        _position
    else .ok (state, isNamed, tagHandle, _position)

/-- `readTagProperty(state)`. -/
def readTagProperty (state : State) : Except JSError (State × Bool) :=
  if state.ch != some 33 then .ok (state, false)
  else if state.tag != none then .error (.yaml "duplication of a tag property")
  else
    let state := { state with position := state.position + 1 }
    let ch := state.ch
    let isVerbatim := ch == some 60
    let isNamed := !isVerbatim && ch == some 33
    let tagHandle := if isVerbatim then [] else if isNamed then js "!!" else js "!"
    let state := if isVerbatim || isNamed then { state with position := state.position + 1 }
      else state
    let _position := state.position
    let scanned : Except JSError (State × JSString × JSString) :=
      if isVerbatim then
        let state := advanceWhile (fun ch => ch != some 0 && ch != some 62) state.input.length
          { state with position := state.position + 1 }
        if state.position < state.length then
          .ok ({ state with position := state.position + 1 },
               slice state.input _position state.position, tagHandle)
        else .error (.yaml "unexpected end of the stream within a verbatim tag")
      else
        match tagNameLoop (state.input.length + 1) state isNamed tagHandle _position with
        | .error e => .error e
        | .ok (state, _, tagHandle, _position) =>
          let tagName := slice state.input _position state.position
          if PATTERN_FLOW_INDICATORS tagName then
            .error (.yaml "tag suffix cannot contain flow indicator characters")
          else .ok (state, tagName, tagHandle)
    match scanned with
    | .error e => .error e
    | .ok (state, tagName, tagHandle) =>
      if tagName != [] && !PATTERN_TAG_URI.matches tagName then
        .error (.yaml ("tag name cannot contain such characters: " ++ showString tagName))
      else
        match decodeURIComponent (tagName.length + 1) tagName with
        | none => .error (.yaml ("tag name is malformed: " ++ showString tagName))
        | some tagName =>
          if isVerbatim then .ok ({ state with tag := some tagName }, true)
          else
            match lookup state.tagMap tagHandle with
            | some pfx => .ok ({ state with tag := some (pfx ++ tagName) }, true)
            | none =>
              if tagHandle == js "!" then
                .ok ({ state with tag := some (33 :: tagName) }, true)
              else if tagHandle == js "!!" then
                .ok ({ state with tag := some (js "tag:yaml.org,2002:" ++ tagName) }, true)
              else
                .error (.yaml ("undeclared tag handle \"" ++ showString tagHandle ++ "\""))

/-- `readAnchorProperty(state)`. -/
def readAnchorProperty (state : State) : Except JSError (State × Bool) :=
  if state.ch != some 38 then .ok (state, false)
  else if state.anchor != none then .error (.yaml "duplication of an anchor property")
  else
    let state := { state with position := state.position + 1 }
    let _position := state.position
    let state := advanceWhile
      (fun ch => ch != some 0 && !is_WS_OR_EOL ch && !is_FLOW_INDICATOR ch)
      state.input.length state
    if state.position == _position then
      .error (.yaml "name of an anchor node must contain at least one character")
    else
      .ok ({ state with anchor := some (slice state.input _position state.position) }, true)

/-- `readAlias(state)`. -/
def readAlias (state : State) : Except JSError (State × Bool) :=
  if state.ch != some 42 then .ok (state, false)
  else
    let state := { state with position := state.position + 1 }
    let _position := state.position
    let state := advanceWhile
      (fun ch => ch != some 0 && !is_WS_OR_EOL ch && !is_FLOW_INDICATOR ch)
      state.input.length state
    if state.position == _position then
      .error (.yaml "name of an alias node must contain at least one character")
    else
      let aliasName := slice state.input _position state.position
      match lookup state.anchorMap aliasName with
      | none => .error (.yaml ("unidentified alias \"" ++ showString aliasName ++ "\""))
      | some v =>
        let state := { state with result := v }
        .ok ((skipSeparationSpace state true (-1)).1, true)

end Loader

namespace Loader

/-- The indentation status of `composeNode`: `1`, `0` or `-1` as the line is
more, equally or less indented than the parent. -/
def indentStatusOf (lineIndent : Nat) (parentIndent : Int) : Int :=
  if (lineIndent : Int) > parentIndent then 1
  else if (lineIndent : Int) = parentIndent then 0
  else -1

/-- The loop `while (readTagProperty(state) || readAnchorProperty(state))` of
`composeNode`; it updates `atNewLine`, `allowBlockCollections` and
`indentStatus`. -/
def propertiesLoop (parentIndent : Int) (allowBlockStyles : Bool) :
    Nat → State → Bool → Bool → Int → Except JSError (State × Bool × Bool × Int)
  | 0, _, _, _, _ => .error .fuel
  | fuel + 1, state, atNewLine, allowBlockCollections, indentStatus => do
    let (state, found) ← readTagProperty state
    let (state, found) ← if found then pure (state, true) else readAnchorProperty state
    if found then
      let (state, lineBreaks) := skipSeparationSpace state true (-1)
      if lineBreaks != 0 then
        propertiesLoop parentIndent allowBlockStyles fuel state true allowBlockStyles
          (indentStatusOf state.lineIndent parentIndent)
      else propertiesLoop parentIndent allowBlockStyles fuel state atNewLine false indentStatus
    else pure (state, atNewLine, allowBlockCollections, indentStatus)

/-- Records the current result under the current anchor, if there is one. -/
def State.recordAnchor (state : State) : State :=
  match state.anchor with
  | some a => { state with anchorMap := assign state.anchorMap a state.result }
  | none => state

/-- Records a value under the current anchor, if there is one. -/
def State.recordAnchorAs (state : State) (v : JSVal) : State :=
  match state.anchor with
  | some a => { state with anchorMap := assign state.anchorMap a v }
  | none => state

/-- The loop of `composeNode` over the implicit types: the first type whose
`resolve` accepts the result constructs it. -/
def resolveImplicit : List YType → State → Except JSError State
  | [], state => .ok state
  | type :: rest, state =>
    if type.resolve state.heap state.result none then
      match type.construct state.heap state.result none with
      | .error e => .error e
      | .ok (v, heap) =>
        .ok ({ state with result := v, heap := heap, tag := some type.tag }).recordAnchor
    else resolveImplicit rest state

/-- The text of `state.kind` in a message. -/
def kindText : Option Kind → String
  | some k => k.text
  | none => "null"

/-- The part of `composeNode` that finalizes the tag of a node. -/
def finalizeTag (state : State) : Except JSError State :=
  match state.tag with
  | none => .ok state.recordAnchor
  | some tag =>
    if tag == js "?" then
      if state.result != .null && state.kind != some .scalar then
        .error (.yaml ("unacceptable node kind for !<?> tag; it should be \"scalar\", not \""
          ++ kindText state.kind ++ "\""))
      else resolveImplicit state.implicitTypes state
    else if tag != js "!" then
      let found : Option YType :=
        match lookup (state.typeMap.exact state.kind) tag with
        | some type => some type
        | none =>
          (state.typeMap.multi state.kind).find?
            (fun t => tag.take t.tag.length == t.tag)
      match found with
      | none => .error (.yaml ("unknown tag !<" ++ showString tag ++ ">"))
      | some type =>
        if state.result != .null && some type.kind != state.kind then
          .error (.yaml ("unacceptable node kind for !<" ++ showString tag
            ++ "> tag; it should be \"" ++ type.kind.text ++ "\", not \""
            ++ kindText state.kind ++ "\""))
        else if !type.resolve state.heap state.result (some tag) then
          .error (.yaml ("cannot resolve a node with !<" ++ showString tag ++ "> explicit tag"))
        else
          match type.construct state.heap state.result (some tag) with
          | .error e => .error e
          | .ok (v, heap) => .ok ({ state with result := v, heap := heap }).recordAnchor
    else .ok state

/-- The scalar and alias readers of `composeNode`, tried in order:
block scalar (if allowed), single quoted, double quoted, alias, plain. -/
def readScalarNode (state : State) (allowBlockScalars : Bool) (flowIndent : Int)
    (nodeContext : Nat) : Except JSError (State × Bool) := do
  let (state, found) ← if allowBlockScalars then readBlockScalar state flowIndent
    else pure (state, false)
  let (state, found) ← if found then pure (state, true)
    else readSingleQuotedScalar state flowIndent
  let (state, found) ← if found then pure (state, true)
    else readDoubleQuotedScalar state flowIndent
  let (state, hasContent) ←
    if found then pure (state, true)
    else do
      let (state, found) ← readAlias state
      if found then
        if state.tag != none || state.anchor != none then
          throw (.yaml "alias node should not have any properties")
        else pure (state, true)
      else do
        let (state, found) ← readPlainScalar state flowIndent (CONTEXT_FLOW_IN == nodeContext)
        if found then
          pure (if state.tag == none then { state with tag := some (js "?") } else state, true)
        else pure (state, false)
  pure (state.recordAnchor, hasContent)

/-- The local variables of `readBlockMapping` that its loop updates. -/
structure MappingLocals where
  allowCompact : Bool := false
  keyTag : Option JSString := none
  keyNode : JSVal := .null
  valueNode : JSVal := .null
  atExplicitKey : Bool := false
  detected : Bool := false
  overridableKeys : List JSString := []

mutual

/-- `composeNode(state, parentIndent, nodeContext, allowToSeek, allowCompact)`. -/
def composeNode (host : Host) : Nat → State → Int → Nat → Bool → Bool →
    Except JSError (State × Bool)
  | 0, _, _, _, _, _ => .error .fuel
  | fuel + 1, state, parentIndent, nodeContext, allowToSeek, allowCompact => do
    let state := { state with tag := none, anchor := none, kind := none, result := .null }
    let allowBlockStyles := CONTEXT_BLOCK_OUT == nodeContext || CONTEXT_BLOCK_IN == nodeContext
    let allowBlockScalars := allowBlockStyles
    let (state, atNewLine, indentStatus) :=
      if allowToSeek then
        let (state, lineBreaks) := skipSeparationSpace state true (-1)
        if lineBreaks != 0 then (state, true, indentStatusOf state.lineIndent parentIndent)
        else (state, false, (1 : Int))
      else (state, false, (1 : Int))
    let (state, atNewLine, allowBlockCollections, indentStatus) ←
      if indentStatus = 1 then
        propertiesLoop parentIndent allowBlockStyles (state.input.length + 1) state atNewLine
          allowBlockStyles indentStatus
      else pure (state, atNewLine, allowBlockStyles, indentStatus)
    let allowBlockCollections :=
      if allowBlockCollections then atNewLine || allowCompact else allowBlockCollections
    let (state, hasContent) ←
      if indentStatus = 1 || CONTEXT_BLOCK_OUT == nodeContext then
        let flowIndent : Int :=
          if CONTEXT_FLOW_IN == nodeContext || CONTEXT_FLOW_OUT == nodeContext then parentIndent
          else parentIndent + 1
        let blockIndent : Int := (state.position : Int) - state.lineStart
        if indentStatus = 1 then do
          let (state, found) ←
            if allowBlockCollections then readBlockSequence host fuel state blockIndent
            else pure (state, false)
          let (state, found) ←
            if allowBlockCollections && !found then
              readBlockMapping host fuel state blockIndent flowIndent
            else pure (state, found)
          let (state, found) ←
            if found then pure (state, true) else readFlowCollection host fuel state flowIndent
          if found then pure (state, true)
          else readScalarNode state allowBlockScalars flowIndent nodeContext
        else if indentStatus = 0 then
          if allowBlockCollections then readBlockSequence host fuel state blockIndent
          else pure (state, false)
        else pure (state, false)
      else pure (state, false)
    let state ← finalizeTag state
    pure (state, state.tag != none || state.anchor != none || hasContent)

/-- The loop of `readFlowCollection`. -/
def readFlowLoop (host : Host) : Nat → State → Int → Option JSString → Option JSString →
    Nat → Bool → JSVal → Bool → List JSString → Except JSError (State × Bool)
  | 0, _, _, _, _, _, _, _, _, _ => .error .fuel
  | fuel + 1, state, nodeIndent, _tag, _anchor, terminator, isMapping, _result, readNext,
      overridableKeys => do
    if state.ch == some 0 then
      throw (.yaml "unexpected end of the stream within a flow collection")
    else
      let (state, _) := skipSeparationSpace state true nodeIndent
      let ch := state.ch
      if ch == some terminator then
        pure ({ state with
          position := state.position + 1, tag := _tag, anchor := _anchor
          kind := some (if isMapping then Kind.mapping else Kind.sequence)
          result := _result }, true)
      else if !readNext then throw (.yaml "missed comma between flow collection entries")
      else if ch == some 44 then throw (.yaml "expected the node content, but found ','")
      else
        let (state, isExplicitPair) :=
          if ch == some 63 && is_WS_OR_EOL (state.peek 1) then
            ((skipSeparationSpace { state with position := state.position + 1 } true
              nodeIndent).1, true)
          else (state, false)
        let isPair := isExplicitPair
        let _line := state.line
        let (state, _) ← composeNode host fuel state nodeIndent CONTEXT_FLOW_IN false true
        let keyTag := state.tag
        let keyNode := state.result
        let (state, _) := skipSeparationSpace state true nodeIndent
        let (state, isPair, valueNode) ←
          if (isExplicitPair || state.line == _line) && state.ch == some 58 then do
            let state := { state with position := state.position + 1 }
            let (state, _) := skipSeparationSpace state true nodeIndent
            let (state, _) ← composeNode host fuel state nodeIndent CONTEXT_FLOW_IN false true
            pure (state, true, state.result)
          else pure (state, isPair, JSVal.null)
        let (state, overridableKeys) ←
          if isMapping then do
            let (state, _, overridableKeys) ←
              storeMappingPair host state _result overridableKeys keyTag keyNode valueNode
            pure (state, overridableKeys)
          else if isPair then do
            let (state, pair, overridableKeys) ←
              storeMappingPair host state .null overridableKeys keyTag keyNode valueNode
            pure ({ state with heap := arrayPush state.heap _result pair }, overridableKeys)
          else pure ({ state with heap := arrayPush state.heap _result keyNode }, overridableKeys)
        let (state, _) := skipSeparationSpace state true nodeIndent
        if state.ch == some 44 then
          readFlowLoop host fuel { state with position := state.position + 1 } nodeIndent _tag
            _anchor terminator isMapping _result true overridableKeys
        else
          readFlowLoop host fuel state nodeIndent _tag _anchor terminator isMapping _result
            false overridableKeys

/-- `readFlowCollection(state, nodeIndent)`. -/
def readFlowCollection (host : Host) : Nat → State → Int → Except JSError (State × Bool)
  | 0, _, _ => .error .fuel
  | fuel + 1, state, nodeIndent =>
    let ch := state.ch
    if ch != some 91 && ch != some 123 then .ok (state, false)
    else
      let isMapping := ch == some 123
      let terminator := if isMapping then 125 else 93
      let (_result, heap) :=
        state.heap.alloc (if isMapping then .object .objectPrototype [] else .array [])
      let _tag := state.tag
      let _anchor := state.anchor
      let state := ({ state with heap := heap }).recordAnchorAs _result
      readFlowLoop host fuel { state with position := state.position + 1 } nodeIndent _tag
        _anchor terminator isMapping _result true []

/-- The loop of `readBlockSequence`; it gives the state and `detected`. -/
def readBlockSequenceLoop (host : Host) : Nat → State → Int → JSVal → Bool →
    Except JSError (State × Bool)
  | 0, _, _, _, _ => .error .fuel
  | fuel + 1, state, nodeIndent, _result, detected => do
    if state.ch == some 0 then pure (state, detected)
    else if state.firstTabInLine != -1 then
      throw (.yaml "tab characters must not be used in indentation")
    else if state.ch != some 45 then pure (state, detected)
    else if !is_WS_OR_EOL (state.peek 1) then pure (state, detected)
    else
      let state := { state with position := state.position + 1 }
      let (state, lineBreaks) := skipSeparationSpace state true (-1)
      if lineBreaks != 0 && decide ((state.lineIndent : Int) ≤ nodeIndent) then
        readBlockSequenceLoop host fuel
          { state with heap := arrayPush state.heap _result .null } nodeIndent _result true
      else
        let _line := state.line
        let (state, _) ← composeNode host fuel state nodeIndent CONTEXT_BLOCK_IN false true
        let state := { state with heap := arrayPush state.heap _result state.result }
        let (state, _) := skipSeparationSpace state true (-1)
        if (state.line == _line || decide ((state.lineIndent : Int) > nodeIndent))
            && state.ch != some 0 then
          throw (.yaml "bad indentation of a sequence entry")
        else if (state.lineIndent : Int) < nodeIndent then pure (state, true)
        else readBlockSequenceLoop host fuel state nodeIndent _result true

/-- `readBlockSequence(state, nodeIndent)`. -/
def readBlockSequence (host : Host) : Nat → State → Int → Except JSError (State × Bool)
  | 0, _, _ => .error .fuel
  | fuel + 1, state, nodeIndent => do
    if state.firstTabInLine != -1 then pure (state, false)
    else
      let _tag := state.tag
      let _anchor := state.anchor
      let (_result, heap) := state.heap.alloc (.array [])
      let state := ({ state with heap := heap }).recordAnchorAs _result
      let (state, detected) ← readBlockSequenceLoop host fuel state nodeIndent _result false
      if detected then
        pure ({ state with tag := _tag, anchor := _anchor, kind := some .sequence
                           result := _result }, true)
      else pure (state, false)

/-- The loop of `readBlockMapping`; `some b` is an early `return b`, `none` a
`break` or the end of the loop. -/
def readBlockMappingLoop (host : Host) : Nat → State → Int → Int → Option JSString →
    Option JSString → JSVal → MappingLocals →
    Except JSError (State × MappingLocals × Option Bool)
  | 0, _, _, _, _, _, _, _ => .error .fuel
  | fuel + 1, state, nodeIndent, flowIndent, _tag, _anchor, _result, l => do
    if state.ch == some 0 then pure (state, l, none)
    else if !l.atExplicitKey && state.firstTabInLine != -1 then
      throw (.yaml "tab characters must not be used in indentation")
    else
      let ch := state.ch
      let following := state.peek 1
      let _line := state.line
      /- the first part of the body: `none` continues, `some r` leaves the function or loop -/
      let (state, l, leave) ←
        if (ch == some 63 || ch == some 58) && is_WS_OR_EOL following then do
          let (state, l) ←
            if ch == some 63 then do
              let (state, l) ←
                if l.atExplicitKey then do
                  let (state, _, overridableKeys) ←
                    storeMappingPair host state _result l.overridableKeys l.keyTag l.keyNode .null
                  pure (state, { l with keyTag := none, keyNode := .null, valueNode := .null
                                        overridableKeys := overridableKeys })
                else pure (state, l)
              pure (state, { l with detected := true, atExplicitKey := true, allowCompact := true })
            else if l.atExplicitKey then
              pure (state, { l with atExplicitKey := false, allowCompact := true })
            else
              throw (.yaml
                "incomplete explicit mapping pair; a key node is missed; or followed by a non-tabulated empty line")
          pure ({ state with position := state.position + 1 }, l,
            (none : Option (Option Bool)))
        else do
          let (state, composed) ← composeNode host fuel state flowIndent CONTEXT_FLOW_OUT false true
          if !composed then pure (state, l, some none)
          else if state.line == _line then
            let state := advanceWhile is_WHITE_SPACE state.input.length state
            if state.ch == some 58 then do
              let state := { state with position := state.position + 1 }
              if !is_WS_OR_EOL state.ch then
                throw (.yaml
                  "a whitespace character is expected after the key-value separator within a block mapping")
              else
                let (state, l) ←
                  if l.atExplicitKey then do
                    let (state, _, overridableKeys) ←
                      storeMappingPair host state _result l.overridableKeys l.keyTag l.keyNode
                        .null
                    pure (state, { l with keyTag := none, keyNode := .null, valueNode := .null
                                          overridableKeys := overridableKeys })
                  else pure (state, l)
                pure (state, { l with detected := true, atExplicitKey := false
                                      allowCompact := false, keyTag := state.tag
                                      keyNode := state.result }, none)
            else if l.detected then
              throw (.yaml "can not read an implicit mapping pair; a colon is missed")
            else pure ({ state with tag := _tag, anchor := _anchor }, l, some (some true))
          else if l.detected then
            throw (.yaml
              "can not read a block mapping entry; a multiline key may not be an implicit key")
          else pure ({ state with tag := _tag, anchor := _anchor }, l, some (some true))
      match leave with
      | some r => pure (state, l, r)
      | none =>
        let (state, l) ←
          if state.line == _line || decide ((state.lineIndent : Int) > nodeIndent) then do
            let (state, composed) ←
              composeNode host fuel state nodeIndent CONTEXT_BLOCK_OUT true l.allowCompact
            let l :=
              if composed then
                if l.atExplicitKey then { l with keyNode := state.result }
                else { l with valueNode := state.result }
              else l
            let (state, l) ←
              if !l.atExplicitKey then do
                let (state, _, overridableKeys) ←
                  storeMappingPair host state _result l.overridableKeys l.keyTag l.keyNode
                    l.valueNode
                pure (state, { l with keyTag := none, keyNode := .null, valueNode := .null
                                      overridableKeys := overridableKeys })
              else pure (state, l)
            pure ((skipSeparationSpace state true (-1)).1, l)
          else pure (state, l)
        if (state.line == _line || decide ((state.lineIndent : Int) > nodeIndent))
            && state.ch != some 0 then
          throw (.yaml "bad indentation of a mapping entry")
        else if (state.lineIndent : Int) < nodeIndent then pure (state, l, none)
        else readBlockMappingLoop host fuel state nodeIndent flowIndent _tag _anchor _result l

/-- `readBlockMapping(state, nodeIndent, flowIndent)`. -/
def readBlockMapping (host : Host) : Nat → State → Int → Int → Except JSError (State × Bool)
  | 0, _, _, _ => .error .fuel
  | fuel + 1, state, nodeIndent, flowIndent => do
    if state.firstTabInLine != -1 then pure (state, false)
    else
      let _tag := state.tag
      let _anchor := state.anchor
      let (_result, heap) := state.heap.alloc (.object .objectPrototype [])
      let state := ({ state with heap := heap }).recordAnchorAs _result
      let (state, l, returned) ←
        readBlockMappingLoop host fuel state nodeIndent flowIndent _tag _anchor _result {}
      match returned with
      | some b => pure (state, b)
      | none =>
        let state ←
          if l.atExplicitKey then do
            let (state, _, _) ←
              storeMappingPair host state _result l.overridableKeys l.keyTag l.keyNode .null
            pure state
          else pure state
        if l.detected then
          pure ({ state with tag := _tag, anchor := _anchor, kind := some .mapping
                             result := _result }, true)
        else pure (state, false)

end

end Loader

namespace Loader

/-- The number a text of digits stands for (`parseInt(text, 10)`). -/
def parseDecimal (s : JSString) : Nat :=
  s.foldl (fun acc c => acc * 10 + (c - 48)) 0

/-- `handleYamlDirective(state, name, args)`. -/
def handleYamlDirective (state : State) (args : List JSString) : Except JSError State :=
  if state.version != none then .error (.yaml "duplication of %YAML directive")
  else if args.length ≠ 1 then .error (.yaml "YAML directive accepts exactly one argument")
  else
    let arg := args.headD []
    let (major, rest) := spanDigits arg
    let (minor, rest') := spanDigits (rest.drop 1)
    if major = [] ∨ rest.head? ≠ some 46 ∨ minor = [] ∨ rest' ≠ [] then
      .error (.yaml "ill-formed argument of the YAML directive")
    else if parseDecimal major ≠ 1 then
      .error (.yaml "unacceptable YAML version of the document")
    else
      let minor := parseDecimal minor
      let state := { state with version := some arg, checkLineBreaks := decide (minor < 2) }
      if minor ≠ 1 ∧ minor ≠ 2 then
        .ok (throwWarning state "unsupported YAML version of the document")
      else .ok state

/-- `handleTagDirective(state, name, args)`. -/
def handleTagDirective (state : State) (args : List JSString) : Except JSError State :=
  if args.length ≠ 2 then .error (.yaml "TAG directive accepts exactly two arguments")
  else
    let handle := args.headD []
    let pfx := (args.drop 1).headD []
    if !PATTERN_TAG_HANDLE.matches handle then
      .error (.yaml "ill-formed tag handle (first argument) of the TAG directive")
    else if (lookup state.tagMap handle).isSome then
      .error (.yaml ("there is a previously declared suffix for \"" ++ showString handle
        ++ "\" tag handle"))
    else if !PATTERN_TAG_URI.matches pfx then
      .error (.yaml "ill-formed tag prefix (second argument) of the TAG directive")
    else
      match decodeURIComponent (pfx.length + 1) pfx with
      | none => .error (.yaml ("tag prefix is malformed: " ++ showString pfx))
      | some pfx => .ok { state with tagMap := assign state.tagMap handle pfx }

/-- The loop of `readDocument` that reads the arguments of a directive. -/
def directiveArgsLoop : Nat → State → List JSString → State × List JSString
  | 0, state, args => (state, args)
  | fuel + 1, state, args =>
    if state.ch != some 0 then
      let state := advanceWhile is_WHITE_SPACE state.input.length state
      if state.ch == some 35 then
        (advanceWhile (fun ch => ch != some 0 && !is_EOL ch) state.input.length
          { state with position := state.position + 1 }, args)
      else if is_EOL state.ch then (state, args)
      else
        let _position := state.position
        let state := advanceWhile (fun ch => ch != some 0 && !is_WS_OR_EOL ch)
          state.input.length state
        directiveArgsLoop fuel state (args ++ [slice state.input _position state.position])
    else (state, args)

/-- The loop of `readDocument` over the directives; it gives the state and
`hasDirectives`. -/
def directivesLoop : Nat → State → Bool → Except JSError (State × Bool)
  | 0, _, _ => .error .fuel
  | fuel + 1, state, hasDirectives =>
    if state.ch != some 0 then
      let (state, _) := skipSeparationSpace state true (-1)
      if state.lineIndent > 0 || state.ch != some 37 then .ok (state, hasDirectives)
      else
        let state := { state with position := state.position + 1 }
        let _position := state.position
        let state := advanceWhile (fun ch => ch != some 0 && !is_WS_OR_EOL ch)
          state.input.length state
        let directiveName := slice state.input _position state.position
        if directiveName.length < 1 then
          .error (.yaml "directive name must not be less than one character in length")
        else
          let (state, directiveArgs) := directiveArgsLoop (state.input.length + 1) state []
          let broken : Except JSError State :=
            if state.ch != some 0 then readLineBreak state else .ok state
          match broken with
          | .error e => .error e
          | .ok state =>
            let handled : Except JSError State :=
              if directiveName == js "YAML" then handleYamlDirective state directiveArgs
              else if directiveName == js "TAG" then handleTagDirective state directiveArgs
              else .ok (throwWarning state
                ("unknown document directive \"" ++ showString directiveName ++ "\""))
            match handled with
            | .error e => .error e
            | .ok state => directivesLoop fuel state true
    else .ok (state, hasDirectives)

/-- `readDocument(state)`; `fuel` bounds the recursion of `composeNode`. -/
def readDocument (host : Host) (fuel : Nat) (state : State) : Except JSError State := do
  let documentStart := state.position
  let state := { state with version := none, checkLineBreaks := state.legacy
                            tagMap := [], anchorMap := [] }
  let (state, hasDirectives) ← directivesLoop (state.input.length + 1) state false
  let (state, _) := skipSeparationSpace state true (-1)
  let state ←
    if state.lineIndent == 0 && state.ch == some 45 && state.peek 1 == some 45
        && state.peek 2 == some 45 then
      pure (skipSeparationSpace { state with position := state.position + 3 } true (-1)).1
    else if hasDirectives then throw (.yaml "directives end mark is expected")
    else pure state
  let (state, _) ← composeNode host fuel state ((state.lineIndent : Int) - 1) CONTEXT_BLOCK_OUT
    false true
  let (state, _) := skipSeparationSpace state true (-1)
  let state :=
    if state.checkLineBreaks
        && PATTERN_NON_ASCII_LINE_BREAKS (slice state.input documentStart state.position) then
      throwWarning state "non-ASCII line breaks are interpreted as content"
    else state
  let state := { state with documents := state.documents ++ [state.result] }
  if state.position == state.lineStart && testDocumentSeparator state then
    if state.ch == some 46 then
      pure (skipSeparationSpace { state with position := state.position + 3 } true (-1)).1
    else pure state
  else if (state.position : Int) < (state.length : Int) - 1 then
    throw (.yaml "end of the stream or a document separator is expected")
  else pure state

/-- The loop `while (state.position < state.length - 1) readDocument(state)`. -/
def documentsLoop (host : Host) (fuel : Nat) : Nat → State → Except JSError State
  | 0, _ => .error .fuel
  | n + 1, state =>
    if (state.position : Int) < (state.length : Int) - 1 then
      match readDocument host fuel state with
      | .error e => .error e
      | .ok state => documentsLoop host fuel n state
    else .ok state

/-- `loadDocuments(input, options)`: the final state, whose `documents` are
the result.  `fuel` bounds the recursion of `composeNode` in each document and
the number of documents. -/
def loadDocuments (host : Host) (fuel : Nat) (input : JSString) (options : Options := {}) :
    Except JSError State :=
  let input :=
    if input.length ≠ 0 then
      let input :=
        if input.getLast? != some 10 && input.getLast? != some 13 then input ++ [10] else input
      if input.head? == some 65279 then input.drop 1 else input
    else input
  let state := State.new host input options
  if input.contains 0 then .error (.yaml "null byte is not allowed in input")
  else
    let state := { state with input := state.input ++ [0] }
    let state := countIndent state.input.length state
    documentsLoop host fuel fuel state

/-- `loadAll(input, iterator, options)`; `iterator` tells whether an iterator
function is given.  The result is the returned value (the documents, or
nothing with an iterator), the arguments of the iterator's calls in order, and
the heap. -/
def loadAll (host : Host) (fuel : Nat) (input : JSString) (iterator : Bool)
    (options : Options := {}) : Except JSError (Option (List JSVal) × List JSVal × Heap) :=
  match loadDocuments host fuel input options with
  | .error e => .error e
  | .ok state =>
    if !iterator then .ok (some state.documents, [], state.heap)
    else .ok (none, state.documents, state.heap)

/-- `load(input, options)`: the value returned, with the heap it lives in. -/
def load (host : Host) (fuel : Nat) (input : JSString) (options : Options := {}) :
    Except JSError (JSVal × Heap) :=
  match loadDocuments host fuel input options with
  | .error e => .error e
  | .ok state =>
    if state.documents.length = 0 then .ok (.undefined, state.heap)
    else if state.documents.length = 1 then .ok (state.documents.headD .undefined, state.heap)
    else .error (.yaml "expected a single document in the stream, but found more")

end Loader

namespace Loader

/-! ## The documents of a stream

`documentRoots` and `streamRoots` are the spec side of the contract of
`loadAll`; `Keeps` and `Ends` are the postconditions in which the lemmas on
the documents of the state are stated. -/

/-- Spec side of the contract of `loadAll`: the roots of the documents that
the loop of `loadDocuments` reads from a state, in stream order.  Each round
reads one document with `readDocument` and takes its root, the node that the
document left in `state.result`. -/
def documentRoots (host : Host) (fuel : Nat) : Nat → State → Except JSError (List JSVal)
  | 0, _ => .error .fuel
  | n + 1, state =>
    if (state.position : Int) < (state.length : Int) - 1 then
      match readDocument host fuel state with
      | .error e => .error e
      | .ok state =>
        match documentRoots host fuel n state with
        | .error e => .error e
        | .ok roots => .ok (state.result :: roots)
    else .ok []

/-- Spec side of the contract of `loadAll`: the roots of the documents of the
stream `input`, in stream order; the input is prepared as in `loadDocuments`. -/
def streamRoots (host : Host) (fuel : Nat) (input : JSString) (options : Options := {}) :
    Except JSError (List JSVal) :=
  let input :=
    if input.length ≠ 0 then
      let input :=
        if input.getLast? != some 10 && input.getLast? != some 13 then input ++ [10] else input
      if input.head? == some 65279 then input.drop 1 else input
    else input
  let state := State.new host input options
  if input.contains 0 then .error (.yaml "null byte is not allowed in input")
  else
    let state := { state with input := state.input ++ [0] }
    let state := countIndent state.input.length state
    documentRoots host fuel fuel state

/-- Postcondition `Ends Q m`: when `m` succeeds, its result satisfies `Q`. -/
structure Ends {α : Type} (Q : α → Prop) (m : Except JSError α) : Prop where
  run : ∀ w, m = .ok w → Q w

/-- The state that a result of a reader carries. -/
class HasDocs (α : Type) where
  docs : α → List JSVal

instance : HasDocs State := ⟨State.documents⟩
instance {β : Type} : HasDocs (State × β) := ⟨fun w => w.1.documents⟩

/-- Frame condition `Keeps d m`: when `m` succeeds, the documents of the state it ends in
are `d`. -/
structure Keeps {α : Type} [HasDocs α] (d : List JSVal) (m : Except JSError α) : Prop where
  run : ∀ w, m = .ok w → HasDocs.docs w = d

end Loader

/-! ## Dumper (`lib/dumper.js`)

The dumper reads the value graph from a heap that it does not change.  The
`replacer` option is a pure function of the heap, the holder, the key and the
value.  Recursion is bounded by a fuel argument (a cyclic graph dumped with
`noRefs` recurses without end); running out of fuel is `JSError.fuel`. -/

namespace Dumper

/-- The table `ESCAPE_SEQUENCES`. -/
def ESCAPE_SEQUENCES (c : Nat) : Option JSString :=
  if c = 0 then some (js "\\0") else if c = 7 then some (js "\\a")
  else if c = 8 then some (js "\\b") else if c = 9 then some (js "\\t")
  else if c = 10 then some (js "\\n") else if c = 11 then some (js "\\v")
  else if c = 12 then some (js "\\f") else if c = 13 then some (js "\\r")
  else if c = 27 then some (js "\\e") else if c = 34 then some (js "\\\"")
  else if c = 92 then some (js "\\\\") else if c = 133 then some (js "\\N")
  else if c = 160 then some (js "\\_") else if c = 8232 then some (js "\\L")
  else if c = 8233 then some (js "\\P") else none

def DEPRECATED_BOOLEANS_SYNTAX : List JSString :=
  [js "y", js "Y", js "yes", js "Yes", js "YES", js "on", js "On", js "ON",
   js "n", js "N", js "no", js "No", js "NO", js "off", js "Off", js "OFF"]

/-- `DEPRECATED_BASE60_SYNTAX`. -/
def DEPRECATED_BASE60_SYNTAX : RE :=
  RE.cat (RE.opt (RE.oneOf "-+"))
    (RE.cat (RE.plus digitOrUnderscore)
      (RE.cat (RE.plus (RE.cat (RE.chr 58) (RE.plus digitOrUnderscore)))
        (RE.opt (RE.cat (RE.chr 46) (RE.star digitOrUnderscore)))))

/-- The value of the `sortKeys` option. -/
inductive SortKeys where
  | unset
  | yes
  | compare (f : JSString → JSString → Int)
  /-- A truthy value that is neither `true` nor a function. -/
  | other

/-- The options of `dump`; `0` for `indent` and `lineWidth` and `none` for
`flowLevel` stand for an option that is not given. -/
structure Options where
  schema : Option Schema := none
  indent : Nat := 0
  noArrayIndent : Bool := false
  skipInvalid : Bool := false
  flowLevel : Option Int := none
  styles : Option (List (JSString × JSString)) := none
  sortKeys : SortKeys := .unset
  lineWidth : Int := 0
  noRefs : Bool := false
  noCompatMode : Bool := false
  condenseFlow : Bool := false
  /-- Whether `options.quotingType === '"'`. -/
  quotingDouble : Bool := false
  forceQuotes : Bool := false
  replacer : Option (Heap → JSVal → JSString → JSVal → JSVal) := none

/-- `compileStyleMap(schema, map)`. -/
def compileStyleMap (schema : Schema) : Option (List (JSString × JSString)) →
    List (JSString × JSString)
  | none => []
  | some map =>
    map.foldl (fun result entry =>
      let tag := entry.1
      let style := entry.2
      let tag := if tag.take 2 == js "!!" then js "tag:yaml.org,2002:" ++ tag.drop 2 else tag
      let style :=
        match lookup schema.compiledTypeMap.fallback tag with
        | some type => (lookup type.styleAliases style).getD style
        | none => style
      assign result tag style) []

/-- `encodeHex(character)`. -/
def encodeHex (character : Nat) : Except JSError JSString :=
  let string := upperAscii (natToString 16 character)
  if character ≤ 255 then .ok (js "\\x" ++ «repeat» [48] (2 - string.length) ++ string)
  else if character ≤ 65535 then .ok (js "\\u" ++ «repeat» [48] (4 - string.length) ++ string)
  else if character ≤ 4294967295 then
    .ok (js "\\U" ++ «repeat» [48] (8 - string.length) ++ string)
  else .error (.yaml "code point within a string may not be greater than 0xFFFFFFFF")

/-- The dumper's `State`. -/
structure State where
  schema : Schema
  indent : Nat
  noArrayIndent : Bool
  skipInvalid : Bool
  flowLevel : Int
  styleMap : List (JSString × JSString)
  sortKeys : SortKeys
  lineWidth : Int
  noRefs : Bool
  noCompatMode : Bool
  condenseFlow : Bool
  quotingType : Nat
  forceQuotes : Bool
  replacer : Option (Heap → JSVal → JSString → JSVal → JSVal)
  implicitTypes : List YType
  explicitTypes : List YType
  tag : Option JSString := none
  result : JSString := []
  duplicates : List JSVal := []
  usedDuplicates : List Bool := []
  dump : JSVal := .undefined
  heap : Heap

/-- `new State(options)`, with the heap of the value to dump. -/
def State.new (host : Host) (options : Options) (heap : Heap) : State :=
  let schema := options.schema.getD (DEFAULT_SCHEMA host)
  { schema := schema
    indent := max 1 (if options.indent = 0 then 2 else options.indent)
    noArrayIndent := options.noArrayIndent
    skipInvalid := options.skipInvalid
    flowLevel := options.flowLevel.getD (-1)
    styleMap := compileStyleMap schema options.styles
    sortKeys := options.sortKeys
    lineWidth := if options.lineWidth = 0 then 80 else options.lineWidth
    noRefs := options.noRefs
    noCompatMode := options.noCompatMode
    condenseFlow := options.condenseFlow
    quotingType := if options.quotingDouble then QUOTING_TYPE_DOUBLE else QUOTING_TYPE_SINGLE
    forceQuotes := options.forceQuotes
    replacer := options.replacer
    implicitTypes := schema.compiledImplicit
    explicitTypes := schema.compiledExplicit
    heap := heap }

/-- `indentString(string, spaces)`: every line that is not empty gets `spaces`
spaces in front. -/
def indentLines (ind : JSString) : JSString → Bool → JSString
  | [], _ => []
  | c :: cs, atLineStart =>
    if c = 10 then 10 :: indentLines ind cs true
    else if atLineStart then ind ++ c :: indentLines ind cs false
    else c :: indentLines ind cs false

/-- `indentString(string, spaces)`. -/
def indentString (string : JSString) (spaces : Nat) : JSString :=
  indentLines («repeat» [32] spaces) string true

/-- `generateNextLine(state, level)`. -/
def generateNextLine (state : State) (level : Nat) : JSString :=
  10 :: «repeat» [32] (state.indent * level)

/-- `testImplicitResolving(state, str)`. -/
def testImplicitResolving (state : State) (str : JSString) : Bool :=
  state.implicitTypes.any fun type => type.resolve state.heap (.str str) none

/-- `blockHeader(string, indentPerLevel)`. -/
def blockHeader (string : JSString) (indentPerLevel : Nat) : JSString :=
  let indentIndicator := if needIndentIndicator string then natToString 10 indentPerLevel else []
  let clip := charCodeAt string ((string.length : Int) - 1) == some 10
  let keep := clip && (charCodeAt string ((string.length : Int) - 2) == some 10
    || string == [10])
  let chomp := if keep then js "+" else if clip then [] else js "-"
  indentIndicator ++ chomp ++ [10]

/-- `dropEndingNewline(string)`. -/
def dropEndingNewline (string : JSString) : JSString :=
  if string.getLast? == some 10 then string.dropLast else string

/-- The local variables of `foldLine` that its loop updates. -/
structure FoldLocals where
  start : Nat := 0
  curr : Nat := 0
  result : JSString := []

/-- The loop of `foldLine` over the matches of `/ [^ ]/g`: `idx` runs through
the positions of the line, `rest` is the line from `idx` on. -/
def foldLineLoop (line : JSString) (width : Int) : JSString → Nat → FoldLocals → FoldLocals
  | [], _, l => l
  | [_], _, l => l
  | a :: b :: rest, idx, l =>
    if a = 32 ∧ b ≠ 32 then
      let next := idx
      let l :=
        if ((next : Int) - l.start > width) then
          let end_ := if l.curr > l.start then l.curr else next
          { l with result := l.result ++ 10 :: slice line l.start end_, start := end_ + 1 }
        else l
      foldLineLoop line width (b :: rest) (idx + 1) { l with curr := next }
    else foldLineLoop line width (b :: rest) (idx + 1) l

/-- `foldLine(line, width)`. -/
def foldLine (line : JSString) (width : Int) : JSString :=
  if line = [] ∨ line.head? = some 32 then line
  else
    let l := foldLineLoop line width line 0 {}
    let result := l.result ++ [10]
    let result :=
      if ((line.length : Int) - l.start > width) ∧ l.curr > l.start then
        result ++ slice line l.start l.curr ++ 10 :: line.drop (l.curr + 1)
      else result ++ line.drop l.start
    result.drop 1

/-- The matches of `/(\n+)([^\n]*)/g` from the first line feed on: each is a
run of line feeds with the line that follows. -/
def breakRuns : Nat → JSString → List (JSString × JSString)
  | 0, _ => []
  | _ + 1, [] => []
  | fuel + 1, s =>
    let pfx := s.takeWhile (· == 10)
    let rest := s.dropWhile (· == 10)
    let line := rest.takeWhile (· != 10)
    if pfx = [] then [] else (pfx, line) :: breakRuns fuel (rest.dropWhile (· != 10))

/-- The loop of `foldString` over the matches. -/
def foldStringLoop (width : Int) : List (JSString × JSString) → Bool → JSString → JSString
  | [], _, result => result
  | (pfx, line) :: rest, prevMoreIndented, result =>
    let moreIndented := line.head? == some 32
    let result := result ++ pfx
      ++ (if !prevMoreIndented && !moreIndented && line != [] then [10] else [])
      ++ foldLine line width
    foldStringLoop width rest moreIndented result

/-- `foldString(string, width)`. -/
def foldString (string : JSString) (width : Int) : JSString :=
  let first := string.takeWhile (· != 10)
  let result := foldLine first width
  let prevMoreIndented := string.head? == some 10 || string.head? == some 32
  foldStringLoop width (breakRuns (string.length + 1) (string.dropWhile (· != 10)))
    prevMoreIndented result

/-- The loop of `escapeString`. -/
def escapeLoop (string : JSString) : Nat → Nat → JSString → Except JSError JSString
  | 0, _, result => .ok result
  | fuel + 1, i, result =>
    if i < string.length then
      match codePointAt string i with
      | none => .ok result
      | some char =>
        let next := if char ≥ 65536 then i + 2 else i + 1
        match ESCAPE_SEQUENCES char with
        | some escapeSeq => escapeLoop string fuel next (result ++ escapeSeq)
        | none =>
          if isPrintable (some char) then
            escapeLoop string fuel next
              (result ++ slice string i (if char ≥ 65536 then i + 2 else i + 1))
          else
            match encodeHex char with
            | .error e => .error e
            | .ok hex => escapeLoop string fuel next (result ++ hex)
    else .ok result

/-- `escapeString(string)`. -/
def escapeString (string : JSString) : Except JSError JSString :=
  escapeLoop string string.length 0 []

/-- `string.replace(/'/g, "''")`. -/
def doubleQuotes (string : JSString) : JSString :=
  string.flatMap fun c => if c = 39 then [39, 39] else [c]

/-- `writeScalar(state, string, level, iskey, inblock)`: the new `state.dump`. -/
def writeScalar (state : State) (string : JSString) (level : Nat) (iskey inblock : Bool) :
    Except JSError JSString :=
  if string.length = 0 then
    .ok (if state.quotingType = QUOTING_TYPE_DOUBLE then js "\"\"" else js "''")
  else if !state.noCompatMode
      && (DEPRECATED_BOOLEANS_SYNTAX.contains string || DEPRECATED_BASE60_SYNTAX.matches string) then
    .ok (if state.quotingType = QUOTING_TYPE_DOUBLE then [34] ++ string ++ [34]
      else [39] ++ string ++ [39])
  else
    let indent := state.indent * max 1 level
    let lineWidth : Int :=
      if state.lineWidth = -1 then -1
      else max (min state.lineWidth 40) (state.lineWidth - indent)
    let singleLineOnly := iskey || (decide (state.flowLevel > -1)
      && decide ((level : Int) ≥ state.flowLevel))
    let style := chooseScalarStyle string singleLineOnly state.indent lineWidth
      (testImplicitResolving state) state.quotingType (state.forceQuotes && !iskey) inblock
    if style = STYLE_PLAIN then .ok string
    else if style = STYLE_SINGLE then .ok ([39] ++ doubleQuotes string ++ [39])
    else if style = STYLE_LITERAL then
      .ok ([124] ++ blockHeader string state.indent
        ++ dropEndingNewline (indentString string indent))
    else if style = STYLE_FOLDED then
      .ok ([62] ++ blockHeader string state.indent
        ++ dropEndingNewline (indentString (foldString string lineWidth) indent))
    else if style = STYLE_DOUBLE then
      match escapeString string with
      | .error e => .error e
      | .ok escaped => .ok ([34] ++ escaped ++ [34])
    else .error (.yaml "impossible error: invalid scalar style")

end Dumper

namespace Dumper

/-- The characters `encodeURI` leaves as they are. -/
def uriUnescaped (c : Nat) : Bool :=
  (decide (48 ≤ c) && decide (c ≤ 57)) || (decide (97 ≤ c) && decide (c ≤ 122))
    || (decide (65 ≤ c) && decide (c ≤ 90)) || (js ";/?:@&=+$,-_.!~*'()#").contains c

/-- The UTF-8 bytes of a code point. -/
def utf8Bytes (cp : Nat) : List Nat :=
  if cp < 128 then [cp]
  else if cp < 2048 then [192 + cp / 64, 128 + cp % 64]
  else if cp < 65536 then [224 + cp / 4096, 128 + cp / 64 % 64, 128 + cp % 64]
  else [240 + cp / 262144, 128 + cp / 4096 % 64, 128 + cp / 64 % 64, 128 + cp % 64]

/-- A byte as `%XX`. -/
def percentByte (b : Nat) : JSString :=
  [37, digitChar true (b / 16), digitChar true (b % 16)]

/-- `encodeURI(text)`; a surrogate that is not part of a pair is a `URIError`. -/
def encodeURI : JSString → Except JSError JSString
  | [] => .ok []
  | c :: rest =>
    if uriUnescaped c then (encodeURI rest).map (c :: ·)
    else if 56320 ≤ c ∧ c ≤ 57343 then .error (.other "URIError: URI malformed")
    else if 55296 ≤ c ∧ c ≤ 56319 then
      match rest with
      | d :: rest' =>
        if 56320 ≤ d ∧ d ≤ 57343 then
          (encodeURI rest').map
            (((utf8Bytes ((c - 55296) * 1024 + (d - 56320) + 65536)).flatMap percentByte) ++ ·)
        else .error (.other "URIError: URI malformed")
      | [] => .error (.other "URIError: URI malformed")
    else (encodeURI rest).map (((utf8Bytes c).flatMap percentByte) ++ ·)

/-- The text a value contributes to a string concatenation. -/
def textOf (host : Host) (heap : Heap) : JSVal → JSString
  | .str s => s
  | v => Loader.stringOfScalar host heap v

/-- The test of `detectType` on one type: the type has an `instanceOf` or a
`predicate`, and the object passes those it has. -/
def detects (state : State) (object : JSVal) (type : YType) : Bool :=
  (type.instanceOf.isSome || type.predicate.isSome)
    && (match type.instanceOf with
        | some f => f state.heap object
        | none => true)
    && (match type.predicate with
        | some f => f state.heap object
        | none => true)

/-- The loop of `detectType` over the type list. -/
def detectLoop (state : State) (object : JSVal) (explicit : Bool) :
    List YType → Except JSError (State × Bool)
  | [] => .ok (state, false)
  | type :: rest =>
    if detects state object type then
      let state :=
        if explicit then
          match type.representName with
          | some f => if type.multi then { state with tag := some (f state.heap object) }
                      else { state with tag := some type.tag }
          | none => { state with tag := some type.tag }
        else { state with tag := some (js "?") }
      match type.represent with
      | none => .ok (state, true)
      | some represent =>
        let style : Option JSString :=
          match lookup state.styleMap type.tag with
          | some s => if s != [] then some s else type.defaultStyle
          | none => type.defaultStyle
        match represent with
        | .function f =>
          match f state.heap object style with
          | .error e => .error e
          | .ok v => .ok ({ state with dump := v }, true)
        | .styles m =>
          match lookup m (style.getD (js "null")) with
          | some f =>
            match f state.heap object with
            | .error e => .error e
            | .ok v => .ok ({ state with dump := v }, true)
          | none =>
            .error (.yaml ("!<" ++ Loader.showString type.tag ++ "> tag resolver accepts not \""
              ++ Loader.showString (style.getD (js "null")) ++ "\" style"))
    else detectLoop state object explicit rest

/-- `detectType(state, object, explicit)`. -/
def detectType (state : State) (object : JSVal) (explicit : Bool) :
    Except JSError (State × Bool) :=
  detectLoop state object explicit (if explicit then state.explicitTypes else state.implicitTypes)

/-- `array.indexOf(v)`: `none` is `-1`. -/
def indexOf? (xs : List JSVal) (v : JSVal) : Option Nat :=
  let i := xs.indexOf v
  if i < xs.length then some i else none

/-- Whether `a` comes before `b` in the order of `Array.prototype.sort`
without a comparator (code units compared one by one). -/
def keyLe : JSString → JSString → Bool
  | [], _ => true
  | _ :: _, [] => false
  | a :: as, b :: bs => if a < b then true else if b < a then false else keyLe as bs

/-- Insertion into a sorted list, after the items that are not greater. -/
def insertSorted (le : JSString → JSString → Bool) (k : JSString) : List JSString → List JSString
  | [] => [k]
  | x :: xs => if le x k then x :: insertSorted le k xs else k :: x :: xs

/-- A stable sort. -/
def sortKeysBy (le : JSString → JSString → Bool) (keys : List JSString) : List JSString :=
  keys.foldl (fun sorted k => insertSorted le k sorted) []

/-- The key list `writeBlockMapping` walks through: `Object.keys(object)`,
sorted as `state.sortKeys` asks. -/
def blockMappingKeys (state : State) (object : JSVal) : Except JSError (List JSString) :=
  let objectKeyList := objectKeys state.heap object
  match state.sortKeys with
  | .unset => .ok objectKeyList
  | .yes => .ok (sortKeysBy keyLe objectKeyList)
  | .compare f => .ok (sortKeysBy (fun a b => decide (f a b ≤ 0)) objectKeyList)
  | .other => .error (.yaml "sortKeys must be a boolean or a function")

/-- The tag annotation of `writeNode` for a tag. -/
def tagAnnotation (tag : JSString) : Except JSError JSString :=
  match encodeURI (if tag.head? == some 33 then tag.drop 1 else tag) with
  | .error e => .error e
  | .ok encoded =>
    let tagStr := encoded.flatMap fun c => if c = 33 then js "%21" else [c]
    if tag.head? == some 33 then .ok (33 :: tagStr)
    else if tagStr.take 18 == js "tag:yaml.org,2002:" then .ok (js "!!" ++ tagStr.drop 18)
    else .ok (js "!<" ++ tagStr ++ js ">")

/-- Whether `state.dump` is a string that starts with a line feed. -/
def startsWithLineFeed : JSVal → Bool
  | .str (c :: _) => c == CHAR_LINE_FEED
  | _ => false

/-- The value the replacer gives, if there is a replacer. -/
def State.replace (state : State) (holder : JSVal) (key : JSString) (value : JSVal) : JSVal :=
  match state.replacer with
  | some f => f state.heap holder key value
  | none => value

mutual

/-- `writeNode(state, level, object, block, compact, iskey, isblockseq)`. -/
def writeNode (host : Host) : Nat → State → Nat → JSVal → Bool → Bool → Bool → Bool →
    Except JSError (State × Bool)
  | 0, _, _, _, _, _, _, _ => .error .fuel
  | fuel + 1, state, level, object, block, compact, iskey, isblockseq => do
    let state := { state with tag := none, dump := object }
    let (state, found) ← detectType state object false
    let (state, _) ← if !found then detectType state object true else pure (state, true)
    let type := classOf state.heap state.dump
    let inblock := block
    let block := if block then decide (state.flowLevel < 0)
      || decide (state.flowLevel > (level : Int)) else block
    let objectOrArray := type == .object || type == .array
    let duplicateIndex : Option Nat :=
      if objectOrArray then indexOf? state.duplicates object else none
    let duplicate := duplicateIndex.isSome
    let compact :=
      if (state.tag != none && state.tag != some (js "?")) || duplicate
          || (state.indent != 2 && level > 0) then false
      else compact
    let used := match duplicateIndex with
      | some i => state.usedDuplicates.getD i false
      | none => false
    if duplicate && used then
      pure ({ state with dump := .str (js "*ref_" ++ natToString 10 (duplicateIndex.getD 0)) },
        true)
    else
      let state := match duplicateIndex with
        | some i => { state with usedDuplicates := state.usedDuplicates.set i true }
        | none => state
      let anchor (sep : JSString) (state : State) : State :=
        match duplicateIndex with
        | some i =>
          { state with dump := .str (js "&ref_" ++ natToString 10 i ++ sep
              ++ textOf host state.heap state.dump) }
        | none => state
      let written : Option State ←
        if type == .object then
          if block && (objectKeys state.heap state.dump).length != 0 then do
            let state ← writeBlockMapping host fuel state level state.dump compact
            pure (some (anchor [] state))
          else do
            let state ← writeFlowMapping host fuel state level state.dump
            pure (some (anchor [32] state))
        else if type == .array then
          if block && (arrayItems state.heap state.dump).length != 0 then do
            let state ←
              if state.noArrayIndent && !isblockseq && level > 0 then
                writeBlockSequence host fuel state (level - 1) state.dump compact
              else writeBlockSequence host fuel state level state.dump compact
            pure (some (anchor [] state))
          else do
            let state ← writeFlowSequence host fuel state level state.dump
            pure (some (anchor [32] state))
        else if type == .string then
          if state.tag != some (js "?") then do
            let text ← writeScalar state (textOf host state.heap state.dump) level iskey inblock
            pure (some { state with dump := .str text })
          else pure (some state)
        else if type == .undefined then pure none
        else if state.skipInvalid then pure none
        else throw (.yaml ("unacceptable kind of an object to dump " ++ type.text))
      match written with
      | none => pure (state, false)
      | some state =>
        match state.tag with
        | some tag =>
          if tag != js "?" then do
            let tagStr ← tagAnnotation tag
            pure ({ state with dump := .str (tagStr ++ [32] ++ textOf host state.heap state.dump) },
              true)
          else pure (state, true)
        | none => pure (state, true)

/-- The loop of `writeFlowSequence`. -/
def writeFlowSequenceLoop (host : Host) : Nat → State → Nat → JSVal → List JSVal → Nat →
    JSString → Except JSError (State × JSString)
  | 0, _, _, _, _, _, _ => .error .fuel
  | _ + 1, state, _, _, [], _, _result => .ok (state, _result)
  | fuel + 1, state, level, object, value :: rest, index, _result => do
    let value := state.replace object (natToString 10 index) value
    let (state, ok) ← writeNode host fuel state level value false false false false
    let (state, ok) ←
      if !ok && value == .undefined then writeNode host fuel state level .null false false false false
      else pure (state, ok)
    let _result :=
      if ok then
        (if _result != [] then _result ++ [44] ++ (if !state.condenseFlow then [32] else [])
          else _result) ++ textOf host state.heap state.dump
      else _result
    writeFlowSequenceLoop host fuel state level object rest (index + 1) _result

/-- `writeFlowSequence(state, level, object)`. -/
def writeFlowSequence (host : Host) : Nat → State → Nat → JSVal → Except JSError State
  | 0, _, _, _ => .error .fuel
  | fuel + 1, state, level, object => do
    let _tag := state.tag
    let (state, _result) ←
      writeFlowSequenceLoop host fuel state level object (arrayItems state.heap object) 0 []
    pure { state with tag := _tag, dump := .str ([91] ++ _result ++ [93]) }

/-- The loop of `writeBlockSequence`. -/
def writeBlockSequenceLoop (host : Host) : Nat → State → Nat → JSVal → Bool → List JSVal →
    Nat → JSString → Except JSError (State × JSString)
  | 0, _, _, _, _, _, _, _ => .error .fuel
  | _ + 1, state, _, _, _, [], _, _result => .ok (state, _result)
  | fuel + 1, state, level, object, compact, value :: rest, index, _result => do
    let value := state.replace object (natToString 10 index) value
    let (state, ok) ← writeNode host fuel state (level + 1) value true true false true
    let (state, ok) ←
      if !ok && value == .undefined then
        writeNode host fuel state (level + 1) .null true true false true
      else pure (state, ok)
    let _result :=
      if ok then
        let _result :=
          if !compact || _result != [] then _result ++ generateNextLine state level else _result
        let _result :=
          if startsWithLineFeed state.dump then _result ++ [45] else _result ++ [45, 32]
        _result ++ textOf host state.heap state.dump
      else _result
    writeBlockSequenceLoop host fuel state level object compact rest (index + 1) _result

/-- `writeBlockSequence(state, level, object, compact)`. -/
def writeBlockSequence (host : Host) : Nat → State → Nat → JSVal → Bool → Except JSError State
  | 0, _, _, _, _ => .error .fuel
  | fuel + 1, state, level, object, compact => do
    let _tag := state.tag
    let (state, _result) ←
      writeBlockSequenceLoop host fuel state level object compact (arrayItems state.heap object)
        0 []
    pure { state with tag := _tag, dump := .str (if _result != [] then _result else js "[]") }

/-- The loop of `writeFlowMapping`. -/
def writeFlowMappingLoop (host : Host) : Nat → State → Nat → JSVal → List JSString →
    JSString → Except JSError (State × JSString)
  | 0, _, _, _, _, _ => .error .fuel
  | _ + 1, state, _, _, [], _result => .ok (state, _result)
  | fuel + 1, state, level, object, objectKey :: rest, _result => do
    let pairBuffer : JSString := if _result != [] then js ", " else []
    let pairBuffer := if state.condenseFlow then pairBuffer ++ [34] else pairBuffer
    let objectValue := state.replace object objectKey (getProperty state.heap object objectKey)
    let (state, ok) ← writeNode host fuel state level (.str objectKey) false false false false
    if !ok then writeFlowMappingLoop host fuel state level object rest _result
    else
      let key := textOf host state.heap state.dump
      let pairBuffer := if key.length > 1024 then pairBuffer ++ js "? " else pairBuffer
      let pairBuffer := pairBuffer ++ key ++ (if state.condenseFlow then [34] else []) ++ [58]
        ++ (if state.condenseFlow then [] else [32])
      let (state, ok) ← writeNode host fuel state level objectValue false false false false
      if !ok then writeFlowMappingLoop host fuel state level object rest _result
      else
        writeFlowMappingLoop host fuel state level object rest
          (_result ++ pairBuffer ++ textOf host state.heap state.dump)

/-- `writeFlowMapping(state, level, object)`. -/
def writeFlowMapping (host : Host) : Nat → State → Nat → JSVal → Except JSError State
  | 0, _, _, _ => .error .fuel
  | fuel + 1, state, level, object => do
    let _tag := state.tag
    let (state, _result) ←
      writeFlowMappingLoop host fuel state level object (objectKeys state.heap object) []
    pure { state with tag := _tag, dump := .str ([123] ++ _result ++ [125]) }

/-- The loop of `writeBlockMapping`. -/
def writeBlockMappingLoop (host : Host) : Nat → State → Nat → JSVal → Bool → List JSString →
    JSString → Except JSError (State × JSString)
  | 0, _, _, _, _, _, _ => .error .fuel
  | _ + 1, state, _, _, _, [], _result => .ok (state, _result)
  | fuel + 1, state, level, object, compact, objectKey :: rest, _result => do
    let pairBuffer : JSString :=
      if !compact || _result != [] then generateNextLine state level else []
    let objectValue := state.replace object objectKey (getProperty state.heap object objectKey)
    let (state, ok) ← writeNode host fuel state (level + 1) (.str objectKey) true true true false
    if !ok then writeBlockMappingLoop host fuel state level object compact rest _result
    else
      let key := textOf host state.heap state.dump
      let explicitPair := (state.tag != none && state.tag != some (js "?"))
        || (key != [] && key.length > 1024)
      let pairBuffer :=
        if explicitPair then
          if startsWithLineFeed state.dump then pairBuffer ++ [63] else pairBuffer ++ [63, 32]
        else pairBuffer
      let pairBuffer := pairBuffer ++ key
      let pairBuffer := if explicitPair then pairBuffer ++ generateNextLine state level
        else pairBuffer
      let (state, ok) ←
        writeNode host fuel state (level + 1) objectValue true explicitPair false false
      if !ok then writeBlockMappingLoop host fuel state level object compact rest _result
      else
        let pairBuffer :=
          if startsWithLineFeed state.dump then pairBuffer ++ [58] else pairBuffer ++ [58, 32]
        writeBlockMappingLoop host fuel state level object compact rest
          (_result ++ pairBuffer ++ textOf host state.heap state.dump)

/-- `writeBlockMapping(state, level, object, compact)`. -/
def writeBlockMapping (host : Host) : Nat → State → Nat → JSVal → Bool → Except JSError State
  | 0, _, _, _, _ => .error .fuel
  | fuel + 1, state, level, object, compact => do
    let _tag := state.tag
    let objectKeyList ← blockMappingKeys state object
    let (state, _result) ←
      writeBlockMappingLoop host fuel state level object compact objectKeyList []
    pure { state with tag := _tag, dump := .str (if _result != [] then _result else js "{}") }

end

/-- Whether `inspectNode` looks into a value: `object !== null && typeof object
=== "object"`. -/
def isInspected : JSVal → Bool
  | .ref _ => true
  | _ => false

/-- The children `inspectNode` visits: the items of an array, the values of
the own keys of another object. -/
def childrenOf (heap : Heap) (object : JSVal) : List JSVal :=
  if isArray heap object then arrayItems heap object
  else (objectKeys heap object).map (getProperty heap object)

/-- `inspectNode` on a list of pending values: the first is inspected, its
children are put in front of the others (depth first), until none is left.
The result is `objects` and `duplicatesIndexes`. -/
def inspectNodes (heap : Heap) : Nat → List JSVal → List JSVal → List Nat →
    Option (List JSVal × List Nat)
  | 0, _, _, _ => none
  | _ + 1, [], objects, duplicatesIndexes => some (objects, duplicatesIndexes)
  | fuel + 1, object :: pending, objects, duplicatesIndexes =>
    if isInspected object then
      match indexOf? objects object with
      | some index =>
        inspectNodes heap fuel pending objects
          (if duplicatesIndexes.contains index then duplicatesIndexes
           else duplicatesIndexes ++ [index])
      | none =>
        inspectNodes heap fuel (childrenOf heap object ++ pending) (objects ++ [object])
          duplicatesIndexes
    else inspectNodes heap fuel pending objects duplicatesIndexes

/-- `inspectNode(object, objects, duplicatesIndexes)`. -/
def inspectNode (heap : Heap) (fuel : Nat) (object : JSVal) (objects : List JSVal)
    (duplicatesIndexes : List Nat) : Option (List JSVal × List Nat) :=
  inspectNodes heap fuel [object] objects duplicatesIndexes

/-- `getDuplicateReferences(object, state)`. -/
def getDuplicateReferences (fuel : Nat) (object : JSVal) (state : State) : Except JSError State :=
  match inspectNode state.heap fuel object [] [] with
  | none => .error .fuel
  | some (objects, duplicatesIndexes) =>
    .ok { state with
      duplicates := state.duplicates ++ duplicatesIndexes.map (fun i => objects.getD i .undefined)
      usedDuplicates := List.replicate duplicatesIndexes.length false }

/-- `dump(input, options)` for a value `input` of the heap `heap`. -/
def dump (host : Host) (fuel : Nat) (heap : Heap) (input : JSVal) (options : Options := {}) :
    Except JSError JSString := do
  let state := State.new host options heap
  let state ← if !state.noRefs then getDuplicateReferences fuel input state else pure state
  let holder := JSVal.undefined
  let value := state.replace holder [] input
  let (state, ok) ← writeNode host fuel state 0 value true true false false
  if ok then pure (textOf host state.heap state.dump ++ [10]) else pure []

end Dumper

/-! ## The walk of `inspectNode` -/

namespace Dumper

/-- The objects with which `inspectNode` is called in the course of
`inspectNodes`, in the order of the calls (a call with a value that is no object
is left out); `none` when the recursion bound is reached. -/
def inspectedCalls (heap : Heap) : Nat → List JSVal → List JSVal → Option (List JSVal)
  | 0, _, _ => none
  | _ + 1, [], _ => some []
  | fuel + 1, object :: pending, objects =>
    if isInspected object then
      match indexOf? objects object with
      | some _ => (inspectedCalls heap fuel pending objects).map (fun calls => object :: calls)
      | none =>
        (inspectedCalls heap fuel (childrenOf heap object ++ pending) (objects ++ [object])).map
          (fun calls => object :: calls)
    else inspectedCalls heap fuel pending objects

/-- The items of a list that stand at their second occurrence, in order:
`seen` is the part of the list that comes before. -/
def secondOccurrences : List JSVal → List JSVal → List JSVal
  | _, [] => []
  | seen, x :: xs =>
    if seen.count x = 1 then x :: secondOccurrences (seen ++ [x]) xs
    else secondOccurrences (seen ++ [x]) xs

/-- The number of children of the objects of the heap that are not in
`objects`. -/
def childrenLeft (heap : Heap) (objects : List JSVal) (addresses : List Nat) : Nat :=
  ((addresses.filter (fun a => decide (JSVal.ref a ∉ objects))).map
    (fun a => (childrenOf heap (.ref a)).length)).sum

/-- The number of children of all objects of the heap. -/
def childCount (heap : Heap) : Nat := childrenLeft heap [] (List.range heap.length)

/-- The objects the indexes of `duplicatesIndexes` stand for. -/
def duplicatesOf (objects : List JSVal) (duplicatesIndexes : List Nat) : List JSVal :=
  duplicatesIndexes.map (fun i => objects.getD i .undefined)

/-- The values an object of the heap holds: the items of an array and the
values of the own properties of a plain object. -/
def heldValues (heap : Heap) : JSVal → List JSVal
  | .ref a =>
    match heap[a]? with
    | some (.array items) => items
    | some (.object _ props) => props.map Prod.snd
    | _ => []
  | _ => []

/-- The objects of a graph: the objects among `roots`, and the objects among
the children of an object of the graph. -/
inductive GraphFrom (children : JSVal → List JSVal) (roots : List JSVal) : JSVal → Prop
  | root (r : JSVal) : r ∈ roots → isInspected r = true → GraphFrom children roots r
  | child (y x : JSVal) : GraphFrom children roots y → x ∈ children y →
      isInspected x = true → GraphFrom children roots x

/-- The number of times the graph of `root` leads to `x`: once when `x` is the
root, and once for every place among the values held by the objects of the
graph (`objects` lists them) where `x` stands. -/
def encounters (heap : Heap) (root : JSVal) (objects : List JSVal) (x : JSVal) : Nat :=
  (if x = root then 1 else 0) + (objects.map (fun y => (heldValues heap y).count x)).sum

/-- Whether no plain object of the heap has a key twice. -/
def keysDistinct (heap : Heap) : Bool :=
  heap.all (fun o =>
    match o with
    | .object _ props => decide (props.map Prod.fst).Nodup
    | _ => true)

end Dumper

/-! ## Snippets of the source around a mark (`lib/snippet.js`) -/

namespace Snippet

/-- A mark of the loader: the buffer, a position in it and the number of the
line (the name and the column play no part in the snippet). -/
structure Mark where
  buffer : JSString
  position : Nat
  line : Nat

/-- The options of `makeSnippet`; an option that is not given is `none`. -/
structure Options where
  maxLength : Option Nat := none
  indent : Option Nat := none
  linesBefore : Option Nat := none
  linesAfter : Option Nat := none

/-- An index of `String.prototype.slice`, brought into the range of the
string: a negative index counts from the end. -/
def clampIndex (length : Nat) (k : Int) : Nat :=
  if k < 0 then ((length : Int) + k).toNat else min k.toNat length

/-- `string.slice(start, end)`, the end being left out when it is
`undefined`. -/
def jsSlice (s : JSString) (start : Int) (end_ : Option Int) : JSString :=
  let from_ := clampIndex s.length start
  let to_ := match end_ with
    | some e => clampIndex s.length e
    | none => s.length
  (s.drop from_).take (to_ - from_)

/-- The result of `getLine`: the text and the relative position. -/
structure Line where
  str : JSString
  pos : Int

/-- `getLine(buffer, lineStart, lineEnd, position, maxLineLength)`; `lineEnd`
is `undefined` for a line without end. -/
def getLine (buffer : JSString) (lineStart : Int) (lineEnd : Option Int) (position : Int)
    (maxLineLength : Int) : Line :=
  let maxHalfLength : Int := maxLineLength / 2 - 1
  let (head, lineStart) :=
    if position - lineStart > maxHalfLength then
      (js " ... ", position - maxHalfLength + (js " ... ").length)
    else (([] : JSString), lineStart)
  let (tail, lineEnd) :=
    match lineEnd with
    | some e =>
      if e - position > maxHalfLength then
        (js " ...", some (position + maxHalfLength - (js " ...").length))
      else (([] : JSString), some e)
    | none => (([] : JSString), none)
  { str := head ++ (jsSlice buffer lineStart lineEnd).map (fun c => if c = 9 then 8594 else c)
      ++ tail
    pos := position - lineStart + head.length }

/-- `padStart(string, max)`. -/
def padStart (string : JSString) (max : Nat) : JSString :=
  «repeat» [32] (max - string.length) ++ string

/-- The local variables of `makeSnippet` that its first loop updates. -/
structure Lines where
  lineStarts : List Nat := [0]
  lineEnds : List Nat := []
  foundLineNo : Option Nat := none

/-- The body of the loop of `makeSnippet` over the matches of
`/\r?\n|\r|\0/g`, for a match of the given length at `index`. -/
def Lines.found (l : Lines) (position : Nat) (index : Nat) (length : Nat) : Lines :=
  { lineEnds := l.lineEnds ++ [index]
    lineStarts := l.lineStarts ++ [index + length]
    foundLineNo :=
      if position ≤ index ∧ l.foundLineNo = none then some (l.lineStarts.length + 1 - 2)
      else l.foundLineNo }

/-- The loop of `makeSnippet` over the matches of `/\r?\n|\r|\0/g`: the
list is the buffer from `index` on, and `skip` says that its first unit is the
line feed of a match that began one unit earlier. -/
def scanLines (position : Nat) : JSString → Nat → Bool → Lines → Lines
  | [], _, _, l => l
  | c :: rest, index, skip, l =>
    if skip then scanLines position rest (index + 1) false l
    else if c = 13 ∧ rest.head? = some 10 then
      scanLines position rest (index + 1) true (l.found position index 2)
    else if c = 10 ∨ c = 13 ∨ c = 0 then
      scanLines position rest (index + 1) false (l.found position index 1)
    else scanLines position rest (index + 1) false l

/-- The decimal text of a line number. -/
def lineNumber (host : Host) (n : Int) : JSString := intToString host 10 n

/-- The first loop over `i` of `makeSnippet`: the lines before the mark, put
in front of the result one after the other. -/
def linesBefore (host : Host) (mark : Mark) (lines : Lines) (foundLineNo : Nat) (indent : Nat)
    (lineNoLength : Nat) (maxLineLength : Int) : Nat → Nat → JSString → JSString
  | 0, _, result => result
  | fuel + 1, i, result =>
    if (foundLineNo : Int) - i < 0 then result
    else
      let line := getLine mark.buffer (lines.lineStarts.getD (foundLineNo - i) 0)
        ((lines.lineEnds[foundLineNo - i]?).map Int.ofNat)
        ((mark.position : Int) - ((lines.lineStarts.getD foundLineNo 0 : Nat)
          - (lines.lineStarts.getD (foundLineNo - i) 0 : Nat)))
        maxLineLength
      linesBefore host mark lines foundLineNo indent lineNoLength maxLineLength fuel (i + 1)
        («repeat» [32] indent
          ++ padStart (lineNumber host ((mark.line : Int) - i + 1)) lineNoLength
          ++ js " | " ++ line.str ++ [10] ++ result)

/-- The second loop over `i` of `makeSnippet`: the lines after the mark. -/
def linesAfter (host : Host) (mark : Mark) (lines : Lines) (foundLineNo : Nat) (indent : Nat)
    (lineNoLength : Nat) (maxLineLength : Int) : Nat → Nat → JSString → JSString
  | 0, _, result => result
  | fuel + 1, i, result =>
    if foundLineNo + i ≥ lines.lineEnds.length then result
    else
      let line := getLine mark.buffer (lines.lineStarts.getD (foundLineNo + i) 0)
        ((lines.lineEnds[foundLineNo + i]?).map Int.ofNat)
        ((mark.position : Int) - ((lines.lineStarts.getD foundLineNo 0 : Nat)
          - (lines.lineStarts.getD (foundLineNo + i) 0 : Nat)))
        maxLineLength
      linesAfter host mark lines foundLineNo indent lineNoLength maxLineLength fuel (i + 1)
        (result ++ «repeat» [32] indent
          ++ padStart (lineNumber host ((mark.line : Int) + i + 1)) lineNoLength
          ++ js " | " ++ line.str ++ [10])

/-- `makeSnippet(mark, options)`; `none` is `null`. -/
def makeSnippet (host : Host) (mark : Mark) (options : Options := {}) : Option JSString :=
  if mark.buffer = [] then none
  else
    let maxLength := if options.maxLength.getD 0 = 0 then 79 else options.maxLength.getD 0
    let indent := options.indent.getD 1
    let before := options.linesBefore.getD 3
    let after := options.linesAfter.getD 2
    let lines := scanLines mark.position mark.buffer 0 false {}
    let foundLineNo := lines.foundLineNo.getD (lines.lineStarts.length - 1)
    let lineNoLength :=
      (lineNumber host ((min (mark.line + after) lines.lineEnds.length : Nat) : Int)).length
    let maxLineLength : Int := (maxLength : Int) - ((indent : Int) + lineNoLength + 3)
    let result := linesBefore host mark lines foundLineNo indent lineNoLength maxLineLength
      before 1 []
    let line := getLine mark.buffer (lines.lineStarts.getD foundLineNo 0)
      ((lines.lineEnds[foundLineNo]?).map Int.ofNat) mark.position maxLineLength
    let result := result ++ «repeat» [32] indent
      ++ padStart (lineNumber host ((mark.line : Int) + 1)) lineNoLength
      ++ js " | " ++ line.str ++ [10]
    let result := result
      ++ «repeat» [45] ((indent : Int) + lineNoLength + 3 + line.pos).toNat ++ js "^\n"
    let result := linesAfter host mark lines foundLineNo indent lineNoLength maxLineLength
      after 1 result
    some (if result.getLast? = some 10 then result.dropLast else result)

/-- A unit that is not matched by `/\r?\n|\r|\0/`. -/
def noBreak (c : Nat) : Prop := c ≠ 10 ∧ c ≠ 13 ∧ c ≠ 0

/-- The invariant of the loop of `makeSnippet` over the line breaks of `buffer`,
when the loop has come to `index`: the line starts begin with `0` and are one
more than the line ends; a line end is the index of a line break, the next
line starts right after the break, and there is no break between the start of
a line and its end, nor after the last start; `foundLineNo` is the first line
whose end is not before `position`. -/
def LinesOk (buffer : JSString) (position : Nat) (index : Nat) (skip : Bool) (l : Lines) : Prop :=
  l.lineStarts[0]? = some 0
  ∧ l.lineStarts.length = l.lineEnds.length + 1
  ∧ (∀ k e, l.lineEnds[k]? = some e →
      (∃ c, buffer[e]? = some c ∧ ¬ noBreak c)
      ∧ (l.lineStarts[k + 1]? = some (e + 1)
        ∨ (l.lineStarts[k + 1]? = some (e + 2) ∧ buffer[e + 1]? = some 10))
      ∧ (∃ a, l.lineStarts[k]? = some a ∧ a ≤ e
        ∧ ∀ j c, a ≤ j → j < e → buffer[j]? = some c → noBreak c))
  ∧ (∃ a, l.lineStarts[l.lineEnds.length]? = some a
      ∧ (if skip then a = index + 1
         else a ≤ index ∧ ∀ j c, a ≤ j → j < index → buffer[j]? = some c → noBreak c))
  ∧ (l.foundLineNo = none → ∀ e ∈ l.lineEnds, e < position)
  ∧ (∀ k, l.foundLineNo = some k →
      ∃ e, l.lineEnds[k]? = some e ∧ position ≤ e
        ∧ ∀ k1 e1, k1 < k → l.lineEnds[k1]? = some e1 → e1 < position)

end Snippet

/-! ## The file-system shim (`fs.js`) -/

namespace Fs

/-- The built-in functions that `readFile` calls, where the language leaves
their result to the object at hand or to the implementation.  A thrown error
is given by its message. -/
structure Builtins where
  /-- `String(v)` for an object. -/
  objectToString : Heap → Nat → Except JSString JSString
  /-- `String(v)` for a number or a function. -/
  primitiveToString : JSVal → JSString
  /-- `JSON.stringify(v)` for an object; `none` is `undefined`. -/
  objectStringify : Heap → Nat → Except JSString (Option JSString)
  /-- `JSON.stringify(v)` for a number or a string. -/
  primitiveStringify : JSVal → JSString
  /-- The message of the `TypeError` of reading a property of `undefined`. -/
  undefinedProperty : JSString

/-- `String(v)`. -/
def toStr (b : Builtins) (heap : Heap) : JSVal → Except JSString JSString
  | .undefined => .ok (js "undefined")
  | .null => .ok (js "null")
  | .bool true => .ok (js "true")
  | .bool false => .ok (js "false")
  | .str s => .ok s
  | .ref a => b.objectToString heap a
  | v => .ok (b.primitiveToString v)

/-- `JSON.stringify(v)`; `none` is `undefined`. -/
def stringify (b : Builtins) (heap : Heap) : JSVal → Except JSString (Option JSString)
  | .undefined => .ok none
  | .fn _ => .ok none
  | .null => .ok (some (js "null"))
  | .bool true => .ok (some (js "true"))
  | .bool false => .ok (some (js "false"))
  | .ref a => b.objectStringify heap a
  | v => .ok (some (b.primitiveStringify v))

/-- A settled promise: resolved with a string, or rejected with an error of
the given message. -/
inductive Settled where
  | resolved (value : JSString)
  | rejected (message : JSString)
  deriving DecidableEq, Repr

/-- `typeof v === "string"`. -/
def isString : JSVal → Bool
  | .str _ => true
  | _ => false

/-- `string.startsWith(c)` for a single unit `c`. -/
def startsWith (s : JSString) (c : Nat) : Bool := s.head? == some c

/-- `fs.promises.readFile(filePath)`: the promise the asynchronous function
returns, once settled.  The messages written to the console are left out. -/
def readFile (b : Builtins) (heap : Heap) (filePath : JSVal) : Settled :=
  match toStr b heap filePath with
  | .error message => .rejected message
  | .ok pathStr =>
    if !isString filePath then
      match stringify b heap filePath with
      | .ok (some jsonContent) => .resolved jsonContent
      | .ok none =>
        .rejected (js "[API2SDK FS Shim] Could not serialize object passed to readFile: "
          ++ b.undefinedProperty)
      | .error message =>
        .rejected (js "[API2SDK FS Shim] Could not serialize object passed to readFile: "
          ++ message)
    else if filePath == .str [] || startsWith pathStr 123 || startsWith pathStr 91 then
      .resolved pathStr
    else
      .rejected (js "[API2SDK FS Shim] File system access not available for path: " ++ pathStr)

end Fs

/-! ## Lemmas on the scanning loops of `chooseScalarStyle` -/

namespace Dumper

theorem charCodeAt_append (pre suf : JSString) :
    charCodeAt (pre ++ suf) (pre.length : Int) = suf.head? := by
  unfold charCodeAt
  have h : ¬ ((pre.length : Int) < 0) := by omega
  simp only [h, if_false, Int.toNat_ofNat]
  rw [List.getElem?_append_right (Nat.le_refl _)]
  cases suf <;> simp

theorem charCodeAt_append_succ (pre suf : JSString) :
    charCodeAt (pre ++ suf) ((pre.length : Int) + 1) = suf[1]? := by
  unfold charCodeAt
  have h : ¬ ((pre.length : Int) + 1 < 0) := by omega
  have h2 : ((pre.length : Int) + 1).toNat = pre.length + 1 := by omega
  simp only [h, if_false, h2]
  rw [List.getElem?_append_right (Nat.le_succ _)]
  simp

/-- The code point that starts a suffix of the string. -/
def cpHead : JSString → Option Nat
  | [] => none
  | [a] => some a
  | a :: b :: _ =>
    if a ≥ 55296 ∧ a ≤ 56319 ∧ b ≥ 56320 ∧ b ≤ 57343 then
      some ((a - 55296) * 1024 + b - 56320 + 65536)
    else some a

theorem codePointAt_append (pre suf : JSString) :
    codePointAt (pre ++ suf) (pre.length : Int) = cpHead suf := by
  unfold codePointAt
  rw [charCodeAt_append, charCodeAt_append_succ]
  match suf with
  | [] => simp [cpHead]
  | [a] =>
    have : ¬ ((pre.length : Int) + 1 < ((pre ++ [a]).length : Int)) := by
      simp
    simp [cpHead, this]
  | a :: b :: rest =>
    have : ((pre.length : Int) + 1 < ((pre ++ a :: b :: rest).length : Int)) := by
      simp only [List.length_append, List.length_cons]; push_cast; omega
    simp only [List.head?_cons, cpHead, this, and_true]
    by_cases h1 : a ≥ 55296 ∧ a ≤ 56319
    · by_cases h2 : b ≥ 56320 ∧ b ≤ 57343
      · simp [h1, h2]
      · have : ¬ (a ≥ 55296 ∧ a ≤ 56319 ∧ b ≥ 56320 ∧ b ≤ 57343) := by tauto
        simp [h1, h2, this]
    · have : ¬ (a ≥ 55296 ∧ a ≤ 56319 ∧ b ≥ 56320 ∧ b ≤ 57343) := by tauto
      simp [h1, this]

theorem codePoints_cons_single (u : Nat) (t : JSString)
    (h : ¬ (u ≥ 55296 ∧ u ≤ 56319)) : codePoints (u :: t) = u :: codePoints t := by
  cases t with
  | nil => simp [codePoints]
  | cons b t' =>
    have : ¬ (u ≥ 55296 ∧ u ≤ 56319 ∧ b ≥ 56320 ∧ b ≤ 57343) := by tauto
    simp [codePoints, this]

theorem cpHead_cons_single (u : Nat) (t : JSString)
    (h : ¬ (u ≥ 55296 ∧ u ≤ 56319)) : cpHead (u :: t) = some u := by
  cases t with
  | nil => simp [cpHead]
  | cons b t' =>
    have : ¬ (u ≥ 55296 ∧ u ≤ 56319 ∧ b ≥ 56320 ∧ b ≤ 57343) := by tauto
    simp [cpHead, this]

/-- How a non-empty suffix starts: with one code unit standing for itself, or
with a surrogate pair. -/
theorem cp_decomp (u : Nat) (t : JSString) (hu : u < 65536) :
    (cpHead (u :: t) = some u ∧ codePoints (u :: t) = u :: codePoints t)
    ∨ (∃ b t' cp, t = b :: t' ∧ cpHead (u :: t) = some cp
        ∧ codePoints (u :: t) = cp :: codePoints t' ∧ cp ≥ 65536 ∧ u ≠ 10 ∧ b ≠ 10) := by
  cases t with
  | nil => left; simp [cpHead, codePoints]
  | cons b t' =>
    by_cases h : u ≥ 55296 ∧ u ≤ 56319 ∧ b ≥ 56320 ∧ b ≤ 57343
    · right
      refine ⟨b, t', (u - 55296) * 1024 + b - 56320 + 65536, rfl, ?_, ?_, ?_, ?_, ?_⟩
      · simp [cpHead, h]
      · simp [codePoints, h]
      · omega
      · omega
      · omega
    · left
      simp [cpHead, codePoints, h]

theorem splitLines_noLF (cur : JSString) (h : 10 ∉ cur) : splitLines cur = [cur] := by
  induction cur with
  | nil => rfl
  | cons c cs ih =>
    have hc : c ≠ 10 := fun e => h (by simp [e])
    have hcs : 10 ∉ cs := fun e => h (by simp [e])
    simp [splitLines, hc, ih hcs]

theorem splitLines_append_LF (cur t : JSString) (h : 10 ∉ cur) :
    splitLines (cur ++ 10 :: t) = cur :: splitLines t := by
  induction cur with
  | nil => simp [splitLines]
  | cons c cs ih =>
    have hc : c ≠ 10 := fun e => h (by simp [e])
    have hcs : 10 ∉ cs := fun e => h (by simp [e])
    simp [splitLines, hc, ih hcs]

theorem mem_codePoints_LF_aux : ∀ (n : Nat) (s : JSString), s.length ≤ n →
    (∀ u ∈ s, u < 65536) → (10 ∈ codePoints s ↔ 10 ∈ s) := by
  intro n
  induction n with
  | zero =>
    intro s hn _
    have : s = [] := List.length_eq_zero.mp (Nat.le_zero.mp hn)
    subst this; simp [codePoints]
  | succ n ih =>
    intro s hn hs
    cases s with
    | nil => simp [codePoints]
    | cons u t =>
      have hu : u < 65536 := hs u (by simp)
      have ht : ∀ x ∈ t, x < 65536 := fun x hx => hs x (by simp [hx])
      have hlen : t.length ≤ n := by simpa using hn
      rcases cp_decomp u t hu with ⟨_, h2⟩ | ⟨b, t', cp, rfl, _, h2, h3, h4, h5⟩
      · rw [h2]; simp [ih t hlen ht]
      · rw [h2]
        have hlen' : t'.length ≤ n := by simp at hlen; omega
        have ht' : ∀ x ∈ t', x < 65536 := fun x hx => ht x (by simp [hx])
        have hcp : (10 : Nat) ≠ cp := by omega
        simp [ih t' hlen' ht', hcp, Ne.symm h4, Ne.symm h5]

theorem mem_codePoints_LF (s : JSString) (hs : ∀ u ∈ s, u < 65536) :
    10 ∈ codePoints s ↔ 10 ∈ s :=
  mem_codePoints_LF_aux s.length s (Nat.le_refl _) hs

theorem hasLongLine_cons (w : Int) (l : JSString) (ls : List JSString) :
    hasLongLine w (l :: ls)
      = ((decide ((l.length : Int) > w) && l.head? != some 32) || hasLongLine w ls) := by
  simp [hasLongLine]

theorem scanMultiLine_spec (w : Int) (track inblock : Bool) :
    ∀ (n : Nat) (A cur suf : JSString) (st : Scan) (fuel : Nat),
      suf.length ≤ n → suf.length ≤ fuel → (∀ u ∈ suf, u < 65536) →
      (∀ c ∈ codePoints suf, c = 10 ∨ isPrintable (some c) = true) →
      10 ∉ cur →
      st.i = A.length + cur.length →
      (track = true → st.previousLineBreak = (A.length : Int) - 1) →
      ∃ st', scanMultiLine (A ++ cur ++ suf) track w inblock fuel st = some st'
        ∧ st'.hasLineBreak = (st.hasLineBreak || decide (10 ∈ suf))
        ∧ st'.plain = (st.plain && allPlainSafe inblock st.prevChar (codePoints suf))
        ∧ (track = false → st'.hasFoldableLine = st.hasFoldableLine)
        ∧ (track = true →
            (st'.hasFoldableLine
              || (decide ((st'.i : Int) - st'.previousLineBreak - 1 > w)
                  && charCodeAt (A ++ cur ++ suf) (st'.previousLineBreak + 1) != some 32))
            = (st.hasFoldableLine || hasLongLine w (splitLines (cur ++ suf)))) := by
  intro n
  induction n with
  | zero =>
    intro A cur suf st fuel hn _ _ _ hcur hi hp
    have : suf = [] := List.length_eq_zero.mp (Nat.le_zero.mp hn)
    subst this
    refine ⟨st, ?_, ?_, ?_, ?_, ?_⟩
    · cases fuel with
      | zero => rfl
      | succ f => simp [scanMultiLine, hi]
    · simp
    · simp [codePoints, allPlainSafe]
    · intro _; rfl
    · intro ht
      rw [hp ht, hi]
      have e1 : ((A.length : Int) - 1 + 1) = (A.length : Int) := by omega
      have e2 : (((A.length + cur.length : Nat) : Int) - ((A.length : Int) - 1) - 1)
          = (cur.length : Int) := by push_cast; omega
      simp only [List.append_nil]
      rw [e1, e2, charCodeAt_append, splitLines_noLF cur hcur]
      simp [hasLongLine]
  | succ n ih =>
    intro A cur suf st fuel hn hf hs hc hcur hi hp
    cases suf with
    | nil => exact ih A cur [] st fuel (by simp) (by simp) hs hc hcur hi hp
    | cons u t =>
      have hu : u < 65536 := hs u (by simp)
      have ht : ∀ x ∈ t, x < 65536 := fun x hx => hs x (by simp [hx])
      have hlen : t.length ≤ n := by simpa using hn
      obtain ⟨f, rfl⟩ : ∃ f, fuel = f + 1 := ⟨fuel - 1, by simp at hf; omega⟩
      have hf' : t.length ≤ f := by simp at hf; omega
      have hlt : st.i < (A ++ cur ++ u :: t).length := by simp [hi]
      have hcp : codePointAt (A ++ cur ++ u :: t) (st.i : Int) = cpHead (u :: t) := by
        rw [hi]
        have := codePointAt_append (A ++ cur) (u :: t)
        simpa using this
      rcases cp_decomp u t hu with ⟨h1, h2⟩ | ⟨b, t', cp, rfl, h1, h2, h3, h4, h5⟩
      · by_cases hLF : u = 10
        · subst hLF
          have hstr : (A ++ cur ++ [10]) ++ [] ++ t = A ++ cur ++ 10 :: t := by simp
          have hLF' : (some 10 == some CHAR_LINE_FEED) = true := by
            simp [CHAR_LINE_FEED]
          obtain ⟨i, ch, pc, hlb, hfl, plb, pl⟩ := st
          simp only at hi hp hlt hcp
          have hc' : ∀ c ∈ codePoints t, c = 10 ∨ isPrintable (some c) = true :=
            fun c hcm => hc c (by rw [h2]; simp [hcm])
          cases track with
          | false =>
            obtain ⟨st', e, r1, r2, r3, r4⟩ := ih (A ++ cur ++ [10]) [] t
              { i := i + 1, char := some 10, prevChar := some 10, hasLineBreak := true,
                hasFoldableLine := hfl, previousLineBreak := plb,
                plain := pl && isPlainSafe (some 10) pc inblock } f hlen hf' ht hc'
              (by simp) (by simp [hi]; omega) (by simp)
            rw [hstr] at e
            refine ⟨st', ?_, ?_, ?_, r3, ?_⟩
            · simp only [scanMultiLine, hlt, if_true, hcp, h1, hLF', Scan.next]
              simpa using e
            · simp only [r1]
              simp
            · simp only [r2, h2, allPlainSafe, Bool.and_assoc]
            · intro htr; simp at htr
          | true =>
            obtain ⟨st', e, r1, r2, r3, r4⟩ := ih (A ++ cur ++ [10]) [] t
              { i := i + 1, char := some 10, prevChar := some 10, hasLineBreak := true,
                hasFoldableLine := hfl
                  || (decide ((i : Int) - plb - 1 > w)
                      && charCodeAt (A ++ cur ++ 10 :: t) (plb + 1) != some 32),
                previousLineBreak := i,
                plain := pl && isPlainSafe (some 10) pc inblock } f hlen hf' ht hc'
              (by simp) (by simp [hi]; omega) (by intro _; simp [hi]; omega)
            rw [hstr] at e r4
            refine ⟨st', ?_, ?_, ?_, ?_, ?_⟩
            · simp only [scanMultiLine, hlt, if_true, hcp, h1, hLF', Scan.next]
              simpa using e
            · simp only [r1]
              simp
            · simp only [r2, h2, allPlainSafe, Bool.and_assoc]
            · intro htr; simp at htr
            · intro htr
              rw [r4 htr]
              simp only [List.nil_append]
              rw [splitLines_append_LF cur t hcur, hasLongLine_cons, hp rfl, hi]
              have e1 : ((A.length : Int) - 1 + 1) = (A.length : Int) := by omega
              have e2 : (((A.length + cur.length : Nat) : Int) - ((A.length : Int) - 1) - 1)
                  = (cur.length : Int) := by push_cast; omega
              rw [e1, e2]
              have e3 : charCodeAt (A ++ cur ++ 10 :: t) (A.length : Int)
                  = (cur ++ 10 :: t).head? := by
                have := charCodeAt_append A (cur ++ 10 :: t)
                simpa using this
              rw [e3]
              cases cur with
              | nil =>
                have a1 : ((some 10 : Option Nat) != some 32) = true := by decide
                have a2 : ((none : Option Nat) != some 32) = true := by decide
                simp [a1, a2, Bool.or_assoc]
              | cons c cs => simp [Bool.or_assoc]
        · have hpr : isPrintable (some u) = true := by
            rcases hc u (by rw [h2]; simp) with h | h
            · exact absurd h hLF
            · exact h
          have hstr : A ++ (cur ++ [u]) ++ t = A ++ cur ++ u :: t := by simp
          have hcur' : 10 ∉ cur ++ [u] := by
            simp only [List.mem_append, List.mem_singleton, not_or]
            exact ⟨hcur, fun e => hLF e.symm⟩
          have hLF' : (some u == some CHAR_LINE_FEED) = false := by
            simp [CHAR_LINE_FEED, hLF]
          have hnext : ¬ (u ≥ 65536) := by omega
          obtain ⟨i, ch, pc, hlb, hfl, plb, pl⟩ := st
          simp only at hi hp hlt hcp
          have hc' : ∀ c ∈ codePoints t, c = 10 ∨ isPrintable (some c) = true :=
            fun c hcm => hc c (by rw [h2]; simp [hcm])
          obtain ⟨st', e, r1, r2, r3, r4⟩ := ih A (cur ++ [u]) t
            { i := i + 1, char := some u, prevChar := some u, hasLineBreak := hlb,
              hasFoldableLine := hfl, previousLineBreak := plb,
              plain := pl && isPlainSafe (some u) pc inblock } f hlen hf' ht hc' hcur'
            (by simp [hi]; omega) hp
          rw [hstr] at e r4
          refine ⟨st', ?_, ?_, ?_, r3, ?_⟩
          · simp only [scanMultiLine, hlt, if_true, hcp, h1, hLF', hpr, Scan.next, hnext]
            simpa using e
          · simp only [r1]
            simp [Ne.symm hLF]
          · simp only [r2, h2, allPlainSafe, Bool.and_assoc]
          · intro htr
            rw [r4 htr]
            simp
      · have hpr : isPrintable (some cp) = true := by
          rcases hc cp (by rw [h2]; simp) with h | h
          · omega
          · exact h
        have hstr : A ++ (cur ++ [u, b]) ++ t' = A ++ cur ++ u :: b :: t' := by simp
        have hcur' : 10 ∉ cur ++ [u, b] := by
          simp only [List.mem_append, List.mem_cons, List.mem_singleton, not_or,
            List.not_mem_nil, or_false]
          exact ⟨hcur, fun e => h4 e.symm, fun e => h5 e.symm⟩
        have hLF' : (some cp == some CHAR_LINE_FEED) = false := by
          have : cp ≠ 10 := by omega
          simp [CHAR_LINE_FEED, this]
        obtain ⟨i, ch, pc, hlb, hfl, plb, pl⟩ := st
        simp only at hi hp hlt hcp
        have hc' : ∀ c ∈ codePoints t', c = 10 ∨ isPrintable (some c) = true :=
          fun c hcm => hc c (by rw [h2]; simp [hcm])
        have ht' : ∀ x ∈ t', x < 65536 := fun x hx => ht x (by simp [hx])
        obtain ⟨st', e, r1, r2, r3, r4⟩ := ih A (cur ++ [u, b]) t'
          { i := i + 2, char := some cp, prevChar := some cp, hasLineBreak := hlb,
            hasFoldableLine := hfl, previousLineBreak := plb,
            plain := pl && isPlainSafe (some cp) pc inblock } f
          (by simp at hlen; omega) (by simp at hf'; omega) ht' hc' hcur'
          (by simp [hi]; omega) hp
        rw [hstr] at e r4
        refine ⟨st', ?_, ?_, ?_, r3, ?_⟩
        · simp only [scanMultiLine, hlt, if_true, hcp, h1, hLF', hpr, Scan.next, h3]
          simpa using e
        · simp only [r1]
          simp [Ne.symm h4, Ne.symm h5]
        · simp only [r2, h2, allPlainSafe, Bool.and_assoc]
        · intro htr
          rw [r4 htr]
          simp


theorem scanSingleLine_spec (inblock : Bool) :
    ∀ (n : Nat) (pre suf : JSString) (st : Scan) (fuel : Nat),
      suf.length ≤ n → suf.length ≤ fuel → (∀ u ∈ suf, u < 65536) →
      (∀ c ∈ codePoints suf, isPrintable (some c) = true) →
      st.i = pre.length →
      ∃ st', scanSingleLine (pre ++ suf) inblock fuel st = some st'
        ∧ st'.hasLineBreak = st.hasLineBreak
        ∧ st'.hasFoldableLine = st.hasFoldableLine
        ∧ st'.plain = (st.plain && allPlainSafe inblock st.prevChar (codePoints suf)) := by
  intro n
  induction n with
  | zero =>
    intro pre suf st fuel hn _ _ _ hi
    have : suf = [] := List.length_eq_zero.mp (Nat.le_zero.mp hn)
    subst this
    refine ⟨st, ?_, rfl, rfl, ?_⟩
    · cases fuel with
      | zero => rfl
      | succ f => simp [scanSingleLine, hi]
    · simp [codePoints, allPlainSafe]
  | succ n ih =>
    intro pre suf st fuel hn hf hs hc hi
    cases suf with
    | nil => exact ih pre [] st fuel (by simp) (by simp) hs hc hi
    | cons u t =>
      have hu : u < 65536 := hs u (by simp)
      have ht : ∀ x ∈ t, x < 65536 := fun x hx => hs x (by simp [hx])
      have hlen : t.length ≤ n := by simpa using hn
      obtain ⟨f, rfl⟩ : ∃ f, fuel = f + 1 := ⟨fuel - 1, by simp at hf; omega⟩
      have hf' : t.length ≤ f := by simp at hf; omega
      have hlt : st.i < (pre ++ u :: t).length := by simp [hi]
      have hcp : codePointAt (pre ++ u :: t) (st.i : Int) = cpHead (u :: t) := by
        rw [hi]; exact codePointAt_append pre (u :: t)
      rcases cp_decomp u t hu with ⟨h1, h2⟩ | ⟨b, t', cp, rfl, h1, h2, h3, h4, h5⟩
      · have hpr : isPrintable (some u) = true := hc u (by rw [h2]; simp)
        have hstr : (pre ++ [u]) ++ t = pre ++ u :: t := by simp
        have hnext : ¬ (u ≥ 65536) := by omega
        obtain ⟨i, ch, pc, hlb, hfl, plb, pl⟩ := st
        simp only at hi hlt hcp
        have hc' : ∀ c ∈ codePoints t, isPrintable (some c) = true :=
          fun c hcm => hc c (by rw [h2]; simp [hcm])
        obtain ⟨st', e, r1, r2, r3⟩ := ih (pre ++ [u]) t
          { i := i + 1, char := some u, prevChar := some u, hasLineBreak := hlb,
            hasFoldableLine := hfl, previousLineBreak := plb,
            plain := pl && isPlainSafe (some u) pc inblock } f hlen hf' ht hc'
          (by simp [hi])
        rw [hstr] at e
        refine ⟨st', ?_, r1, r2, ?_⟩
        · simp only [scanSingleLine, hlt, if_true, hcp, h1, hpr, Scan.next, hnext]
          simpa using e
        · simp only [r3, h2, allPlainSafe, Bool.and_assoc]
      · have hpr : isPrintable (some cp) = true := hc cp (by rw [h2]; simp)
        have hstr : (pre ++ [u, b]) ++ t' = pre ++ u :: b :: t' := by simp
        obtain ⟨i, ch, pc, hlb, hfl, plb, pl⟩ := st
        simp only at hi hlt hcp
        have hc' : ∀ c ∈ codePoints t', isPrintable (some c) = true :=
          fun c hcm => hc c (by rw [h2]; simp [hcm])
        have ht' : ∀ x ∈ t', x < 65536 := fun x hx => ht x (by simp [hx])
        obtain ⟨st', e, r1, r2, r3⟩ := ih (pre ++ [u, b]) t'
          { i := i + 2, char := some cp, prevChar := some cp, hasLineBreak := hlb,
            hasFoldableLine := hfl, previousLineBreak := plb,
            plain := pl && isPlainSafe (some cp) pc inblock } f
          (by simp at hlen; omega) (by simp at hf'; omega) ht' hc'
          (by simp [hi])
        rw [hstr] at e
        refine ⟨st', ?_, r1, r2, ?_⟩
        · simp only [scanSingleLine, hlt, if_true, hcp, h1, hpr, Scan.next, h3]
          simpa using e
        · simp only [r3, h2, allPlainSafe, Bool.and_assoc]

theorem isPlainSafe_printable (c : Nat) (prev : Option Nat) (inblock : Bool)
    (h : isPlainSafe (some c) prev inblock = true) : isPrintable (some c) = true := by
  by_contra hp
  have hp' : isPrintable (some c) = false := by simpa using hp
  by_cases h35 : c = 35
  · subst h35; simp [isPrintable] at hp'
  · simp [isPlainSafe, isNsCharOrWhitespace, hp', h35, CHAR_SHARP] at h

theorem allPlainSafe_printable (inblock : Bool) :
    ∀ (cps : List Nat) (prev : Option Nat), allPlainSafe inblock prev cps = true →
      ∀ c ∈ cps, isPrintable (some c) = true := by
  intro cps
  induction cps with
  | nil => intro _ _ c hc; simp at hc
  | cons a as ih =>
    intro prev h c hc
    simp only [allPlainSafe, Bool.and_eq_true] at h
    rcases List.mem_cons.mp hc with rfl | hc
    · exact isPlainSafe_printable _ _ _ h.1
    · exact ih _ h.2 c hc

/-- The two scans seen from `chooseScalarStyle`: what the function returns once
the scan result is known. -/
theorem chooseScalarStyle_of_single (s : JSString) (slo : Bool) (ipl : Nat) (w : Int)
    (tat : JSString → Bool) (qt : Nat) (fq ib : Bool) (st : Scan)
    (hm : (slo || fq) = true)
    (e : scanSingleLine s ib s.length
      { plain := isPlainSafeFirst (codePointAt s 0)
          && isPlainSafeLast (codePointAt s ((s.length : Int) - 1)) } = some st) :
    chooseScalarStyle s slo ipl w tat qt fq ib =
      if !st.hasLineBreak && !st.hasFoldableLine then
        if st.plain && !fq && !tat s then STYLE_PLAIN
        else if qt = QUOTING_TYPE_DOUBLE then STYLE_DOUBLE else STYLE_SINGLE
      else if ipl > 9 && needIndentIndicator s then STYLE_DOUBLE
      else if !fq then
        if st.hasFoldableLine then STYLE_FOLDED else STYLE_LITERAL
      else if qt = QUOTING_TYPE_DOUBLE then STYLE_DOUBLE else STYLE_SINGLE := by
  unfold chooseScalarStyle
  simp only [hm, if_true, e]

theorem chooseScalarStyle_of_multi (s : JSString) (ipl : Nat) (w : Int)
    (tat : JSString → Bool) (qt : Nat) (ib : Bool) (st : Scan)
    (e : scanMultiLine s (w != -1) w ib s.length
      { plain := isPlainSafeFirst (codePointAt s 0)
          && isPlainSafeLast (codePointAt s ((s.length : Int) - 1)) } = some st) :
    chooseScalarStyle s false ipl w tat qt false ib =
      if !st.hasLineBreak && !(st.hasFoldableLine
            || ((w != -1)
                && (decide ((st.i : Int) - st.previousLineBreak - 1 > w)
                    && charCodeAt s (st.previousLineBreak + 1) != some 32))) then
        if st.plain && !tat s then STYLE_PLAIN
        else if qt = QUOTING_TYPE_DOUBLE then STYLE_DOUBLE else STYLE_SINGLE
      else if ipl > 9 && needIndentIndicator s then STYLE_DOUBLE
      else if (st.hasFoldableLine
            || ((w != -1)
                && (decide ((st.i : Int) - st.previousLineBreak - 1 > w)
                    && charCodeAt s (st.previousLineBreak + 1) != some 32))) then STYLE_FOLDED
      else STYLE_LITERAL := by
  unfold chooseScalarStyle
  simp [e]


/-- `chooseScalarStyle` without `singleLineOnly` and `forceQuotes`, on a string
made of line feeds and printable characters. -/
theorem chooseScalarStyle_multi_eq (s : JSString) (ipl : Nat) (w : Int)
    (tat : JSString → Bool) (qt : Nat) (ib : Bool)
    (hs : ∀ u ∈ s, u < 65536)
    (hpr : ∀ c ∈ codePoints s, c = 10 ∨ isPrintable (some c) = true) :
    chooseScalarStyle s false ipl w tat qt false ib =
      if !decide (10 ∈ s) && !((w != -1) && hasLongLine w (splitLines s)) then
        if (isPlainSafeFirst (codePointAt s 0)
              && isPlainSafeLast (codePointAt s ((s.length : Int) - 1))
              && allPlainSafe ib none (codePoints s)) && !tat s then STYLE_PLAIN
        else if qt = QUOTING_TYPE_DOUBLE then STYLE_DOUBLE else STYLE_SINGLE
      else if ipl > 9 && needIndentIndicator s then STYLE_DOUBLE
      else if (w != -1) && hasLongLine w (splitLines s) then STYLE_FOLDED
      else STYLE_LITERAL := by
  obtain ⟨st, e, r1, r2, r3, r4⟩ := scanMultiLine_spec w (w != -1) ib s.length [] [] s
    { plain := isPlainSafeFirst (codePointAt s 0)
        && isPlainSafeLast (codePointAt s ((s.length : Int) - 1)) }
    s.length (Nat.le_refl _) (Nat.le_refl _) hs hpr (by simp) (by simp) (by intro _; simp)
  simp only [List.nil_append, List.append_nil, Bool.false_or] at e r1 r2 r3 r4
  rw [chooseScalarStyle_of_multi s ipl w tat qt ib st e, r1, r2]
  cases htr : (w != -1) with
  | false =>
    have := r3 htr
    simp [this]
  | true =>
    have := r4 htr
    simp only [Bool.true_and, this]

/-- `chooseScalarStyle` with `singleLineOnly` or `forceQuotes`, on a string
made of printable characters. -/
theorem chooseScalarStyle_single_eq (s : JSString) (slo : Bool) (ipl : Nat) (w : Int)
    (tat : JSString → Bool) (qt : Nat) (fq ib : Bool)
    (hm : (slo || fq) = true)
    (hs : ∀ u ∈ s, u < 65536)
    (hpr : ∀ c ∈ codePoints s, isPrintable (some c) = true) :
    chooseScalarStyle s slo ipl w tat qt fq ib =
      if (isPlainSafeFirst (codePointAt s 0)
            && isPlainSafeLast (codePointAt s ((s.length : Int) - 1))
            && allPlainSafe ib none (codePoints s)) && !fq && !tat s then STYLE_PLAIN
      else if qt = QUOTING_TYPE_DOUBLE then STYLE_DOUBLE else STYLE_SINGLE := by
  obtain ⟨st, e, r1, r2, r3⟩ := scanSingleLine_spec ib s.length [] s
    { plain := isPlainSafeFirst (codePointAt s 0)
        && isPlainSafeLast (codePointAt s ((s.length : Int) - 1)) }
    s.length (Nat.le_refl _) (Nat.le_refl _) hs hpr (by simp)
  simp only [List.nil_append] at e r1 r2 r3
  rw [chooseScalarStyle_of_single s slo ipl w tat qt fq ib st hm e, r1, r2, r3]
  simp

theorem printable_ne_LF (c : Nat) (h : isPrintable (some c) = true) : c ≠ 10 := by
  intro e; subst e; simp [isPrintable] at h

theorem not_mem_LF_of_printable (s : JSString) (hs : ∀ u ∈ s, u < 65536)
    (hpr : ∀ c ∈ codePoints s, isPrintable (some c) = true) : 10 ∉ s := by
  intro h
  have := (mem_codePoints_LF s hs).mpr h
  exact printable_ne_LF 10 (hpr 10 this) rfl

end Dumper

/-! ## Lemmas on the style choice and the block header -/

namespace Dumper

theorem scanSingleLine_fields (s : JSString) (ib : Bool) :
    ∀ (fuel : Nat) (st st' : Scan), scanSingleLine s ib fuel st = some st' →
      st'.hasLineBreak = st.hasLineBreak ∧ st'.hasFoldableLine = st.hasFoldableLine := by
  intro fuel
  induction fuel with
  | zero => intro st st' h; simp [scanSingleLine] at h; subst h; exact ⟨rfl, rfl⟩
  | succ f ih =>
    intro st st' h
    simp only [scanSingleLine] at h
    split at h
    · split at h
      · cases h
      · have := ih _ _ h
        simpa using this
    · simp at h; subst h; exact ⟨rfl, rfl⟩

theorem chooseScalarStyle_plain_imp (s : JSString) (slo : Bool) (ipl : Nat) (w : Int)
    (tat : JSString → Bool) (qt : Nat) (fq ib : Bool)
    (h : chooseScalarStyle s slo ipl w tat qt fq ib = STYLE_PLAIN) : tat s = false := by
  unfold chooseScalarStyle at h
  simp only [] at h
  revert h
  generalize (if (slo || fq) = true then _ else _ : Option Scan) = scanned
  intro h
  cases scanned with
  | none => simp [STYLE_DOUBLE, STYLE_PLAIN] at h
  | some st =>
    simp only [] at h
    by_cases ht : tat s = true
    · simp only [ht, STYLE_PLAIN, STYLE_DOUBLE, STYLE_SINGLE, STYLE_FOLDED, STYLE_LITERAL] at h
      split_ifs at h <;> simp_all
    · simpa using ht

theorem needIndentIndicator_eq (s : JSString) :
    needIndentIndicator s = ((s.dropWhile (· == 10)).head? == some 32) := by
  induction s with
  | nil => rfl
  | cons c cs ih =>
    by_cases hc : c = 10
    · subst hc; simp [needIndentIndicator, ih]
    · have hb : (c == 10) = false := by simpa using hc
      simp [needIndentIndicator, hc, List.dropWhile, hb]

theorem charCodeAt_last (s : JSString) (hne : s ≠ []) :
    charCodeAt s ((s.length : Int) - 1) = s.getLast? := by
  unfold charCodeAt
  have hl : 0 < s.length := List.length_pos.mpr hne
  have h1 : ¬ ((s.length : Int) - 1 < 0) := by omega
  have h2 : ((s.length : Int) - 1).toNat = s.length - 1 := by omega
  simp only [h1, if_false, h2, List.getLast?_eq_getElem?]

theorem charCodeAt_before_last (s : JSString) :
    charCodeAt s ((s.length : Int) - 2) = s.dropLast.getLast? := by
  unfold charCodeAt
  by_cases hl : s.length < 2
  · have h1 : ((s.length : Int) - 2 < 0) := by omega
    have : s.dropLast = [] := by
      match s, hl with
      | [], _ => rfl
      | [a], _ => rfl
      | a :: b :: t, h => simp at h; omega
    simp [h1, this]
  · have h1 : ¬ ((s.length : Int) - 2 < 0) := by omega
    have h2 : ((s.length : Int) - 2).toNat = s.length - 2 := by omega
    simp only [h1, if_false, h2, List.getLast?_eq_getElem?, List.length_dropLast]
    have h3 : s.length - 1 - 1 = s.length - 2 := by omega
    rw [h3]
    have h4 : s.dropLast = s.take (s.length - 1) := List.dropLast_eq_take s
    rw [h4, List.getElem?_take]
    have h5 : s.length - 2 < s.length - 1 := by omega
    rw [if_pos h5]

end Dumper

/-! ## Lemmas on the heap and on `storeMappingPair` -/

namespace Loader

theorem getElem?_put (heap : Heap) (a b : Nat) (o : HeapObj) (old : HeapObj)
    (h : heap[a]? = some old) :
    (heap.put a o)[b]? = if b = a then some o else heap[b]? := by
  have hlt : a < heap.length := by
    by_contra hc
    have : heap[a]? = none := List.getElem?_eq_none (by omega)
    rw [this] at h; cases h
  unfold Heap.put
  rw [List.getElem?_set]
  by_cases hab : a = b
  · subst hab; simp [hlt]
  · have : ¬ b = a := fun e => hab e.symm
    simp [hab, this]

theorem classOf_put (heap : Heap) (a : Nat) (p p' : Proto) (props props' : List (JSString × JSVal))
    (h : heap[a]? = some (.object p props)) (v : JSVal) :
    classOf (heap.put a (.object p' props')) v = classOf heap v := by
  cases v <;> try rfl
  case ref b =>
    simp only [classOf, getElem?_put heap a b _ _ h]
    by_cases hb : b = a
    · subst hb; simp [h]
    · simp [hb]

theorem arrayItems_put (heap : Heap) (a : Nat) (p p' : Proto) (props props' : List (JSString × JSVal))
    (h : heap[a]? = some (.object p props)) (v : JSVal) :
    arrayItems (heap.put a (.object p' props')) v = arrayItems heap v := by
  cases v <;> try rfl
  case ref b =>
    simp only [arrayItems, getElem?_put heap a b _ _ h]
    by_cases hb : b = a
    · subst hb; simp [h]
    · simp [hb]

theorem stringOfScalar_put (host : Host) (heap : Heap) (a : Nat) (p p' : Proto)
    (props props' : List (JSString × JSVal))
    (h : heap[a]? = some (.object p props)) (v : JSVal) :
    stringOfScalar host (heap.put a (.object p' props')) v = stringOfScalar host heap v := by
  cases v <;> try rfl
  case ref b =>
    simp only [stringOfScalar, getElem?_put heap a b _ _ h]
    by_cases hb : b = a
    · subst hb; simp [h]
    · simp [hb]

theorem keyText_put (host : Host) (heap : Heap) (a : Nat) (p p' : Proto)
    (props props' : List (JSString × JSVal))
    (h : heap[a]? = some (.object p props)) (v : JSVal) :
    keyText host (heap.put a (.object p' props')) v = keyText host heap v := by
  unfold keyText isArray
  have e1 : ∀ x, classOf (heap.put a (.object p' props')) x = classOf heap x :=
    classOf_put heap a p p' props props' h
  have e2 : ∀ x, arrayItems (heap.put a (.object p' props')) x = arrayItems heap x :=
    arrayItems_put heap a p p' props props' h
  have e3 : ∀ x, stringOfScalar host (heap.put a (.object p' props')) x
      = stringOfScalar host heap x :=
    stringOfScalar_put host heap a p p' props props' h
  simp only [e1, e2, e3]

theorem reachesProtoSetter_key (heap : Heap) (key : JSString) :
    ∀ (fuel : Nat) (proto : Proto), reachesProtoSetter heap key fuel proto = true →
      key = js "__proto__" := by
  intro fuel
  induction fuel with
  | zero => intro proto h; simp [reachesProtoSetter] at h
  | succ f ih =>
    intro proto h
    cases proto with
    | objectPrototype => simpa [reachesProtoSetter] using h
    | null => simp [reachesProtoSetter] at h
    | ref b =>
      simp only [reachesProtoSetter] at h
      split at h
      · cases h
      · exact ih _ h

theorem find_assign_map {α : Type} (key : JSString) (v : α) :
    ∀ (ps : List (JSString × α)), ps.any (fun q => q.1 == key) = true →
      ((ps.map (fun p => if p.1 == key then (key, v) else p)).find? (fun p => p.1 == key)).map
        Prod.snd = some v := by
  intro ps
  induction ps with
  | nil => intro h; simp at h
  | cons p ps ih =>
    intro h
    by_cases hp : (p.1 == key) = true
    · simp [List.find?, hp]
    · have hb : (p.1 == key) = false := by simpa using hp
      have hps : ps.any (fun q => q.1 == key) = true := by
        simpa [List.any_cons, hb] using h
      simp only [List.map_cons, hb, Bool.false_eq_true, if_false, List.find?]
      exact ih hps

theorem find_assign_append {α : Type} (key : JSString) (v : α) :
    ∀ (ps : List (JSString × α)), ps.any (fun q => q.1 == key) = false →
      ((ps ++ [(key, v)]).find? (fun p => p.1 == key)).map Prod.snd = some v := by
  intro ps
  induction ps with
  | nil => intro _; simp [List.find?]
  | cons p ps ih =>
    intro h
    have hb : (p.1 == key) = false := by
      cases hpk : (p.1 == key) <;> simp_all [List.any_cons]
    have hps : ps.any (fun q => q.1 == key) = false := by
      simpa [List.any_cons, hb] using h
    simp only [List.cons_append, List.find?, hb]
    exact ih hps

theorem find_assign {α : Type} (m : List (JSString × α)) (key : JSString) (v : α) :
    lookup (assign m key v) key = some v := by
  unfold lookup assign
  by_cases hany : m.any (fun q => q.1 == key) = true
  · rw [if_pos hany]; exact find_assign_map key v m hany
  · have hany' : m.any (fun q => q.1 == key) = false := Bool.eq_false_iff.mpr hany
    rw [if_neg hany]; exact find_assign_append key v m hany'

/-- A store of a key that is not the merge key into an existing mapping. -/
theorem storeMappingPair_unfold (host : Host) (state : State) (a : Nat)
    (ov : List JSString) (keyTag : Option JSString)
    (keyNode valueNode : JSVal) (key : JSString)
    (htag : keyTag ≠ some (js "tag:yaml.org,2002:merge"))
    (hkey : keyText host state.heap keyNode = .ok key) :
    storeMappingPair host state (.ref a) ov keyTag keyNode valueNode =
      if (!state.json && !ov.contains key && hasOwnProperty state.heap (.ref a) key) = true then
        .error (.yaml "duplicated mapping key")
      else
        match (if key == js "__proto__" then
            Except.ok (defineOwn state.heap (.ref a) key valueNode)
          else setProperty state.heap (.ref a) key valueNode) with
        | .error e => .error e
        | .ok heap => .ok ({ state with heap := heap }, .ref a, ov.filter (· != key)) := by
  unfold storeMappingPair
  have ht : (keyTag == some (js "tag:yaml.org,2002:merge")) = false := by
    cases h : keyTag == some (js "tag:yaml.org,2002:merge")
    · rfl
    · exact absurd (by simpa using h) htag
  have hn : ((JSVal.ref a) == JSVal.null) = false := by simp
  simp only [hkey, hn, ht, Bool.false_eq_true, if_false]

/-- The heap after a store that finds no duplicate. -/
theorem store_heap (state : State) (a : Nat) (proto : Proto)
    (props : List (JSString × JSVal)) (valueNode : JSVal) (key : JSString)
    (hobj : state.heap[a]? = some (.object proto props)) :
    (if key == js "__proto__" then
        Except.ok (defineOwn state.heap (.ref a) key valueNode)
      else setProperty state.heap (.ref a) key valueNode)
      = .ok (state.heap.put a (.object proto (assign props key valueNode))) := by
  by_cases hk : (key == js "__proto__") = true
  · simp [hk, defineOwn, hobj]
  · have hk' : key ≠ js "__proto__" := by simpa using hk
    simp only [hk, Bool.false_eq_true, if_false, setProperty, hobj]
    by_cases hany : props.any (fun q => q.1 == key) = true
    · simp [hany]
    · have hr : reachesProtoSetter state.heap key (state.heap.length + 1) proto = false := by
        cases h : reachesProtoSetter state.heap key (state.heap.length + 1) proto
        · rfl
        · exact absurd (reachesProtoSetter_key _ _ _ _ h) hk'
      simp [hany, hr]

end Loader

/-! ## Lemmas on `compileList` -/

/-- The test of `compileList` on two types. -/
theorem sameTriple_iff (p t : YType) :
    (p.tag = t.tag ∧ p.kind = t.kind ∧ p.multi = t.multi)
      ↔ (p.tag, p.kind, p.multi) = (t.tag, t.kind, t.multi) := by
  simp [Prod.ext_iff]

theorem compileFind_none (t : YType) :
    ∀ (l : List YType) (n init : Nat),
      (∀ p ∈ l, (p.tag, p.kind, p.multi) ≠ (t.tag, t.kind, t.multi)) →
      (l.enumFrom n).foldl
        (fun newIndex (p : Nat × YType) =>
          if p.2.tag = t.tag ∧ p.2.kind = t.kind ∧ p.2.multi = t.multi
          then p.1 else newIndex) init = init := by
  intro l
  induction l with
  | nil => intro n init _; rfl
  | cons x xs ih =>
    intro n init h
    have hx : ¬ (x.tag = t.tag ∧ x.kind = t.kind ∧ x.multi = t.multi) := by
      rw [sameTriple_iff]; exact h x (by simp)
    simp only [List.enumFrom_cons, List.foldl_cons, hx, if_false]
    exact ih (n + 1) init (fun p hp => h p (by simp [hp]))

theorem compileFind_some (t : YType) :
    ∀ (l1 : List YType) (x : YType) (l2 : List YType) (n init : Nat),
      (x.tag, x.kind, x.multi) = (t.tag, t.kind, t.multi) →
      (∀ p ∈ l2, (p.tag, p.kind, p.multi) ≠ (t.tag, t.kind, t.multi)) →
      ((l1 ++ x :: l2).enumFrom n).foldl
        (fun newIndex (p : Nat × YType) =>
          if p.2.tag = t.tag ∧ p.2.kind = t.kind ∧ p.2.multi = t.multi
          then p.1 else newIndex) init = n + l1.length := by
  intro l1
  induction l1 with
  | nil =>
    intro x l2 n init hx h2
    have hx' : x.tag = t.tag ∧ x.kind = t.kind ∧ x.multi = t.multi := (sameTriple_iff x t).mpr hx
    simp only [List.nil_append, List.enumFrom_cons, List.foldl_cons, hx', and_self, if_true,
      List.length_nil, Nat.add_zero]
    exact compileFind_none t l2 (n + 1) n h2
  | cons y ys ih =>
    intro x l2 n init hx h2
    simp only [List.cons_append, List.enumFrom_cons, List.foldl_cons, List.length_cons]
    rw [ih x l2 (n + 1) _ hx h2]
    omega

/-- One step of `compileList` on a list without two types of the same
triple. -/
theorem compileStep_eq (result : List YType) (t : YType)
    (hnd : (result.map (fun p => (p.tag, p.kind, p.multi))).Nodup) :
    compileStep result t =
      if result.any (fun p => decide ((p.tag, p.kind, p.multi) = (t.tag, t.kind, t.multi))) then
        result.map (fun p =>
          if (p.tag, p.kind, p.multi) = (t.tag, t.kind, t.multi) then t else p)
      else result ++ [t] := by
  unfold compileStep
  by_cases hany : result.any
      (fun p => decide ((p.tag, p.kind, p.multi) = (t.tag, t.kind, t.multi))) = true
  · rw [if_pos hany]
    obtain ⟨x, hxmem, hx⟩ := List.any_eq_true.mp hany
    have hx : (x.tag, x.kind, x.multi) = (t.tag, t.kind, t.multi) := by simpa using hx
    obtain ⟨l1, l2, hsplit⟩ := List.append_of_mem hxmem
    subst hsplit
    rw [List.map_append, List.map_cons] at hnd
    have hnd' := List.nodup_append.mp hnd
    have h1 : ∀ p ∈ l1, (p.tag, p.kind, p.multi) ≠ (t.tag, t.kind, t.multi) := by
      intro p hp e
      have hd := hnd'.2.2
      exact (List.disjoint_left.mp hd) (List.mem_map_of_mem _ hp) (by rw [e, ← hx]; simp)
    have h2 : ∀ p ∈ l2, (p.tag, p.kind, p.multi) ≠ (t.tag, t.kind, t.multi) := by
      intro p hp e
      have hc := (List.nodup_cons.mp hnd'.2.1).1
      exact hc (by rw [hx, ← e]; exact List.mem_map_of_mem _ hp)
    have hfind := compileFind_some t l1 x l2 0 (l1 ++ x :: l2).length hx h2
    simp only [List.enum, hfind, Nat.zero_add]
    have hlt : l1.length < (l1 ++ x :: l2).length := by simp
    rw [if_pos hlt]
    have hm1 : l1.map (fun p =>
        if (p.tag, p.kind, p.multi) = (t.tag, t.kind, t.multi) then t else p) = l1 := by
      conv_rhs => rw [← List.map_id l1]
      apply List.map_congr_left
      intro p hp
      simp [h1 p hp]
    have hm2 : l2.map (fun p =>
        if (p.tag, p.kind, p.multi) = (t.tag, t.kind, t.multi) then t else p) = l2 := by
      conv_rhs => rw [← List.map_id l2]
      apply List.map_congr_left
      intro p hp
      simp [h2 p hp]
    rw [List.map_append, List.map_cons, hm1, hm2, if_pos hx]
    simp
  · rw [if_neg hany]
    have hnone : ∀ p ∈ result, (p.tag, p.kind, p.multi) ≠ (t.tag, t.kind, t.multi) := by
      intro p hp e
      exact hany (List.any_eq_true.mpr ⟨p, hp, by simpa using e⟩)
    have hfind := compileFind_none t result 0 result.length hnone
    simp only [List.enum, hfind, Nat.lt_irrefl, if_false]

/-- One step of `compileList` keeps the triples distinct. -/
theorem compileStep_nodup (result : List YType) (t : YType)
    (hnd : (result.map (fun p => (p.tag, p.kind, p.multi))).Nodup) :
    ((compileStep result t).map (fun p => (p.tag, p.kind, p.multi))).Nodup := by
  rw [compileStep_eq result t hnd]
  split
  · have : (result.map (fun p =>
        if (p.tag, p.kind, p.multi) = (t.tag, t.kind, t.multi) then t else p)).map
          (fun p => (p.tag, p.kind, p.multi))
        = result.map (fun p => (p.tag, p.kind, p.multi)) := by
      rw [List.map_map]
      apply List.map_congr_left
      intro p _
      by_cases h : (p.tag, p.kind, p.multi) = (t.tag, t.kind, t.multi)
      · simp only [Function.comp, if_pos h]; exact h.symm
      · simp only [Function.comp, if_neg h]
    rw [this]; exact hnd
  · rename_i hany
    rw [List.map_append, List.map_cons, List.map_nil]
    refine List.Nodup.append hnd (List.nodup_singleton _) ?_
    intro k hmem hk
    rw [List.mem_singleton] at hk
    subst hk
    obtain ⟨p, hp, e⟩ := List.mem_map.mp hmem
    exact hany (List.any_eq_true.mpr ⟨p, hp, by simpa using e⟩)

theorem compileList_snoc (types : List YType) (t : YType) :
    compileList (types ++ [t]) = compileStep (compileList types) t := by
  simp [compileList, List.foldl_append]

theorem compileList_nodup (types : List YType) :
    ((compileList types).map (fun p => (p.tag, p.kind, p.multi))).Nodup := by
  induction types using List.reverseRecOn with
  | nil => simp [compileList]
  | append_singleton l t ih =>
    rw [compileList_snoc]; exact compileStep_nodup _ t ih

/-- One step of `compileList` keeps the triples and adds that of the new
type. -/
theorem compileStep_triples (result : List YType) (t : YType)
    (hnd : (result.map (fun p => (p.tag, p.kind, p.multi))).Nodup)
    (k : JSString × Kind × Bool) :
    k ∈ (compileStep result t).map (fun p => (p.tag, p.kind, p.multi))
      ↔ (k ∈ result.map (fun p => (p.tag, p.kind, p.multi)) ∨ k = (t.tag, t.kind, t.multi)) := by
  rw [compileStep_eq result t hnd]
  split
  · rename_i hany
    have : (result.map (fun p =>
        if (p.tag, p.kind, p.multi) = (t.tag, t.kind, t.multi) then t else p)).map
          (fun p => (p.tag, p.kind, p.multi))
        = result.map (fun p => (p.tag, p.kind, p.multi)) := by
      rw [List.map_map]
      apply List.map_congr_left
      intro p _
      by_cases h : (p.tag, p.kind, p.multi) = (t.tag, t.kind, t.multi)
      · simp only [Function.comp, if_pos h]; exact h.symm
      · simp only [Function.comp, if_neg h]
    rw [this]
    constructor
    · exact Or.inl
    · rintro (h | h)
      · exact h
      · obtain ⟨x, hx, e⟩ := List.any_eq_true.mp hany
        rw [h]
        exact List.mem_map.mpr ⟨x, hx, by simpa using e⟩
  · rw [List.map_append, List.map_cons, List.map_nil, List.mem_append, List.mem_singleton]

theorem compileList_triples (types : List YType) (k : JSString × Kind × Bool) :
    k ∈ (compileList types).map (fun p => (p.tag, p.kind, p.multi))
      ↔ k ∈ types.map (fun p => (p.tag, p.kind, p.multi)) := by
  induction types using List.reverseRecOn with
  | nil => simp [compileList]
  | append_singleton l t ih =>
    rw [compileList_snoc, compileStep_triples _ t (compileList_nodup l), ih]
    simp [List.mem_append]

/-- The checks on the implicit list pass when no type of it is a multi type. -/
theorem checkImplicit_ok :
    ∀ (types : List YType), (∀ t ∈ types, t.multi = false) → checkImplicit types = .ok () := by
  intro types
  induction types with
  | nil => intro _; rfl
  | cons t ts ih =>
    intro h
    have ht : t.multi = false := h t (by simp)
    simp only [checkImplicit, YType.loadKind, Option.isSome_none, Bool.false_eq_true, false_and,
      if_false, ht]
    exact ih (fun x hx => h x (by simp [hx]))

namespace Loader

/-! ## Lemmas on the loader -/

theorem advanceWhile_anchorMap (p : Option Nat → Bool) :
    ∀ (fuel : Nat) (state : State),
      (advanceWhile p fuel state).anchorMap = state.anchorMap
      ∧ (advanceWhile p fuel state).input = state.input := by
  intro fuel
  induction fuel with
  | zero => intro state; exact ⟨rfl, rfl⟩
  | succ f ih =>
    intro state
    simp only [advanceWhile]
    split
    · exact ih _
    · exact ⟨rfl, rfl⟩

theorem span_digits_append (major rest : JSString)
    (hmajor : ∀ c ∈ major, 48 ≤ c ∧ c ≤ 57)
    (hrest : ∀ c, rest.head? = some c → ¬ (48 ≤ c ∧ c ≤ 57)) :
    spanDigits (major ++ rest) = (major, rest) := by
  unfold spanDigits
  induction major with
  | nil =>
    cases rest with
    | nil => rfl
    | cons c cs =>
      have := hrest c rfl
      have hb : (decide (48 ≤ c) && decide (c ≤ 57)) = false := by
        simpa using this
      simp [List.span_eq_take_drop, List.takeWhile, List.dropWhile, hb]
  | cons d ds ih =>
    have hd := hmajor d (by simp)
    have hb : (decide (48 ≤ d) && decide (d ≤ 57)) = true := by simp [hd.1, hd.2]
    have ih' := ih (fun c hc => hmajor c (by simp [hc]))
    simp only [List.span_eq_take_drop] at ih' ⊢
    rw [Prod.mk.injEq] at ih' ⊢
    rw [List.cons_append, List.takeWhile_cons, List.dropWhile_cons, hb]
    exact ⟨by rw [if_pos rfl, ih'.1], by rw [if_pos rfl]; exact ih'.2⟩

/-- The parts of a text `digits . digits`, as `handleYamlDirective` finds
them. -/
theorem span_version (major minor : JSString)
    (hmajor : ∀ c ∈ major, 48 ≤ c ∧ c ≤ 57) (hminor : ∀ c ∈ minor, 48 ≤ c ∧ c ≤ 57) :
    spanDigits (major ++ 46 :: minor) = (major, 46 :: minor)
    ∧ spanDigits minor = (minor, []) := by
  constructor
  · apply span_digits_append major (46 :: minor) hmajor
    intro c hc
    simp at hc
    subst hc
    omega
  · have := span_digits_append minor [] hminor (by intro c hc; simp at hc)
    simpa using this

/-- What `spanDigits` returns: digits, then a rest that gives the text back. -/
theorem spanDigits_spec (s : JSString) :
    (∀ c ∈ (spanDigits s).1, 48 ≤ c ∧ c ≤ 57) ∧ (spanDigits s).1 ++ (spanDigits s).2 = s := by
  unfold spanDigits
  rw [List.span_eq_take_drop]
  refine ⟨?_, List.takeWhile_append_dropWhile _ _⟩
  intro c hc
  have := List.mem_takeWhile_imp hc
  simpa using this

end Loader

namespace Dumper

/-! ## Lemmas on the scans: the early return -/

theorem scanSingleLine_none (inblock : Bool) :
    ∀ (n : Nat) (pre suf : JSString) (st : Scan) (fuel : Nat),
      suf.length ≤ n → suf.length ≤ fuel → (∀ u ∈ suf, u < 65536) →
      (∃ c ∈ codePoints suf, isPrintable (some c) = false) →
      st.i = pre.length →
      scanSingleLine (pre ++ suf) inblock fuel st = none := by
  intro n
  induction n with
  | zero =>
    intro pre suf st fuel hn _ _ hc _
    have : suf = [] := List.length_eq_zero.mp (Nat.le_zero.mp hn)
    subst this
    obtain ⟨c, hc, _⟩ := hc
    simp [codePoints] at hc
  | succ n ih =>
    intro pre suf st fuel hn hf hs hc hi
    cases suf with
    | nil =>
      obtain ⟨c, hc, _⟩ := hc
      simp [codePoints] at hc
    | cons u t =>
      have hu : u < 65536 := hs u (by simp)
      have ht : ∀ x ∈ t, x < 65536 := fun x hx => hs x (by simp [hx])
      have hlen : t.length ≤ n := by simpa using hn
      obtain ⟨f, rfl⟩ : ∃ f, fuel = f + 1 := ⟨fuel - 1, by simp at hf; omega⟩
      have hf' : t.length ≤ f := by simp at hf; omega
      have hlt : st.i < (pre ++ u :: t).length := by simp [hi]
      have hcp : codePointAt (pre ++ u :: t) (st.i : Int) = cpHead (u :: t) := by
        rw [hi]; exact codePointAt_append pre (u :: t)
      obtain ⟨c, hcm, hcbad⟩ := hc
      rcases cp_decomp u t hu with ⟨h1, h2⟩ | ⟨b, t', cp, rfl, h1, h2, h3, h4, h5⟩
      · by_cases hpr : isPrintable (some u) = true
        · have hstr : (pre ++ [u]) ++ t = pre ++ u :: t := by simp
          have hnext : ¬ (u ≥ 65536) := by omega
          have hc' : ∃ c ∈ codePoints t, isPrintable (some c) = false := by
            rw [h2] at hcm
            rcases List.mem_cons.mp hcm with rfl | hcm
            · rw [hpr] at hcbad; cases hcbad
            · exact ⟨c, hcm, hcbad⟩
          obtain ⟨i, ch, pc, hlb, hfl, plb, pl⟩ := st
          simp only at hi hlt hcp
          have e := ih (pre ++ [u]) t
            { i := i + 1, char := some u, prevChar := some u, hasLineBreak := hlb,
              hasFoldableLine := hfl, previousLineBreak := plb,
              plain := pl && isPlainSafe (some u) pc inblock } f hlen hf' ht hc'
            (by simp [hi])
          rw [hstr] at e
          simp only [scanSingleLine, hlt, if_true, hcp, h1, hpr, Scan.next, hnext]
          simpa using e
        · have hpr' : isPrintable (some u) = false := by simpa using hpr
          simp only [scanSingleLine, hlt, if_true, hcp, h1, hpr', Bool.not_false]
      · by_cases hpr : isPrintable (some cp) = true
        · have hstr : (pre ++ [u, b]) ++ t' = pre ++ u :: b :: t' := by simp
          have hc' : ∃ c ∈ codePoints t', isPrintable (some c) = false := by
            rw [h2] at hcm
            rcases List.mem_cons.mp hcm with rfl | hcm
            · rw [hpr] at hcbad; cases hcbad
            · exact ⟨c, hcm, hcbad⟩
          have ht' : ∀ x ∈ t', x < 65536 := fun x hx => ht x (by simp [hx])
          obtain ⟨i, ch, pc, hlb, hfl, plb, pl⟩ := st
          simp only at hi hlt hcp
          have e := ih (pre ++ [u, b]) t'
            { i := i + 2, char := some cp, prevChar := some cp, hasLineBreak := hlb,
              hasFoldableLine := hfl, previousLineBreak := plb,
              plain := pl && isPlainSafe (some cp) pc inblock } f
            (by simp at hlen; omega) (by simp at hf'; omega) ht' hc'
            (by simp [hi])
          rw [hstr] at e
          simp only [scanSingleLine, hlt, if_true, hcp, h1, hpr, Scan.next, h3]
          simpa using e
        · have hpr' : isPrintable (some cp) = false := by simpa using hpr
          simp only [scanSingleLine, hlt, if_true, hcp, h1, hpr', Bool.not_false]

theorem scanMultiLine_none (w : Int) (track inblock : Bool) :
    ∀ (n : Nat) (pre suf : JSString) (st : Scan) (fuel : Nat),
      suf.length ≤ n → suf.length ≤ fuel → (∀ u ∈ suf, u < 65536) →
      (∃ c ∈ codePoints suf, c ≠ 10 ∧ isPrintable (some c) = false) →
      st.i = pre.length →
      scanMultiLine (pre ++ suf) track w inblock fuel st = none := by
  intro n
  induction n with
  | zero =>
    intro pre suf st fuel hn _ _ hc _
    have : suf = [] := List.length_eq_zero.mp (Nat.le_zero.mp hn)
    subst this
    obtain ⟨c, hc, _⟩ := hc
    simp [codePoints] at hc
  | succ n ih =>
    intro pre suf st fuel hn hf hs hc hi
    cases suf with
    | nil =>
      obtain ⟨c, hc, _⟩ := hc
      simp [codePoints] at hc
    | cons u t =>
      have hu : u < 65536 := hs u (by simp)
      have ht : ∀ x ∈ t, x < 65536 := fun x hx => hs x (by simp [hx])
      have hlen : t.length ≤ n := by simpa using hn
      obtain ⟨f, rfl⟩ : ∃ f, fuel = f + 1 := ⟨fuel - 1, by simp at hf; omega⟩
      have hf' : t.length ≤ f := by simp at hf; omega
      have hlt : st.i < (pre ++ u :: t).length := by simp [hi]
      have hcp : codePointAt (pre ++ u :: t) (st.i : Int) = cpHead (u :: t) := by
        rw [hi]; exact codePointAt_append pre (u :: t)
      obtain ⟨c, hcm, hc10, hcbad⟩ := hc
      rcases cp_decomp u t hu with ⟨h1, h2⟩ | ⟨b, t', cp, rfl, h1, h2, h3, h4, h5⟩
      · have hstr : (pre ++ [u]) ++ t = pre ++ u :: t := by simp
        have hnext : ¬ (u ≥ 65536) := by omega
        by_cases h10 : u = 10
        · subst h10
          have hc' : ∃ c ∈ codePoints t, c ≠ 10 ∧ isPrintable (some c) = false := by
            rw [h2] at hcm
            rcases List.mem_cons.mp hcm with rfl | hcm
            · exact absurd rfl hc10
            · exact ⟨c, hcm, hc10, hcbad⟩
          obtain ⟨i, ch, pc, hlb, hfl, plb, pl⟩ := st
          simp only at hi hlt hcp
          simp only [scanMultiLine, hlt, if_true, hcp, h1, CHAR_LINE_FEED, beq_self_eq_true,
            Scan.next]
          cases track with
          | true =>
            have e := ih (pre ++ [10]) t
              { i := i + 1, char := some 10, prevChar := some 10, hasLineBreak := true,
                hasFoldableLine := hfl
                  || (decide ((i : Int) - plb - 1 > w)
                      && charCodeAt (pre ++ 10 :: t) (plb + 1) != some 32),
                previousLineBreak := i,
                plain := pl && isPlainSafe (some 10) pc inblock } f hlen hf' ht hc'
              (by simp [hi])
            rw [hstr] at e
            simpa using e
          | false =>
            have e := ih (pre ++ [10]) t
              { i := i + 1, char := some 10, prevChar := some 10, hasLineBreak := true,
                hasFoldableLine := hfl, previousLineBreak := plb,
                plain := pl && isPlainSafe (some 10) pc inblock } f hlen hf' ht hc'
              (by simp [hi])
            rw [hstr] at e
            simpa using e
        · have hne : (some u == some 10) = false := by simpa using h10
          by_cases hpr : isPrintable (some u) = true
          · have hc' : ∃ c ∈ codePoints t, c ≠ 10 ∧ isPrintable (some c) = false := by
              rw [h2] at hcm
              rcases List.mem_cons.mp hcm with rfl | hcm
              · rw [hpr] at hcbad; cases hcbad
              · exact ⟨c, hcm, hc10, hcbad⟩
            obtain ⟨i, ch, pc, hlb, hfl, plb, pl⟩ := st
            simp only at hi hlt hcp
            have e := ih (pre ++ [u]) t
              { i := i + 1, char := some u, prevChar := some u, hasLineBreak := hlb,
                hasFoldableLine := hfl, previousLineBreak := plb,
                plain := pl && isPlainSafe (some u) pc inblock } f hlen hf' ht hc'
              (by simp [hi])
            rw [hstr] at e
            simp only [scanMultiLine, hlt, if_true, hcp, h1, CHAR_LINE_FEED, hne,
              Bool.false_eq_true, if_false, hpr, Scan.next, hnext]
            simpa using e
          · have hpr' : isPrintable (some u) = false := by simpa using hpr
            simp only [scanMultiLine, hlt, if_true, hcp, h1, CHAR_LINE_FEED, hne,
              Bool.false_eq_true, if_false, hpr', Bool.not_false]
      · have hne : (some cp == some 10) = false := by
          have : cp ≠ 10 := by omega
          simpa using this
        by_cases hpr : isPrintable (some cp) = true
        · have hstr : (pre ++ [u, b]) ++ t' = pre ++ u :: b :: t' := by simp
          have hc' : ∃ c ∈ codePoints t', c ≠ 10 ∧ isPrintable (some c) = false := by
            rw [h2] at hcm
            rcases List.mem_cons.mp hcm with rfl | hcm
            · rw [hpr] at hcbad; cases hcbad
            · exact ⟨c, hcm, hc10, hcbad⟩
          have ht' : ∀ x ∈ t', x < 65536 := fun x hx => ht x (by simp [hx])
          obtain ⟨i, ch, pc, hlb, hfl, plb, pl⟩ := st
          simp only at hi hlt hcp
          have e := ih (pre ++ [u, b]) t'
            { i := i + 2, char := some cp, prevChar := some cp, hasLineBreak := hlb,
              hasFoldableLine := hfl, previousLineBreak := plb,
              plain := pl && isPlainSafe (some cp) pc inblock } f
            (by simp at hlen; omega) (by simp at hf'; omega) ht' hc'
            (by simp [hi])
          rw [hstr] at e
          simp only [scanMultiLine, hlt, if_true, hcp, h1, CHAR_LINE_FEED, hne,
            Bool.false_eq_true, if_false, hpr, Scan.next, h3]
          simpa using e
        · have hpr' : isPrintable (some cp) = false := by simpa using hpr
          simp only [scanMultiLine, hlt, if_true, hcp, h1, CHAR_LINE_FEED, hne,
            Bool.false_eq_true, if_false, hpr', Bool.not_false]

end Dumper

namespace Dumper

/-! ## Lemmas on `writeNode` -/

theorem detectLoop_none (state : State) (object : JSVal) (explicit : Bool) :
    ∀ (types : List YType), types.any (detects state object) = false →
      detectLoop state object explicit types = .ok (state, false) := by
  intro types
  induction types with
  | nil => intro _; rfl
  | cons t ts ih =>
    intro h
    simp only [List.any_cons, Bool.or_eq_false_iff] at h
    unfold detectLoop
    rw [h.1]
    simp only [Bool.false_eq_true, if_false]
    exact ih h.2

/-- The two calls of `detectType` in `writeNode` when no type detects the
object. -/
theorem detectType_none (state : State) (object : JSVal) (explicit : Bool)
    (h : (state.implicitTypes ++ state.explicitTypes).any (detects state object) = false) :
    detectType state object explicit = .ok (state, false) := by
  unfold detectType
  apply detectLoop_none
  simp only [List.any_append, Bool.or_eq_false_iff] at h
  cases explicit
  · exact h.1
  · exact h.2

theorem detects_frame (state : State) (object : JSVal) (tag : Option JSString) (dump : JSVal) :
    detects { state with tag := tag, dump := dump } object = detects state object := rfl

theorem writeBlockMapping_tag (host : Host) (fuel : Nat) (state s : State) (level : Nat)
    (object : JSVal) (compact : Bool)
    (h : writeBlockMapping host fuel state level object compact = .ok s) :
    s.tag = state.tag := by
  cases fuel with
  | zero => simp [writeBlockMapping] at h
  | succ f =>
    unfold writeBlockMapping at h
    simp only [bind, Except.bind, pure, Except.pure] at h
    split at h
    · cases h
    · split at h
      · cases h
      · simp only [Except.ok.injEq] at h
        subst h; rfl

theorem writeFlowMapping_tag (host : Host) (fuel : Nat) (state s : State) (level : Nat)
    (object : JSVal)
    (h : writeFlowMapping host fuel state level object = .ok s) :
    s.tag = state.tag := by
  cases fuel with
  | zero => simp [writeFlowMapping] at h
  | succ f =>
    unfold writeFlowMapping at h
    simp only [bind, Except.bind, pure, Except.pure] at h
    split at h
    · cases h
    · simp only [Except.ok.injEq] at h
      subst h; rfl

theorem writeBlockSequence_tag (host : Host) (fuel : Nat) (state s : State) (level : Nat)
    (object : JSVal) (compact : Bool)
    (h : writeBlockSequence host fuel state level object compact = .ok s) :
    s.tag = state.tag := by
  cases fuel with
  | zero => simp [writeBlockSequence] at h
  | succ f =>
    unfold writeBlockSequence at h
    simp only [bind, Except.bind, pure, Except.pure] at h
    split at h
    · cases h
    · simp only [Except.ok.injEq] at h
      subst h; rfl

theorem writeFlowSequence_tag (host : Host) (fuel : Nat) (state s : State) (level : Nat)
    (object : JSVal)
    (h : writeFlowSequence host fuel state level object = .ok s) :
    s.tag = state.tag := by
  cases fuel with
  | zero => simp [writeFlowSequence] at h
  | succ f =>
    unfold writeFlowSequence at h
    simp only [bind, Except.bind, pure, Except.pure] at h
    split at h
    · cases h
    · simp only [Except.ok.injEq] at h
      subst h; rfl

/-- The end of `writeNode` for a writer that leaves no tag: the written state
is returned as it is. -/
theorem finish_untagged (w : Except JSError State) (g : State → State)
    (htag : ∀ s, w = .ok s → (g s).tag = none) (host : Host) :
    (match w with
      | .error e => Except.error e
      | .ok s =>
        match (some (g s) : Option State) with
        | none => (Except.ok (s, false) : Except JSError (State × Bool))
        | some state =>
          match state.tag with
          | some tag =>
            if tag != js "?" then
              match tagAnnotation tag with
              | .error e => .error e
              | .ok tagStr =>
                .ok ({ state with
                  dump := .str (tagStr ++ [32] ++ textOf host state.heap state.dump) }, true)
            else .ok (state, true)
          | none => .ok (state, true))
      = w.map (fun s => (g s, true)) := by
  cases w with
  | error e => rfl
  | ok s =>
    have := htag s rfl
    simp only [this, Except.map]

/-- `writeNode` on a plain object that no type detects. -/
theorem writeNode_object (host : Host) (fuel : Nat) (state : State) (level : Nat)
    (object : JSVal) (block compact iskey isblockseq : Bool)
    (hdet : (state.implicitTypes ++ state.explicitTypes).any (detects state object) = false)
    (hc : classOf state.heap object = .object) :
    writeNode host (fuel + 1) state level object block compact iskey isblockseq =
      match indexOf? state.duplicates object with
      | some i =>
        if state.usedDuplicates.getD i false then
          .ok ({ state with tag := none, dump := .str (js "*ref_" ++ natToString 10 i) }, true)
        else if (block && (decide (state.flowLevel < 0)
              || decide (state.flowLevel > (level : Int))))
            && (objectKeys state.heap object).length != 0 then
          (writeBlockMapping host fuel
            { state with tag := none, dump := object
                         usedDuplicates := state.usedDuplicates.set i true }
            level object false).map (fun s =>
              ({ s with dump := .str (js "&ref_" ++ natToString 10 i
                  ++ textOf host s.heap s.dump) }, true))
        else
          (writeFlowMapping host fuel
            { state with tag := none, dump := object
                         usedDuplicates := state.usedDuplicates.set i true }
            level object).map (fun s =>
              ({ s with dump := .str (js "&ref_" ++ natToString 10 i ++ [32]
                  ++ textOf host s.heap s.dump) }, true))
      | none =>
        (if (block && (decide (state.flowLevel < 0)
              || decide (state.flowLevel > (level : Int))))
            && (objectKeys state.heap object).length != 0 then
          writeBlockMapping host fuel { state with tag := none, dump := object } level object
            (if state.indent != 2 && level > 0 then false else compact)
        else writeFlowMapping host fuel { state with tag := none, dump := object } level
          object).map (fun s => (s, true)) := by
  have hd : ∀ e, detectType { state with tag := none, dump := object } object e
      = .ok ({ state with tag := none, dump := object }, false) :=
    fun e => detectType_none _ object e hdet
  have hblock : (if block = true then decide (state.flowLevel < 0)
        || decide (state.flowLevel > (level : Int)) else block)
      = (block && (decide (state.flowLevel < 0) || decide (state.flowLevel > (level : Int)))) := by
    cases block <;> simp
  unfold writeNode
  simp only [hd, bind, Except.bind, pure, Except.pure, Bool.not_false, if_true, hc,
    beq_self_eq_true, Bool.true_or, Bool.false_and, Bool.false_eq_true,
    if_false, Bool.or_false, bne_self_eq_false, Bool.false_or, hblock]
  cases hi : indexOf? state.duplicates object with
  | none =>
    simp only [Option.isSome_none, Bool.false_and, Bool.false_eq_true, if_false, Bool.false_or]
    split
    · cases hw : writeBlockMapping host fuel { state with tag := none, dump := object } level
          object (if state.indent != 2 && level > 0 then false else compact) with
      | error e => rfl
      | ok s =>
        have ht : s.tag = none := writeBlockMapping_tag _ _ _ _ _ _ _ hw
        simp only [ht, Except.map, List.append_nil]
    · cases hw : writeFlowMapping host fuel { state with tag := none, dump := object } level
          object with
      | error e => rfl
      | ok s =>
        have ht : s.tag = none := writeFlowMapping_tag _ _ _ _ _ _ hw
        simp only [ht, Except.map, List.append_nil]
  | some i =>
    simp only [Option.isSome_some, Bool.true_and, Option.getD_some, Bool.or_true, Bool.true_or,
      if_true]
    split
    · rfl
    · split
      · cases hw : writeBlockMapping host fuel
            { state with tag := none, dump := object
                         usedDuplicates := state.usedDuplicates.set i true }
            level object false with
        | error e => rfl
        | ok s =>
          have ht : s.tag = none := writeBlockMapping_tag _ _ _ _ _ _ _ hw
          simp only [ht, Except.map, List.append_nil]
      · cases hw : writeFlowMapping host fuel
            { state with tag := none, dump := object
                         usedDuplicates := state.usedDuplicates.set i true }
            level object with
        | error e => rfl
        | ok s =>
          have ht : s.tag = none := writeFlowMapping_tag _ _ _ _ _ _ hw
          simp only [ht, Except.map, List.append_nil]

/-- `writeNode` on an array that no type detects. -/
theorem writeNode_array (host : Host) (fuel : Nat) (state : State) (level : Nat)
    (object : JSVal) (block compact iskey isblockseq : Bool)
    (hdet : (state.implicitTypes ++ state.explicitTypes).any (detects state object) = false)
    (hc : classOf state.heap object = .array) :
    writeNode host (fuel + 1) state level object block compact iskey isblockseq =
      match indexOf? state.duplicates object with
      | some i =>
        if state.usedDuplicates.getD i false then
          .ok ({ state with tag := none, dump := .str (js "*ref_" ++ natToString 10 i) }, true)
        else if (block && (decide (state.flowLevel < 0)
              || decide (state.flowLevel > (level : Int))))
            && (arrayItems state.heap object).length != 0 then
          (writeBlockSequence host fuel
            { state with tag := none, dump := object
                         usedDuplicates := state.usedDuplicates.set i true }
            (if state.noArrayIndent && !isblockseq && level > 0 then level - 1 else level)
            object false).map (fun s =>
              ({ s with dump := .str (js "&ref_" ++ natToString 10 i
                  ++ textOf host s.heap s.dump) }, true))
        else
          (writeFlowSequence host fuel
            { state with tag := none, dump := object
                         usedDuplicates := state.usedDuplicates.set i true }
            level object).map (fun s =>
              ({ s with dump := .str (js "&ref_" ++ natToString 10 i ++ [32]
                  ++ textOf host s.heap s.dump) }, true))
      | none =>
        (if (block && (decide (state.flowLevel < 0)
              || decide (state.flowLevel > (level : Int))))
            && (arrayItems state.heap object).length != 0 then
          writeBlockSequence host fuel { state with tag := none, dump := object }
            (if state.noArrayIndent && !isblockseq && level > 0 then level - 1 else level)
            object (if state.indent != 2 && level > 0 then false else compact)
        else writeFlowSequence host fuel { state with tag := none, dump := object } level
          object).map (fun s => (s, true)) := by
  have hd : ∀ e, detectType { state with tag := none, dump := object } object e
      = .ok ({ state with tag := none, dump := object }, false) :=
    fun e => detectType_none _ object e hdet
  have hblock : (if block = true then decide (state.flowLevel < 0)
        || decide (state.flowLevel > (level : Int)) else block)
      = (block && (decide (state.flowLevel < 0) || decide (state.flowLevel > (level : Int)))) := by
    cases block <;> simp
  have hne : (Class.array == Class.object) = false := by decide
  unfold writeNode
  simp only [hd, bind, Except.bind, pure, Except.pure, Bool.not_false, if_true, hc,
    beq_self_eq_true, Bool.true_or, Bool.false_and, Bool.false_eq_true,
    if_false, Bool.or_false, bne_self_eq_false, Bool.false_or, hblock, hne, Bool.or_true]
  by_cases h3 : (state.noArrayIndent && !isblockseq && decide (level > 0)) = true
  · simp only [h3, if_true]
    cases hi : indexOf? state.duplicates object with
    | none =>
      simp only [Option.isSome_none, Bool.false_and, Bool.false_eq_true, if_false, Bool.false_or]
      split
      · cases hw : writeBlockSequence host fuel { state with tag := none, dump := object }
            (level - 1) object (if state.indent != 2 && level > 0 then false else compact) with
        | error e => rfl
        | ok s =>
          have ht : s.tag = none := writeBlockSequence_tag _ _ _ _ _ _ _ hw
          simp only [ht, Except.map, List.append_nil]
      · cases hw : writeFlowSequence host fuel { state with tag := none, dump := object } level
            object with
        | error e => rfl
        | ok s =>
          have ht : s.tag = none := writeFlowSequence_tag _ _ _ _ _ _ hw
          simp only [ht, Except.map, List.append_nil]
    | some i =>
      simp only [Option.isSome_some, Bool.true_and, Option.getD_some, Bool.or_true, Bool.true_or,
        if_true]
      split
      · rfl
      · split
        · cases hw : writeBlockSequence host fuel
              { state with tag := none, dump := object
                           usedDuplicates := state.usedDuplicates.set i true }
              (level - 1) object false with
          | error e => rfl
          | ok s =>
            have ht : s.tag = none := writeBlockSequence_tag _ _ _ _ _ _ _ hw
            simp only [ht, Except.map, List.append_nil]
        · cases hw : writeFlowSequence host fuel
              { state with tag := none, dump := object
                           usedDuplicates := state.usedDuplicates.set i true }
              level object with
          | error e => rfl
          | ok s =>
            have ht : s.tag = none := writeFlowSequence_tag _ _ _ _ _ _ hw
            simp only [ht, Except.map, List.append_nil]
  · have h3' : (state.noArrayIndent && !isblockseq && decide (level > 0)) = false := by
      simpa using h3
    simp only [h3', Bool.false_eq_true, if_false]
    cases hi : indexOf? state.duplicates object with
    | none =>
      simp only [Option.isSome_none, Bool.false_and, Bool.false_eq_true, if_false, Bool.false_or]
      split
      · cases hw : writeBlockSequence host fuel { state with tag := none, dump := object }
            level object (if state.indent != 2 && level > 0 then false else compact) with
        | error e => rfl
        | ok s =>
          have ht : s.tag = none := writeBlockSequence_tag _ _ _ _ _ _ _ hw
          simp only [ht, Except.map, List.append_nil]
      · cases hw : writeFlowSequence host fuel { state with tag := none, dump := object } level
            object with
        | error e => rfl
        | ok s =>
          have ht : s.tag = none := writeFlowSequence_tag _ _ _ _ _ _ hw
          simp only [ht, Except.map, List.append_nil]
    | some i =>
      simp only [Option.isSome_some, Bool.true_and, Option.getD_some, Bool.or_true, Bool.true_or,
        if_true]
      split
      · rfl
      · split
        · cases hw : writeBlockSequence host fuel
              { state with tag := none, dump := object
                           usedDuplicates := state.usedDuplicates.set i true }
              level object false with
          | error e => rfl
          | ok s =>
            have ht : s.tag = none := writeBlockSequence_tag _ _ _ _ _ _ _ hw
            simp only [ht, Except.map, List.append_nil]
        · cases hw : writeFlowSequence host fuel
              { state with tag := none, dump := object
                           usedDuplicates := state.usedDuplicates.set i true }
              level object with
          | error e => rfl
          | ok s =>
            have ht : s.tag = none := writeFlowSequence_tag _ _ _ _ _ _ hw
            simp only [ht, Except.map, List.append_nil]

/-! ## Lemmas on the sort of the keys -/

theorem keyLe_total : ∀ (a b : JSString), keyLe a b = true ∨ keyLe b a = true := by
  intro a
  induction a with
  | nil => intro b; left; cases b <;> rfl
  | cons x xs ih =>
    intro b
    cases b with
    | nil => right; rfl
    | cons y ys =>
      simp only [keyLe]
      by_cases h1 : x < y
      · left; simp [h1]
      · by_cases h2 : y < x
        · right; simp [h2]
        · simp only [h1, h2, if_false]
          exact ih ys

theorem keyLe_trans : ∀ (a b c : JSString), keyLe a b = true → keyLe b c = true →
    keyLe a c = true := by
  intro a
  induction a with
  | nil => intro b c _ _; cases c <;> rfl
  | cons x xs ih =>
    intro b c hab hbc
    cases b with
    | nil => simp [keyLe] at hab
    | cons y ys =>
      cases c with
      | nil => simp [keyLe] at hbc
      | cons z zs =>
        simp only [keyLe] at hab hbc ⊢
        by_cases h1 : x < y
        · by_cases h2 : y < z
          · have : x < z := by omega
            simp [this]
          · by_cases h3 : z < y
            · simp [h2, h3] at hbc
            · have hyz : y = z := by omega
              subst hyz
              simp [h1]
        · by_cases h1' : y < x
          · simp [h1, h1'] at hab
          · have hxy : x = y := by omega
            subst hxy
            simp only [h1, if_false] at hab
            by_cases h2 : x < z
            · simp [h2]
            · by_cases h3 : z < x
              · simp [h2, h3] at hbc
              · simp only [h2, h3, if_false] at hbc ⊢
                exact ih ys zs hab hbc

theorem insertSorted_perm (le : JSString → JSString → Bool) (k : JSString) :
    ∀ (l : List JSString), (insertSorted le k l).Perm (k :: l) := by
  intro l
  induction l with
  | nil => exact List.Perm.refl _
  | cons x xs ih =>
    simp only [insertSorted]
    split
    · exact (List.Perm.cons x ih).trans (List.Perm.swap k x xs)
    · exact List.Perm.refl _

theorem insertSorted_sorted (k : JSString) :
    ∀ (l : List JSString), l.Pairwise (fun a b => keyLe a b = true) →
      (insertSorted keyLe k l).Pairwise (fun a b => keyLe a b = true) := by
  intro l
  induction l with
  | nil => intro _; simp [insertSorted]
  | cons x xs ih =>
    intro h
    have hx := List.pairwise_cons.mp h
    simp only [insertSorted]
    split
    · rename_i hle
      refine List.pairwise_cons.mpr ⟨?_, ih hx.2⟩
      intro y hy
      have := (insertSorted_perm keyLe k xs).mem_iff.mp hy
      rcases List.mem_cons.mp this with rfl | hy'
      · exact hle
      · exact hx.1 y hy'
    · rename_i hle
      have hkx : keyLe k x = true := by
        rcases keyLe_total x k with h | h
        · exact absurd h hle
        · exact h
      refine List.pairwise_cons.mpr ⟨?_, h⟩
      intro y hy
      rcases List.mem_cons.mp hy with rfl | hy'
      · exact hkx
      · exact keyLe_trans k x y hkx (hx.1 y hy')

theorem sortKeysBy_aux (le : JSString → JSString → Bool) :
    ∀ (keys acc : List JSString),
      (keys.foldl (fun sorted k => insertSorted le k sorted) acc).Perm (keys ++ acc) := by
  intro keys
  induction keys with
  | nil => intro acc; exact List.Perm.refl _
  | cons k ks ih =>
    intro acc
    simp only [List.foldl_cons, List.cons_append]
    refine (ih _).trans ?_
    exact (List.Perm.append_left ks (insertSorted_perm le k acc)).trans
      (List.perm_middle)

theorem sortKeysBy_perm (le : JSString → JSString → Bool) (keys : List JSString) :
    (sortKeysBy le keys).Perm keys := by
  have := sortKeysBy_aux le keys []
  simpa [sortKeysBy] using this

theorem sortKeysBy_sorted (keys : List JSString) :
    (sortKeysBy keyLe keys).Pairwise (fun a b => keyLe a b = true) := by
  unfold sortKeysBy
  have : ∀ (ks acc : List JSString), acc.Pairwise (fun a b => keyLe a b = true) →
      (ks.foldl (fun sorted k => insertSorted keyLe k sorted) acc).Pairwise
        (fun a b => keyLe a b = true) := by
    intro ks
    induction ks with
    | nil => intro acc h; exact h
    | cons k ks ih => intro acc h; exact ih _ (insertSorted_sorted k acc h)
  exact this keys [] List.Pairwise.nil

/-- A flow mapping without keys is written as `{}`. -/
theorem writeFlowMapping_empty (host : Host) (fuel : Nat) (state : State) (level : Nat)
    (object : JSVal) (h : objectKeys state.heap object = []) :
    writeFlowMapping host (fuel + 2) state level object
      = .ok { state with dump := .str (js "{}") } := by
  unfold writeFlowMapping
  simp only [h, writeFlowMappingLoop, bind, Except.bind, pure, Except.pure]
  rfl

/-- A flow sequence without items is written as `[]`. -/
theorem writeFlowSequence_empty (host : Host) (fuel : Nat) (state : State) (level : Nat)
    (object : JSVal) (h : arrayItems state.heap object = []) :
    writeFlowSequence host (fuel + 2) state level object
      = .ok { state with dump := .str (js "[]") } := by
  unfold writeFlowSequence
  simp only [h, writeFlowSequenceLoop, bind, Except.bind, pure, Except.pure]
  rfl

theorem encodeURI_unescaped : ∀ (s : JSString), (∀ c ∈ s, uriUnescaped c = true) →
    encodeURI s = .ok s := by
  intro s
  induction s with
  | nil => intro _; rfl
  | cons c cs ih =>
    intro h
    have hc := h c (by simp)
    rw [encodeURI.eq_def]
    simp only [hc, if_true, ih (fun x hx => h x (by simp [hx])), Except.map]

theorem flatMap_bang (s : JSString) (h : 33 ∉ s) :
    (s.flatMap fun c => if c = 33 then js "%21" else [c]) = s := by
  induction s with
  | nil => rfl
  | cons c cs ih =>
    have hc : c ≠ 33 := fun e => h (by simp [e])
    have hcs : 33 ∉ cs := fun e => h (by simp [e])
    simp only [List.flatMap_cons, hc, if_false, ih hcs, List.singleton_append]

/-- `writeNode` on a value that an explicit type detects and represents as a
string. -/
theorem writeNode_scalar_tagged (host : Host) (fuel : Nat) (state : State) (level : Nat)
    (object : JSVal) (block compact iskey isblockseq : Bool) (st1 st2 : State) (tag : JSString)
    (h1 : detectType { state with tag := none, dump := object } object false = .ok (st1, false))
    (h2 : detectType st1 object true = .ok (st2, true))
    (hclass : classOf st2.heap st2.dump = .string)
    (htag : st2.tag = some tag) (hq : tag ≠ js "?") :
    writeNode host (fuel + 1) state level object block compact iskey isblockseq =
      match writeScalar st2 (textOf host st2.heap st2.dump) level iskey block with
      | .error e => .error e
      | .ok text =>
        match tagAnnotation tag with
        | .error e => .error e
        | .ok tagStr => .ok ({ st2 with dump := .str (tagStr ++ [32] ++ text) }, true) := by
  have hs1 : (Class.string == Class.object) = false := by decide
  have hs2 : (Class.string == Class.array) = false := by decide
  have hq' : (tag != js "?") = true := by simpa using hq
  have hq2 : (some tag != some (js "?")) = true := by simpa using hq
  unfold writeNode
  simp only [h1, h2, bind, Except.bind, pure, Except.pure, Bool.not_false, if_true, hclass,
    hs1, hs2, Bool.or_self, Bool.false_eq_true, if_false, Option.isSome_none, Bool.false_and,
    beq_self_eq_true, htag, hq2]
  cases hw : writeScalar st2 (textOf host st2.heap st2.dump) level iskey block with
  | error e => rfl
  | ok text =>
    simp only [htag, hq', if_true]
    cases tagAnnotation tag with
    | error e => rfl
    | ok tagStr => rfl

/-- `writeNode` on a value that an implicit type detects and represents as a
string: the text is the one the type gives, without annotation. -/
theorem writeNode_scalar_implicit (host : Host) (fuel : Nat) (state : State) (level : Nat)
    (object : JSVal) (block compact iskey isblockseq : Bool) (st1 : State)
    (h1 : detectType { state with tag := none, dump := object } object false = .ok (st1, true))
    (hclass : classOf st1.heap st1.dump = .string)
    (htag : st1.tag = some (js "?")) :
    writeNode host (fuel + 1) state level object block compact iskey isblockseq
      = .ok (st1, true) := by
  have hs1 : (Class.string == Class.object) = false := by decide
  have hs2 : (Class.string == Class.array) = false := by decide
  unfold writeNode
  simp only [h1, bind, Except.bind, pure, Except.pure, Bool.not_true, if_true, hclass,
    hs1, hs2, Bool.or_self, Bool.false_eq_true, if_false, Option.isSome_none, Bool.false_and,
    beq_self_eq_true, htag, bne_self_eq_false]

/-- `writeNode` on a string that no type detects: the text `writeScalar` gives,
without annotation. -/
theorem writeNode_string (host : Host) (fuel : Nat) (state : State) (level : Nat)
    (s : JSString) (block compact iskey isblockseq : Bool)
    (hdet : (state.implicitTypes ++ state.explicitTypes).any (detects state (.str s)) = false) :
    writeNode host (fuel + 1) state level (.str s) block compact iskey isblockseq =
      (writeScalar { state with tag := none, dump := .str s } s level iskey block).map
        (fun text => ({ state with tag := none, dump := .str text }, true)) := by
  have hd : ∀ e, detectType { state with tag := none, dump := .str s } (.str s) e
      = .ok ({ state with tag := none, dump := .str s }, false) :=
    fun e => detectType_none _ _ e hdet
  have hs1 : (Class.string == Class.object) = false := by decide
  have hs2 : (Class.string == Class.array) = false := by decide
  unfold writeNode
  simp only [hd, bind, Except.bind, pure, Except.pure, Bool.not_false, if_true, classOf,
    hs1, hs2, Bool.or_self, Bool.false_eq_true, if_false, Option.isSome_none, Bool.false_and,
    beq_self_eq_true, textOf]
  cases hw : writeScalar { state with tag := none, dump := .str s } s level iskey block with
  | error e => simp [Except.map]
  | ok text => simp [Except.map]

theorem writeNode_unacceptable (host : Host) (fuel : Nat) (state : State) (level : Nat)
    (object : JSVal) (block compact iskey isblockseq : Bool)
    (hdet : (state.implicitTypes ++ state.explicitTypes).any (detects state object) = false)
    (hclass : classOf state.heap object ≠ .string ∧ classOf state.heap object ≠ .array
      ∧ classOf state.heap object ≠ .object ∧ classOf state.heap object ≠ .undefined) :
    writeNode host (fuel + 1) state level object block compact iskey isblockseq =
      if state.skipInvalid then .ok ({ state with tag := none, dump := object }, false)
      else .error (.yaml ("unacceptable kind of an object to dump "
        ++ (classOf state.heap object).text)) := by
  have hd : ∀ e, detectType { state with tag := none, dump := object } object e
      = .ok ({ state with tag := none, dump := object }, false) :=
    fun e => detectType_none _ object e hdet
  obtain ⟨h1, h2, h3, h4⟩ := hclass
  have b1 : (classOf state.heap object == Class.string) = false := by simpa using h1
  have b2 : (classOf state.heap object == Class.array) = false := by simpa using h2
  have b3 : (classOf state.heap object == Class.object) = false := by simpa using h3
  have b4 : (classOf state.heap object == Class.undefined) = false := by simpa using h4
  unfold writeNode
  simp only [hd, bind, Except.bind, pure, Except.pure, Bool.not_false, if_true, b1, b2, b3, b4,
    Bool.or_self, Bool.false_eq_true, if_false, Option.isSome_none, Bool.false_and]

theorem ne_undefined_of_class (heap : Heap) (v : JSVal) (h : classOf heap v ≠ .undefined) :
    (v == JSVal.undefined) = false := by
  cases v <;> simp [classOf] at h ⊢

theorem writeBlockSequenceLoop_skip (host : Host) (fuel : Nat) (state : State) (level : Nat)
    (object : JSVal) (compact : Bool) (value : JSVal) (rest : List JSVal) (index : Nat)
    (_result : JSString) (hskip : state.skipInvalid = true)
    (hdet : (state.implicitTypes ++ state.explicitTypes).any
      (detects state (state.replace object (natToString 10 index) value)) = false)
    (hclass : classOf state.heap (state.replace object (natToString 10 index) value) ≠ .string
      ∧ classOf state.heap (state.replace object (natToString 10 index) value) ≠ .array
      ∧ classOf state.heap (state.replace object (natToString 10 index) value) ≠ .object
      ∧ classOf state.heap (state.replace object (natToString 10 index) value) ≠ .undefined) :
    writeBlockSequenceLoop host (fuel + 2) state level object compact (value :: rest) index
        _result
      = writeBlockSequenceLoop host (fuel + 1)
          { state with tag := none, dump := state.replace object (natToString 10 index) value }
          level object compact rest (index + 1) _result := by
  have hw := writeNode_unacceptable host fuel state (level + 1)
    (state.replace object (natToString 10 index) value) true true false true hdet hclass
  rw [if_pos hskip] at hw
  have hu := ne_undefined_of_class _ _ hclass.2.2.2
  conv_lhs => unfold writeBlockSequenceLoop
  simp only [bind, Except.bind, pure, Except.pure, hw, hu, Bool.not_false, Bool.true_and,
    Bool.false_eq_true, if_false, Bool.and_false]

theorem writeFlowSequenceLoop_skip (host : Host) (fuel : Nat) (state : State) (level : Nat)
    (object : JSVal) (value : JSVal) (rest : List JSVal) (index : Nat)
    (_result : JSString) (hskip : state.skipInvalid = true)
    (hdet : (state.implicitTypes ++ state.explicitTypes).any
      (detects state (state.replace object (natToString 10 index) value)) = false)
    (hclass : classOf state.heap (state.replace object (natToString 10 index) value) ≠ .string
      ∧ classOf state.heap (state.replace object (natToString 10 index) value) ≠ .array
      ∧ classOf state.heap (state.replace object (natToString 10 index) value) ≠ .object
      ∧ classOf state.heap (state.replace object (natToString 10 index) value) ≠ .undefined) :
    writeFlowSequenceLoop host (fuel + 2) state level object (value :: rest) index _result
      = writeFlowSequenceLoop host (fuel + 1)
          { state with tag := none, dump := state.replace object (natToString 10 index) value }
          level object rest (index + 1) _result := by
  have hw := writeNode_unacceptable host fuel state level
    (state.replace object (natToString 10 index) value) false false false false hdet hclass
  rw [if_pos hskip] at hw
  have hu := ne_undefined_of_class _ _ hclass.2.2.2
  conv_lhs => unfold writeFlowSequenceLoop
  simp only [bind, Except.bind, pure, Except.pure, hw, hu, Bool.not_false, Bool.true_and,
    Bool.false_eq_true, if_false, Bool.and_false]

theorem writeBlockMappingLoop_skip (host : Host) (fuel : Nat) (state state1 : State)
    (level : Nat) (object : JSVal) (compact : Bool) (objectKey : JSString)
    (rest : List JSString) (_result : JSString)
    (hkey : writeNode host (fuel + 1) state (level + 1) (.str objectKey) true true true false
      = .ok (state1, true))
    (hskip : state1.skipInvalid = true)
    (hdet : (state1.implicitTypes ++ state1.explicitTypes).any
      (detects state1 (state.replace object objectKey (getProperty state.heap object objectKey)))
        = false)
    (hclass :
      classOf state1.heap (state.replace object objectKey (getProperty state.heap object objectKey))
          ≠ .string
      ∧ classOf state1.heap
          (state.replace object objectKey (getProperty state.heap object objectKey)) ≠ .array
      ∧ classOf state1.heap
          (state.replace object objectKey (getProperty state.heap object objectKey)) ≠ .object
      ∧ classOf state1.heap
          (state.replace object objectKey (getProperty state.heap object objectKey))
          ≠ .undefined) :
    writeBlockMappingLoop host (fuel + 2) state level object compact (objectKey :: rest) _result
      = writeBlockMappingLoop host (fuel + 1)
          { state1 with
            tag := none
            dump := state.replace object objectKey (getProperty state.heap object objectKey) }
          level object compact rest _result := by
  have hw := fun explicitPair => writeNode_unacceptable host fuel state1 (level + 1)
    (state.replace object objectKey (getProperty state.heap object objectKey)) true explicitPair
    false false hdet hclass
  simp only [if_pos hskip] at hw
  conv_lhs => unfold writeBlockMappingLoop
  simp only [bind, Except.bind, pure, Except.pure, hkey, hw, Bool.not_true, Bool.not_false,
    Bool.false_eq_true, if_false, if_true]

theorem writeFlowMappingLoop_skip (host : Host) (fuel : Nat) (state state1 : State)
    (level : Nat) (object : JSVal) (objectKey : JSString)
    (rest : List JSString) (_result : JSString)
    (hkey : writeNode host (fuel + 1) state level (.str objectKey) false false false false
      = .ok (state1, true))
    (hskip : state1.skipInvalid = true)
    (hdet : (state1.implicitTypes ++ state1.explicitTypes).any
      (detects state1 (state.replace object objectKey (getProperty state.heap object objectKey)))
        = false)
    (hclass :
      classOf state1.heap (state.replace object objectKey (getProperty state.heap object objectKey))
          ≠ .string
      ∧ classOf state1.heap
          (state.replace object objectKey (getProperty state.heap object objectKey)) ≠ .array
      ∧ classOf state1.heap
          (state.replace object objectKey (getProperty state.heap object objectKey)) ≠ .object
      ∧ classOf state1.heap
          (state.replace object objectKey (getProperty state.heap object objectKey))
          ≠ .undefined) :
    writeFlowMappingLoop host (fuel + 2) state level object (objectKey :: rest) _result
      = writeFlowMappingLoop host (fuel + 1)
          { state1 with
            tag := none
            dump := state.replace object objectKey (getProperty state.heap object objectKey) }
          level object rest _result := by
  have hw := writeNode_unacceptable host fuel state1 level
    (state.replace object objectKey (getProperty state.heap object objectKey)) false false
    false false hdet hclass
  simp only [if_pos hskip] at hw
  conv_lhs => unfold writeFlowMappingLoop
  simp only [bind, Except.bind, pure, Except.pure, hkey, hw, Bool.not_true, Bool.not_false,
    Bool.false_eq_true, if_false, if_true]

end Dumper

/-! ## Lemmas on the integer type -/

theorem foldl_digits_append (b : Nat) (l : List Nat) (x : Nat) :
    (l ++ [x]).foldl (fun acc d => acc * b + d) 0 = l.foldl (fun acc d => acc * b + d) 0 * b + x := by
  simp [List.foldl_append]

theorem natDigits_spec (b : Nat) (hb : 2 ≤ b) :
    ∀ (fuel m : Nat), m < fuel →
      (natDigits b fuel m).foldl (fun acc d => acc * b + d) 0 = m
      ∧ (∀ d ∈ natDigits b fuel m, d < b)
      ∧ natDigits b fuel m ≠ []
      ∧ (0 < m → (natDigits b fuel m).head? ≠ some 0) := by
  intro fuel
  induction fuel with
  | zero => intro m h; omega
  | succ f ih =>
    intro m hm
    simp only [natDigits]
    by_cases hlt : m < b
    · simp only [hlt, if_true]
      refine ⟨by simp, by simp [hlt], by simp, ?_⟩
      intro hpos
      simp only [List.head?_cons, ne_eq, Option.some.injEq]
      omega
    · simp only [hlt, if_false]
      have hdiv : m / b < f := by
        have : m / b < m := Nat.div_lt_self (by omega) (by omega)
        omega
      obtain ⟨h1, h2, h3, h4⟩ := ih (m / b) hdiv
      refine ⟨?_, ?_, ?_, ?_⟩
      · rw [foldl_digits_append, h1]
        exact Nat.div_add_mod' m b
      · intro d hd
        rcases List.mem_append.mp hd with h | h
        · exact h2 d h
        · simp only [List.mem_singleton] at h
          subst h
          exact Nat.mod_lt _ (by omega)
      · simp
      · intro _
        have hpos : 0 < m / b := Nat.div_pos (by omega) (by omega)
        have := h4 hpos
        cases hnd : natDigits b f (m / b) with
        | nil => exact absurd hnd h3
        | cons x xs =>
          rw [hnd] at this
          simpa using this

/-- The digits `parseInt` reads in a text of digit characters. -/
theorem leadingDigits_map (radix : Nat) (char : Nat → Nat) :
    ∀ (ds : List Nat), (∀ d ∈ ds, digitValue radix (char d) = some d) →
      leadingDigits radix (ds.map char) = ds := by
  intro ds
  induction ds with
  | nil => intro _; rfl
  | cons d ds ih =>
    intro h
    simp only [List.map_cons, leadingDigits, h d (by simp)]
    rw [ih (fun x hx => h x (by simp [hx]))]

/-- The digit loop of `resolveYamlInteger` on a text of accepted digits. -/
theorem digitLoop_digits (isDigit : Nat → Bool) :
    ∀ (cs : JSString) (hasDigits : Bool) (ch : Option Nat),
      (∀ c ∈ cs, isDigit c = true ∧ c ≠ 95) → (cs ≠ [] ∨ (hasDigits = true ∧ ch ≠ some 95)) →
      digitLoop isDigit cs hasDigits ch = true := by
  intro cs
  induction cs with
  | nil =>
    intro hasDigits ch _ h
    rcases h with h | ⟨h1, h2⟩
    · exact absurd rfl h
    · simp [digitLoop, h1, h2]
  | cons c cs ih =>
    intro hasDigits ch h _
    have hc := h c (by simp)
    simp only [digitLoop, hc.2, if_false, hc.1, Bool.not_true, Bool.false_eq_true]
    apply ih
    · intro x hx; exact h x (by simp [hx])
    · right
      exact ⟨rfl, by simpa using hc.2⟩

theorem digitChar_lower (d : Nat) (radix : Nat) (hd : d < radix) (hr : radix ≤ 16) :
    digitValue radix (digitChar false d) = some d
    ∧ digitChar false d ≠ 95 ∧ digitChar false d ≠ 45 ∧ digitChar false d ≠ 43
    ∧ (d < 10 → digitChar false d = 48 + d) := by
  have hd16 : d < 16 := by omega
  interval_cases d <;> simp [digitChar, digitValue, hd]

theorem digitChar_upper (d : Nat) (hd : d < 16) :
    digitValue 16 ((fun c => if 97 ≤ c ∧ c ≤ 122 then c - 32 else c) (digitChar false d))
      = some d
    ∧ (fun c => if 97 ≤ c ∧ c ≤ 122 then c - 32 else c) (digitChar false d) ≠ 95
    ∧ isHexCode ((fun c => if 97 ≤ c ∧ c ≤ 122 then c - 32 else c) (digitChar false d)) = true
    := by
  interval_cases d <;> decide

theorem natToString_ne_nil (b : Nat) (hb : 2 ≤ b) (m : Nat) : natToString b m ≠ [] := by
  unfold natToString
  have := (natDigits_spec b hb (m + 1) m (by omega)).2.2.1
  simpa using this

theorem parseInt_natToString (host : Host) (b : Nat) (hb : 2 ≤ b) (hb16 : b ≤ 16) (m : Nat)
    (hm : m ≤ 2 ^ 53) : parseInt host (natToString b m) b = .num m := by
  obtain ⟨h1, h2, h3, _⟩ := natDigits_spec b hb (m + 1) m (by omega)
  unfold parseInt natToString
  rw [leadingDigits_map b (digitChar false) _
    (fun d hd => (digitChar_lower d b (h2 d hd) hb16).1)]
  cases hds : natDigits b (m + 1) m with
  | nil => exact absurd hds h3
  | cons x xs =>
    rw [hds] at h1
    simp only [h1, numberOfInt]
    have : (m : Int).natAbs ≤ 2 ^ 53 := by simpa using hm
    rw [if_pos this]

theorem parseInt_upper (host : Host) (m : Nat) (hm : m ≤ 2 ^ 53) :
    parseInt host (upperAscii (natToString 16 m)) 16 = .num m := by
  obtain ⟨h1, h2, h3, _⟩ := natDigits_spec 16 (by omega) (m + 1) m (by omega)
  unfold parseInt natToString upperAscii
  rw [List.map_map]
  rw [leadingDigits_map 16 ((fun c => if 97 ≤ c ∧ c ≤ 122 then c - 32 else c) ∘ digitChar false)
    _ (fun d hd => (digitChar_upper d (h2 d hd)).1)]
  cases hds : natDigits 16 (m + 1) m with
  | nil => exact absurd hds h3
  | cons x xs =>
    rw [hds] at h1
    simp only [h1, numberOfInt]
    have : (m : Int).natAbs ≤ 2 ^ 53 := by simpa using hm
    rw [if_pos this]

/-- The digit characters of a number in a radix of at most ten are decimal
digits below the radix. -/
theorem natToString_chars (b : Nat) (hb : 2 ≤ b) (hb10 : b ≤ 10) (m : Nat) :
    ∀ c ∈ natToString b m, 48 ≤ c ∧ c < 48 + b := by
  intro c hc
  unfold natToString at hc
  obtain ⟨d, hd, rfl⟩ := List.mem_map.mp hc
  have hlt := (natDigits_spec b hb (m + 1) m (by omega)).2.1 d hd
  have := (digitChar_lower d b hlt (by omega)).2.2.2.2 (by omega)
  omega

theorem natToString_head (b : Nat) (hb : 2 ≤ b) (hb10 : b ≤ 10) (m : Nat) (hm : 0 < m) :
    ∃ c cs, natToString b m = c :: cs ∧ 49 ≤ c ∧ c ≤ 57 := by
  obtain ⟨_, h2, h3, h4⟩ := natDigits_spec b hb (m + 1) m (by omega)
  unfold natToString
  cases hds : natDigits b (m + 1) m with
  | nil => exact absurd hds h3
  | cons x xs =>
    rw [hds] at h2 h4
    have hx : x < b := h2 x (by simp)
    have hx0 : x ≠ 0 := by
      have := h4 hm
      simpa using this
    refine ⟨digitChar false x, xs.map (digitChar false), rfl, ?_⟩
    have := (digitChar_lower x b hx (by omega)).2.2.2.2 (by omega)
    omega

theorem natToString_zero (b : Nat) (hb : 2 ≤ b) : natToString b 0 = js "0" := by
  unfold natToString natDigits
  have : 0 < b := by omega
  simp [this, natDigits, digitChar]
  rfl

theorem natToString_upper_chars (m : Nat) :
    ∀ c ∈ upperAscii (natToString 16 m), isHexCode c = true ∧ c ≠ 95 := by
  intro c hc
  unfold upperAscii natToString at hc
  rw [List.map_map] at hc
  obtain ⟨d, hd, rfl⟩ := List.mem_map.mp hc
  have hlt := (natDigits_spec 16 (by omega) (m + 1) m (by omega)).2.1 d hd
  have := digitChar_upper d hlt
  exact ⟨this.2.2, this.2.1⟩

/-- The text `0` + radix letter + digits, with or without a minus sign, in
`resolveYamlInteger`. -/
theorem resolve_prefixed (p : Nat) (isDigit : Nat → Bool) (T : JSString)
    (hp : p = 98 ∧ isDigit = (fun c => c == 48 || c == 49)
      ∨ p = 120 ∧ isDigit = isHexCode ∨ p = 111 ∧ isDigit = isOctCode)
    (hT : T ≠ []) (hall : ∀ c ∈ T, isDigit c = true ∧ c ≠ 95) :
    resolveYamlInteger (.str (48 :: p :: T)) = true
    ∧ resolveYamlInteger (.str (45 :: 48 :: p :: T)) = true := by
  have hloop := digitLoop_digits isDigit T false (some p) hall (Or.inl hT)
  rcases hp with ⟨rfl, rfl⟩ | ⟨rfl, rfl⟩ | ⟨rfl, rfl⟩
  · constructor
    · simp [resolveYamlInteger, hloop]
    · simp [resolveYamlInteger, hloop]
  · constructor
    · simp [resolveYamlInteger, hloop]
    · simp [resolveYamlInteger, hloop]
  · constructor
    · simp [resolveYamlInteger, hloop]
    · simp [resolveYamlInteger, hloop]

/-- The text `0` + radix letter + digits, with or without a minus sign, in
`constructYamlInteger`. -/
theorem construct_prefixed (host : Host) (p radix : Nat) (T : JSString)
    (hp : p = 98 ∧ radix = 2 ∨ p = 120 ∧ radix = 16 ∨ p = 111 ∧ radix = 8)
    (hall : ∀ c ∈ T, c ≠ 95) :
    constructYamlInteger host (48 :: p :: T) = parseInt host T radix
    ∧ constructYamlInteger host (45 :: 48 :: p :: T) = negate (parseInt host T radix) := by
  have hc : 95 ∉ T := fun h => hall 95 h rfl
  rcases hp with ⟨rfl, rfl⟩ | ⟨rfl, rfl⟩ | ⟨rfl, rfl⟩
  · constructor
    · simp [constructYamlInteger, hc, js]
    · simp [constructYamlInteger, hc, js]
  · constructor
    · simp [constructYamlInteger, hc, js]
    · simp [constructYamlInteger, hc, js]
  · constructor
    · simp [constructYamlInteger, hc, js]
    · simp [constructYamlInteger, hc, js]

/-- A decimal text that starts with a digit from 1 to 9, with or without a
minus sign, in `resolveYamlInteger` and `constructYamlInteger`. -/
theorem decimal_text (host : Host) (c : Nat) (cs : JSString)
    (hc : 49 ≤ c ∧ c ≤ 57) (hall : ∀ x ∈ c :: cs, 48 ≤ x ∧ x < 58) :
    resolveYamlInteger (.str (c :: cs)) = true
    ∧ resolveYamlInteger (.str (45 :: c :: cs)) = true
    ∧ constructYamlInteger host (c :: cs) = parseInt host (c :: cs) 10
    ∧ constructYamlInteger host (45 :: c :: cs) = negate (parseInt host (c :: cs) 10) := by
  have hdig : ∀ x ∈ c :: cs, isDecCode x = true ∧ x ≠ 95 := by
    intro x hx
    have := hall x hx
    refine ⟨?_, by omega⟩
    unfold isDecCode
    simp only [Bool.and_eq_true, decide_eq_true_eq]
    omega
  have hloop : ∀ ch, digitLoop isDecCode (c :: cs) false ch = true :=
    fun ch => digitLoop_digits isDecCode (c :: cs) false ch hdig (Or.inl (by simp))
  have h95 : 95 ∉ cs := fun h => (hdig 95 (by simp [h])).2 rfl
  have c45 : c ≠ 45 := by omega
  have c43 : c ≠ 43 := by omega
  have c48 : c ≠ 48 := by omega
  have c95 : c ≠ 95 := by omega
  have c95' : ¬ (95 = c) := by omega
  refine ⟨?_, ?_, ?_, ?_⟩
  · simp [resolveYamlInteger, c45, c43, c48, c95, hloop]
  · simp [resolveYamlInteger, c45, c43, c48, c95, hloop]
  · simp [constructYamlInteger, c45, c43, c48, c95, c95', h95, js]
  · simp [constructYamlInteger, c45, c43, c48, c95, c95', h95, js]

namespace Dumper

/-! ## Lemmas on `foldLine` -/

theorem map_LF_id (s : JSString) (h : 10 ∉ s) :
    s.map (fun c => if c = 10 then 32 else c) = s := by
  induction s with
  | nil => rfl
  | cons c cs ih =>
    have hc : c ≠ 10 := fun e => h (by simp [e])
    have hcs : 10 ∉ cs := fun e => h (by simp [e])
    simp only [List.map_cons, hc, if_false, ih hcs]

theorem not_mem_slice (s : JSString) (a b : Nat) (h : 10 ∉ s) : 10 ∉ slice s a b := by
  intro hm
  unfold slice at hm
  exact h (List.mem_of_mem_drop (List.mem_of_mem_take hm))

/-- A piece of the line followed by the space that ends it. -/
theorem take_slice_space (text : JSString) (start j : Nat) (hse : start ≤ j)
    (hsp : text[j]? = some 32) :
    text.take start ++ slice text start j ++ [32] = text.take (j + 1) := by
  have hlt : j < text.length := by
    by_contra hc
    have : text[j]? = none := List.getElem?_eq_none (by omega)
    rw [this] at hsp; cases hsp
  unfold slice
  have h1 : text.take start ++ (text.drop start).take (j - start) = text.take j := by
    have := List.take_add text start (j - start)
    have h2 : start + (j - start) = j := by omega
    rw [h2] at this
    exact this.symm
  rw [h1]
  rw [List.take_succ, hsp]
  rfl

theorem foldLineLoop_inv (text : JSString) (width : Int) (hlf : 10 ∉ text) :
    ∀ (suffix : JSString) (pre : JSString) (l : FoldLocals),
      text = pre ++ suffix →
      (l.result ++ [10]).map (fun c => if c = 10 then 32 else c) = 32 :: text.take l.start →
      l.start ≤ pre.length →
      (l.curr > l.start → text[l.curr]? = some 32) →
      l.curr ≤ pre.length →
      ((foldLineLoop text width suffix pre.length l).result ++ [10]).map
          (fun c => if c = 10 then 32 else c)
        = 32 :: text.take (foldLineLoop text width suffix pre.length l).start
      ∧ (foldLineLoop text width suffix pre.length l).start ≤ text.length
      ∧ ((foldLineLoop text width suffix pre.length l).curr
          > (foldLineLoop text width suffix pre.length l).start →
          text[(foldLineLoop text width suffix pre.length l).curr]? = some 32) := by
  intro suffix
  induction suffix with
  | nil =>
    intro pre l hline h1 h2 h3 _
    have hlen : pre.length = text.length := by rw [hline]; simp
    exact ⟨by simpa [foldLineLoop] using h1, by simp only [foldLineLoop]; omega,
      by simpa [foldLineLoop] using h3⟩
  | cons a rest ih =>
    intro pre l hline h1 h2 h3 h4
    cases rest with
    | nil =>
      have hlen : pre.length + 1 = text.length := by rw [hline]; simp
      exact ⟨by simpa [foldLineLoop] using h1, by simp only [foldLineLoop]; omega,
        by simpa [foldLineLoop] using h3⟩
    | cons b rest =>
      have hline' : text = (pre ++ [a]) ++ (b :: rest) := by rw [hline]; simp
      have hidx : (pre ++ [a]).length = pre.length + 1 := by simp
      have hlen : pre.length + 2 ≤ text.length := by rw [hline]; simp
      have ha : text[pre.length]? = some a := by
        rw [hline, List.getElem?_append_right (Nat.le_refl _)]; simp
      simp only [foldLineLoop]
      by_cases hm : a = 32 ∧ b ≠ 32
      · simp only [hm, ne_eq, not_false_eq_true, and_self, if_true]
        have ha32 : text[pre.length]? = some 32 := by rw [ha, hm.1]
        by_cases hw : ((pre.length : Int) - (l.start : Int) > width)
        · simp only [hw, if_true]
          have hkey : ∀ j : Nat, l.start ≤ j → j ≤ pre.length →
              text[j]? = some 32 →
              ((l.result ++ 10 :: slice text l.start j) ++ [10]).map
                  (fun c => if c = 10 then 32 else c) = 32 :: text.take (j + 1) := by
            intro j hse _ hsp
            have e1 : (l.result ++ 10 :: slice text l.start j) ++ [10]
                = (l.result ++ [10]) ++ (slice text l.start j ++ [10]) := by simp
            rw [e1, List.map_append, h1, List.map_append,
              map_LF_id _ (not_mem_slice text _ _ hlf)]
            simp only [List.map_cons, List.map_nil, if_true, List.cons_append]
            rw [← take_slice_space text l.start j hse hsp]
            simp
          have := ih (pre ++ [a])
            { l with result := l.result ++ 10 :: slice text l.start
                        (if l.curr > l.start then l.curr else pre.length),
                     start := (if l.curr > l.start then l.curr else pre.length) + 1,
                     curr := pre.length }
            hline'
            (by
              show ((l.result ++ 10 :: slice text l.start
                  (if l.curr > l.start then l.curr else pre.length)) ++ [10]).map _ = _
              by_cases hc : l.curr > l.start
              · simp only [hc, if_true]
                exact hkey l.curr (by omega) h4 (h3 hc)
              · simp only [hc, if_false]
                exact hkey pre.length h2 (Nat.le_refl _) ha32)
            (by
              show (if l.curr > l.start then l.curr else pre.length) + 1 ≤ (pre ++ [a]).length
              rw [hidx]
              split <;> omega)
            (fun _ => ha32)
            (by show pre.length ≤ (pre ++ [a]).length; omega)
          rw [hidx] at this
          exact this
        · simp only [hw, if_false]
          have := ih (pre ++ [a]) { l with curr := pre.length } hline' h1
            (by simp only [hidx]; omega) (fun _ => ha32)
            (by show pre.length ≤ (pre ++ [a]).length; omega)
          rw [hidx] at this
          exact this
      · simp only [hm, if_false]
        have := ih (pre ++ [a]) l hline' h1 (by simp only [hidx]; omega) h3
          (by rw [hidx]; omega)
        rw [hidx] at this
        exact this

end Dumper

namespace Snippet

/-! ## Lemmas on `makeSnippet` -/

theorem natDigits_length_le (b : Nat) (hb : 2 ≤ b) :
    ∀ (k fuel n : Nat), n < fuel → n < b ^ (k + 1) → (natDigits b fuel n).length ≤ k + 1 := by
  intro k
  induction k with
  | zero =>
    intro fuel n hf hn
    cases fuel with
    | zero => omega
    | succ fuel =>
      have : n < b := by simpa using hn
      simp [natDigits, this]
  | succ k ih =>
    intro fuel n hf hn
    cases fuel with
    | zero => omega
    | succ fuel =>
      unfold natDigits
      by_cases h : n < b
      · simp [h]
      · simp only [h, if_false, List.length_append, List.length_singleton]
        have hdiv : n / b < n := Nat.div_lt_self (by omega) (by omega)
        have hpow : n / b < b ^ (k + 1) := by
          rw [Nat.div_lt_iff_lt_mul (by omega)]
          calc n < b ^ (k + 1 + 1) := hn
            _ = b ^ (k + 1) * b := by rw [pow_succ]
        have := ih fuel (n / b) (by omega) hpow
        omega

theorem natDigits_length_mono (b : Nat) (hb : 2 ≤ b) :
    ∀ (fb m : Nat) (fa a : Nat), a ≤ m → a < fa → m < fb →
      (natDigits b fa a).length ≤ (natDigits b fb m).length := by
  intro fb
  induction fb with
  | zero => intro m fa a _ _ h; omega
  | succ fb ih =>
    intro m fa a ham hfa hfb
    cases fa with
    | zero => omega
    | succ fa =>
      unfold natDigits
      by_cases hm : m < b
      · have ha : a < b := by omega
        simp [hm, ha]
      · simp only [hm, if_false, List.length_append, List.length_singleton]
        by_cases ha : a < b
        · simp [ha]
        · simp only [ha, if_false, List.length_append, List.length_singleton]
          have h1 : a / b < a := Nat.div_lt_self (by omega) (by omega)
          have h2 : m / b < m := Nat.div_lt_self (by omega) (by omega)
          have := ih (m / b) fa (a / b) (Nat.div_le_div_right ham) (by omega) (by omega)
          omega

theorem lineNumber_nat (host : Host) (n : Nat) (hn : n < 10 ^ 21) :
    lineNumber host (n : Int) = natToString 10 n := by
  unfold lineNumber intToString
  have h2 : ¬ ((n : Int) < 0) := by omega
  have h3 : ¬ (n ≥ 10 ^ 21) := by omega
  simp only [h2, h3, and_false, if_false, Int.natAbs_ofNat]

theorem lineNumber_length_mono (host : Host) (a m : Nat) (ham : a ≤ m) (hm : m < 10 ^ 21) :
    (lineNumber host (a : Int)).length ≤ (lineNumber host (m : Int)).length := by
  rw [lineNumber_nat host a (by omega), lineNumber_nat host m hm]
  unfold natToString
  simp only [List.length_map]
  exact natDigits_length_mono 10 (by omega) _ _ _ _ ham (by omega) (by omega)

theorem lineNumber_length_le (host : Host) (n : Nat) (hn : n < 10 ^ 21) :
    (lineNumber host (n : Int)).length ≤ 21 := by
  rw [lineNumber_nat host n hn]
  unfold natToString
  simp only [List.length_map]
  exact natDigits_length_le 10 (by omega) 20 _ _ (by omega) hn

theorem lineNumber_chars (host : Host) (n : Nat) (hn : n < 10 ^ 21) :
    ∀ c ∈ lineNumber host (n : Int), 48 ≤ c ∧ c < 58 := by
  rw [lineNumber_nat host n hn]
  exact natToString_chars 10 (by omega) (by omega) n

theorem repeat_eq_replicate (c : Nat) (n : Nat) : «repeat» [c] n = List.replicate n c := by
  induction n with
  | zero => rfl
  | succ n ih =>
    show «repeat» [c] n ++ [c] = List.replicate (n + 1) c
    rw [ih, List.replicate_succ']

theorem LinesOk_init (B : JSString) (p : Nat) : LinesOk B p 0 false {} := by
  refine ⟨rfl, rfl, ?_, ⟨0, rfl, ?_⟩, ?_, ?_⟩
  · intro k e h; simp at h
  · simp
  · intro _ e h; simp at h
  · intro k h; simp at h

theorem LinesOk_skip (B : JSString) (p i : Nat) (l : Lines) (h : LinesOk B p i true l) :
    LinesOk B p (i + 1) false l := by
  obtain ⟨h0, h1, h2, ⟨a, ha, h3⟩, h4, h5⟩ := h
  refine ⟨h0, h1, h2, ⟨a, ha, ?_⟩, h4, h5⟩
  simp only [if_true] at h3
  simp only [Bool.false_eq_true, if_false]
  refine ⟨by omega, ?_⟩
  intro j c hj hj2; omega

theorem LinesOk_plain (B : JSString) (p i : Nat) (l : Lines) (c : Nat)
    (h : LinesOk B p i false l) (hB : B[i]? = some c) (hc : noBreak c) :
    LinesOk B p (i + 1) false l := by
  obtain ⟨h0, h1, h2, ⟨a, ha, h3⟩, h4, h5⟩ := h
  refine ⟨h0, h1, h2, ⟨a, ha, ?_⟩, h4, h5⟩
  simp only [Bool.false_eq_true, if_false] at h3 ⊢
  refine ⟨by omega, ?_⟩
  intro j c1 hj hj2 hc1
  by_cases hji : j < i
  · exact h3.2 j c1 hj hji hc1
  · have : j = i := by omega
    subst this
    rw [hB] at hc1
    cases hc1
    exact hc

theorem LinesOk_found (B : JSString) (p i : Nat) (l : Lines) (c : Nat) (len : Nat)
    (h : LinesOk B p i false l) (hB : B[i]? = some c) (hc : ¬ noBreak c)
    (hlen : len = 1 ∨ (len = 2 ∧ B[i + 1]? = some 10)) :
    LinesOk B p (i + 1) (len == 2) (l.found p i len) := by
  obtain ⟨h0, h1, h2, ⟨a, ha, h3⟩, h4, h5⟩ := h
  simp only [Bool.false_eq_true, if_false] at h3
  have hpos : 0 < l.lineStarts.length := by omega
  have hS : ∀ k, k < l.lineStarts.length →
      (l.lineStarts ++ [i + len])[k]? = l.lineStarts[k]? :=
    fun k hk => List.getElem?_append_left hk
  have hE : ∀ k, k < l.lineEnds.length → (l.lineEnds ++ [i])[k]? = l.lineEnds[k]? :=
    fun k hk => List.getElem?_append_left hk
  have hSlast : (l.lineStarts ++ [i + len])[l.lineEnds.length + 1]? = some (i + len) := by
    rw [← h1, List.getElem?_append_right (le_refl _)]; simp
  have hElast : (l.lineEnds ++ [i])[l.lineEnds.length]? = some i := by
    rw [List.getElem?_append_right (le_refl _)]; simp
  have hElt : ∀ k e, l.lineEnds[k]? = some e → k < l.lineEnds.length := by
    intro k e hk
    by_contra hcon
    rw [List.getElem?_eq_none (by omega)] at hk
    cases hk
  unfold Lines.found
  refine ⟨?_, ?_, ?_, ?_, ?_, ?_⟩
  · show (l.lineStarts ++ [i + len])[0]? = some 0
    rw [hS 0 hpos]; exact h0
  · show (l.lineStarts ++ [i + len]).length = (l.lineEnds ++ [i]).length + 1
    simp [h1]
  · intro k e hk
    change (l.lineEnds ++ [i])[k]? = some e at hk
    show _ ∧ ((l.lineStarts ++ [i + len])[k + 1]? = _ ∨ ((l.lineStarts ++ [i + len])[k + 1]? = _ ∧ _))
      ∧ ∃ a, (l.lineStarts ++ [i + len])[k]? = some a ∧ _
    by_cases hk1 : k < l.lineEnds.length
    · rw [hE k hk1] at hk
      rw [hS (k + 1) (by omega), hS k (by omega)]
      exact h2 k e hk
    · have hk2 : k = l.lineEnds.length := by
        by_contra hne
        rw [List.getElem?_eq_none (by simp; omega)] at hk
        cases hk
      subst hk2
      rw [hElast] at hk
      cases hk
      rw [hSlast, hS _ (by omega)]
      refine ⟨⟨c, hB, hc⟩, ?_, ⟨a, ha, h3.1, h3.2⟩⟩
      rcases hlen with rfl | ⟨rfl, h10⟩
      · exact Or.inl rfl
      · exact Or.inr ⟨rfl, h10⟩
  · refine ⟨i + len, ?_, ?_⟩
    · show (l.lineStarts ++ [i + len])[(l.lineEnds ++ [i]).length]? = _
      rw [List.length_append, List.length_singleton]
      exact hSlast
    · rcases hlen with rfl | ⟨rfl, _⟩
      · simp only [Nat.reduceBEq, Bool.false_eq_true, if_false]
        exact ⟨le_refl _, fun j c hj hj2 => by omega⟩
      · simp
  · intro hnone e he
    change (if p ≤ i ∧ l.foundLineNo = none then some (l.lineStarts.length + 1 - 2)
      else l.foundLineNo) = none at hnone
    change e ∈ l.lineEnds ++ [i] at he
    by_cases hcond : p ≤ i ∧ l.foundLineNo = none
    · rw [if_pos hcond] at hnone; cases hnone
    · rw [if_neg hcond] at hnone
      rcases List.mem_append.mp he with he | he
      · exact h4 hnone e he
      · rw [List.mem_singleton] at he
        subst he
        by_contra hcon
        exact hcond ⟨by omega, hnone⟩
  · intro k hk
    change (if p ≤ i ∧ l.foundLineNo = none then some (l.lineStarts.length + 1 - 2)
      else l.foundLineNo) = some k at hk
    show ∃ e, (l.lineEnds ++ [i])[k]? = some e ∧ p ≤ e
      ∧ ∀ k1 e1, k1 < k → (l.lineEnds ++ [i])[k1]? = some e1 → e1 < p
    by_cases hcond : p ≤ i ∧ l.foundLineNo = none
    · rw [if_pos hcond] at hk
      have hk2 : k = l.lineEnds.length := by
        have := Option.some.inj hk
        omega
      subst hk2
      refine ⟨i, hElast, hcond.1, ?_⟩
      intro k1 e1 hk1 he1
      rw [hE k1 hk1] at he1
      exact h4 hcond.2 e1 (List.getElem?_mem he1)
    · rw [if_neg hcond] at hk
      obtain ⟨e, he, hpe, hall⟩ := h5 k hk
      have hkl := hElt k e he
      refine ⟨e, by rw [hE k hkl]; exact he, hpe, ?_⟩
      intro k1 e1 hk1 he1
      rw [hE k1 (by omega)] at he1
      exact hall k1 e1 hk1 he1

theorem scanLines_inv (B : JSString) (p : Nat) :
    ∀ (rest pre : JSString) (skip : Bool) (l : Lines), B = pre ++ rest →
      LinesOk B p pre.length skip l →
      ∃ skip1, LinesOk B p B.length skip1 (scanLines p rest pre.length skip l) := by
  intro rest
  induction rest with
  | nil =>
    intro pre skip l hB h
    simp only [List.append_nil] at hB
    subst hB
    exact ⟨skip, h⟩
  | cons c rest ih =>
    intro pre skip l hB h
    have hB1 : B = (pre ++ [c]) ++ rest := by simp [hB]
    have hlen : (pre ++ [c]).length = pre.length + 1 := by simp
    have hBi : B[pre.length]? = some c := by
      rw [hB, List.getElem?_append_right (le_refl _)]; simp
    have hnext := ih (pre ++ [c])
    rw [hlen] at hnext
    unfold scanLines
    cases skip with
    | true =>
      simp only [if_true]
      exact hnext false l hB1 (LinesOk_skip B p _ l h)
    | false =>
      simp only [Bool.false_eq_true, if_false]
      by_cases h1 : c = 13 ∧ rest.head? = some 10
      · rw [if_pos h1]
        have h10 : B[pre.length + 1]? = some 10 := by
          rw [hB1, List.getElem?_append_right (by simp)]
          simp only [hlen, Nat.sub_self]
          cases rest with
          | nil => simp at h1
          | cons r rs =>
            have : r = 10 := by simpa using h1.2
            simp [this]
        have hc : ¬ noBreak c := by
          unfold noBreak; omega
        exact hnext true _ hB1 (LinesOk_found B p _ l c 2 h hBi hc (Or.inr ⟨rfl, h10⟩))
      · rw [if_neg h1]
        by_cases h2 : c = 10 ∨ c = 13 ∨ c = 0
        · rw [if_pos h2]
          have hc : ¬ noBreak c := by
            unfold noBreak; omega
          exact hnext false _ hB1 (LinesOk_found B p _ l c 1 h hBi hc (Or.inl rfl))
        · rw [if_neg h2]
          have hc : noBreak c := by
            unfold noBreak; omega
          exact hnext false l hB1 (LinesOk_plain B p _ l c h hBi hc)

theorem LinesOk_start_le (B : JSString) (p i : Nat) (skip : Bool) (l : Lines) (c : Nat)
    (h : LinesOk B p i skip l) (hc : B[p]? = some c) (hnb : noBreak c) (k a : Nat)
    (hk : k ≤ l.lineEnds.length) (ha : l.lineStarts[k]? = some a)
    (hbefore : ∀ k1 e1, k1 < k → l.lineEnds[k1]? = some e1 → e1 < p) : a ≤ p := by
  obtain ⟨h0, h1, h2, _, _, _⟩ := h
  cases k with
  | zero =>
    rw [h0] at ha
    cases ha
    omega
  | succ k =>
    have hlt : k < l.lineEnds.length := by omega
    have he : l.lineEnds[k]? = some (l.lineEnds[k]) := List.getElem?_eq_getElem hlt
    have hep := hbefore k _ (by omega) he
    obtain ⟨_, hnext, _⟩ := h2 k _ he
    rcases hnext with hn | ⟨hn, h10⟩
    · rw [hn] at ha
      cases ha
      omega
    · rw [hn] at ha
      cases ha
      by_contra hcon
      have : p = l.lineEnds[k] + 1 := by omega
      rw [this, h10] at hc
      cases hc
      exact hnb.1 rfl

theorem scanLines_found (B : JSString) (p c : Nat) (hc : B[p]? = some c) (hnb : noBreak c) :
    ∃ a, (scanLines p B 0 false {}).lineStarts[(scanLines p B 0 false {}).foundLineNo.getD
          ((scanLines p B 0 false {}).lineStarts.length - 1)]? = some a
      ∧ a ≤ p
      ∧ (∀ e, (scanLines p B 0 false {}).lineEnds[(scanLines p B 0 false {}).foundLineNo.getD
          ((scanLines p B 0 false {}).lineStarts.length - 1)]? = some e → p < e)
      ∧ (∀ j c1, a ≤ j → (∀ e, (scanLines p B 0 false {}).lineEnds[
            (scanLines p B 0 false {}).foundLineNo.getD
              ((scanLines p B 0 false {}).lineStarts.length - 1)]? = some e → j < e) →
          B[j]? = some c1 → noBreak c1) := by
  have hscan : ∃ skip1, LinesOk B p B.length skip1 (scanLines p B 0 false {}) :=
    scanLines_inv B p B [] false {} rfl (LinesOk_init B p)
  obtain ⟨skip1, hinv⟩ := hscan
  generalize scanLines p B 0 false {} = l at hinv ⊢
  have hinv0 := hinv
  obtain ⟨h0, h1, h2, ⟨a3, ha3, h3⟩, h4, h5⟩ := hinv
  have hpl : p < B.length := by
    by_contra hcon
    rw [List.getElem?_eq_none (by omega)] at hc
    cases hc
  cases hf : l.foundLineNo with
  | none =>
    simp only [Option.getD_none]
    have hidx : l.lineStarts.length - 1 = l.lineEnds.length := by omega
    rw [hidx]
    have hnone : l.lineEnds[l.lineEnds.length]? = none :=
      List.getElem?_eq_none (le_refl _)
    have hap : a3 ≤ p := LinesOk_start_le B p _ skip1 l c hinv0 hc hnb _ a3 (le_refl _) ha3
      (fun k1 e1 _ he1 => h4 hf e1 (List.getElem?_mem he1))
    refine ⟨a3, ha3, hap, ?_, ?_⟩
    · intro e he
      rw [hnone] at he
      cases he
    · intro j c1 hj _ hc1
      have hjl : j < B.length := by
        by_contra hcon
        rw [List.getElem?_eq_none (by omega)] at hc1
        cases hc1
      cases skip1 with
      | true =>
        simp only [if_true] at h3
        omega
      | false =>
        simp only [Bool.false_eq_true, if_false] at h3
        exact h3.2 j c1 hj hjl hc1
  | some k =>
    simp only [Option.getD_some]
    obtain ⟨e, he, hpe, hbefore⟩ := h5 k hf
    obtain ⟨⟨c2, hc2, hbr⟩, _, ⟨a, ha, hae, hclear⟩⟩ := h2 k e he
    have hklt : k < l.lineEnds.length := by
      by_contra hcon
      rw [List.getElem?_eq_none (by omega)] at he
      cases he
    have hap : a ≤ p := LinesOk_start_le B p _ skip1 l c hinv0 hc hnb k a (by omega) ha hbefore
    have hlt : p < e := by
      by_contra hcon
      have : p = e := by omega
      subst this
      rw [hc] at hc2
      cases hc2
      exact hbr hnb
    refine ⟨a, ha, hap, ?_, ?_⟩
    · intro e1 he1
      rw [he] at he1
      cases he1
      exact hlt
    · intro j c1 hj hje hc1
      exact hclear j c1 hj (hje e he) hc1

theorem jsSlice_get (B : JSString) (s : Int) (t : Option Int) (p : Nat) (hs0 : 0 ≤ s)
    (hsp : s ≤ p) (hp : p < B.length) (ht : ∀ x, t = some x → (p : Int) < x) :
    (jsSlice B s t)[((p : Int) - s).toNat]? = B[p]? := by
  unfold jsSlice clampIndex
  have hs : ¬ s < 0 := by omega
  simp only [hs, if_false]
  have hmin : min s.toNat B.length = s.toNat := by omega
  rw [hmin]
  have hidx : s.toNat + ((p : Int) - s).toNat = p := by omega
  cases t with
  | none =>
    simp only
    rw [List.getElem?_take, if_pos (by omega), List.getElem?_drop, hidx]
  | some x =>
    have hx := ht x rfl
    have hx0 : ¬ x < 0 := by omega
    simp only [hx0, if_false]
    rw [List.getElem?_take, if_pos (by omega), List.getElem?_drop, hidx]

theorem jsSlice_mem (B : JSString) (s : Int) (t : Option Int) (hs0 : 0 ≤ s)
    (ht : ∀ x, t = some x → 0 ≤ x) (c : Nat) (hc : c ∈ jsSlice B s t) :
    ∃ j : Nat, s ≤ j ∧ (∀ x, t = some x → (j : Int) < x) ∧ B[j]? = some c := by
  unfold jsSlice clampIndex at hc
  have hs : ¬ s < 0 := by omega
  simp only [hs, if_false] at hc
  obtain ⟨i, hi⟩ := List.mem_iff_getElem?.mp hc
  have hlen := (List.getElem?_eq_some.mp hi).1
  rw [List.length_take, List.length_drop] at hlen
  rw [List.getElem?_take, if_pos (by omega), List.getElem?_drop] at hi
  refine ⟨min s.toNat B.length + i, by omega, ?_, hi⟩
  intro x hx
  subst hx
  have hx0 : ¬ x < 0 := by have := ht x rfl; omega
  simp only [hx0, if_false] at hlen
  omega

theorem line_spec (B : JSString) (a p : Nat) (e : Option Nat) (head tail : JSString) (s : Int)
    (t : Option Int) (hs0 : 0 ≤ s) (hsa : (a : Int) ≤ s) (hsp : s ≤ p) (hp : p < B.length)
    (hhead : ∀ c ∈ head, c = 32 ∨ c = 46) (htl : ∀ c ∈ tail, c = 32 ∨ c = 46)
    (ht : ∀ x, t = some x → (p : Int) < x ∧ ∀ y, e = some y → x ≤ y)
    (hnone : t = none → e = none) :
    (head ++ (jsSlice B s t).map (fun c => if c = 9 then 8594 else c) ++ tail)[
        ((p : Int) - s + head.length).toNat]?
      = (B[p]?).map (fun c => if c = 9 then 8594 else c)
    ∧ ∀ c ∈ head ++ (jsSlice B s t).map (fun c => if c = 9 then 8594 else c) ++ tail,
        c = 32 ∨ c = 46 ∨ ∃ j c1, a ≤ j ∧ (∀ x, e = some x → j < x) ∧ B[j]? = some c1
          ∧ c = (if c1 = 9 then 8594 else c1) := by
  have hget := jsSlice_get B s t p hs0 hsp hp (fun x hx => (ht x hx).1)
  obtain ⟨c0, hc0⟩ : ∃ c0, B[p]? = some c0 := ⟨B[p], List.getElem?_eq_getElem hp⟩
  refine ⟨?_, ?_⟩
  · have hidx : ((p : Int) - s + head.length).toNat = head.length + ((p : Int) - s).toNat := by
      omega
    have hlt : ((p : Int) - s).toNat < (jsSlice B s t).length := by
      rw [hc0] at hget
      exact (List.getElem?_eq_some.mp hget).1
    rw [hidx, List.getElem?_append_left (by simp; omega),
      List.getElem?_append_right (by omega)]
    simp only [Nat.add_sub_cancel_left, List.getElem?_map, hget]
  · intro c hc
    rcases List.mem_append.mp hc with hc | hc
    · rcases List.mem_append.mp hc with hc | hc
      · rcases hhead c hc with h1 | h1
        · exact Or.inl h1
        · exact Or.inr (Or.inl h1)
      · obtain ⟨c1, hc1, rfl⟩ := List.mem_map.mp hc
        obtain ⟨j, hj, hjt, hBj⟩ := jsSlice_mem B s t hs0
          (fun x hx => by have := (ht x hx).1; omega) c1 hc1
        refine Or.inr (Or.inr ⟨j, c1, by omega, ?_, hBj, rfl⟩)
        intro x hx
        cases ht1 : t with
        | none =>
          rw [hnone ht1] at hx
          cases hx
        | some x1 =>
          have h3 := hjt x1 ht1
          have h4 := (ht x1 ht1).2 x hx
          omega
    · rcases htl c hc with h1 | h1
      · exact Or.inl h1
      · exact Or.inr (Or.inl h1)

theorem getLine_spec (B : JSString) (a p : Nat) (e : Option Nat) (m : Int) (hm : 12 ≤ m)
    (hap : a ≤ p) (hp : p < B.length) (he : ∀ x, e = some x → p < x) :
    0 ≤ (getLine B (a : Int) (e.map Int.ofNat) (p : Int) m).pos
    ∧ (getLine B (a : Int) (e.map Int.ofNat) (p : Int) m).str[
        (getLine B (a : Int) (e.map Int.ofNat) (p : Int) m).pos.toNat]?
      = (B[p]?).map (fun c => if c = 9 then 8594 else c)
    ∧ ∀ c ∈ (getLine B (a : Int) (e.map Int.ofNat) (p : Int) m).str,
        c = 32 ∨ c = 46 ∨ ∃ j c1, a ≤ j ∧ (∀ x, e = some x → j < x) ∧ B[j]? = some c1
          ∧ c = (if c1 = 9 then 8594 else c1) := by
  have hh : 5 ≤ m / 2 - 1 := by omega
  generalize hhdef : m / 2 - 1 = h at hh
  have h5 : ((js " ... ").length : Int) = 5 := by decide
  have h4 : ((js " ...").length : Int) = 4 := by decide
  have hd5 : ∀ c ∈ js " ... ", c = 32 ∨ c = 46 := by decide
  have hd4 : ∀ c ∈ js " ...", c = 32 ∨ c = 46 := by decide
  have hnil : ∀ c ∈ ([] : JSString), c = 32 ∨ c = 46 := by simp
  unfold getLine
  simp only [hhdef]
  cases e with
  | none =>
    simp only [Option.map_none']
    by_cases hc1 : (p : Int) - a > h
    · simp only [if_pos hc1]
      exact ⟨by omega, line_spec B a p none _ _ _ none (by omega) (by omega) (by omega) hp hd5
        hnil (fun x hx => by cases hx) (fun _ => rfl)⟩
    · simp only [if_neg hc1]
      exact ⟨by simp; omega, line_spec B a p none _ _ _ none (by omega) (le_refl _) (by omega) hp
        hnil hnil (fun x hx => by cases hx) (fun _ => rfl)⟩
  | some y =>
    have hy := he y rfl
    simp only [Option.map_some']
    have hofNat : Int.ofNat y = (y : Int) := rfl
    by_cases hc1 : (p : Int) - a > h
    · simp only [if_pos hc1]
      by_cases hc2 : Int.ofNat y - (p : Int) > h
      · simp only [if_pos hc2]
        refine ⟨by omega, line_spec B a p (some y) _ _ _ _ (by omega) (by omega) (by omega) hp
          hd5 hd4 ?_ (fun hx => by cases hx)⟩
        intro x hx
        cases hx
        refine ⟨by omega, ?_⟩
        intro y1 hy1
        cases hy1
        omega
      · simp only [if_neg hc2]
        refine ⟨by omega, line_spec B a p (some y) _ _ _ _ (by omega) (by omega) (by omega) hp
          hd5 hnil ?_ (fun hx => by cases hx)⟩
        intro x hx
        cases hx
        refine ⟨by omega, ?_⟩
        intro y1 hy1
        cases hy1
        exact le_refl _
    · simp only [if_neg hc1]
      by_cases hc2 : Int.ofNat y - (p : Int) > h
      · simp only [if_pos hc2]
        refine ⟨by simp; omega, line_spec B a p (some y) _ _ _ _ (by omega) (le_refl _) (by omega)
          hp hnil hd4 ?_ (fun hx => by cases hx)⟩
        intro x hx
        cases hx
        refine ⟨by omega, ?_⟩
        intro y1 hy1
        cases hy1
        omega
      · simp only [if_neg hc2]
        refine ⟨by simp; omega, line_spec B a p (some y) _ _ _ _ (by omega) (le_refl _) (by omega)
          hp hnil hnil ?_ (fun hx => by cases hx)⟩
        intro x hx
        cases hx
        refine ⟨by omega, ?_⟩
        intro y1 hy1
        cases hy1
        exact le_refl _

theorem getLast?_append_of_some (A X : JSString) (x : Nat) (h : X.getLast? = some x) :
    (A ++ X).getLast? = some x := by
  rw [List.getLast?_append, h]
  rfl

theorem linesBefore_append (host : Host) (mark : Mark) (lines : Lines) (found indent n : Nat)
    (m : Int) :
    ∀ (fuel i : Nat) (result : JSString),
      ∃ Y, linesBefore host mark lines found indent n m fuel i result = Y ++ result
        ∧ (Y = [] ∨ Y.getLast? = some 10) := by
  intro fuel
  induction fuel with
  | zero => intro i result; exact ⟨[], rfl, Or.inl rfl⟩
  | succ fuel ih =>
    intro i result
    unfold linesBefore
    by_cases h : (found : Int) - i < 0
    · rw [if_pos h]; exact ⟨[], rfl, Or.inl rfl⟩
    · rw [if_neg h]
      simp only []
      obtain ⟨Y, hY, hlast⟩ := ih (i + 1) («repeat» [32] indent
          ++ padStart (lineNumber host ((mark.line : Int) - i + 1)) n
          ++ js " | " ++ (getLine mark.buffer (lines.lineStarts.getD (found - i) 0)
        ((lines.lineEnds[found - i]?).map Int.ofNat)
        ((mark.position : Int) - ((lines.lineStarts.getD found 0 : Nat)
          - (lines.lineStarts.getD (found - i) 0 : Nat)))
        m).str ++ [10] ++ result)
      rw [hY]
      refine ⟨Y ++ («repeat» [32] indent
          ++ padStart (lineNumber host ((mark.line : Int) - i + 1)) n
          ++ js " | " ++ (getLine mark.buffer (lines.lineStarts.getD (found - i) 0)
        ((lines.lineEnds[found - i]?).map Int.ofNat)
        ((mark.position : Int) - ((lines.lineStarts.getD found 0 : Nat)
          - (lines.lineStarts.getD (found - i) 0 : Nat)))
        m).str ++ [10]), by simp only [List.append_assoc], Or.inr ?_⟩
      exact getLast?_append_of_some _ _ 10 (getLast?_append_of_some _ [10] 10 rfl)

theorem linesAfter_append (host : Host) (mark : Mark) (lines : Lines) (found indent n : Nat)
    (m : Int) :
    ∀ (fuel i : Nat) (result : JSString),
      ∃ X, linesAfter host mark lines found indent n m fuel i result = result ++ X
        ∧ (X = [] ∨ X.getLast? = some 10) := by
  intro fuel
  induction fuel with
  | zero => intro i result; exact ⟨[], by simp [linesAfter], Or.inl rfl⟩
  | succ fuel ih =>
    intro i result
    unfold linesAfter
    by_cases h : found + i ≥ lines.lineEnds.length
    · rw [if_pos h]; exact ⟨[], by simp, Or.inl rfl⟩
    · rw [if_neg h]
      simp only []
      obtain ⟨X, hX, hlast⟩ := ih (i + 1) (result ++ «repeat» [32] indent
          ++ padStart (lineNumber host ((mark.line : Int) + i + 1)) n
          ++ js " | " ++ (getLine mark.buffer (lines.lineStarts.getD (found + i) 0)
        ((lines.lineEnds[found + i]?).map Int.ofNat)
        ((mark.position : Int) - ((lines.lineStarts.getD found 0 : Nat)
          - (lines.lineStarts.getD (found + i) 0 : Nat)))
        m).str ++ [10])
      rw [hX]
      refine ⟨(«repeat» [32] indent
          ++ padStart (lineNumber host ((mark.line : Int) + i + 1)) n
          ++ js " | " ++ (getLine mark.buffer (lines.lineStarts.getD (found + i) 0)
        ((lines.lineEnds[found + i]?).map Int.ofNat)
        ((mark.position : Int) - ((lines.lineStarts.getD found 0 : Nat)
          - (lines.lineStarts.getD (found + i) 0 : Nat)))
        m).str ++ [10]) ++ X, by simp only [List.append_assoc], Or.inr ?_⟩
      rcases hlast with rfl | hlast
      · rw [List.append_nil]
        exact getLast?_append_of_some _ [10] 10 rfl
      · exact getLast?_append_of_some _ _ 10 hlast

theorem dropLast_caret (R X : JSString) (hX : X = [] ∨ X.getLast? = some 10) :
    ∃ Z, (if (R ++ js "^\n" ++ X).getLast? = some 10 then (R ++ js "^\n" ++ X).dropLast
          else R ++ js "^\n" ++ X) = R ++ [94] ++ Z
      ∧ (Z = [] ∨ Z.head? = some 10) := by
  have hjs : js "^\n" = [94, 10] := by decide
  rw [hjs]
  rcases hX with rfl | hX
  · refine ⟨[], ?_, Or.inl rfl⟩
    have h1 : R ++ [94, 10] ++ [] = (R ++ [94]) ++ [10] := by simp
    rw [h1, if_pos (getLast?_append_of_some _ [10] 10 rfl), List.dropLast_concat]
    simp
  · have hne : X ≠ [] := by
      intro h; rw [h] at hX; cases hX
    have hXeq : X = X.dropLast ++ [10] := by
      have h1 := List.dropLast_append_getLast hne
      have h2 : X.getLast hne = 10 := by
        have := List.getLast?_eq_getLast X hne
        rw [hX] at this
        exact (Option.some.inj this).symm
      rw [h2] at h1
      exact h1.symm
    refine ⟨10 :: X.dropLast, ?_, Or.inr rfl⟩
    rw [if_pos (getLast?_append_of_some _ X 10 hX)]
    have h1 : R ++ [94, 10] ++ X = (R ++ [94] ++ 10 :: X.dropLast) ++ [10] := by
      conv_lhs => rw [hXeq]
      simp
    rw [h1, List.dropLast_concat]

/-- Where the caret is in place: when the unit of the buffer at `mark.position`
is no line break, the buffer has more than `mark.line` line breaks and
`mark.line + 2` is below `10^21`, the rendered line of the mark is followed by
a caret line of `col` dashes and the `^`, where `col` is the column of the
rendered line that holds the unit at `mark.position`. -/
theorem makeSnippet_aligned (host : Host) (mark : Mark) (c : Nat)
    (hc : mark.buffer[mark.position]? = some c) (hnb : c ≠ 10 ∧ c ≠ 13 ∧ c ≠ 0)
    (hline : mark.line < (scanLines mark.position mark.buffer 0 false {}).lineEnds.length)
    (hbig : mark.line + 2 < 10 ^ 21) :
    ∃ (before rendered after : JSString) (col : Nat),
      makeSnippet host mark
        = some (before ++ rendered ++ [10] ++ List.replicate col 45 ++ [94] ++ after)
      ∧ (before = [] ∨ before.getLast? = some 10)
      ∧ (after = [] ∨ after.head? = some 10)
      ∧ 10 ∉ rendered
      ∧ rendered[col]? = some (if c = 9 then 8594 else c) := by
  have hne : mark.buffer ≠ [] := by
    intro h; rw [h] at hc; cases hc
  have hpl : mark.position < mark.buffer.length := by
    by_contra hcon
    rw [List.getElem?_eq_none (by omega)] at hc
    cases hc
  obtain ⟨a, ha, hap, hend, hclear⟩ := scanLines_found mark.buffer mark.position c hc hnb
  unfold makeSnippet
  simp only [hne, if_false, Option.getD_none, if_true]
  generalize hl : scanLines mark.position mark.buffer 0 false {} = lines at ha hend hclear hline ⊢
  generalize hf : lines.foundLineNo.getD (lines.lineStarts.length - 1) = found at ha hend hclear ⊢
  have hmin1 : mark.line + 1 ≤ min (mark.line + 2) lines.lineEnds.length := by omega
  have hmin2 : min (mark.line + 2) lines.lineEnds.length < 10 ^ 21 := by omega
  have hn1 := lineNumber_length_mono host _ _ hmin1 hmin2
  have hn2 := lineNumber_length_le host _ hmin2
  generalize hn : (lineNumber host ((min (mark.line + 2) lines.lineEnds.length : Nat) : Int)).length
    = n at hn1 hn2 ⊢
  have hgetD : lines.lineStarts.getD found 0 = a := by
    rw [List.getD_eq_getElem?_getD, ha]; rfl
  rw [hgetD]
  have hm : (12 : Int) ≤ (79 : Nat) - ((1 : Nat) + (n : Int) + 3) := by omega
  generalize hmdef : ((79 : Nat) : Int) - (((1 : Nat) : Int) + (n : Int) + 3) = m at hm ⊢
  obtain ⟨hpos, hstr, hchars⟩ := getLine_spec mark.buffer a mark.position lines.lineEnds[found]? m
    hm hap hpl hend
  generalize hgl : getLine mark.buffer (a : Int) (lines.lineEnds[found]?.map Int.ofNat)
    (mark.position : Int) m = line at hpos hstr hchars ⊢
  obtain ⟨Y, hY, hYlast⟩ := linesBefore_append host mark lines found 1 n m 3 1 []
  rw [hY, List.append_nil]
  obtain ⟨X, hX, hXlast⟩ := linesAfter_append host mark lines found 1 n m 2 1
    (Y ++ «repeat» [32] 1 ++ padStart (lineNumber host ((mark.line : Int) + 1)) n
      ++ js " | " ++ line.str ++ [10]
      ++ «repeat» [45] (((1 : Nat) : Int) + (n : Int) + 3 + line.pos).toNat ++ js "^\n")
  rw [hX]
  obtain ⟨Z, hZ, hZhead⟩ := dropLast_caret (Y ++ «repeat» [32] 1
      ++ padStart (lineNumber host ((mark.line : Int) + 1)) n
      ++ js " | " ++ line.str ++ [10]
      ++ «repeat» [45] (((1 : Nat) : Int) + (n : Int) + 3 + line.pos).toNat) X hXlast
  rw [hZ]
  have hnum : lineNumber host ((mark.line : Int) + 1) = lineNumber host ((mark.line + 1 : Nat) : Int) := by
    push_cast; rfl
  have hdig := lineNumber_chars host (mark.line + 1) (by omega)
  rw [← hnum] at hn1 hdig
  have hpfxlen : («repeat» [32] 1 ++ padStart (lineNumber host ((mark.line : Int) + 1)) n
      ++ js " | ").length = 1 + n + 3 := by
    unfold padStart
    simp only [repeat_eq_replicate, List.length_append, List.length_replicate]
    have : (js " | ").length = 3 := by decide
    omega
  refine ⟨Y, «repeat» [32] 1 ++ padStart (lineNumber host ((mark.line : Int) + 1)) n
      ++ js " | " ++ line.str, Z, 1 + n + 3 + line.pos.toNat, ?_, hYlast, hZhead, ?_, ?_⟩
  · have hcol : (((1 : Nat) : Int) + (n : Int) + 3 + line.pos).toNat = 1 + n + 3 + line.pos.toNat := by
      omega
    rw [hcol, repeat_eq_replicate 45]
    simp only [List.append_assoc]
  · intro hmem
    rcases List.mem_append.mp hmem with hmem | hmem
    · unfold padStart at hmem
      simp only [repeat_eq_replicate, List.mem_append, List.mem_replicate] at hmem
      rcases hmem with ((⟨_, h⟩ | ⟨_, h⟩ | h) | h)
      · omega
      · omega
      · have := hdig 10 h; omega
      · revert h; decide
    · rcases hchars 10 hmem with h | h | ⟨j, c1, hj, hje, hBj, h10⟩
      · omega
      · omega
      · have hnb1 := hclear j c1 hj hje hBj
        unfold noBreak at hnb1
        split at h10 <;> omega
  · rw [List.getElem?_append_right (by rw [hpfxlen]; omega), hpfxlen]
    simp only [Nat.add_sub_cancel_left]
    rw [hstr, hc]
    rfl

end Snippet

namespace Dumper

/-! ## Lemmas on `inspectNode` -/

theorem childrenOf_dangling (heap : Heap) (a : Nat) (h : heap[a]? = none) :
    childrenOf heap (.ref a) = [] := by
  simp [childrenOf, isArray, classOf, objectKeys, h]

theorem childrenLeft_push_aux (heap : Heap) (objects : List JSVal) (a : Nat)
    (ha : JSVal.ref a ∉ objects) :
    ∀ (L : List Nat), L.Nodup →
      childrenLeft heap objects L
        = (if a ∈ L then (childrenOf heap (.ref a)).length else 0)
          + childrenLeft heap (objects ++ [.ref a]) L := by
  intro L
  induction L with
  | nil => intro _; simp [childrenLeft]
  | cons b L ih =>
    intro hL
    have hb : b ∉ L := (List.nodup_cons.mp hL).1
    have ih1 := ih (List.nodup_cons.mp hL).2
    unfold childrenLeft at ih1 ⊢
    by_cases hba : b = a
    · subst hba
      have h1 : decide (JSVal.ref b ∉ objects) = true := by simpa using ha
      have h2 : decide (JSVal.ref b ∉ objects ++ [JSVal.ref b]) = false := by simp
      simp only [List.filter_cons, h1, h2, if_true, Bool.false_eq_true, if_false,
        List.map_cons, List.sum_cons, List.mem_cons, true_or]
      rw [ih1, if_neg hb]
      omega
    · have hmem : (JSVal.ref b ∉ objects ++ [JSVal.ref a]) ↔ (JSVal.ref b ∉ objects) := by
        simp [hba]
      have hab : ¬ a = b := fun h => hba h.symm
      by_cases hbo : JSVal.ref b ∉ objects
      · have h1 : decide (JSVal.ref b ∉ objects) = true := by simpa using hbo
        have h2 : decide (JSVal.ref b ∉ objects ++ [JSVal.ref a]) = true := by
          simpa using hmem.mpr hbo
        simp only [List.filter_cons, h1, h2, if_true, List.map_cons, List.sum_cons,
          List.mem_cons, hab, false_or]
        rw [ih1]
        omega
      · have h1 : decide (JSVal.ref b ∉ objects) = false := by simpa using hbo
        have h2 : decide (JSVal.ref b ∉ objects ++ [JSVal.ref a]) = false := by
          simp only [decide_eq_false_iff_not]
          exact fun h => hbo (hmem.mp h)
        simp only [List.filter_cons, h1, h2, Bool.false_eq_true, if_false,
          List.mem_cons, hab, false_or]
        exact ih1

theorem childrenLeft_push (heap : Heap) (objects : List JSVal) (a : Nat)
    (ha : JSVal.ref a ∉ objects) :
    childrenLeft heap objects (List.range heap.length)
      = (childrenOf heap (.ref a)).length
        + childrenLeft heap (objects ++ [.ref a]) (List.range heap.length) := by
  rw [childrenLeft_push_aux heap objects a ha _ (List.nodup_range _)]
  by_cases h : a < heap.length
  · rw [if_pos (List.mem_range.mpr h)]
  · rw [if_neg (fun hm => h (List.mem_range.mp hm)),
      childrenOf_dangling heap a (List.getElem?_eq_none (by omega))]
    rfl

theorem secondOccurrences_append (xs : List JSVal) :
    ∀ (seen ys : List JSVal),
      secondOccurrences seen (xs ++ ys)
        = secondOccurrences seen xs ++ secondOccurrences (seen ++ xs) ys := by
  induction xs with
  | nil => intro seen ys; simp [secondOccurrences]
  | cons x xs ih =>
    intro seen ys
    simp only [List.cons_append, secondOccurrences, List.append_eq]
    by_cases h : seen.count x = 1
    · simp only [h, if_true, ih, List.cons_append, List.append_assoc, List.singleton_append,
        List.nil_append]
    · simp only [h, if_false, ih, List.append_assoc, List.singleton_append, List.cons_append,
        List.nil_append]

theorem mem_secondOccurrences (x : JSVal) (xs : List JSVal) :
    ∀ (seen : List JSVal),
      x ∈ secondOccurrences seen xs ↔ seen.count x ≤ 1 ∧ 2 ≤ (seen ++ xs).count x := by
  induction xs with
  | nil =>
    intro seen
    simp only [secondOccurrences, List.not_mem_nil, List.append_nil, false_iff]
    omega
  | cons y ys ih =>
    intro seen
    have hrec := ih (seen ++ [y])
    simp only [List.append_assoc, List.singleton_append, List.count_append, List.count_cons,
      List.count_nil] at hrec
    simp only [secondOccurrences, List.count_append, List.count_cons]
    by_cases hyx : y = x
    · subst hyx
      simp only [beq_self_eq_true, if_true] at hrec ⊢
      by_cases h1 : seen.count y = 1
      · simp only [h1, if_true, List.mem_cons, true_or, true_iff]
        omega
      · simp only [h1, if_false, hrec]
        omega
    · have hne : (y == x) = false := by simpa using hyx
      simp only [hne, Bool.false_eq_true, if_false, Nat.add_zero, Nat.zero_add] at hrec ⊢
      by_cases h1 : seen.count y = 1
      · simp only [h1, if_true, List.mem_cons, hrec]
        constructor
        · rintro (h | h)
          · exact absurd h.symm hyx
          · exact h
        · intro h; exact Or.inr h
      · simp only [h1, if_false, hrec]

theorem secondOccurrences_nodup (xs : List JSVal) :
    ∀ (seen : List JSVal), (secondOccurrences seen xs).Nodup := by
  induction xs with
  | nil => intro seen; simp [secondOccurrences]
  | cons y ys ih =>
    intro seen
    simp only [secondOccurrences]
    by_cases h1 : seen.count y = 1
    · simp only [h1, if_true]
      refine List.nodup_cons.mpr ⟨?_, ih _⟩
      intro hmem
      have := ((mem_secondOccurrences y ys (seen ++ [y])).mp hmem).1
      simp only [List.count_append, List.count_cons, List.count_nil, beq_self_eq_true,
        if_true] at this
      omega
    · simp only [h1, if_false]
      exact ih _

theorem indexOf?_some (xs : List JSVal) (v : JSVal) (i : Nat) (h : indexOf? xs v = some i) :
    i < xs.length ∧ xs[i]? = some v := by
  unfold indexOf? at h
  simp only at h
  by_cases hlt : xs.indexOf v < xs.length
  · rw [if_pos hlt] at h
    cases h
    refine ⟨hlt, ?_⟩
    rw [List.getElem?_eq_getElem hlt]
    congr 1
    exact List.indexOf_get hlt
  · rw [if_neg hlt] at h
    cases h

theorem indexOf?_none (xs : List JSVal) (v : JSVal) (h : indexOf? xs v = none) : v ∉ xs := by
  unfold indexOf? at h
  simp only at h
  by_cases hlt : xs.indexOf v < xs.length
  · rw [if_pos hlt] at h
    cases h
  · intro hmem
    exact hlt (List.indexOf_lt_length.mpr hmem)

theorem mem_duplicatesOf (objects : List JSVal) (hnd : objects.Nodup) (dups : List Nat)
    (hdups : ∀ j ∈ dups, j < objects.length) (i : Nat) (v : JSVal) (hi : objects[i]? = some v) :
    v ∈ duplicatesOf objects dups ↔ i ∈ dups := by
  unfold duplicatesOf
  have hil : i < objects.length := (List.getElem?_eq_some.mp hi).1
  have hiv : objects[i] = v := (List.getElem?_eq_some.mp hi).2
  constructor
  · intro h
    obtain ⟨j, hj, hjv⟩ := List.mem_map.mp h
    have hjl := hdups j hj
    rw [List.getD_eq_getElem?_getD, List.getElem?_eq_getElem hjl] at hjv
    simp only [Option.getD_some] at hjv
    have : j = i := by
      exact (List.Nodup.getElem_inj_iff hnd).mp (hjv.trans hiv.symm)
    rw [← this]
    exact hj
  · intro h
    refine List.mem_map.mpr ⟨i, h, ?_⟩
    rw [List.getD_eq_getElem?_getD, hi]
    rfl

theorem duplicatesOf_push (objects : List JSVal) (dups : List Nat)
    (hdups : ∀ j ∈ dups, j < objects.length) (v : JSVal) :
    duplicatesOf (objects ++ [v]) dups = duplicatesOf objects dups := by
  unfold duplicatesOf
  apply List.map_congr_left
  intro j hj
  rw [List.getD_eq_getElem?_getD, List.getD_eq_getElem?_getD,
    List.getElem?_append_left (hdups j hj)]

theorem inspectNodes_run (heap : Heap) :
    ∀ (fuel : Nat) (pending objects : List JSVal) (dups : List Nat) (pre : List JSVal),
      pending.length + childrenLeft heap objects (List.range heap.length) < fuel →
      objects.Nodup → (∀ x, x ∈ objects ↔ x ∈ pre) → (∀ i ∈ dups, i < objects.length) →
      duplicatesOf objects dups = secondOccurrences [] pre →
      ∃ objects1 dups1 calls,
        inspectNodes heap fuel pending objects dups = some (objects1, dups1)
        ∧ inspectedCalls heap fuel pending objects = some calls
        ∧ objects1.Nodup
        ∧ (∀ x, x ∈ objects1 ↔ x ∈ pre ++ calls)
        ∧ duplicatesOf objects1 dups1 = secondOccurrences [] (pre ++ calls)
        ∧ calls.length ≤ pending.length + childrenLeft heap objects (List.range heap.length)
        ∧ (∀ x ∈ calls, isInspected x = true) := by
  intro fuel
  induction fuel with
  | zero => intro pending objects dups pre h; omega
  | succ fuel ih =>
    intro pending objects dups pre hfuel hnd hmem hdups hD
    cases pending with
    | nil =>
      refine ⟨objects, dups, [], rfl, rfl, hnd, ?_, ?_, by simp, by simp⟩
      · simpa using hmem
      · simpa using hD
    | cons object pending =>
      unfold inspectNodes inspectedCalls
      by_cases hins : isInspected object = true
      · simp only [hins, if_true]
        cases hidx : indexOf? objects object with
        | some i =>
          simp only []
          obtain ⟨hil, hiv⟩ := indexOf?_some objects object i hidx
          have hobj : object ∈ objects := List.getElem?_mem hiv
          have hpre : object ∈ pre := (hmem object).mp hobj
          have hcount : 1 ≤ pre.count object := List.count_pos_iff.mpr hpre
          have hmemD := mem_duplicatesOf objects hnd dups hdups i object hiv
          have hsec := mem_secondOccurrences object pre []
          simp only [List.count_nil, Nat.zero_le, List.nil_append, true_and] at hsec
          have hstep : secondOccurrences [] (pre ++ [object])
              = secondOccurrences [] pre
                ++ (if pre.count object = 1 then [object] else []) := by
            rw [secondOccurrences_append]
            simp only [List.nil_append, secondOccurrences]
          obtain ⟨o1, d1, calls, h1, h2, h3, h4, h5, h6, h7⟩ :=
            ih pending objects
              (if dups.contains i then dups else dups ++ [i]) (pre ++ [object])
              (by simp only [List.length_cons] at hfuel; omega) hnd
              (by
                intro x
                rw [hmem x]
                simp only [List.mem_append, List.mem_singleton]
                constructor
                · exact Or.inl
                · rintro (h | h)
                  · exact h
                  · rw [h]; exact hpre)
              (by
                intro j hj
                split at hj
                · exact hdups j hj
                · rcases List.mem_append.mp hj with hj | hj
                  · exact hdups j hj
                  · rw [List.mem_singleton] at hj
                    rw [hj]; exact hil)
              (by
                rw [hstep]
                by_cases hc : dups.contains i = true
                · rw [if_pos hc]
                  have hi : i ∈ dups := by simpa using hc
                  have : 2 ≤ pre.count object := by
                    rw [← hsec, ← hD]
                    exact hmemD.mpr hi
                  rw [if_neg (by omega), List.append_nil]
                  exact hD
                · rw [if_neg hc]
                  have hi : i ∉ dups := by simpa using hc
                  have : ¬ 2 ≤ pre.count object := by
                    rw [← hsec, ← hD]
                    exact fun h => hi (hmemD.mp h)
                  rw [if_pos (by omega)]
                  unfold duplicatesOf at hD ⊢
                  rw [List.map_append, hD]
                  simp only [List.map_cons, List.map_nil, List.getD_eq_getElem?_getD, hiv,
                    Option.getD_some])
          refine ⟨o1, d1, object :: calls, h1, ?_, h3, ?_, ?_, ?_, ?_⟩
          · rw [h2]; rfl
          · intro x
            rw [h4 x]
            simp
          · rw [h5]
            simp
          · simp only [List.length_cons] at h6 ⊢
            omega
          · intro x hx
            rcases List.mem_cons.mp hx with rfl | hx
            · exact hins
            · exact h7 x hx
        | none =>
          simp only []
          have hobj : object ∉ objects := indexOf?_none objects object hidx
          have hpre : object ∉ pre := fun h => hobj ((hmem object).mpr h)
          have hcount : pre.count object = 0 := List.count_eq_zero.mpr hpre
          obtain ⟨a, rfl⟩ : ∃ a, object = .ref a := by
            cases object <;> simp [isInspected] at hins
            exact ⟨_, rfl⟩
          have hpush := childrenLeft_push heap objects a hobj
          have hstep : secondOccurrences [] (pre ++ [.ref a]) = secondOccurrences [] pre := by
            rw [secondOccurrences_append]
            simp only [List.nil_append, secondOccurrences, hcount]
            simp
          obtain ⟨o1, d1, calls, h1, h2, h3, h4, h5, h6, h7⟩ :=
            ih (childrenOf heap (.ref a) ++ pending) (objects ++ [.ref a]) dups
              (pre ++ [.ref a])
              (by simp only [List.length_cons, List.length_append] at hfuel ⊢; omega)
              (by
                rw [List.nodup_append]
                refine ⟨hnd, List.nodup_singleton _, ?_⟩
                intro x hx hx1
                rw [List.mem_singleton] at hx1
                rw [hx1] at hx
                exact hobj hx)
              (by
                intro x
                simp only [List.mem_append, List.mem_singleton, hmem x])
              (by
                intro j hj
                have := hdups j hj
                simp only [List.length_append, List.length_singleton]
                omega)
              (by rw [duplicatesOf_push objects dups hdups, hstep]; exact hD)
          refine ⟨o1, d1, .ref a :: calls, h1, ?_, h3, ?_, ?_, ?_, ?_⟩
          · rw [h2]; rfl
          · intro x
            rw [h4 x]
            simp
          · rw [h5]
            simp
          · simp only [List.length_cons, List.length_append] at h6 ⊢
            omega
          · intro x hx
            rcases List.mem_cons.mp hx with rfl | hx
            · exact hins
            · exact h7 x hx
      · simp only [hins, Bool.false_eq_true, if_false]
        obtain ⟨o1, d1, calls, h1, h2, h3, h4, h5, h6, h7⟩ :=
          ih pending objects dups pre
            (by simp only [List.length_cons] at hfuel; omega) hnd hmem hdups hD
        refine ⟨o1, d1, calls, h1, h2, h3, h4, h5, ?_, h7⟩
        simp only [List.length_cons]
        omega

theorem insertIndexKey_perm (k : JSString) (n : Nat) (acc : List (JSString × Nat)) :
    (insertIndexKey k n acc).Perm ((k, n) :: acc) := by
  induction acc with
  | nil => exact List.Perm.refl _
  | cons p rest ih =>
    obtain ⟨k1, n1⟩ := p
    unfold insertIndexKey
    split
    · exact List.Perm.refl _
    · exact (List.Perm.cons _ ih).trans (List.Perm.swap _ _ _)

theorem indexFold_perm (keys : List JSString) :
    ∀ acc : List (JSString × Nat),
      ((keys.foldl (fun acc k => match arrayIndex? k with
          | some n => insertIndexKey k n acc
          | none => acc) acc).map Prod.fst).Perm
        (acc.map Prod.fst ++ keys.filter (fun k => (arrayIndex? k).isSome)) := by
  induction keys with
  | nil => intro acc; simp
  | cons k keys ih =>
    intro acc
    rw [List.foldl_cons]
    cases hk : arrayIndex? k with
    | none =>
      simp only [List.filter_cons, hk, Option.isSome_none, Bool.false_eq_true, if_false]
      exact ih acc
    | some n =>
      simp only [List.filter_cons, hk, Option.isSome_some, if_true]
      refine (ih _).trans ?_
      have h1 := (insertIndexKey_perm k n acc).map Prod.fst
      refine (List.Perm.append_right _ h1).trans ?_
      simp only [List.map_cons, List.cons_append]
      exact List.perm_middle.symm

theorem orderKeys_perm (keys : List JSString) : (orderKeys keys).Perm keys := by
  unfold orderKeys
  have h := indexFold_perm keys []
  simp only [List.map_nil, List.nil_append] at h
  refine (List.Perm.append_right _ h).trans ?_
  have := List.filter_append_perm (fun k => (arrayIndex? k).isSome) keys
  refine List.Perm.trans ?_ this
  apply List.Perm.append_left
  apply List.Perm.of_eq
  congr 1
  funext k
  cases arrayIndex? k <;> rfl

theorem find_own (props : List (JSString × JSVal)) (hnd : (props.map Prod.fst).Nodup) :
    ∀ p ∈ props, props.find? (fun q => q.1 == p.1) = some p := by
  induction props with
  | nil => intro p hp; cases hp
  | cons q rest ih =>
    intro p hp
    rw [List.map_cons, List.nodup_cons] at hnd
    rcases List.mem_cons.mp hp with h | h
    · subst h
      simp
    · have hne : q.1 ≠ p.1 := by
        intro heq
        apply hnd.1
        rw [heq]
        exact List.mem_map_of_mem _ h
      rw [List.find?_cons]
      have : (q.1 == p.1) = false := by simpa using hne
      rw [this]
      exact ih hnd.2 p h

theorem keysDistinct_get (heap : Heap) (h : keysDistinct heap = true) (a : Nat) (proto : Proto)
    (props : List (JSString × JSVal)) (ha : heap[a]? = some (.object proto props)) :
    (props.map Prod.fst).Nodup := by
  unfold keysDistinct at h
  rw [List.all_eq_true] at h
  have := h _ (List.getElem?_mem ha)
  simpa using this

/-- An object value stands among the children `inspectNode` visits as often as
among the values the parent holds. -/
theorem childrenOf_count (heap : Heap) (hkeys : keysDistinct heap = true) (a : Nat) (x : JSVal)
    (hx : isInspected x = true) :
    (childrenOf heap (.ref a)).count x = (heldValues heap (.ref a)).count x := by
  cases ha : heap[a]? with
  | none => simp [childrenOf_dangling heap a ha, heldValues, ha]
  | some o =>
    cases o with
    | array items => simp [childrenOf, isArray, classOf, arrayItems, heldValues, ha]
    | object proto props =>
      have hnd := keysDistinct_get heap hkeys a proto props ha
      have hch : childrenOf heap (.ref a)
          = (orderKeys (props.map Prod.fst)).map (getProperty heap (.ref a)) := by
        simp [childrenOf, isArray, classOf, objectKeys, ha]
      have hheld : heldValues heap (.ref a) = props.map Prod.snd := by
        simp [heldValues, ha]
      rw [hch, hheld]
      have hperm := (orderKeys_perm (props.map Prod.fst)).map (getProperty heap (.ref a))
      rw [hperm.count_eq, List.map_map]
      congr 1
      apply List.map_congr_left
      intro p hp
      simp only [Function.comp, getProperty, getOwn?, ha, find_own props hnd p hp,
        Option.map_some', Option.getD_some]
    | date t => simp [childrenOf, isArray, classOf, objectKeys, heldValues, ha]
    | bytes data =>
      have hheld : heldValues heap (.ref a) = [] := by simp [heldValues, ha]
      rw [hheld, List.count_nil, List.count_eq_zero]
      intro hmem
      have hch : childrenOf heap (.ref a)
          = (indexKeys data.length).map (getProperty heap (.ref a)) := by
        simp [childrenOf, isArray, classOf, objectKeys, ha]
      rw [hch, List.mem_map] at hmem
      obtain ⟨key, _, hkey⟩ := hmem
      simp only [getProperty, getOwn?, ha] at hkey
      cases hidx : arrayIndex? key with
      | none => rw [hidx] at hkey; subst hkey; cases hx
      | some i =>
        rw [hidx] at hkey
        cases hd : data[i]? with
        | none => simp [hd] at hkey; subst hkey; cases hx
        | some b => simp [hd] at hkey; subst hkey; cases hx

theorem GraphFrom.mono (children : JSVal → List JSVal) (R1 R2 : List JSVal)
    (h : ∀ r ∈ R1, isInspected r = true → GraphFrom children R2 r) :
    ∀ y, GraphFrom children R1 y → GraphFrom children R2 y := by
  intro y hy
  induction hy with
  | root r hr hi => exact h r hr hi
  | child y x _ hx hi ih => exact GraphFrom.child y x ih hx hi

/-- The walk of `inspectNode` in terms of the objects it adds: they are the
objects the pending values lead to, and a call is made for each pending value
and each child of an added object. -/
theorem inspectNodes_graph (heap : Heap) :
    ∀ (fuel : Nat) (pending objects : List JSVal) (dups : List Nat) (objects1 : List JSVal)
      (dups1 : List Nat) (calls : List JSVal),
      inspectNodes heap fuel pending objects dups = some (objects1, dups1) →
      inspectedCalls heap fuel pending objects = some calls →
      ∃ added, objects1 = objects ++ added
        ∧ (∀ x, isInspected x = true →
            calls.count x
              = pending.count x + (added.map (fun y => (childrenOf heap y).count x)).sum)
        ∧ (∀ p ∈ pending, isInspected p = true → p ∈ objects1)
        ∧ (∀ y ∈ added, ∀ c ∈ childrenOf heap y, isInspected c = true → c ∈ objects1)
        ∧ (∀ y ∈ added, GraphFrom (childrenOf heap) pending y) := by
  intro fuel
  induction fuel with
  | zero =>
    intro pending objects dups objects1 dups1 calls h1
    simp [inspectNodes] at h1
  | succ fuel ih =>
    intro pending objects dups objects1 dups1 calls h1 h2
    cases pending with
    | nil =>
      simp only [inspectNodes, Option.some.injEq, Prod.mk.injEq] at h1
      simp only [inspectedCalls, Option.some.injEq] at h2
      refine ⟨[], by simp [h1.1], ?_, ?_, ?_, ?_⟩
      · intro x _; subst h2; simp
      · intro p hp; cases hp
      · intro y hy; cases hy
      · intro y hy; cases hy
    | cons object pending =>
      unfold inspectNodes at h1
      unfold inspectedCalls at h2
      by_cases hins : isInspected object = true
      · simp only [hins, if_true] at h1 h2
        cases hidx : indexOf? objects object with
        | some i =>
          simp only [hidx] at h1 h2
          obtain ⟨calls1, hc1, hcalls⟩ := Option.map_eq_some'.mp h2
          obtain ⟨added, hobj, hcount, hpend, hchild, hgraph⟩ := ih _ _ _ _ _ _ h1 hc1
          refine ⟨added, hobj, ?_, ?_, hchild, ?_⟩
          · intro x hx
            rw [← hcalls, List.count_cons, List.count_cons, hcount x hx]
            omega
          · intro p hp hpi
            rcases List.mem_cons.mp hp with h | h
            · subst h
              rw [hobj]
              exact List.mem_append_left _ (List.getElem?_mem (indexOf?_some objects p i hidx).2)
            · exact hpend p h hpi
          · intro y hy
            exact GraphFrom.mono _ pending (object :: pending)
              (fun r hr hi => GraphFrom.root r (List.mem_cons_of_mem _ hr) hi) y (hgraph y hy)
        | none =>
          simp only [hidx] at h1 h2
          obtain ⟨calls1, hc1, hcalls⟩ := Option.map_eq_some'.mp h2
          obtain ⟨added, hobj, hcount, hpend, hchild, hgraph⟩ := ih _ _ _ _ _ _ h1 hc1
          have hself : object ∈ objects1 := by
            rw [hobj]; simp
          refine ⟨object :: added, by rw [hobj]; simp, ?_, ?_, ?_, ?_⟩
          · intro x hx
            rw [← hcalls, List.count_cons, List.count_cons, hcount x hx, List.count_append,
              List.map_cons, List.sum_cons]
            omega
          · intro p hp hpi
            rcases List.mem_cons.mp hp with h | h
            · subst h; exact hself
            · exact hpend p (List.mem_append_right _ h) hpi
          · intro y hy c hc hci
            rcases List.mem_cons.mp hy with h | h
            · subst h
              exact hpend c (List.mem_append_left _ hc) hci
            · exact hchild y h c hc hci
          · intro y hy
            rcases List.mem_cons.mp hy with h | h
            · subst h
              exact GraphFrom.root y (List.mem_cons_self _ _) hins
            · refine GraphFrom.mono _ (childrenOf heap object ++ pending) (object :: pending)
                ?_ y (hgraph y h)
              intro r hr hri
              rcases List.mem_append.mp hr with h1 | h1
              · exact GraphFrom.child object r
                  (GraphFrom.root object (List.mem_cons_self _ _) hins) h1 hri
              · exact GraphFrom.root r (List.mem_cons_of_mem _ h1) hri
      · simp only [hins, Bool.false_eq_true, if_false] at h1 h2
        obtain ⟨added, hobj, hcount, hpend, hchild, hgraph⟩ := ih _ _ _ _ _ _ h1 h2
        refine ⟨added, hobj, ?_, ?_, hchild, ?_⟩
        · intro x hx
          have hne : (object == x) = false := by
            rw [beq_eq_false_iff_ne]
            intro h
            subst h
            exact hins hx
          rw [List.count_cons, hne, hcount x hx]
          simp
        · intro p hp hpi
          rcases List.mem_cons.mp hp with h | h
          · subst h; exact absurd hpi hins
          · exact hpend p h hpi
        · intro y hy
          exact GraphFrom.mono _ pending (object :: pending)
            (fun r hr hi => GraphFrom.root r (List.mem_cons_of_mem _ hr) hi) y (hgraph y hy)

theorem isInspected_ref (y : JSVal) (h : isInspected y = true) : ∃ a, y = .ref a := by
  cases y <;> first | exact ⟨_, rfl⟩ | cases h

theorem GraphFrom.inspected (children : JSVal → List JSVal) (roots : List JSVal) (y : JSVal)
    (h : GraphFrom children roots y) : isInspected y = true := by
  cases h with
  | root _ _ hi => exact hi
  | child _ _ _ _ hi => exact hi

theorem GraphFrom.congr (c1 c2 : JSVal → List JSVal) (roots : List JSVal)
    (h : ∀ y x, isInspected y = true → isInspected x = true → x ∈ c1 y → x ∈ c2 y) :
    ∀ y, GraphFrom c1 roots y → GraphFrom c2 roots y := by
  intro y hy
  induction hy with
  | root r hr hi => exact GraphFrom.root r hr hi
  | child y x hy hx hi ih =>
    exact GraphFrom.child y x ih (h y x (GraphFrom.inspected _ _ _ hy) hi hx) hi

theorem mem_childrenOf (heap : Heap) (hkeys : keysDistinct heap = true) (y x : JSVal)
    (hy : isInspected y = true) (hx : isInspected x = true) :
    x ∈ childrenOf heap y ↔ x ∈ heldValues heap y := by
  obtain ⟨a, rfl⟩ := isInspected_ref y hy
  rw [← List.count_pos_iff, ← List.count_pos_iff, childrenOf_count heap hkeys a x hx]

end Dumper

namespace Loader

/-! ## Lemmas on the quoted scalars -/

theorem charCodeAt_nat (s : JSString) (n : Nat) : charCodeAt s (n : Int) = s[n]? := by
  unfold charCodeAt
  have : ¬ ((n : Int) < 0) := by omega
  simp only [this, if_false, Int.toNat_ofNat]

theorem getElem?_append_here (A B : JSString) (c : Nat) : (A ++ c :: B)[A.length]? = some c := by
  rw [List.getElem?_append_right (le_refl _)]
  simp

theorem getElem?_append_next (A B : JSString) (c : Nat) :
    (A ++ c :: B)[A.length + 1]? = B.head? := by
  rw [List.getElem?_append_right (by omega)]
  simp only [Nat.add_sub_cancel_left]
  cases B <;> simp

theorem slice_empty (s : JSString) (p : Nat) : slice s p p = [] := by
  unfold slice
  simp

theorem slice_snoc (s : JSString) (cs p c : Nat) (hcs : cs ≤ p) (hc : s[p]? = some c) :
    slice s cs (p + 1) = slice s cs p ++ [c] := by
  unfold slice
  have hlt : p < s.length := (List.getElem?_eq_some.mp hc).1
  have h1 : p + 1 - cs = (p - cs) + 1 := by omega
  rw [h1, List.take_succ]
  congr 1
  rw [List.getElem?_drop]
  have : cs + (p - cs) = p := by omega
  rw [this, hc]
  rfl

theorem captureSegment_json (state : State) (r : JSString) (hr : state.result = .str r)
    (cs p : Nat)
    (hvalid : ∀ c ∈ slice state.input cs p, c = 9 ∨ (32 ≤ c ∧ c ≤ 1114111)) :
    captureSegment state cs p true
      = .ok { state with result := .str (r ++ slice state.input cs p) } := by
  unfold captureSegment
  by_cases h : cs < p
  · have hall : (slice state.input cs p).all
        (fun c => c == 9 || (decide (32 ≤ c) && decide (c ≤ 1114111))) = true := by
      rw [List.all_eq_true]
      intro c hc
      rcases hvalid c hc with h1 | ⟨h1, h2⟩
      · simp [h1]
      · simp [h1, h2]
    simp only [h, if_true, hall, hr, concatText]
  · simp only [h, if_false]
    have : slice state.input cs p = [] := by
      unfold slice
      have : p - cs = 0 := by omega
      rw [this]
      simp
    rw [this, List.append_nil, ← hr]

theorem readSingleQuotedLoop_run (state0 : State) (nodeIndent : Int) (rest : JSString)
    (hrest : rest.head? ≠ some 39) :
    ∀ (suf A : JSString) (cs ce : Nat) (r : JSString) (fuel : Nat),
      (∀ c ∈ suf, (c = 9 ∨ 32 ≤ c) ∧ c < 65536) →
      state0.input = A ++ Dumper.doubleQuotes suf ++ 39 :: rest →
      state0.lineStart < A.length → cs ≤ A.length →
      (∀ c ∈ slice state0.input cs A.length, c = 9 ∨ (32 ≤ c ∧ c ≤ 1114111)) →
      (Dumper.doubleQuotes suf).length + 1 ≤ fuel →
      readSingleQuotedLoop nodeIndent fuel
          { state0 with position := A.length, result := .str r } cs ce
        = .ok ({ state0 with
            position := A.length + (Dumper.doubleQuotes suf).length + 1
            result := .str (r ++ slice state0.input cs A.length ++ suf) }, true) := by
  intro suf
  induction suf with
  | nil =>
    intro A cs ce r fuel _ hinput hls hcs hvalid hfuel
    cases fuel with
    | zero => omega
    | succ fuel =>
      have hin : state0.input = A ++ 39 :: rest := by
        simpa [Dumper.doubleQuotes] using hinput
      have hch : state0.input[A.length]? = some 39 := by
        rw [hin]; exact getElem?_append_here A rest 39
      have hch1 : state0.input[A.length + 1]? = rest.head? := by
        rw [hin]; exact getElem?_append_next A rest 39
      unfold readSingleQuotedLoop
      simp only [State.ch, charCodeAt_nat, hch]
      rw [captureSegment_json { state0 with position := A.length, result := .str r } r rfl cs
        A.length hvalid]
      simp only [Nat.cast_add, Nat.cast_one]
      have hcast : ((A.length : Int) + 1) = ((A.length + 1 : Nat) : Int) := by push_cast; rfl
      simp only [hcast, charCodeAt_nat, hch1]
      have hne : (rest.head? == some 39) = false := by
        simpa using hrest
      simp [hne, Dumper.doubleQuotes]
  | cons c suf ih =>
    intro A cs ce r fuel hsuf hinput hls hcs hvalid hfuel
    have hc := hsuf c (List.mem_cons_self _ _)
    have hsuf1 : ∀ x ∈ suf, (x = 9 ∨ 32 ≤ x) ∧ x < 65536 :=
      fun x hx => hsuf x (List.mem_cons_of_mem _ hx)
    by_cases hc39 : c = 39
    · subst hc39
      have hdq : Dumper.doubleQuotes (39 :: suf) = 39 :: 39 :: Dumper.doubleQuotes suf := by
        simp [Dumper.doubleQuotes]
      rw [hdq] at hinput hfuel ⊢
      cases fuel with
      | zero => omega
      | succ fuel =>
        have hin : state0.input = A ++ 39 :: (39 :: Dumper.doubleQuotes suf ++ 39 :: rest) := by
          rw [hinput]; simp
        have hin2 : state0.input = (A ++ [39, 39]) ++ Dumper.doubleQuotes suf ++ 39 :: rest := by
          rw [hinput]; simp
        have hch : state0.input[A.length]? = some 39 := by
          rw [hin]; exact getElem?_append_here A _ 39
        have hch1 : state0.input[A.length + 1]? = some 39 := by
          rw [hin, getElem?_append_next]; rfl
        have hlen2 : (A ++ [39, 39]).length = A.length + 1 + 1 := by simp
        have hslice : slice state0.input (A.length + 1) (A.length + 1 + 1) = [39] := by
          rw [slice_snoc _ _ _ 39 (le_refl _) hch1, slice_empty]; rfl
        have key := ih (A ++ [39, 39]) (A.length + 1) (A.length + 1 + 1)
          (r ++ slice state0.input cs A.length) fuel hsuf1 hin2 (by rw [hlen2]; omega)
          (by rw [hlen2]; omega)
          (by
            rw [hlen2, hslice]
            intro x hx
            rw [List.mem_singleton] at hx
            omega)
          (by simp only [List.length_cons] at hfuel; omega)
        rw [hlen2, hslice] at key
        unfold readSingleQuotedLoop
        simp only [State.ch, charCodeAt_nat, hch]
        rw [captureSegment_json { state0 with position := A.length, result := .str r } r rfl cs
          A.length hvalid]
        simp only [Nat.cast_add, Nat.cast_one]
        have hcast : ((A.length : Int) + 1) = ((A.length + 1 : Nat) : Int) := by push_cast; rfl
        simp only [hcast, charCodeAt_nat, hch1]
        simp only [beq_self_eq_true, if_true, Option.some.injEq, Nat.reduceEqDiff,
          Nat.reduceBEq, Bool.false_eq_true, if_false]
        rw [key]
        have h390 : ((some 39 : Option Nat) == some 0) = false := by decide
        have hp : A.length + 1 + 1 + (Dumper.doubleQuotes suf).length + 1
            = A.length + ((Dumper.doubleQuotes suf).length + 1 + 1) + 1 := by omega
        simp only [List.length_cons, List.append_assoc, List.singleton_append, h390,
          Bool.false_eq_true, if_false, hp]
    · have hdq : Dumper.doubleQuotes (c :: suf) = c :: Dumper.doubleQuotes suf := by
        simp [Dumper.doubleQuotes, hc39]
      rw [hdq] at hinput hfuel ⊢
      cases fuel with
      | zero => omega
      | succ fuel =>
        have hin : state0.input = A ++ c :: (Dumper.doubleQuotes suf ++ 39 :: rest) := by
          rw [hinput]; simp
        have hin2 : state0.input = (A ++ [c]) ++ Dumper.doubleQuotes suf ++ 39 :: rest := by
          rw [hinput]; simp
        have hch : state0.input[A.length]? = some c := by
          rw [hin]; exact getElem?_append_here A _ c
        have hlen2 : (A ++ [c]).length = A.length + 1 := by simp
        have hslice := slice_snoc state0.input cs A.length c hcs hch
        have key := ih (A ++ [c]) cs (A.length + 1) r fuel hsuf1 hin2 (by rw [hlen2]; omega)
          (by rw [hlen2]; omega)
          (by
            rw [hlen2, hslice]
            intro x hx
            rcases List.mem_append.mp hx with hx | hx
            · exact hvalid x hx
            · rw [List.mem_singleton] at hx
              omega)
          (by simp only [List.length_cons] at hfuel; omega)
        rw [hlen2, hslice] at key
        have h0 : (some c == some 0) = false := by
          simp only [beq_eq_false_iff_ne, ne_eq, Option.some.injEq]; omega
        have h39 : (some c == some 39) = false := by
          simp only [beq_eq_false_iff_ne, ne_eq, Option.some.injEq]; omega
        have heol : is_EOL (some c) = false := by
          unfold is_EOL
          simp only [Bool.or_eq_false_iff, beq_eq_false_iff_ne, ne_eq, Option.some.injEq]
          omega
        have hstart : (A.length == state0.lineStart) = false := by
          simp only [beq_eq_false_iff_ne, ne_eq]; omega
        unfold readSingleQuotedLoop
        simp only [State.ch, charCodeAt_nat, hch, h0, h39, heol, hstart, Bool.false_eq_true,
          if_false, Bool.false_and]
        rw [key]
        have hp : A.length + 1 + (Dumper.doubleQuotes suf).length + 1
            = A.length + ((Dumper.doubleQuotes suf).length + 1) + 1 := by omega
        simp only [List.length_cons, List.append_assoc, List.singleton_append, hp]

/-! ## Lemmas on the double quoted scalar -/

theorem ESCAPE_table :
    ∀ p ∈ ([(0, 48), (7, 97), (8, 98), (9, 116), (10, 110), (11, 118), (12, 102), (13, 114), (27, 101), (34, 34), (92, 92), (133, 78), (160, 95), (8232, 76), (8233, 80)] : List (Nat × Nat)),
      Dumper.ESCAPE_SEQUENCES p.1 = some [92, p.2] ∧ p.2 < 256
      ∧ simpleEscapeSequence p.2 = [p.1] ∧ is_EOL (some p.2) = false ∧ p.1 < 65536 := by
  decide

theorem ESCAPE_SEQUENCES_cases (c : Nat) :
    (c = 0 ∨ c = 7 ∨ c = 8 ∨ c = 9 ∨ c = 10 ∨ c = 11 ∨ c = 12 ∨ c = 13 ∨ c = 27 ∨ c = 34 ∨ c = 92 ∨ c = 133 ∨ c = 160 ∨ c = 8232 ∨ c = 8233)
    ∨ Dumper.ESCAPE_SEQUENCES c = none := by
  by_cases h0 : c = 0
  · exact Or.inl (by omega)
  by_cases h7 : c = 7
  · exact Or.inl (by omega)
  by_cases h8 : c = 8
  · exact Or.inl (by omega)
  by_cases h9 : c = 9
  · exact Or.inl (by omega)
  by_cases h10 : c = 10
  · exact Or.inl (by omega)
  by_cases h11 : c = 11
  · exact Or.inl (by omega)
  by_cases h12 : c = 12
  · exact Or.inl (by omega)
  by_cases h13 : c = 13
  · exact Or.inl (by omega)
  by_cases h27 : c = 27
  · exact Or.inl (by omega)
  by_cases h34 : c = 34
  · exact Or.inl (by omega)
  by_cases h92 : c = 92
  · exact Or.inl (by omega)
  by_cases h133 : c = 133
  · exact Or.inl (by omega)
  by_cases h160 : c = 160
  · exact Or.inl (by omega)
  by_cases h8232 : c = 8232
  · exact Or.inl (by omega)
  by_cases h8233 : c = 8233
  · exact Or.inl (by omega)
  right
  unfold Dumper.ESCAPE_SEQUENCES
  rw [if_neg h0, if_neg h7, if_neg h8, if_neg h9, if_neg h10, if_neg h11, if_neg h12, if_neg h13, if_neg h27, if_neg h34, if_neg h92, if_neg h133, if_neg h160, if_neg h8232, if_neg h8233]

theorem ESCAPE_SEQUENCES_some (c : Nat) (seq : JSString)
    (h : Dumper.ESCAPE_SEQUENCES c = some seq) :
    ∃ e, seq = [92, e] ∧ e < 256 ∧ simpleEscapeSequence e = [c] ∧ is_EOL (some e) = false
      ∧ c < 65536 := by
  rcases ESCAPE_SEQUENCES_cases c with hc | hc
  swap
  · rw [hc] at h; cases h
  rcases hc with rfl | rfl | rfl | rfl | rfl | rfl | rfl | rfl | rfl | rfl | rfl | rfl | rfl | rfl | rfl
  · have ht := ESCAPE_table (0, 48) (by decide)
    rw [ht.1] at h
    cases h
    exact ⟨48, rfl, ht.2.1, ht.2.2.1, ht.2.2.2.1, ht.2.2.2.2⟩
  · have ht := ESCAPE_table (7, 97) (by decide)
    rw [ht.1] at h
    cases h
    exact ⟨97, rfl, ht.2.1, ht.2.2.1, ht.2.2.2.1, ht.2.2.2.2⟩
  · have ht := ESCAPE_table (8, 98) (by decide)
    rw [ht.1] at h
    cases h
    exact ⟨98, rfl, ht.2.1, ht.2.2.1, ht.2.2.2.1, ht.2.2.2.2⟩
  · have ht := ESCAPE_table (9, 116) (by decide)
    rw [ht.1] at h
    cases h
    exact ⟨116, rfl, ht.2.1, ht.2.2.1, ht.2.2.2.1, ht.2.2.2.2⟩
  · have ht := ESCAPE_table (10, 110) (by decide)
    rw [ht.1] at h
    cases h
    exact ⟨110, rfl, ht.2.1, ht.2.2.1, ht.2.2.2.1, ht.2.2.2.2⟩
  · have ht := ESCAPE_table (11, 118) (by decide)
    rw [ht.1] at h
    cases h
    exact ⟨118, rfl, ht.2.1, ht.2.2.1, ht.2.2.2.1, ht.2.2.2.2⟩
  · have ht := ESCAPE_table (12, 102) (by decide)
    rw [ht.1] at h
    cases h
    exact ⟨102, rfl, ht.2.1, ht.2.2.1, ht.2.2.2.1, ht.2.2.2.2⟩
  · have ht := ESCAPE_table (13, 114) (by decide)
    rw [ht.1] at h
    cases h
    exact ⟨114, rfl, ht.2.1, ht.2.2.1, ht.2.2.2.1, ht.2.2.2.2⟩
  · have ht := ESCAPE_table (27, 101) (by decide)
    rw [ht.1] at h
    cases h
    exact ⟨101, rfl, ht.2.1, ht.2.2.1, ht.2.2.2.1, ht.2.2.2.2⟩
  · have ht := ESCAPE_table (34, 34) (by decide)
    rw [ht.1] at h
    cases h
    exact ⟨34, rfl, ht.2.1, ht.2.2.1, ht.2.2.2.1, ht.2.2.2.2⟩
  · have ht := ESCAPE_table (92, 92) (by decide)
    rw [ht.1] at h
    cases h
    exact ⟨92, rfl, ht.2.1, ht.2.2.1, ht.2.2.2.1, ht.2.2.2.2⟩
  · have ht := ESCAPE_table (133, 78) (by decide)
    rw [ht.1] at h
    cases h
    exact ⟨78, rfl, ht.2.1, ht.2.2.1, ht.2.2.2.1, ht.2.2.2.2⟩
  · have ht := ESCAPE_table (160, 95) (by decide)
    rw [ht.1] at h
    cases h
    exact ⟨95, rfl, ht.2.1, ht.2.2.1, ht.2.2.2.1, ht.2.2.2.2⟩
  · have ht := ESCAPE_table (8232, 76) (by decide)
    rw [ht.1] at h
    cases h
    exact ⟨76, rfl, ht.2.1, ht.2.2.1, ht.2.2.2.1, ht.2.2.2.2⟩
  · have ht := ESCAPE_table (8233, 80) (by decide)
    rw [ht.1] at h
    cases h
    exact ⟨80, rfl, ht.2.1, ht.2.2.1, ht.2.2.2.1, ht.2.2.2.2⟩

theorem ESCAPE_SEQUENCES_none (c : Nat) (h : Dumper.ESCAPE_SEQUENCES c = none) :
    c ≠ 0 ∧ c ≠ 34 ∧ c ≠ 92 ∧ c ≠ 10 ∧ c ≠ 13 ∧ c ≠ 9 := by
  refine ⟨?_, ?_, ?_, ?_, ?_, ?_⟩ <;>
  · rintro rfl
    revert h
    decide

theorem escapeLoop_acc (s : JSString) :
    ∀ (n i : Nat) (acc : JSString),
      Dumper.escapeLoop s n i acc = (Dumper.escapeLoop s n i []).map (fun E => acc ++ E) := by
  intro n
  induction n with
  | zero => intro i acc; simp [Dumper.escapeLoop, Except.map]
  | succ n ih =>
    intro i acc
    unfold Dumper.escapeLoop
    by_cases hi : i < s.length
    · simp only [hi, if_true]
      cases hcp : Dumper.codePointAt s i with
      | none => simp [Except.map]
      | some char =>
        simp only []
        cases hesc : Dumper.ESCAPE_SEQUENCES char with
        | some seq =>
          simp only []
          rw [ih _ (acc ++ seq), ih _ ([] ++ seq)]
          cases Dumper.escapeLoop s n (if char ≥ 65536 then i + 2 else i + 1) [] <;>
            simp [Except.map]
        | none =>
          simp only []
          by_cases hp : Dumper.isPrintable (some char) = true
          · simp only [hp, if_true]
            rw [ih _ (acc ++ _), ih _ ([] ++ _)]
            cases Dumper.escapeLoop s n (if char ≥ 65536 then i + 2 else i + 1) [] <;>
              simp [Except.map]
          · simp only [hp, Bool.false_eq_true, if_false]
            cases Dumper.encodeHex char with
            | error e => simp [Except.map]
            | ok hex =>
              simp only []
              rw [ih _ (acc ++ hex), ih _ ([] ++ hex)]
              cases Dumper.escapeLoop s n (if char ≥ 65536 then i + 2 else i + 1) [] <;>
                simp [Except.map]
    · simp [hi, Except.map]

theorem codePointAt_cases (s : JSString) (i c : Nat) (hc : s[i]? = some c) :
    Dumper.codePointAt s i = some c
    ∨ ∃ d, s[i + 1]? = some d ∧ 55296 ≤ c ∧ c ≤ 56319 ∧ 56320 ≤ d ∧ d ≤ 57343
        ∧ Dumper.codePointAt s i = some ((c - 55296) * 1024 + d - 56320 + 65536) := by
  have hcast : ((i : Int) + 1) = ((i + 1 : Nat) : Int) := by push_cast; rfl
  by_cases h1 : c ≥ 55296 ∧ c ≤ 56319 ∧ ((i + 1 : Nat) : Int) < (s.length : Int)
  · cases hd : s[i + 1]? with
    | none =>
      left
      unfold Dumper.codePointAt
      simp only [charCodeAt_nat, hc, hcast, hd, h1, and_self, if_true]
    | some d =>
      by_cases h2 : d ≥ 56320 ∧ d ≤ 57343
      · right
        refine ⟨d, rfl, h1.1, h1.2.1, h2.1, h2.2, ?_⟩
        unfold Dumper.codePointAt
        simp only [charCodeAt_nat, hc, hcast, hd, h1, h2, and_self, if_true]
      · left
        unfold Dumper.codePointAt
        simp only [charCodeAt_nat, hc, hcast, hd, h1, h2, and_self, if_true, if_false]
  · left
    unfold Dumper.codePointAt
    simp only [charCodeAt_nat, hc, hcast, h1, if_false]

theorem fromHexCode_upper (d : Nat) (hd : d < 16) :
    fromHexCode (some ((fun c => if 97 ≤ c ∧ c ≤ 122 then c - 32 else c) (digitChar false d)))
      = (d : Int) := by
  interval_cases d <;> decide

theorem shiftHex_small (acc d : Nat) (h : acc * 16 < 2 ^ 31) :
    shiftHex (acc : Int) (d : Int) = ((acc * 16 + d : Nat) : Int) := by
  unfold shiftHex
  push_cast
  omega

theorem readHexDigits_run (state0 : State) :
    ∀ (ds : List Nat) (B C : JSString) (q : Nat) (r : JSString) (acc : Nat),
      (∀ d ∈ ds, d < 16) → (acc + 1) * 16 ^ ds.length ≤ 16 ^ 7 →
      state0.input = B ++ upperAscii (ds.map (digitChar false)) ++ C → B.length = q + 1 →
      readHexDigits ds.length { state0 with position := q, result := .str r } (acc : Int)
        = .ok ({ state0 with position := q + ds.length, result := .str r },
            ((ds.foldl (fun a d => a * 16 + d) acc : Nat) : Int)) := by
  intro ds
  induction ds with
  | nil => intro B C q r acc _ _ _ _; rfl
  | cons d ds ih =>
    intro B C q r acc hds hbound hinput hB
    have hd := hds d (List.mem_cons_self _ _)
    have hin : state0.input = B
        ++ ((fun c => if 97 ≤ c ∧ c ≤ 122 then c - 32 else c) (digitChar false d))
          :: (upperAscii (ds.map (digitChar false)) ++ C) := by
      rw [hinput]; simp [upperAscii]
    have hin2 : state0.input
        = (B ++ [(fun c => if 97 ≤ c ∧ c ≤ 122 then c - 32 else c) (digitChar false d)])
          ++ upperAscii (ds.map (digitChar false)) ++ C := by
      rw [hin]; simp
    have hch : state0.input[q + 1]? =
        some ((fun c => if 97 ≤ c ∧ c ≤ 122 then c - 32 else c) (digitChar false d)) := by
      rw [hin, ← hB]; exact getElem?_append_here B _ _
    have hpow : (acc + 1) * 16 ^ (ds.length + 1) ≤ 16 ^ 7 := by
      simpa using hbound
    have hpos : 0 < 16 ^ ds.length := by positivity
    have hsmall : acc * 16 < 2 ^ 31 := by
      have h1 : (acc + 1) * 16 ≤ (acc + 1) * 16 ^ (ds.length + 1) := by
        apply Nat.mul_le_mul_left
        rw [pow_succ]
        calc 16 = 1 * 16 := by omega
          _ ≤ 16 ^ ds.length * 16 := Nat.mul_le_mul_right _ hpos
      have h2 : (16 : Nat) ^ 7 = 268435456 := by norm_num
      omega
    have hbound2 : (acc * 16 + d + 1) * 16 ^ ds.length ≤ 16 ^ 7 := by
      calc (acc * 16 + d + 1) * 16 ^ ds.length ≤ ((acc + 1) * 16) * 16 ^ ds.length :=
            Nat.mul_le_mul_right _ (by omega)
        _ = (acc + 1) * 16 ^ (ds.length + 1) := by rw [pow_succ]; ring
        _ ≤ 16 ^ 7 := hpow
    have key := ih (B ++ [(fun c => if 97 ≤ c ∧ c ≤ 122 then c - 32 else c) (digitChar false d)])
      C (q + 1) r (acc * 16 + d) (fun x hx => hds x (List.mem_cons_of_mem _ hx)) hbound2 hin2
      (by simp [hB])
    have hcast : ((q : Int) + 1) = ((q + 1 : Nat) : Int) := by push_cast; rfl
    simp only [List.length_cons, List.foldl_cons]
    unfold readHexDigits
    simp only [State.ch, Nat.cast_add, Nat.cast_one]
    simp only [hcast, charCodeAt_nat, hch, fromHexCode_upper d hd]
    have hge : ((d : Nat) : Int) ≥ 0 := by omega
    simp only [hge, if_true, shiftHex_small acc d hsmall]
    rw [key]
    have hq : q + 1 + ds.length = q + (ds.length + 1) := by omega
    simp only [hq]

theorem foldl_zeros (k : Nat) :
    (List.replicate k 0).foldl (fun a d => a * 16 + d) 0 = 0 := by
  induction k with
  | zero => rfl
  | succ k ih => simp only [List.replicate_succ, List.foldl_cons]; exact ih

theorem padded_digits (c k : Nat) (hk : c < 16 ^ (k + 1)) :
    ∃ ds : List Nat,
      «repeat» [48] (k + 1 - (upperAscii (natToString 16 c)).length)
          ++ upperAscii (natToString 16 c)
        = upperAscii (ds.map (digitChar false))
      ∧ (∀ d ∈ ds, d < 16) ∧ ds.foldl (fun a d => a * 16 + d) 0 = c
      ∧ ds.length = k + 1 := by
  obtain ⟨h1, h2, _, _⟩ := natDigits_spec 16 (by omega) (c + 1) c (by omega)
  have hlen := Snippet.natDigits_length_le 16 (by omega) k (c + 1) c (by omega) hk
  refine ⟨List.replicate (k + 1 - (natDigits 16 (c + 1) c).length) 0 ++ natDigits 16 (c + 1) c,
    ?_, ?_, ?_, ?_⟩
  · unfold natToString upperAscii
    simp only [List.length_map, Snippet.repeat_eq_replicate, List.map_append,
      List.map_replicate]
    rfl
  · intro d hd
    rcases List.mem_append.mp hd with hd | hd
    · have := (List.mem_replicate.mp hd).2
      omega
    · exact h2 d hd
  · rw [List.foldl_append, foldl_zeros, h1]
  · simp only [List.length_append, List.length_replicate]
    omega

theorem encodeHex_spec (c : Nat) (hc : c ≤ 65535) :
    ∃ (handle : Nat) (ds : List Nat),
      Dumper.encodeHex c = .ok (92 :: handle :: upperAscii (ds.map (digitChar false)))
      ∧ (∀ d ∈ ds, d < 16) ∧ ds.foldl (fun a d => a * 16 + d) 0 = c
      ∧ ((handle = 120 ∧ ds.length = 2) ∨ (handle = 117 ∧ ds.length = 4)) := by
  have hx : js "\\x" = [92, 120] := by decide
  have hu : js "\\u" = [92, 117] := by decide
  unfold Dumper.encodeHex
  by_cases h1 : c ≤ 255
  · obtain ⟨ds, hds, h2, h3, h4⟩ := padded_digits c 1 (by norm_num; omega)
    refine ⟨120, ds, ?_, h2, h3, Or.inl ⟨rfl, h4⟩⟩
    simp only [h1, if_true, hx, List.append_assoc]
    rw [hds]
    rfl
  · obtain ⟨ds, hds, h2, h3, h4⟩ := padded_digits c 3 (by norm_num; omega)
    refine ⟨117, ds, ?_, h2, h3, Or.inr ⟨rfl, h4⟩⟩
    simp only [h1, if_false, hc, if_true, hu, List.append_assoc]
    rw [hds]
    rfl

theorem readDoubleQuotedLoop_direct (state0 : State) (nodeIndent : Int) (fuel p cs ce : Nat)
    (r : JSString) (c : Nat) (hch : state0.input[p]? = some c)
    (hc : c ≠ 0 ∧ c ≠ 34 ∧ c ≠ 92 ∧ c ≠ 10 ∧ c ≠ 13) (hls : state0.lineStart < p) :
    readDoubleQuotedLoop nodeIndent (fuel + 1)
        { state0 with position := p, result := .str r } cs ce
      = readDoubleQuotedLoop nodeIndent fuel
        { state0 with position := p + 1, result := .str r } cs (p + 1) := by
  have h0 : (some c == some 0) = false := by
    simp only [beq_eq_false_iff_ne, ne_eq, Option.some.injEq]; omega
  have h34 : (some c == some 34) = false := by
    simp only [beq_eq_false_iff_ne, ne_eq, Option.some.injEq]; omega
  have h92 : (some c == some 92) = false := by
    simp only [beq_eq_false_iff_ne, ne_eq, Option.some.injEq]; omega
  have heol : is_EOL (some c) = false := by
    unfold is_EOL
    simp only [Bool.or_eq_false_iff, beq_eq_false_iff_ne, ne_eq, Option.some.injEq]
    omega
  have hstart : (p == state0.lineStart) = false := by
    simp only [beq_eq_false_iff_ne, ne_eq]; omega
  conv_lhs => unfold readDoubleQuotedLoop
  simp only [State.ch, charCodeAt_nat, hch, h0, h34, h92, heol, hstart, Bool.false_eq_true,
    if_false, Bool.false_and]

theorem readDoubleQuotedLoop_quote (state0 : State) (nodeIndent : Int) (fuel p cs ce : Nat)
    (r : JSString) (hch : state0.input[p]? = some 34)
    (hvalid : ∀ c ∈ slice state0.input cs p, c = 9 ∨ (32 ≤ c ∧ c ≤ 1114111)) :
    readDoubleQuotedLoop nodeIndent (fuel + 1)
        { state0 with position := p, result := .str r } cs ce
      = .ok ({ state0 with position := p + 1, result := .str (r ++ slice state0.input cs p) },
          true) := by
  have h0 : ((some 34 : Option Nat) == some 0) = false := by decide
  unfold readDoubleQuotedLoop
  simp only [State.ch, charCodeAt_nat, hch, h0, Bool.false_eq_true, if_false, beq_self_eq_true,
    if_true]
  rw [captureSegment_json { state0 with position := p, result := .str r } r rfl cs p hvalid]

theorem readDoubleQuotedLoop_simple (state0 : State) (nodeIndent : Int) (fuel p cs ce : Nat)
    (r : JSString) (e c : Nat) (hch : state0.input[p]? = some 92)
    (hch1 : state0.input[p + 1]? = some e) (he : e < 256)
    (hseq : simpleEscapeSequence e = [c]) (heol : is_EOL (some e) = false)
    (hvalid : ∀ c ∈ slice state0.input cs p, c = 9 ∨ (32 ≤ c ∧ c ≤ 1114111)) :
    readDoubleQuotedLoop nodeIndent (fuel + 1)
        { state0 with position := p, result := .str r } cs ce
      = readDoubleQuotedLoop nodeIndent fuel
        { state0 with position := p + 1 + 1,
                      result := .str (r ++ slice state0.input cs p ++ [c]) }
        (p + 1 + 1) (p + 1 + 1) := by
  have h0 : ((some 92 : Option Nat) == some 0) = false := by decide
  have h34 : ((some 92 : Option Nat) == some 34) = false := by decide
  have hcast : ((p : Int) + 1) = ((p + 1 : Nat) : Int) := by push_cast; rfl
  have hcheck : (decide (e < 256) && simpleEscapeCheck e) = true := by
    simp [he, simpleEscapeCheck, hseq]
  conv_lhs => unfold readDoubleQuotedLoop
  simp only [State.ch, charCodeAt_nat, hch, h0, h34, Bool.false_eq_true, if_false,
    beq_self_eq_true, if_true]
  rw [captureSegment_json { state0 with position := p, result := .str r } r rfl cs p hvalid]
  simp only [Nat.cast_add, Nat.cast_one, hcast, charCodeAt_nat, hch1, heol,
    Bool.false_eq_true, if_false, hcheck, if_true, simpleEscapeMap, hseq, Option.getD_some,
    concatText]

theorem readDoubleQuotedLoop_hex (state0 : State) (nodeIndent : Int) (fuel p cs ce : Nat)
    (r : JSString) (handle : Nat) (ds : List Nat) (B C : JSString)
    (hch : state0.input[p]? = some 92) (hch1 : state0.input[p + 1]? = some handle)
    (hinput : state0.input = B ++ upperAscii (ds.map (digitChar false)) ++ C)
    (hB : B.length = p + 1 + 1) (hds : ∀ d ∈ ds, d < 16)
    (hhandle : (handle = 120 ∧ ds.length = 2) ∨ (handle = 117 ∧ ds.length = 4))
    (hvalid : ∀ c ∈ slice state0.input cs p, c = 9 ∨ (32 ≤ c ∧ c ≤ 1114111)) :
    readDoubleQuotedLoop nodeIndent (fuel + 1)
        { state0 with position := p, result := .str r } cs ce
      = readDoubleQuotedLoop nodeIndent fuel
        { state0 with position := p + 1 + ds.length + 1,
                      result := .str (r ++ slice state0.input cs p
                        ++ charFromCodepoint ((ds.foldl (fun a d => a * 16 + d) 0 : Nat) : Int)) }
        (p + 1 + ds.length + 1) (p + 1 + ds.length + 1) := by
  have h0 : ((some 92 : Option Nat) == some 0) = false := by decide
  have h34 : ((some 92 : Option Nat) == some 34) = false := by decide
  have hcast : ((p : Int) + 1) = ((p + 1 : Nat) : Int) := by push_cast; rfl
  have hheol : is_EOL (some handle) = false := by
    rcases hhandle with ⟨rfl, _⟩ | ⟨rfl, _⟩ <;> decide
  have hcheck : (decide (handle < 256) && simpleEscapeCheck handle) = false := by
    rcases hhandle with ⟨rfl, _⟩ | ⟨rfl, _⟩ <;> decide
  have hlen : escapedHexLen (some handle) = ds.length := by
    rcases hhandle with ⟨rfl, h⟩ | ⟨rfl, h⟩ <;> rw [h] <;> decide
  have hpos : escapedHexLen (some handle) > 0 := by
    rw [hlen]; rcases hhandle with ⟨_, h⟩ | ⟨_, h⟩ <;> omega
  have hbound : (0 + 1) * 16 ^ ds.length ≤ 16 ^ 7 := by
    rcases hhandle with ⟨_, h⟩ | ⟨_, h⟩ <;> rw [h] <;> norm_num
  have hrun := readHexDigits_run state0 ds B C (p + 1) (r ++ slice state0.input cs p) 0 hds
    hbound hinput hB
  conv_lhs => unfold readDoubleQuotedLoop
  simp only [State.ch, charCodeAt_nat, hch, h0, h34, Bool.false_eq_true, if_false,
    beq_self_eq_true, if_true]
  rw [captureSegment_json { state0 with position := p, result := .str r } r rfl cs p hvalid]
  simp only [Nat.cast_add, Nat.cast_one, hcast, charCodeAt_nat, hch1, hheol,
    Bool.false_eq_true, if_false, hcheck, hpos, if_true, hlen]
  simp only [Nat.cast_zero] at hrun
  rw [hrun]
  have hpos2 : ds.length > 0 := by rw [← hlen]; exact hpos
  simp only [concatText, hpos2, if_true]

theorem escapeLoop_ok (s : JSString) (n i : Nat) (acc E : JSString)
    (h : Dumper.escapeLoop s n i acc = .ok E) :
    ∃ E1, Dumper.escapeLoop s n i [] = .ok E1 ∧ E = acc ++ E1 := by
  rw [escapeLoop_acc] at h
  cases hx : Dumper.escapeLoop s n i [] with
  | error e => rw [hx] at h; cases h
  | ok E1 =>
    rw [hx] at h
    simp only [Except.map] at h
    cases h
    exact ⟨E1, rfl, rfl⟩

theorem isPrintable_ge (c : Nat) (h : Dumper.isPrintable (some c) = true) : 32 ≤ c := by
  unfold Dumper.isPrintable at h
  simp only [Bool.or_eq_true, Bool.and_eq_true, decide_eq_true_eq] at h
  omega

theorem escapeLoop_step (s : JSString) (n i c : Nat) (hc : s[i]? = some c) (hc16 : c < 65536)
    (E : JSString) (hE : Dumper.escapeLoop s (n + 1) i [] = .ok E) :
    (∃ e E1, E = 92 :: e :: E1 ∧ Dumper.escapeLoop s n (i + 1) [] = .ok E1 ∧ e < 256
      ∧ simpleEscapeSequence e = [c] ∧ is_EOL (some e) = false)
    ∨ (∃ E1, E = c :: E1 ∧ Dumper.escapeLoop s n (i + 1) [] = .ok E1 ∧ 32 ≤ c ∧ c ≠ 34
      ∧ c ≠ 92)
    ∨ (∃ d E1, s[i + 1]? = some d ∧ E = c :: d :: E1
      ∧ Dumper.escapeLoop s n (i + 2) [] = .ok E1 ∧ 55296 ≤ c ∧ 56320 ≤ d ∧ d ≤ 57343)
    ∨ (∃ (handle : Nat) (ds : List Nat) (E1 : JSString),
      E = 92 :: handle :: upperAscii (ds.map (digitChar false)) ++ E1
      ∧ Dumper.escapeLoop s n (i + 1) [] = .ok E1 ∧ (∀ d ∈ ds, d < 16)
      ∧ ds.foldl (fun a d => a * 16 + d) 0 = c
      ∧ ((handle = 120 ∧ ds.length = 2) ∨ (handle = 117 ∧ ds.length = 4))) := by
  have hi : i < s.length := (List.getElem?_eq_some.mp hc).1
  unfold Dumper.escapeLoop at hE
  simp only [hi, if_true] at hE
  rcases codePointAt_cases s i c hc with hcp | ⟨d, hd, h1, h2, h3, h4, hcp⟩
  · rw [hcp] at hE
    simp only [] at hE
    have hnext : (if c ≥ 65536 then i + 2 else i + 1) = i + 1 := by
      rw [if_neg (by omega)]
    rw [hnext] at hE
    cases hesc : Dumper.ESCAPE_SEQUENCES c with
    | some seq =>
      rw [hesc] at hE
      simp only [] at hE
      obtain ⟨e, rfl, he, hseq, heol, _⟩ := ESCAPE_SEQUENCES_some c seq hesc
      obtain ⟨E1, hE1, rfl⟩ := escapeLoop_ok s n (i + 1) _ E hE
      exact Or.inl ⟨e, E1, rfl, hE1, he, hseq, heol⟩
    | none =>
      rw [hesc] at hE
      simp only [] at hE
      obtain ⟨_, h34, h92, _, _, _⟩ := ESCAPE_SEQUENCES_none c hesc
      by_cases hp : Dumper.isPrintable (some c) = true
      · simp only [hp, if_true] at hE
        obtain ⟨E1, hE1, rfl⟩ := escapeLoop_ok s n (i + 1) _ E hE
        have hsl : slice s i (i + 1) = [c] := by
          rw [slice_snoc s i i c (le_refl _) hc, slice_empty]; rfl
        refine Or.inr (Or.inl ⟨E1, ?_, hE1, isPrintable_ge c hp, h34, h92⟩)
        rw [hsl]; rfl
      · simp only [hp, Bool.false_eq_true, if_false] at hE
        obtain ⟨handle, ds, hhex, hds, hfold, hhandle⟩ := encodeHex_spec c (by omega)
        rw [hhex] at hE
        simp only [] at hE
        obtain ⟨E1, hE1, rfl⟩ := escapeLoop_ok s n (i + 1) _ E hE
        exact Or.inr (Or.inr (Or.inr ⟨handle, ds, E1, by simp, hE1, hds, hfold, hhandle⟩))
  · rw [hcp] at hE
    simp only [] at hE
    have hbig : (c - 55296) * 1024 + d - 56320 + 65536 ≥ 65536 := by omega
    have hnext : (if (c - 55296) * 1024 + d - 56320 + 65536 ≥ 65536 then i + 2 else i + 1)
        = i + 2 := by
      rw [if_pos hbig]
    rw [hnext] at hE
    have hesc : Dumper.ESCAPE_SEQUENCES ((c - 55296) * 1024 + d - 56320 + 65536) = none := by
      rcases ESCAPE_SEQUENCES_cases ((c - 55296) * 1024 + d - 56320 + 65536) with h | h
      · omega
      · exact h
    have hp : Dumper.isPrintable (some ((c - 55296) * 1024 + d - 56320 + 65536)) = true := by
      unfold Dumper.isPrintable
      simp only [Bool.or_eq_true, Bool.and_eq_true, decide_eq_true_eq]
      right
      omega
    rw [hesc] at hE
    simp only [hp, if_true] at hE
    obtain ⟨E1, hE1, rfl⟩ := escapeLoop_ok s n (i + 2) _ E hE
    have hsl : slice s i (i + 2) = [c, d] := by
      have : i + 2 = (i + 1) + 1 := rfl
      rw [this, slice_snoc s i (i + 1) d (by omega) hd, slice_snoc s i i c (le_refl _) hc,
        slice_empty]
      rfl
    refine Or.inr (Or.inr (Or.inl ⟨d, E1, hd, ?_, hE1, h1, h3, h4⟩))
    rw [hsl]; rfl

theorem charFromCodepoint_unit (c : Nat) (hc : c < 65536) :
    charFromCodepoint (c : Int) = [c] := by
  unfold charFromCodepoint fromCharCode
  have h1 : (c : Int) ≤ 65535 := by omega
  simp only [h1, if_true]
  congr 1
  omega

theorem drop_cons_of_getElem? (s : JSString) (i c : Nat) (hc : s[i]? = some c) :
    s.drop i = c :: s.drop (i + 1) := by
  have hi : i < s.length := (List.getElem?_eq_some.mp hc).1
  have hv : s[i] = c := (List.getElem?_eq_some.mp hc).2
  rw [List.drop_eq_getElem_cons hi, hv]

theorem readDoubleQuotedLoop_run (state0 : State) (nodeIndent : Int) (s rest : JSString)
    (hs : ∀ u ∈ s, u < 65536) :
    ∀ (n i : Nat) (A E : JSString) (cs ce : Nat) (r : JSString) (fuel : Nat),
      s.length ≤ i + n → Dumper.escapeLoop s n i [] = .ok E →
      state0.input = A ++ E ++ 34 :: rest → state0.lineStart < A.length → cs ≤ A.length →
      (∀ c ∈ slice state0.input cs A.length, c = 9 ∨ (32 ≤ c ∧ c ≤ 1114111)) →
      E.length + 1 ≤ fuel →
      readDoubleQuotedLoop nodeIndent fuel
          { state0 with position := A.length, result := .str r } cs ce
        = .ok ({ state0 with
            position := A.length + E.length + 1
            result := .str (r ++ slice state0.input cs A.length ++ s.drop i) }, true) := by
  have finish : ∀ (i : Nat) (A : JSString) (cs ce : Nat) (r : JSString) (fuel : Nat),
      s.length ≤ i → state0.input = A ++ [] ++ 34 :: rest →
      (∀ c ∈ slice state0.input cs A.length, c = 9 ∨ (32 ≤ c ∧ c ≤ 1114111)) →
      ([] : JSString).length + 1 ≤ fuel →
      readDoubleQuotedLoop nodeIndent fuel
          { state0 with position := A.length, result := .str r } cs ce
        = .ok ({ state0 with
            position := A.length + ([] : JSString).length + 1
            result := .str (r ++ slice state0.input cs A.length ++ s.drop i) }, true) := by
    intro i A cs ce r fuel hi hinput hvalid hfuel
    cases fuel with
    | zero => simp at hfuel
    | succ fuel =>
      have hch : state0.input[A.length]? = some 34 := by
        rw [hinput, List.append_nil]; exact getElem?_append_here A rest 34
      rw [readDoubleQuotedLoop_quote state0 nodeIndent fuel A.length cs ce r hch hvalid,
        List.drop_eq_nil_of_le hi]
      simp
  intro n
  induction n with
  | zero =>
    intro i A E cs ce r fuel hlen hE hinput hls hcs hvalid hfuel
    have : E = [] := by
      simp only [Dumper.escapeLoop] at hE
      cases hE; rfl
    subst this
    exact finish i A cs ce r fuel (by omega) hinput hvalid hfuel
  | succ n ih =>
    intro i A E cs ce r fuel hlen hE hinput hls hcs hvalid hfuel
    by_cases hi : i < s.length
    swap
    · have : E = [] := by
        unfold Dumper.escapeLoop at hE
        simp only [hi, if_false] at hE
        cases hE; rfl
      subst this
      exact finish i A cs ce r fuel (by omega) hinput hvalid hfuel
    have hc : s[i]? = some s[i] := List.getElem?_eq_getElem hi
    have hc16 : s[i] < 65536 := hs _ (List.getElem_mem _)
    generalize s[i] = c at hc hc16
    have hdrop := drop_cons_of_getElem? s i c hc
    rcases escapeLoop_step s n i c hc hc16 E hE with
      ⟨e, E1, rfl, hE1, he, hseq, heol⟩ | ⟨E1, rfl, hE1, h32, h34, h92⟩
      | ⟨d, E1, hd, rfl, hE1, hhi, hlo, hlo2⟩ | ⟨handle, ds, E1, rfl, hE1, hds, hfold, hhandle⟩
    · -- an entry of the table
      cases fuel with
      | zero => simp at hfuel
      | succ fuel =>
        have hin : state0.input = A ++ 92 :: (e :: E1 ++ 34 :: rest) := by
          rw [hinput]; simp
        have hin2 : state0.input = (A ++ [92, e]) ++ E1 ++ 34 :: rest := by
          rw [hinput]; simp
        have hch : state0.input[A.length]? = some 92 := by
          rw [hin]; exact getElem?_append_here A _ 92
        have hch1 : state0.input[A.length + 1]? = some e := by
          rw [hin, getElem?_append_next]; rfl
        have hlen2 : (A ++ [92, e]).length = A.length + 1 + 1 := by simp
        have key := ih (i + 1) (A ++ [92, e]) E1 (A.length + 1 + 1) (A.length + 1 + 1)
          (r ++ slice state0.input cs A.length ++ [c]) fuel (by omega) hE1 hin2
          (by rw [hlen2]; omega) (by rw [hlen2])
          (by
            rw [hlen2, slice_empty]
            intro x hx; cases hx)
          (by simp only [List.length_cons] at hfuel; omega)
        rw [hlen2, slice_empty] at key
        rw [readDoubleQuotedLoop_simple state0 nodeIndent fuel A.length cs ce r e c hch hch1 he
          hseq heol hvalid, key, hdrop]
        have hp : A.length + 1 + 1 + E1.length + 1 = A.length + (E1.length + 1 + 1) + 1 := by
          omega
        simp only [List.length_cons, List.append_assoc, List.singleton_append, List.nil_append,
          hp]
    · -- a printable unit
      cases fuel with
      | zero => simp at hfuel
      | succ fuel =>
        have hin : state0.input = A ++ c :: (E1 ++ 34 :: rest) := by
          rw [hinput]; simp
        have hin2 : state0.input = (A ++ [c]) ++ E1 ++ 34 :: rest := by
          rw [hinput]; simp
        have hch : state0.input[A.length]? = some c := by
          rw [hin]; exact getElem?_append_here A _ c
        have hlen2 : (A ++ [c]).length = A.length + 1 := by simp
        have hslice := slice_snoc state0.input cs A.length c hcs hch
        have key := ih (i + 1) (A ++ [c]) E1 cs (A.length + 1) r fuel (by omega) hE1 hin2
          (by rw [hlen2]; omega) (by rw [hlen2]; omega)
          (by
            rw [hlen2, hslice]
            intro x hx
            rcases List.mem_append.mp hx with hx | hx
            · exact hvalid x hx
            · rw [List.mem_singleton] at hx
              omega)
          (by simp only [List.length_cons] at hfuel; omega)
        rw [hlen2, hslice] at key
        rw [readDoubleQuotedLoop_direct state0 nodeIndent fuel A.length cs ce r c hch
          ⟨by omega, h34, h92, by omega, by omega⟩ hls, key, hdrop]
        have hp : A.length + 1 + E1.length + 1 = A.length + (E1.length + 1) + 1 := by omega
        simp only [List.length_cons, List.append_assoc, List.singleton_append, hp]
    · -- a surrogate pair
      cases fuel with
      | zero => simp at hfuel
      | succ fuel =>
        cases fuel with
        | zero => simp at hfuel
        | succ fuel =>
          have hin : state0.input = A ++ c :: (d :: E1 ++ 34 :: rest) := by
            rw [hinput]; simp
          have hin2 : state0.input = (A ++ [c, d]) ++ E1 ++ 34 :: rest := by
            rw [hinput]; simp
          have hch : state0.input[A.length]? = some c := by
            rw [hin]; exact getElem?_append_here A _ c
          have hch1 : state0.input[A.length + 1]? = some d := by
            rw [hin, getElem?_append_next]; rfl
          have hlen2 : (A ++ [c, d]).length = A.length + 1 + 1 := by simp
          have hslice : slice state0.input cs (A.length + 1 + 1)
              = slice state0.input cs A.length ++ [c] ++ [d] := by
            rw [slice_snoc state0.input cs (A.length + 1) d (by omega) hch1,
              slice_snoc state0.input cs A.length c hcs hch]
          have hd16 : d < 65536 := by omega
          have hdrop2 := drop_cons_of_getElem? s (i + 1) d hd
          have key := ih (i + 2) (A ++ [c, d]) E1 cs (A.length + 1 + 1) r fuel (by omega) hE1
            hin2 (by rw [hlen2]; omega) (by rw [hlen2]; omega)
            (by
              rw [hlen2, hslice]
              intro x hx
              rcases List.mem_append.mp hx with hx | hx
              · rcases List.mem_append.mp hx with hx | hx
                · exact hvalid x hx
                · rw [List.mem_singleton] at hx
                  omega
              · rw [List.mem_singleton] at hx
                omega)
            (by simp only [List.length_cons] at hfuel; omega)
          rw [hlen2, hslice] at key
          rw [readDoubleQuotedLoop_direct state0 nodeIndent (fuel + 1) A.length cs ce r c hch
            ⟨by omega, by omega, by omega, by omega, by omega⟩ hls,
            readDoubleQuotedLoop_direct state0 nodeIndent fuel (A.length + 1) cs _ r d hch1
            ⟨by omega, by omega, by omega, by omega, by omega⟩ (by omega), key, hdrop, hdrop2]
          have hp : A.length + 1 + 1 + E1.length + 1 = A.length + (E1.length + 1 + 1) + 1 := by
            omega
          simp only [List.length_cons, List.append_assoc, List.singleton_append, hp,
            List.cons_append, List.nil_append]
    · -- a hexadecimal escape
      cases fuel with
      | zero => simp at hfuel
      | succ fuel =>
        have hin : state0.input = A ++ 92
            :: (handle :: upperAscii (ds.map (digitChar false)) ++ E1 ++ 34 :: rest) := by
          rw [hinput]; simp
        have hin2 : state0.input
            = (A ++ 92 :: handle :: upperAscii (ds.map (digitChar false))) ++ E1 ++ 34 :: rest := by
          rw [hinput]; simp
        have hin3 : state0.input
            = (A ++ [92, handle]) ++ upperAscii (ds.map (digitChar false))
              ++ (E1 ++ 34 :: rest) := by
          rw [hinput]; simp
        have hch : state0.input[A.length]? = some 92 := by
          rw [hin]; exact getElem?_append_here A _ 92
        have hch1 : state0.input[A.length + 1]? = some handle := by
          rw [hin, getElem?_append_next]; rfl
        have hul : (upperAscii (ds.map (digitChar false))).length = ds.length := by
          simp [upperAscii]
        have hlen2 : (A ++ 92 :: handle :: upperAscii (ds.map (digitChar false))).length
            = A.length + 1 + ds.length + 1 := by
          simp only [List.length_append, List.length_cons, hul]; omega
        have key := ih (i + 1) (A ++ 92 :: handle :: upperAscii (ds.map (digitChar false))) E1
          (A.length + 1 + ds.length + 1) (A.length + 1 + ds.length + 1)
          (r ++ slice state0.input cs A.length ++ [c]) fuel (by omega) hE1 hin2
          (by rw [hlen2]; omega) (by rw [hlen2])
          (by
            rw [hlen2, slice_empty]
            intro x hx; cases hx)
          (by
            simp only [List.length_cons, List.length_append, hul] at hfuel
            omega)
        rw [hlen2, slice_empty] at key
        rw [readDoubleQuotedLoop_hex state0 nodeIndent fuel A.length cs ce r handle ds
          (A ++ [92, handle]) (E1 ++ 34 :: rest) hch hch1 hin3 (by simp) hds hhandle hvalid,
          hfold, charFromCodepoint_unit c hc16, key, hdrop]
        have hp : A.length + 1 + ds.length + 1 + E1.length + 1
            = A.length + (ds.length + 1 + 1 + E1.length) + 1 := by omega
        simp only [List.length_cons, List.length_append, hul, List.append_assoc,
          List.singleton_append, List.nil_append, hp]

theorem escapeLoop_total (s : JSString) (hs : ∀ u ∈ s, u < 65536) :
    ∀ (n i : Nat) (acc : JSString), ∃ E, Dumper.escapeLoop s n i acc = .ok E := by
  intro n
  induction n with
  | zero => intro i acc; exact ⟨acc, rfl⟩
  | succ n ih =>
    intro i acc
    unfold Dumper.escapeLoop
    by_cases hi : i < s.length
    swap
    · simp only [hi, if_false]; exact ⟨acc, rfl⟩
    simp only [hi, if_true]
    have hc : s[i]? = some s[i] := List.getElem?_eq_getElem hi
    have hc16 : s[i] < 65536 := hs _ (List.getElem_mem _)
    generalize s[i] = c at hc hc16
    rcases codePointAt_cases s i c hc with hcp | ⟨d, hd, h1, h2, h3, h4, hcp⟩
    · rw [hcp]
      simp only []
      cases hesc : Dumper.ESCAPE_SEQUENCES c with
      | some seq => exact ih _ _
      | none =>
        simp only []
        by_cases hp : Dumper.isPrintable (some c) = true
        · simp only [hp, if_true]; exact ih _ _
        · simp only [hp, Bool.false_eq_true, if_false]
          obtain ⟨handle, ds, hhex, _⟩ := encodeHex_spec c (by omega)
          rw [hhex]
          exact ih _ _
    · rw [hcp]
      simp only []
      have hesc : Dumper.ESCAPE_SEQUENCES ((c - 55296) * 1024 + d - 56320 + 65536) = none := by
        rcases ESCAPE_SEQUENCES_cases ((c - 55296) * 1024 + d - 56320 + 65536) with h | h
        · omega
        · exact h
      have hp : Dumper.isPrintable (some ((c - 55296) * 1024 + d - 56320 + 65536)) = true := by
        unfold Dumper.isPrintable
        simp only [Bool.or_eq_true, Bool.and_eq_true, decide_eq_true_eq]
        right
        omega
      rw [hesc]
      simp only [hp, if_true]
      exact ih _ _

end Loader

namespace Loader

/-! ## Lemmas on the directives of a document -/

theorem advanceWhile_run (p : Option Nat → Bool) :
    ∀ (xs B C : JSString) (state : State) (fuel : Nat),
      state.input = B ++ xs ++ C → state.position = B.length →
      (∀ x ∈ xs, p (some x) = true) → p C.head? = false → xs.length < fuel →
      advanceWhile p fuel state = { state with position := B.length + xs.length } := by
  intro xs
  induction xs with
  | nil =>
    intro B C state fuel hinput hpos _ hC hfuel
    cases fuel with
    | zero => simp at hfuel
    | succ fuel =>
      have hch : state.ch = C.head? := by
        unfold State.ch
        rw [charCodeAt_nat, hinput, hpos, List.append_nil,
          List.getElem?_append_right (le_refl _)]
        simp only [Nat.sub_self]
        cases C <;> simp
      unfold advanceWhile
      rw [hch, hC]
      simp only [Bool.false_eq_true, if_false, List.length_nil, Nat.add_zero]
      rw [← hpos]
  | cons x xs ih =>
    intro B C state fuel hinput hpos hall hC hfuel
    cases fuel with
    | zero => simp at hfuel
    | succ fuel =>
      have hch : state.ch = some x := by
        unfold State.ch
        rw [charCodeAt_nat, hinput, hpos]
        have : B ++ x :: xs ++ C = B ++ x :: (xs ++ C) := by simp
        rw [this]
        exact getElem?_append_here B _ x
      have key := ih (B ++ [x]) C { state with position := state.position + 1 } fuel
        (by show state.input = _; rw [hinput]; simp)
        (by show state.position + 1 = _; rw [hpos]; simp)
        (fun y hy => hall y (List.mem_cons_of_mem _ hy)) hC
        (by simp only [List.length_cons] at hfuel; omega)
      unfold advanceWhile
      rw [hch, hall x (List.mem_cons_self _ _)]
      simp only [if_true]
      rw [key]
      have hp : (B ++ [x]).length + xs.length = B.length + (x :: xs).length := by
        simp only [List.length_append, List.length_cons, List.length_nil]; omega
      simp only [hp]

theorem slice_middle (B xs C : JSString) :
    slice (B ++ xs ++ C) B.length (B.length + xs.length) = xs := by
  unfold slice
  simp [List.drop_append, List.take_append]

theorem skipSeparationSpace_stay (state : State) (allowComments : Bool) (c : Nat)
    (hch : state.ch = some c) (hlen : 0 < state.input.length)
    (hc : c ≠ 9 ∧ c ≠ 32 ∧ c ≠ 35 ∧ c ≠ 10 ∧ c ≠ 13) :
    skipSeparationSpace state allowComments (-1) = (state, 0) := by
  have hws : is_WHITE_SPACE (some c) = false := by
    unfold is_WHITE_SPACE
    simp only [Bool.or_eq_false_iff, beq_eq_false_iff_ne, ne_eq, Option.some.injEq]
    omega
  have heol : is_EOL (some c) = false := by
    unfold is_EOL
    simp only [Bool.or_eq_false_iff, beq_eq_false_iff_ne, ne_eq, Option.some.injEq]
    omega
  have h35 : (some c == some 35) = false := by
    simp only [beq_eq_false_iff_ne, ne_eq, Option.some.injEq]; omega
  obtain ⟨n, hn⟩ : ∃ n, state.input.length = n + 1 := ⟨state.input.length - 1, by omega⟩
  have hskip : skipWhiteSpace (n + 1) state = state := by
    unfold skipWhiteSpace
    simp only [hch, hws, Bool.false_eq_true, if_false]
  unfold skipSeparationSpace
  rw [hn]
  unfold skipSeparationLoop
  rw [hn, hskip]
  by_cases h0 : c = 0
  · subst h0
    simp [hch]
  · have hne : (some c != some 0) = true := by
      simp only [bne_iff_ne, ne_eq, Option.some.injEq]; exact h0
    simp [hch, hne, h35, heol]

theorem directivesLoop_line (state : State) (A name arg rest : JSString) (fuel : Nat)
    (hasDirectives : Bool)
    (hinput : state.input = A ++ [37] ++ name ++ [32] ++ arg ++ [10] ++ rest)
    (hpos : state.position = A.length) (hindent : state.lineIndent = 0)
    (hname : name ≠ []) (hnamec : ∀ c ∈ name, c ≠ 0 ∧ c ≠ 9 ∧ c ≠ 32 ∧ c ≠ 10 ∧ c ≠ 13)
    (harg : arg ≠ []) (hargc : ∀ c ∈ arg, c ≠ 0 ∧ c ≠ 9 ∧ c ≠ 32 ∧ c ≠ 10 ∧ c ≠ 13)
    (harg35 : arg.head? ≠ some 35) :
    directivesLoop (fuel + 1) state hasDirectives =
      (if name == js "YAML" then
          handleYamlDirective
            { state with position := A.length + name.length + arg.length + 3
                         line := state.line + 1
                         lineStart := A.length + name.length + arg.length + 3
                         firstTabInLine := -1 } [arg]
        else if name == js "TAG" then
          handleTagDirective
            { state with position := A.length + name.length + arg.length + 3
                         line := state.line + 1
                         lineStart := A.length + name.length + arg.length + 3
                         firstTabInLine := -1 } [arg]
        else .ok (throwWarning
            { state with position := A.length + name.length + arg.length + 3
                         line := state.line + 1
                         lineStart := A.length + name.length + arg.length + 3
                         firstTabInLine := -1 }
            ("unknown document directive \"" ++ showString name ++ "\""))).bind
        (fun s => directivesLoop fuel s true) := by
  have hlen : 0 < state.input.length := by rw [hinput]; simp
  have hch0 : state.ch = some 37 := by
    unfold State.ch
    rw [charCodeAt_nat, hinput, hpos]
    have : A ++ [37] ++ name ++ [32] ++ arg ++ [10] ++ rest
        = A ++ 37 :: (name ++ [32] ++ arg ++ [10] ++ rest) := by simp
    rw [this]
    exact getElem?_append_here A _ 37
  have hskip := skipSeparationSpace_stay state true 37 hch0 hlen (by decide)
  have hp_name : ∀ c ∈ name, (fun ch => ch != some 0 && !is_WS_OR_EOL ch) (some c) = true := by
    intro c hc
    have := hnamec c hc
    simp only [is_WS_OR_EOL, bne_iff_ne, ne_eq, Option.some.injEq, Bool.and_eq_true,
      Bool.not_eq_true', Bool.or_eq_false_iff, beq_eq_false_iff_ne]
    omega
  have hp_arg : ∀ c ∈ arg, (fun ch => ch != some 0 && !is_WS_OR_EOL ch) (some c) = true := by
    intro c hc
    have := hargc c hc
    simp only [is_WS_OR_EOL, bne_iff_ne, ne_eq, Option.some.injEq, Bool.and_eq_true,
      Bool.not_eq_true', Bool.or_eq_false_iff, beq_eq_false_iff_ne]
    omega
  have e1 : state.input = (A ++ [37]) ++ name ++ ([32] ++ arg ++ [10] ++ rest) := by
    rw [hinput]; simp
  have e2 : state.input = (A ++ [37] ++ name) ++ [32] ++ (arg ++ [10] ++ rest) := by
    rw [hinput]; simp
  have e3 : state.input = (A ++ [37] ++ name ++ [32]) ++ arg ++ ([10] ++ rest) := by
    rw [hinput]; simp
  have e4 : state.input = (A ++ [37] ++ name ++ [32] ++ arg) ++ [] ++ ([10] ++ rest) := by
    rw [hinput]; simp
  have e5 : state.input = (A ++ [37] ++ name ++ [32] ++ arg) ++ 10 :: rest := by
    rw [hinput]; simp
  have l1 : (A ++ [37]).length = A.length + 1 := by simp
  have l2 : (A ++ [37] ++ name).length = A.length + 1 + name.length := by simp; omega
  have l3 : (A ++ [37] ++ name ++ [32]).length = A.length + 1 + name.length + 1 := by simp; omega
  have l4 : (A ++ [37] ++ name ++ [32] ++ arg).length
      = A.length + 1 + name.length + 1 + arg.length := by simp; omega
  have hinlen : A.length + 1 + name.length + 1 + arg.length + 1 ≤ state.input.length := by
    rw [hinput]; simp; omega
  obtain ⟨a0, arest, harg0⟩ : ∃ a0 arest, arg = a0 :: arest := by
    cases arg with
    | nil => exact absurd rfl harg
    | cons a0 arest => exact ⟨a0, arest, rfl⟩
  have ha0 := hargc a0 (by rw [harg0]; exact List.mem_cons_self _ _)
  have ha35 : a0 ≠ 35 := by
    intro h; apply harg35; rw [harg0, h]; rfl
  -- the name
  have h1 : advanceWhile (fun ch => ch != some 0 && !is_WS_OR_EOL ch) state.input.length
      { state with position := state.position + 1 }
      = { state with position := A.length + 1 + name.length } := by
    have h := advanceWhile_run (fun ch => ch != some 0 && !is_WS_OR_EOL ch) name (A ++ [37])
      ([32] ++ arg ++ [10] ++ rest) { state with position := state.position + 1 }
      state.input.length e1 (by show state.position + 1 = _; rw [hpos, l1]) hp_name
      (by simp [is_WS_OR_EOL]) (by omega)
    rw [l1] at h
    exact h
  have hslice1 : slice state.input (state.position + 1) (A.length + 1 + name.length) = name := by
    have h := slice_middle (A ++ [37]) name ([32] ++ arg ++ [10] ++ rest)
    rw [l1, ← e1] at h
    rw [hpos]
    exact h
  -- the blank before the argument
  have h2 : advanceWhile is_WHITE_SPACE state.input.length
      { state with position := A.length + 1 + name.length }
      = { state with position := A.length + 1 + name.length + 1 } := by
    have h := advanceWhile_run is_WHITE_SPACE [32] (A ++ [37] ++ name)
      (arg ++ [10] ++ rest) { state with position := A.length + 1 + name.length }
      state.input.length e2 (by show A.length + 1 + name.length = _; rw [l2])
      (by decide)
      (by
        rw [harg0]
        simp only [List.cons_append, List.head?_cons, is_WHITE_SPACE, Bool.or_eq_false_iff,
          beq_eq_false_iff_ne, ne_eq, Option.some.injEq]
        omega)
      (by simp only [List.length_singleton]; omega)
    rw [l2] at h
    exact h
  -- the argument
  have h3 : advanceWhile (fun ch => ch != some 0 && !is_WS_OR_EOL ch) state.input.length
      { state with position := A.length + 1 + name.length + 1 }
      = { state with position := A.length + 1 + name.length + 1 + arg.length } := by
    have h := advanceWhile_run (fun ch => ch != some 0 && !is_WS_OR_EOL ch) arg
      (A ++ [37] ++ name ++ [32]) ([10] ++ rest)
      { state with position := A.length + 1 + name.length + 1 }
      state.input.length e3 (by show A.length + 1 + name.length + 1 = _; rw [l3]) hp_arg
      (by simp [is_WS_OR_EOL]) (by omega)
    rw [l3] at h
    exact h
  have hslice3 : slice state.input (A.length + 1 + name.length + 1)
      (A.length + 1 + name.length + 1 + arg.length) = arg := by
    have h := slice_middle (A ++ [37] ++ name ++ [32]) arg ([10] ++ rest)
    rw [l3, ← e3] at h
    exact h
  -- no blank before the line break
  have h4 : advanceWhile is_WHITE_SPACE state.input.length
      { state with position := A.length + 1 + name.length + 1 + arg.length }
      = { state with position := A.length + 1 + name.length + 1 + arg.length } := by
    have h := advanceWhile_run is_WHITE_SPACE [] (A ++ [37] ++ name ++ [32] ++ arg)
      ([10] ++ rest) { state with position := A.length + 1 + name.length + 1 + arg.length }
      state.input.length e4 (by show A.length + 1 + name.length + 1 + arg.length = _; rw [l4])
      (by intro x hx; cases hx) (by simp [is_WHITE_SPACE]) (by simp only [List.length_nil]; omega)
    rw [l4] at h
    exact h
  have c2 : state.input[A.length + 1 + name.length]? = some 32 := by
    have e : state.input = (A ++ [37] ++ name) ++ 32 :: (arg ++ [10] ++ rest) := by
      rw [hinput]; simp
    rw [e, ← l2]
    exact getElem?_append_here _ _ 32
  have c3 : state.input[A.length + 1 + name.length + 1]? = some a0 := by
    have e : state.input = (A ++ [37] ++ name ++ [32]) ++ a0 :: (arest ++ [10] ++ rest) := by
      rw [hinput, harg0]; simp
    rw [e, ← l3]
    exact getElem?_append_here _ _ a0
  have c4 : state.input[A.length + 1 + name.length + 1 + arg.length]? = some 10 := by
    rw [e5, ← l4]
    exact getElem?_append_here _ _ 10
  have hargs : ∀ k, 2 ≤ k → directiveArgsLoop k
      { state with position := A.length + 1 + name.length } []
      = ({ state with position := A.length + 1 + name.length + 1 + arg.length }, [arg]) := by
    intro k hk
    obtain ⟨n, rfl⟩ : ∃ n, k = n + 2 := ⟨k - 2, by omega⟩
    have step2 : directiveArgsLoop (n + 1)
        { state with position := A.length + 1 + name.length + 1 + arg.length } [arg]
        = ({ state with position := A.length + 1 + name.length + 1 + arg.length }, [arg]) := by
      unfold directiveArgsLoop
      simp only [State.ch, charCodeAt_nat, c4, h4]
      simp [is_EOL]
    unfold directiveArgsLoop
    simp only [State.ch, charCodeAt_nat, c2, h2, c3, h3, hslice3, List.nil_append]
    have e35 : (some a0 == some 35) = false := by
      simp only [beq_eq_false_iff_ne, ne_eq, Option.some.injEq]; exact ha35
    have eeol : is_EOL (some a0) = false := by
      unfold is_EOL
      simp only [Bool.or_eq_false_iff, beq_eq_false_iff_ne, ne_eq, Option.some.injEq]
      omega
    have e0 : ((some 32 : Option Nat) != some 0) = true := by decide
    simp only [e0, e35, eeol, if_true, Bool.false_eq_true, if_false]
    exact step2
  have hbreak : readLineBreak { state with position := A.length + 1 + name.length + 1 + arg.length }
      = .ok { state with position := A.length + name.length + arg.length + 3
                         line := state.line + 1
                         lineStart := A.length + name.length + arg.length + 3
                         firstTabInLine := -1 } := by
    unfold readLineBreak
    simp only [State.ch, charCodeAt_nat, c4, beq_self_eq_true, if_true]
    have : A.length + 1 + name.length + 1 + arg.length + 1
        = A.length + name.length + arg.length + 3 := by omega
    simp only [this]
  have hname1 : ¬ name.length < 1 := by
    cases name with
    | nil => exact absurd rfl hname
    | cons _ _ => simp
  rw [directivesLoop]
  have hli : (decide (state.lineIndent > 0) || (some 37 : Option Nat) != some 37) = false := by
    rw [hindent]; decide
  have hch4 : ({ state with position := A.length + 1 + name.length + 1 + arg.length } : State).ch
      = some 10 := by
    simp only [State.ch, charCodeAt_nat, c4]
  have hne : ((some 37 : Option Nat) != some 0) = true := by decide
  have hne10 : ((some 10 : Option Nat) != some 0) = true := by decide
  simp only [hskip, hli, hch0, hne, h1, hslice1, hname1,
    hargs (state.input.length + 1) (by omega), hch4, hne10, hbreak, if_true,
    Bool.false_eq_true, if_false]
  generalize (if name == js "YAML" then _ else _ : Except JSError State) = handled
  cases handled <;> rfl

/-- The argument of a version directive with major number 1. -/
theorem handleYamlDirective_version (state : State) (major minor : JSString)
    (hv : state.version = none) (hmaj : major ≠ []) (hmin : minor ≠ [])
    (hdmaj : ∀ c ∈ major, 48 ≤ c ∧ c ≤ 57) (hdmin : ∀ c ∈ minor, 48 ≤ c ∧ c ≤ 57)
    (hone : parseDecimal major = 1) :
    handleYamlDirective state [major ++ 46 :: minor] = .ok
      (if parseDecimal minor ≠ 1 ∧ parseDecimal minor ≠ 2 then
        throwWarning { state with version := some (major ++ 46 :: minor)
                                  checkLineBreaks := decide (parseDecimal minor < 2) }
          "unsupported YAML version of the document"
       else { state with version := some (major ++ 46 :: minor)
                         checkLineBreaks := decide (parseDecimal minor < 2) }) := by
  have hsp := span_version major minor hdmaj hdmin
  unfold handleYamlDirective
  simp only [hv, bne_self_eq_false, Bool.false_eq_true, if_false, List.length_singleton,
    ne_eq, not_true_eq_false, List.headD_cons, hsp.1, List.drop_succ_cons, List.drop_zero,
    hsp.2, List.head?_cons, hmaj, hmin, or_self, hone]
  split <;> rfl

/-- The argument of a version directive with a major number other than 1. -/
theorem handleYamlDirective_major (state : State) (major minor : JSString)
    (hv : state.version = none) (hmaj : major ≠ []) (hmin : minor ≠ [])
    (hdmaj : ∀ c ∈ major, 48 ≤ c ∧ c ≤ 57) (hdmin : ∀ c ∈ minor, 48 ≤ c ∧ c ≤ 57)
    (hone : parseDecimal major ≠ 1) :
    handleYamlDirective state [major ++ 46 :: minor]
      = .error (.yaml "unacceptable YAML version of the document") := by
  have hsp := span_version major minor hdmaj hdmin
  unfold handleYamlDirective
  simp only [hv, bne_self_eq_false, Bool.false_eq_true, if_false, List.length_singleton,
    ne_eq, not_true_eq_false, List.headD_cons, hsp.1, List.drop_succ_cons, List.drop_zero,
    hsp.2, List.head?_cons, hmaj, hmin, or_self, hone, if_true, not_false_eq_true]

/-- The characters of `digits . digits` end a directive argument nowhere. -/
theorem version_chars (major minor : JSString)
    (hdmaj : ∀ c ∈ major, 48 ≤ c ∧ c ≤ 57) (hdmin : ∀ c ∈ minor, 48 ≤ c ∧ c ≤ 57) :
    ∀ c ∈ major ++ 46 :: minor, c ≠ 0 ∧ c ≠ 9 ∧ c ≠ 32 ∧ c ≠ 10 ∧ c ≠ 13 := by
  intro c hc
  rw [List.mem_append, List.mem_cons] at hc
  rcases hc with h | h | h
  · have := hdmaj c h; omega
  · omega
  · have := hdmin c h; omega

/-- The first character of `digits . digits` does not start a comment. -/
theorem version_head (major minor : JSString) (hdmaj : ∀ c ∈ major, 48 ≤ c ∧ c ≤ 57) :
    (major ++ 46 :: minor).head? ≠ some 35 := by
  cases major with
  | nil => simp
  | cons c cs =>
    have := hdmaj c (List.mem_cons_self _ _)
    simp only [List.cons_append, List.head?_cons, ne_eq, Option.some.injEq]
    omega

/-- A stream whose first line is a directive that its handler refuses is
refused with the error of the handler. -/
theorem loadDocuments_directive_error (host : Host) (fuel : Nat) (name arg rest : JSString)
    (options : Options) (e : JSError)
    (hname : name ≠ []) (hnamec : ∀ c ∈ name, c ≠ 0 ∧ c ≠ 9 ∧ c ≠ 32 ∧ c ≠ 10 ∧ c ≠ 13)
    (harg : arg ≠ []) (hargc : ∀ c ∈ arg, c ≠ 0 ∧ c ≠ 9 ∧ c ≠ 32 ∧ c ≠ 10 ∧ c ≠ 13)
    (harg35 : arg.head? ≠ some 35) (h0 : 0 ∉ rest)
    (hhandle : ∀ s : State, s.version = none →
      (if name == js "YAML" then handleYamlDirective s [arg]
       else if name == js "TAG" then handleTagDirective s [arg]
       else .ok (throwWarning s
          ("unknown document directive \"" ++ showString name ++ "\""))) = .error e) :
    loadDocuments host (fuel + 1) ([37] ++ name ++ [32] ++ arg ++ [10] ++ rest) options
      = .error e := by
  have key : ∀ rest1 : JSString, 0 ∉ rest1 →
      (if ([37] ++ name ++ [32] ++ arg ++ [10] ++ rest1).contains 0 then
          (.error (.yaml "null byte is not allowed in input") : Except JSError State)
        else
          documentsLoop host (fuel + 1) (fuel + 1)
            (countIndent
              ({ State.new host ([37] ++ name ++ [32] ++ arg ++ [10] ++ rest1) options with
                  input := (State.new host ([37] ++ name ++ [32] ++ arg ++ [10] ++ rest1)
                    options).input ++ [0] } : State).input.length
              { State.new host ([37] ++ name ++ [32] ++ arg ++ [10] ++ rest1) options with
                  input := (State.new host ([37] ++ name ++ [32] ++ arg ++ [10] ++ rest1)
                    options).input ++ [0] })) = .error e := by
    intro rest1 hrest1
    have hnc : ([37] ++ name ++ [32] ++ arg ++ [10] ++ rest1).contains 0 = false := by
      rw [Bool.eq_false_iff]
      intro h
      rw [List.contains, List.elem_iff] at h
      simp only [List.mem_append, List.mem_singleton] at h
      rcases h with ((((h | h) | h) | h) | h) | h
      · omega
      · exact (hnamec 0 h).1 rfl
      · omega
      · exact (hargc 0 h).1 rfl
      · omega
      · exact hrest1 h
    rw [hnc]
    simp only [Bool.false_eq_true, if_false]
    generalize hst : ({ State.new host ([37] ++ name ++ [32] ++ arg ++ [10] ++ rest1) options with
        input := (State.new host ([37] ++ name ++ [32] ++ arg ++ [10] ++ rest1)
          options).input ++ [0] } : State) = st
    have hinput : st.input = [] ++ [37] ++ name ++ [32] ++ arg ++ [10] ++ (rest1 ++ [0]) := by
      rw [← hst]; simp [State.new]
    have hpos : st.position = 0 := by rw [← hst]; rfl
    have hindent : st.lineIndent = 0 := by rw [← hst]; rfl
    have hlength : st.length = ([37] ++ name ++ [32] ++ arg ++ [10] ++ rest1).length := by
      rw [← hst]; rfl
    have hch : st.ch = some 37 := by
      unfold State.ch
      rw [charCodeAt_nat, hinput, hpos]
      simp
    have hci : ∀ k, countIndent k st = st := by
      intro k
      cases k with
      | zero => rfl
      | succ k =>
        unfold countIndent
        rw [hch]
        rfl
    rw [hci]
    unfold documentsLoop
    have hlt : ((st.position : Int) < (st.length : Int) - 1) := by
      rw [hpos, hlength]
      simp only [List.length_append, List.length_singleton, List.length_nil]
      push_cast
      omega
    rw [if_pos hlt]
    have hdoc : readDocument host (fuel + 1) st = .error e := by
      unfold readDocument
      have hline := directivesLoop_line
        { st with version := none, checkLineBreaks := st.legacy, tagMap := [], anchorMap := [] }
        [] name arg (rest1 ++ [0]) st.input.length false hinput hpos hindent hname hnamec
        harg hargc harg35
      rw [hhandle _ rfl] at hline
      simp only [bind, Except.bind] at hline ⊢
      rw [hline]
    rw [hdoc]
  have hlen : ([37] ++ name ++ [32] ++ arg ++ [10] ++ rest).length ≠ 0 := by simp
  unfold loadDocuments
  by_cases hlast : (([37] ++ name ++ [32] ++ arg ++ [10] ++ rest).getLast? != some 10
      && ([37] ++ name ++ [32] ++ arg ++ [10] ++ rest).getLast? != some 13) = true
  · have hhd : (([37] ++ name ++ [32] ++ arg ++ [10] ++ rest ++ [10]).head? == some 65279)
        = false := by simp
    simp only [hlen, hlast, if_true, hhd, ne_eq, not_false_eq_true, Bool.false_eq_true, if_false]
    have := key (rest ++ [10]) (by simp [h0])
    simp only [← List.append_assoc] at this
    exact this
  · have hhd : (([37] ++ name ++ [32] ++ arg ++ [10] ++ rest).head? == some 65279)
        = false := by simp
    simp only [hlen, hlast, if_true, hhd, ne_eq, not_false_eq_true, Bool.false_eq_true, if_false]
    exact key rest h0

/-- The name `YAML` and the name `VERSION` as directive names. -/
theorem directive_names :
    (∀ c ∈ js "YAML", c ≠ 0 ∧ c ≠ 9 ∧ c ≠ 32 ∧ c ≠ 10 ∧ c ≠ 13)
    ∧ (∀ c ∈ js "VERSION", c ≠ 0 ∧ c ≠ 9 ∧ c ≠ 32 ∧ c ≠ 10 ∧ c ≠ 13) := by
  decide

/-- A stream that starts with a version directive whose major number is not 1
is refused. -/
theorem loadDocuments_version_major (host : Host) (fuel : Nat) (major minor rest : JSString)
    (options : Options) (hmaj : major ≠ []) (hmin : minor ≠ [])
    (hdmaj : ∀ c ∈ major, 48 ≤ c ∧ c ≤ 57) (hdmin : ∀ c ∈ minor, 48 ≤ c ∧ c ≤ 57)
    (h0 : 0 ∉ rest) (hone : parseDecimal major ≠ 1) :
    loadDocuments host (fuel + 1) (js "%YAML " ++ major ++ [46] ++ minor ++ [10] ++ rest) options
      = .error (.yaml "unacceptable YAML version of the document") := by
  have e : js "%YAML " ++ major ++ [46] ++ minor ++ [10] ++ rest
      = [37] ++ js "YAML" ++ [32] ++ (major ++ 46 :: minor) ++ [10] ++ rest := by
    simp [js]
  rw [e]
  apply loadDocuments_directive_error host fuel (js "YAML") (major ++ 46 :: minor) rest options _
    (by decide) directive_names.1 (by simp) (version_chars major minor hdmaj hdmin)
    (version_head major minor hdmaj) h0
  intro s hs
  rw [if_pos (by decide)]
  exact handleYamlDirective_major s major minor hs hmaj hmin hdmaj hdmin hone

end Loader

namespace Loader

/-! ## The documents of the state are left alone by the readers -/

theorem keeps_ok {α : Type} [HasDocs α] {d : List JSVal} {a : α} (h : HasDocs.docs a = d) :
    Keeps d (.ok a) :=
  ⟨fun w hw => by cases hw; exact h⟩

theorem keeps_pure {α : Type} [HasDocs α] {d : List JSVal} {a : α} (h : HasDocs.docs a = d) :
    Keeps d (pure a) :=
  ⟨fun w hw => by cases hw; exact h⟩

theorem keeps_error {α : Type} [HasDocs α] {d : List JSVal} {e : JSError} :
    Keeps d (.error e : Except JSError α) :=
  ⟨fun w hw => by cases hw⟩

theorem keeps_ite {α : Type} [HasDocs α] {d : List JSVal} {c : Prop} [Decidable c]
    {a b : Except JSError α} (ha : Keeps d a) (hb : Keeps d b) : Keeps d (if c then a else b) := by
  split <;> assumption

theorem keeps_bind {α β : Type} [HasDocs α] [HasDocs β] {d : List JSVal}
    {m : Except JSError α} {k : α → Except JSError β}
    (hm : Keeps d m) (hk : ∀ a, HasDocs.docs a = d → Keeps d (k a)) : Keeps d (m >>= k) := by
  refine ⟨fun w hw => ?_⟩
  cases m with
  | error e => cases hw
  | ok a => exact (hk a (hm.run a rfl)).run w hw

theorem keeps_cut {α β : Type} [HasDocs α] [HasDocs β] {d : List JSVal}
    {m : Except JSError α} {w : α} {k : Except JSError β}
    (heq : m = .ok w) (hm : Keeps d m) (hk : HasDocs.docs w = d → Keeps d k) : Keeps d k :=
  hk (hm.run w heq)

theorem ite_documents {c : Prop} [Decidable c] (x y : State) :
    (if c then x else y).documents = if c then x.documents else y.documents := by
  split <;> rfl

theorem ite_fst_documents {β : Type} {c : Prop} [Decidable c] (x y : State × β) :
    (if c then x else y).1.documents = if c then x.1.documents else y.1.documents := by
  split <;> rfl

theorem throwWarning_documents (state : State) (message : String) :
    (throwWarning state message).documents = state.documents := by
  unfold throwWarning
  split <;> rfl

theorem skipWhiteSpace_documents :
    ∀ (fuel : Nat) (state : State), (skipWhiteSpace fuel state).documents = state.documents := by
  intro fuel
  induction fuel with
  | zero => intro state; rfl
  | succ fuel ih =>
    intro state
    unfold skipWhiteSpace
    split
    · rw [ih]
      dsimp only
      split <;> rfl
    · rfl

theorem advanceWhile_documents (p : Option Nat → Bool) :
    ∀ (fuel : Nat) (state : State), (advanceWhile p fuel state).documents = state.documents := by
  intro fuel
  induction fuel with
  | zero => intro state; rfl
  | succ fuel ih =>
    intro state
    unfold advanceWhile
    split
    · rw [ih]
    · rfl

theorem countIndent_documents :
    ∀ (fuel : Nat) (state : State), (countIndent fuel state).documents = state.documents := by
  intro fuel
  induction fuel with
  | zero => intro state; rfl
  | succ fuel ih =>
    intro state
    unfold countIndent
    split
    · rw [ih]
    · rfl

theorem writeFoldedLines_documents (state : State) (count : Nat) :
    (writeFoldedLines state count).documents = state.documents := by
  unfold writeFoldedLines
  split
  · rfl
  · split <;> rfl

theorem captureSegment_keeps {d : List JSVal}
    (state : State) (start end_ : Nat) (checkJson : Bool)
    (hd : state.documents = d) :
    Keeps d (captureSegment state start end_ checkJson) := by
  rw [captureSegment]
  repeat' first
    | exact keeps_error
    | (with_reducible apply keeps_ok)
    | (with_reducible apply keeps_ite)
    | (simp only [HasDocs.docs]
       with_reducible assumption)

theorem readLineBreak_keeps {d : List JSVal}
    (state : State)
    (hd : state.documents = d) :
    Keeps d (readLineBreak state) := by
  rw [readLineBreak]
  repeat' first
    | exact keeps_error
    | (with_reducible apply keeps_ok)
    | (intro x_; try simp only [HasDocs.docs] at x_)
    | (with_reducible apply keeps_ite)
    | (simp only [HasDocs.docs]
       with_reducible assumption)
    | ((with_reducible (conv => arg 2; whnf)); split <;> first
        | exact keeps_error
        | (rename_i heq_; with_reducible refine keeps_cut heq_ ?_ ?_ <;> clear heq_))

theorem skipSeparationLoop_documents (allowComments : Bool) :
    ∀ (fuel : Nat) (state : State) (lineBreaks : Nat),
      (skipSeparationLoop allowComments fuel state lineBreaks).1.documents
        = state.documents := by
  intro fuel
  induction fuel with
  | zero => intro state lineBreaks; rfl
  | succ fuel ih =>
    intro state lineBreaks
    have hbreak : ∀ s : State, Keeps s.documents (readLineBreak s) :=
      fun s => readLineBreak_keeps s rfl
    rw [skipSeparationLoop]
    split
    · lift_lets
      intro s1 s2
      have h1 : s1.documents = state.documents := skipWhiteSpace_documents _ _
      have h2 : s2.documents = state.documents := by
        show (if _ then _ else _ : State).documents = _
        split
        · rw [advanceWhile_documents]; exact h1
        · exact h1
      clear_value s2
      clear h1
      clear_value s1
      split
      · split
        · exact h2
        · rename_i s3 heq
          have h3 : s3.documents = s2.documents := (hbreak s2).run s3 heq
          lift_lets
          intro s4
          have h4 : s4.documents = state.documents :=
            (countIndent_documents _ _).trans (h3.trans h2)
          clear_value s4
          rw [ih]
          exact h4
      · exact h2
    · rfl

theorem skipSeparationSpace_documents (state : State) (allowComments : Bool) (checkIndent : Int) :
    (skipSeparationSpace state allowComments checkIndent).1.documents = state.documents := by
  unfold skipSeparationSpace
  have := skipSeparationLoop_documents allowComments state.input.length state 0
  split
  rename_i s n heq
  rw [heq] at this
  split
  · rw [← this]; exact throwWarning_documents _ _
  · exact this

theorem readPlainLoop_keeps {d : List JSVal} (nodeIndent : Int) (withinFlowCollection : Bool) :
    ∀ (fuel : Nat) (state : State) (l : PlainLocals),
      state.documents = d →
      Keeps d (readPlainLoop nodeIndent withinFlowCollection fuel state l) := by
  intro fuel
  induction fuel with
  | zero =>
    intro state l hd
    rw [readPlainLoop]
    exact keeps_error
  | succ fuel ih =>
    intro state l hd
    rw [readPlainLoop]
    repeat' first
      | (with_reducible apply keeps_ok)
      | (intro x_; try simp only [HasDocs.docs] at x_)
      | (with_reducible apply ih)
      | (with_reducible apply captureSegment_keeps)
      | (with_reducible apply keeps_ite)
      | (with_reducible assumption)
      | (simp only [HasDocs.docs, writeFoldedLines_documents, skipSeparationSpace_documents]
         with_reducible assumption)
      | ((with_reducible (conv => arg 2; whnf)); split <;> first
          | exact keeps_error
          | (rename_i heq_; with_reducible refine keeps_cut heq_ ?_ ?_ <;> clear heq_))

theorem readPlainScalar_keeps {d : List JSVal}
    (state : State) (nodeIndent : Int) (withinFlowCollection : Bool)
    (hd : state.documents = d) :
    Keeps d (readPlainScalar state nodeIndent withinFlowCollection) := by
  rw [readPlainScalar]
  repeat' first
    | (with_reducible apply keeps_ok)
    | (intro x_; try simp only [HasDocs.docs] at x_)
    | (with_reducible apply captureSegment_keeps)
    | (with_reducible apply readPlainLoop_keeps)
    | (with_reducible apply keeps_ite)
    | (with_reducible assumption)
    | (simp only [HasDocs.docs]
       with_reducible assumption)
    | ((with_reducible (conv => arg 2; whnf)); split <;> first
        | exact keeps_error
        | (rename_i heq_; with_reducible refine keeps_cut heq_ ?_ ?_ <;> clear heq_))

theorem readSingleQuotedLoop_keeps {d : List JSVal} (nodeIndent : Int) :
    ∀ (fuel : Nat) (state : State) (captureStart captureEnd : Nat),
      state.documents = d →
      Keeps d (readSingleQuotedLoop nodeIndent fuel state captureStart captureEnd) := by
  intro fuel
  induction fuel with
  | zero =>
    intro state captureStart captureEnd hd
    rw [readSingleQuotedLoop]
    exact keeps_error
  | succ fuel ih =>
    intro state captureStart captureEnd hd
    rw [readSingleQuotedLoop]
    repeat' first
      | exact keeps_error
      | (with_reducible apply keeps_ok)
      | (intro x_; try simp only [HasDocs.docs] at x_)
      | (with_reducible apply ih)
      | (with_reducible apply captureSegment_keeps)
      | (with_reducible apply keeps_ite)
      | (with_reducible assumption)
      | (simp only [HasDocs.docs, writeFoldedLines_documents, skipSeparationSpace_documents]
         with_reducible assumption)
      | ((with_reducible (conv => arg 2; whnf)); split <;> first
          | exact keeps_error
          | (rename_i heq_; with_reducible refine keeps_cut heq_ ?_ ?_ <;> clear heq_))

theorem readSingleQuotedScalar_keeps {d : List JSVal}
    (state : State) (nodeIndent : Int)
    (hd : state.documents = d) :
    Keeps d (readSingleQuotedScalar state nodeIndent) := by
  rw [readSingleQuotedScalar]
  repeat' first
    | (with_reducible apply keeps_ok)
    | (with_reducible apply readSingleQuotedLoop_keeps)
    | (with_reducible apply keeps_ite)
    | (with_reducible assumption)
    | (simp only [HasDocs.docs]
       with_reducible assumption)

theorem readHexDigits_keeps {d : List JSVal} :
    ∀ (fuel : Nat) (state : State) (hexResult : Int),
      state.documents = d →
      Keeps d (readHexDigits fuel state hexResult) := by
  intro fuel
  induction fuel with
  | zero =>
    intro state hexResult hd
    rw [readHexDigits]
    exact keeps_ok hd
  | succ fuel ih =>
    intro state hexResult hd
    rw [readHexDigits]
    repeat' first
      | exact keeps_error
      | (with_reducible apply ih)
      | (with_reducible apply keeps_ite)
      | (with_reducible assumption)

theorem readDoubleQuotedLoop_keeps {d : List JSVal} (nodeIndent : Int) :
    ∀ (fuel : Nat) (state : State) (captureStart captureEnd : Nat),
      state.documents = d →
      Keeps d (readDoubleQuotedLoop nodeIndent fuel state captureStart captureEnd) := by
  intro fuel
  induction fuel with
  | zero =>
    intro state captureStart captureEnd hd
    rw [readDoubleQuotedLoop]
    exact keeps_error
  | succ fuel ih =>
    intro state captureStart captureEnd hd
    rw [readDoubleQuotedLoop]
    repeat' first
      | exact keeps_error
      | (with_reducible apply keeps_ok)
      | (intro x_; try simp only [HasDocs.docs] at x_)
      | (with_reducible apply ih)
      | (with_reducible apply captureSegment_keeps)
      | (with_reducible apply readHexDigits_keeps)
      | (with_reducible apply keeps_ite)
      | (with_reducible assumption)
      | (simp only [HasDocs.docs, writeFoldedLines_documents, skipSeparationSpace_documents]
         with_reducible assumption)
      | ((with_reducible (conv => arg 2; whnf)); split <;> first
          | exact keeps_error
          | (rename_i heq_; with_reducible refine keeps_cut heq_ ?_ ?_ <;> clear heq_))

theorem readDoubleQuotedScalar_keeps {d : List JSVal}
    (state : State) (nodeIndent : Int)
    (hd : state.documents = d) :
    Keeps d (readDoubleQuotedScalar state nodeIndent) := by
  rw [readDoubleQuotedScalar]
  repeat' first
    | (with_reducible apply keeps_ok)
    | (with_reducible apply readDoubleQuotedLoop_keeps)
    | (with_reducible apply keeps_ite)
    | (with_reducible assumption)
    | (simp only [HasDocs.docs]
       with_reducible assumption)

theorem blockIndentLoop_documents (detectedIndent : Bool) (textIndent : Int) :
    ∀ (fuel : Nat) (state : State),
      (blockIndentLoop detectedIndent textIndent fuel state).documents = state.documents := by
  intro fuel
  induction fuel with
  | zero => intro state; rfl
  | succ fuel ih =>
    intro state
    unfold blockIndentLoop
    split
    · rw [ih]
    · rfl

theorem append_documents (state : State) (text : JSString) :
    (state.append text).documents = state.documents := rfl

theorem recordAnchor_documents (state : State) :
    state.recordAnchor.documents = state.documents := by
  unfold State.recordAnchor
  split <;> rfl

theorem recordAnchorAs_documents (state : State) (v : JSVal) :
    (state.recordAnchorAs v).documents = state.documents := by
  unfold State.recordAnchorAs
  split <;> rfl

theorem directiveArgsLoop_documents :
    ∀ (fuel : Nat) (state : State) (args : List JSString),
      (directiveArgsLoop fuel state args).1.documents = state.documents := by
  intro fuel
  induction fuel with
  | zero => intro state args; rfl
  | succ fuel ih =>
    intro state args
    unfold directiveArgsLoop
    dsimp only
    repeat' first | split | rw [ih]
    all_goals simp only [advanceWhile_documents]

theorem storeMappingPair_keeps {d : List JSVal}
    (host : Host) (state : State) (_result : JSVal) (overridableKeys : List JSString)
    (keyTag : Option JSString) (keyNode valueNode : JSVal)
    (hd : state.documents = d) :
    Keeps d (storeMappingPair host state _result overridableKeys keyTag keyNode valueNode) := by
  rw [storeMappingPair]
  repeat' first
    | exact keeps_error
    | (with_reducible apply keeps_ok)
    | (with_reducible apply keeps_ite)
    | (simp only [HasDocs.docs]
       with_reducible assumption)
    | ((with_reducible (conv => arg 2; whnf)); split <;> first
        | exact keeps_error
        | skip)

theorem blockHeaderLoop_keeps {d : List JSVal} (nodeIndent : Int) :
    ∀ (fuel : Nat) (state : State) (chomping : Nat) (detectedIndent : Bool) (textIndent : Int),
      state.documents = d →
      Keeps d (blockHeaderLoop nodeIndent fuel state chomping detectedIndent textIndent) := by
  intro fuel
  induction fuel with
  | zero =>
    intro state chomping detectedIndent textIndent hd
    rw [blockHeaderLoop]
    exact keeps_error
  | succ fuel ih =>
    intro state chomping detectedIndent textIndent hd
    rw [blockHeaderLoop]
    repeat' first
      | exact keeps_error
      | (with_reducible apply keeps_ok)
      | (with_reducible apply ih)
      | (with_reducible apply keeps_ite)
      | (with_reducible assumption)
      | (simp only [HasDocs.docs]
         with_reducible assumption)

theorem blockScalarLoop_keeps {d : List JSVal} :
    ∀ (fuel : Nat) (state : State) (l : BlockLocals),
      state.documents = d →
      Keeps d (blockScalarLoop fuel state l) := by
  intro fuel
  induction fuel with
  | zero =>
    intro state l hd
    rw [blockScalarLoop]
    exact keeps_error
  | succ fuel ih =>
    intro state l hd
    rw [blockScalarLoop]
    repeat' first
      | (with_reducible apply keeps_ok)
      | (intro x_; try simp only [HasDocs.docs] at x_)
      | (with_reducible apply ih)
      | (with_reducible apply captureSegment_keeps)
      | (with_reducible apply readLineBreak_keeps)
      | (with_reducible apply keeps_ite)
      | (with_reducible assumption)
      | (simp only [HasDocs.docs, ite_documents, ite_fst_documents, ite_self,
                    advanceWhile_documents, blockIndentLoop_documents, append_documents]
         with_reducible assumption)
      | ((with_reducible (conv => arg 2; whnf)); split <;> first
          | exact keeps_error
          | (rename_i heq_; with_reducible refine keeps_cut heq_ ?_ ?_ <;> clear heq_))

theorem readBlockScalar_keeps {d : List JSVal}
    (state : State) (nodeIndent : Int)
    (hd : state.documents = d) :
    Keeps d (readBlockScalar state nodeIndent) := by
  rw [readBlockScalar]
  repeat' first
    | (with_reducible apply keeps_ok)
    | (intro x_; try simp only [HasDocs.docs] at x_)
    | (with_reducible apply blockHeaderLoop_keeps)
    | (with_reducible apply blockScalarLoop_keeps)
    | (with_reducible apply keeps_ite)
    | (with_reducible assumption)
    | (simp only [HasDocs.docs, ite_documents, ite_self, advanceWhile_documents]
       with_reducible assumption)
    | ((with_reducible (conv => arg 2; whnf)); split <;> first
        | exact keeps_error
        | (rename_i heq_; with_reducible refine keeps_cut heq_ ?_ ?_ <;> clear heq_))

theorem tagNameLoop_keeps {d : List JSVal} :
    ∀ (fuel : Nat) (state : State) (isNamed : Bool) (tagHandle : JSString) (_position : Nat),
      state.documents = d →
      Keeps d (tagNameLoop fuel state isNamed tagHandle _position) := by
  intro fuel
  induction fuel with
  | zero =>
    intro state isNamed tagHandle _position hd
    rw [tagNameLoop]
    exact keeps_error
  | succ fuel ih =>
    intro state isNamed tagHandle _position hd
    rw [tagNameLoop]
    repeat' first
      | exact keeps_error
      | (with_reducible apply keeps_ok)
      | (with_reducible apply ih)
      | (with_reducible apply keeps_ite)
      | (with_reducible assumption)
      | (simp only [HasDocs.docs]
         with_reducible assumption)

theorem readTagProperty_keeps {d : List JSVal}
    (state : State)
    (hd : state.documents = d) :
    Keeps d (readTagProperty state) := by
  rw [readTagProperty]
  repeat' first
    | exact keeps_error
    | (with_reducible apply keeps_ok)
    | (intro x_; try simp only [HasDocs.docs] at x_)
    | (with_reducible apply tagNameLoop_keeps)
    | (with_reducible apply keeps_ite)
    | (simp only [HasDocs.docs, advanceWhile_documents]
       with_reducible assumption)
    | ((with_reducible (conv => arg 2; whnf)); split <;> first
        | exact keeps_error
        | (rename_i heq_; with_reducible refine keeps_cut heq_ ?_ ?_ <;> clear heq_)
        | skip)

theorem readAnchorProperty_keeps {d : List JSVal}
    (state : State)
    (hd : state.documents = d) :
    Keeps d (readAnchorProperty state) := by
  rw [readAnchorProperty]
  repeat' first
    | exact keeps_error
    | (with_reducible apply keeps_ok)
    | (with_reducible apply keeps_ite)
    | (simp only [HasDocs.docs, advanceWhile_documents]
       with_reducible assumption)

theorem readAlias_keeps {d : List JSVal}
    (state : State)
    (hd : state.documents = d) :
    Keeps d (readAlias state) := by
  rw [readAlias]
  repeat' first
    | exact keeps_error
    | (with_reducible apply keeps_ok)
    | (with_reducible apply keeps_ite)
    | (simp only [HasDocs.docs, advanceWhile_documents, skipSeparationSpace_documents]
       with_reducible assumption)
    | ((with_reducible (conv => arg 2; whnf)); split <;> first
        | exact keeps_error
        | skip)

theorem propertiesLoop_keeps {d : List JSVal} (parentIndent : Int) (allowBlockStyles : Bool) :
    ∀ (fuel : Nat) (state : State) (atNewLine allowBlockCollections : Bool)
      (indentStatus : Int),
      state.documents = d →
      Keeps d (propertiesLoop parentIndent allowBlockStyles fuel state atNewLine
          allowBlockCollections indentStatus) := by
  intro fuel
  induction fuel with
  | zero =>
    intro state atNewLine allowBlockCollections indentStatus hd
    rw [propertiesLoop]
    exact keeps_error
  | succ fuel ih =>
    intro state atNewLine allowBlockCollections indentStatus hd
    rw [propertiesLoop]
    repeat' first
      | (with_reducible apply keeps_pure)
      | (intro x_; try simp only [HasDocs.docs] at x_)
      | (with_reducible apply ih)
      | (with_reducible apply readTagProperty_keeps)
      | (with_reducible apply readAnchorProperty_keeps)
      | (with_reducible apply keeps_bind)
      | (with_reducible apply keeps_ite)
      | (with_reducible assumption)
      | (simp only [HasDocs.docs, skipSeparationSpace_documents]
         with_reducible assumption)

theorem resolveImplicit_keeps {d : List JSVal} :
    ∀ (types : List YType) (state : State), state.documents = d →
      Keeps d (resolveImplicit types state) := by
  intro types
  induction types with
  | nil =>
    intro state hd
    rw [resolveImplicit]
    exact keeps_ok hd
  | cons type rest ih =>
    intro state hd
    rw [resolveImplicit]
    repeat' first
      | (with_reducible apply keeps_ok)
      | (with_reducible apply ih)
      | (with_reducible apply keeps_ite)
      | (with_reducible assumption)
      | (simp only [HasDocs.docs, recordAnchor_documents]
         with_reducible assumption)
      | ((with_reducible (conv => arg 2; whnf)); split <;> first
          | exact keeps_error
          | skip)

theorem finalizeTag_keeps {d : List JSVal}
    (state : State)
    (hd : state.documents = d) :
    Keeps d (finalizeTag state) := by
  rw [finalizeTag]
  repeat' first
    | exact keeps_error
    | (with_reducible apply keeps_ok)
    | (with_reducible apply resolveImplicit_keeps)
    | (with_reducible apply keeps_ite)
    | (with_reducible assumption)
    | (simp only [HasDocs.docs, recordAnchor_documents]
       with_reducible assumption)
    | ((with_reducible (conv => arg 2; whnf)); split <;> first
        | exact keeps_error
        | skip)

theorem readScalarNode_keeps {d : List JSVal}
    (state : State) (allowBlockScalars : Bool) (flowIndent : Int) (nodeContext : Nat)
    (hd : state.documents = d) :
    Keeps d (readScalarNode state allowBlockScalars flowIndent nodeContext) := by
  rw [readScalarNode]
  repeat' first
    | exact keeps_error
    | (with_reducible apply keeps_pure)
    | (intro x_; try simp only [HasDocs.docs] at x_)
    | (with_reducible apply readBlockScalar_keeps)
    | (with_reducible apply readSingleQuotedScalar_keeps)
    | (with_reducible apply readDoubleQuotedScalar_keeps)
    | (with_reducible apply readAlias_keeps)
    | (with_reducible apply readPlainScalar_keeps)
    | (with_reducible apply keeps_bind)
    | (with_reducible apply keeps_ite)
    | (with_reducible assumption)
    | (simp only [HasDocs.docs, ite_documents, ite_self, recordAnchor_documents]
       with_reducible assumption)

theorem handleYamlDirective_keeps {d : List JSVal}
    (state : State) (args : List JSString)
    (hd : state.documents = d) :
    Keeps d (handleYamlDirective state args) := by
  rw [handleYamlDirective]
  repeat' first
    | exact keeps_error
    | (with_reducible apply keeps_ok)
    | (with_reducible apply keeps_ite)
    | (simp only [HasDocs.docs, throwWarning_documents]
       with_reducible assumption)

theorem handleTagDirective_keeps {d : List JSVal}
    (state : State) (args : List JSString)
    (hd : state.documents = d) :
    Keeps d (handleTagDirective state args) := by
  rw [handleTagDirective]
  repeat' first
    | exact keeps_error
    | (with_reducible apply keeps_ok)
    | (with_reducible apply keeps_ite)
    | (simp only [HasDocs.docs]
       with_reducible assumption)
    | ((with_reducible (conv => arg 2; whnf)); split <;> first
        | exact keeps_error
        | skip)

theorem directivesLoop_keeps {d : List JSVal} :
    ∀ (fuel : Nat) (state : State) (hasDirectives : Bool),
      state.documents = d →
      Keeps d (directivesLoop fuel state hasDirectives) := by
  intro fuel
  induction fuel with
  | zero =>
    intro state hasDirectives hd
    rw [directivesLoop]
    exact keeps_error
  | succ fuel ih =>
    intro state hasDirectives hd
    rw [directivesLoop]
    repeat' first
      | exact keeps_error
      | (with_reducible apply keeps_ok)
      | (intro x_; try simp only [HasDocs.docs] at x_)
      | (with_reducible apply ih)
      | (with_reducible apply handleYamlDirective_keeps)
      | (with_reducible apply handleTagDirective_keeps)
      | (with_reducible apply readLineBreak_keeps)
      | (with_reducible apply keeps_ite)
      | (with_reducible assumption)
      | (simp only [HasDocs.docs, throwWarning_documents, advanceWhile_documents,
                    skipSeparationSpace_documents, directiveArgsLoop_documents]
         with_reducible assumption)
      | ((with_reducible (conv => arg 2; whnf)); split <;> first
          | exact keeps_error
          | (rename_i heq_; with_reducible refine keeps_cut heq_ ?_ ?_ <;> clear heq_))

theorem composeNode_step {d : List JSVal} (host : Host) (fuel : Nat)
    (ih_readBlockSequence :
      ∀ (state : State) (nodeIndent : Int),
        state.documents = d →
        Keeps d (readBlockSequence host fuel state nodeIndent))
    (ih_readBlockMapping :
      ∀ (state : State) (nodeIndent flowIndent : Int),
        state.documents = d →
        Keeps d (readBlockMapping host fuel state nodeIndent flowIndent))
    (ih_readFlowCollection :
      ∀ (state : State) (nodeIndent : Int),
        state.documents = d →
        Keeps d (readFlowCollection host fuel state nodeIndent))
    :
    ∀ (state : State) (parentIndent : Int) (nodeContext : Nat) (allowToSeek allowCompact : Bool),
      state.documents = d →
      Keeps d (composeNode host (fuel + 1) state parentIndent nodeContext allowToSeek
          allowCompact) := by
  intro state parentIndent nodeContext allowToSeek allowCompact hd
  rw [composeNode]
  repeat' first
    | (with_reducible apply keeps_pure)
    | (intro x_; try simp only [HasDocs.docs] at x_)
    | (with_reducible apply ih_readBlockSequence)
    | (with_reducible apply ih_readBlockMapping)
    | (with_reducible apply ih_readFlowCollection)
    | (with_reducible apply propertiesLoop_keeps)
    | (with_reducible apply finalizeTag_keeps)
    | (with_reducible apply readScalarNode_keeps)
    | (with_reducible apply keeps_bind)
    | (with_reducible apply keeps_ite)
    | (with_reducible assumption)
    | (simp only [HasDocs.docs, ite_fst_documents, ite_self, skipSeparationSpace_documents]
       with_reducible assumption)

theorem readFlowLoop_step {d : List JSVal} (host : Host) (fuel : Nat)
    (ih_composeNode :
      ∀ (state : State) (parentIndent : Int) (nodeContext : Nat)
        (allowToSeek allowCompact : Bool),
        state.documents = d →
        Keeps d (composeNode host fuel state parentIndent nodeContext allowToSeek
            allowCompact))
    (ih_readFlowLoop :
      ∀ (state : State) (nodeIndent : Int) (_tag _anchor : Option JSString) (terminator : Nat)
        (isMapping : Bool) (_result : JSVal) (readNext : Bool) (overridableKeys : List JSString),
        state.documents = d →
        Keeps d (readFlowLoop host fuel state nodeIndent _tag _anchor terminator isMapping
            _result readNext overridableKeys))
    :
    ∀ (state : State) (nodeIndent : Int) (_tag _anchor : Option JSString) (terminator : Nat)
      (isMapping : Bool) (_result : JSVal) (readNext : Bool) (overridableKeys : List JSString),
      state.documents = d →
      Keeps d (readFlowLoop host (fuel + 1) state nodeIndent _tag _anchor terminator
          isMapping _result readNext overridableKeys) := by
  intro state nodeIndent _tag _anchor terminator isMapping _result readNext overridableKeys hd
  rw [readFlowLoop]
  repeat' first
    | exact keeps_error
    | (with_reducible apply keeps_pure)
    | (intro x_; try simp only [HasDocs.docs] at x_)
    | (with_reducible apply ih_composeNode)
    | (with_reducible apply ih_readFlowLoop)
    | (with_reducible apply storeMappingPair_keeps)
    | (with_reducible apply keeps_bind)
    | (with_reducible apply keeps_ite)
    | (with_reducible assumption)
    | (simp only [HasDocs.docs, ite_fst_documents, ite_self, skipSeparationSpace_documents]
       with_reducible assumption)

theorem readFlowCollection_step {d : List JSVal} (host : Host) (fuel : Nat)
    (ih_readFlowLoop :
      ∀ (state : State) (nodeIndent : Int) (_tag _anchor : Option JSString) (terminator : Nat)
        (isMapping : Bool) (_result : JSVal) (readNext : Bool) (overridableKeys : List JSString),
        state.documents = d →
        Keeps d (readFlowLoop host fuel state nodeIndent _tag _anchor terminator isMapping
            _result readNext overridableKeys))
    :
    ∀ (state : State) (nodeIndent : Int),
      state.documents = d →
      Keeps d (readFlowCollection host (fuel + 1) state nodeIndent) := by
  intro state nodeIndent hd
  rw [readFlowCollection]
  repeat' first
    | (with_reducible apply keeps_ok)
    | (with_reducible apply ih_readFlowLoop)
    | (with_reducible apply keeps_ite)
    | (simp only [HasDocs.docs, recordAnchorAs_documents]
       with_reducible assumption)

theorem readBlockSequenceLoop_step {d : List JSVal} (host : Host) (fuel : Nat)
    (ih_composeNode :
      ∀ (state : State) (parentIndent : Int) (nodeContext : Nat)
        (allowToSeek allowCompact : Bool),
        state.documents = d →
        Keeps d (composeNode host fuel state parentIndent nodeContext allowToSeek
            allowCompact))
    (ih_readBlockSequenceLoop :
      ∀ (state : State) (nodeIndent : Int) (_result : JSVal) (detected : Bool),
        state.documents = d →
        Keeps d (readBlockSequenceLoop host fuel state nodeIndent _result detected))
    :
    ∀ (state : State) (nodeIndent : Int) (_result : JSVal) (detected : Bool),
      state.documents = d →
      Keeps d (readBlockSequenceLoop host (fuel + 1) state nodeIndent _result detected) := by
  intro state nodeIndent _result detected hd
  rw [readBlockSequenceLoop]
  repeat' first
    | exact keeps_error
    | (with_reducible apply keeps_pure)
    | (intro x_; try simp only [HasDocs.docs] at x_)
    | (with_reducible apply ih_composeNode)
    | (with_reducible apply ih_readBlockSequenceLoop)
    | (with_reducible apply keeps_bind)
    | (with_reducible apply keeps_ite)
    | (simp only [HasDocs.docs, skipSeparationSpace_documents]
       with_reducible assumption)

theorem readBlockSequence_step {d : List JSVal} (host : Host) (fuel : Nat)
    (ih_readBlockSequenceLoop :
      ∀ (state : State) (nodeIndent : Int) (_result : JSVal) (detected : Bool),
        state.documents = d →
        Keeps d (readBlockSequenceLoop host fuel state nodeIndent _result detected))
    :
    ∀ (state : State) (nodeIndent : Int),
      state.documents = d →
      Keeps d (readBlockSequence host (fuel + 1) state nodeIndent) := by
  intro state nodeIndent hd
  rw [readBlockSequence]
  repeat' first
    | (with_reducible apply keeps_pure)
    | (intro x_; try simp only [HasDocs.docs] at x_)
    | (with_reducible apply ih_readBlockSequenceLoop)
    | (with_reducible apply keeps_bind)
    | (with_reducible apply keeps_ite)
    | (simp only [HasDocs.docs, recordAnchorAs_documents]
       with_reducible assumption)

theorem readBlockMappingLoop_step {d : List JSVal} (host : Host) (fuel : Nat)
    (ih_composeNode :
      ∀ (state : State) (parentIndent : Int) (nodeContext : Nat)
        (allowToSeek allowCompact : Bool),
        state.documents = d →
        Keeps d (composeNode host fuel state parentIndent nodeContext allowToSeek
            allowCompact))
    (ih_readBlockMappingLoop :
      ∀ (state : State) (nodeIndent flowIndent : Int) (_tag _anchor : Option JSString)
        (_result : JSVal) (l : MappingLocals),
        state.documents = d →
        Keeps d (readBlockMappingLoop host fuel state nodeIndent flowIndent _tag _anchor
            _result l))
    :
    ∀ (state : State) (nodeIndent flowIndent : Int) (_tag _anchor : Option JSString)
      (_result : JSVal) (l : MappingLocals),
      state.documents = d →
      Keeps d (readBlockMappingLoop host (fuel + 1) state nodeIndent flowIndent _tag _anchor
          _result l) := by
  intro state nodeIndent flowIndent _tag _anchor _result l hd
  rw [readBlockMappingLoop]
  repeat' first
    | exact keeps_error
    | (with_reducible apply keeps_pure)
    | (intro x_; try simp only [HasDocs.docs] at x_)
    | (with_reducible apply ih_composeNode)
    | (with_reducible apply ih_readBlockMappingLoop)
    | (with_reducible apply storeMappingPair_keeps)
    | (with_reducible apply keeps_bind)
    | (with_reducible apply keeps_ite)
    | (with_reducible assumption)
    | (simp only [HasDocs.docs, advanceWhile_documents, skipSeparationSpace_documents]
       with_reducible assumption)
    | ((with_reducible (conv => arg 2; whnf)); split)

theorem readBlockMapping_step {d : List JSVal} (host : Host) (fuel : Nat)
    (ih_readBlockMappingLoop :
      ∀ (state : State) (nodeIndent flowIndent : Int) (_tag _anchor : Option JSString)
        (_result : JSVal) (l : MappingLocals),
        state.documents = d →
        Keeps d (readBlockMappingLoop host fuel state nodeIndent flowIndent _tag _anchor
            _result l))
    :
    ∀ (state : State) (nodeIndent flowIndent : Int),
      state.documents = d →
      Keeps d (readBlockMapping host (fuel + 1) state nodeIndent flowIndent) := by
  intro state nodeIndent flowIndent hd
  rw [readBlockMapping]
  repeat' first
    | (with_reducible apply keeps_pure)
    | (intro x_; try simp only [HasDocs.docs] at x_)
    | (with_reducible apply ih_readBlockMappingLoop)
    | (with_reducible apply storeMappingPair_keeps)
    | (with_reducible apply keeps_bind)
    | (with_reducible apply keeps_ite)
    | (with_reducible assumption)
    | (simp only [HasDocs.docs, recordAnchorAs_documents]
       with_reducible assumption)
    | ((with_reducible (conv => arg 2; whnf)); split)

/-- The readers of nodes leave the documents of the state as they are. -/
theorem compose_keeps {d : List JSVal} (host : Host) : ∀ fuel : Nat,
    (∀ (state : State) (parentIndent : Int) (nodeContext : Nat)
        (allowToSeek allowCompact : Bool),
        state.documents = d →
        Keeps d (composeNode host fuel state parentIndent nodeContext allowToSeek
            allowCompact))
    ∧ (∀ (state : State) (nodeIndent : Int) (_tag _anchor : Option JSString) (terminator : Nat)
        (isMapping : Bool) (_result : JSVal) (readNext : Bool) (overridableKeys : List JSString),
        state.documents = d →
        Keeps d (readFlowLoop host fuel state nodeIndent _tag _anchor terminator isMapping
            _result readNext overridableKeys))
    ∧ (∀ (state : State) (nodeIndent : Int),
        state.documents = d →
        Keeps d (readFlowCollection host fuel state nodeIndent))
    ∧ (∀ (state : State) (nodeIndent : Int) (_result : JSVal) (detected : Bool),
        state.documents = d →
        Keeps d (readBlockSequenceLoop host fuel state nodeIndent _result detected))
    ∧ (∀ (state : State) (nodeIndent : Int),
        state.documents = d →
        Keeps d (readBlockSequence host fuel state nodeIndent))
    ∧ (∀ (state : State) (nodeIndent flowIndent : Int) (_tag _anchor : Option JSString)
        (_result : JSVal) (l : MappingLocals),
        state.documents = d →
        Keeps d (readBlockMappingLoop host fuel state nodeIndent flowIndent _tag _anchor
            _result l))
    ∧ (∀ (state : State) (nodeIndent flowIndent : Int),
        state.documents = d →
        Keeps d (readBlockMapping host fuel state nodeIndent flowIndent)) := by
  intro fuel
  induction fuel with
  | zero =>
    refine ⟨?_, ?_, ?_, ?_, ?_, ?_, ?_⟩
    · intro state parentIndent nodeContext allowToSeek allowCompact hd
      rw [composeNode]
      exact keeps_error
    · intro state nodeIndent _tag _anchor terminator isMapping _result readNext overridableKeys hd
      rw [readFlowLoop]
      exact keeps_error
    · intro state nodeIndent hd
      rw [readFlowCollection]
      exact keeps_error
    · intro state nodeIndent _result detected hd
      rw [readBlockSequenceLoop]
      exact keeps_error
    · intro state nodeIndent hd
      rw [readBlockSequence]
      exact keeps_error
    · intro state nodeIndent flowIndent _tag _anchor _result l hd
      rw [readBlockMappingLoop]
      exact keeps_error
    · intro state nodeIndent flowIndent hd
      rw [readBlockMapping]
      exact keeps_error
  | succ fuel ih =>
    obtain ⟨ih_composeNode,
      ih_readFlowLoop,
      ih_readFlowCollection,
      ih_readBlockSequenceLoop,
      ih_readBlockSequence,
      ih_readBlockMappingLoop,
      ih_readBlockMapping⟩ := ih
    exact ⟨composeNode_step host fuel ih_readBlockSequence ih_readBlockMapping
        ih_readFlowCollection,
      readFlowLoop_step host fuel ih_composeNode ih_readFlowLoop,
      readFlowCollection_step host fuel ih_readFlowLoop,
      readBlockSequenceLoop_step host fuel ih_composeNode ih_readBlockSequenceLoop,
      readBlockSequence_step host fuel ih_readBlockSequenceLoop,
      readBlockMappingLoop_step host fuel ih_composeNode ih_readBlockMappingLoop,
      readBlockMapping_step host fuel ih_readBlockMappingLoop⟩

/-! ## One document, one root -/

theorem ends_pure {α : Type} {Q : α → Prop} {a : α} (h : Q a) : Ends Q (pure a) :=
  ⟨fun w hw => by cases hw; exact h⟩

theorem ends_throw {α : Type} {Q : α → Prop} {e : JSError} :
    Ends Q (throw e : Except JSError α) :=
  ⟨fun w hw => by cases hw⟩

theorem ends_ite {α : Type} {Q : α → Prop} {c : Prop} [Decidable c]
    {a b : Except JSError α} (ha : Ends Q a) (hb : Ends Q b) : Ends Q (if c then a else b) := by
  split <;> assumption

theorem ends_bind {α β : Type} [HasDocs α] {d : List JSVal} {Q : β → Prop}
    {m : Except JSError α} {k : α → Except JSError β}
    (hm : Keeps d m) (hk : ∀ a, HasDocs.docs a = d → Ends Q (k a)) : Ends Q (m >>= k) := by
  refine ⟨fun w hw => ?_⟩
  cases m with
  | error e => cases hw
  | ok a => exact (hk a (hm.run a rfl)).run w hw

theorem composeNode_keeps {d : List JSVal} (host : Host) (fuel : Nat) (state : State)
    (parentIndent : Int) (nodeContext : Nat) (allowToSeek allowCompact : Bool)
    (hd : state.documents = d) :
    Keeps d (composeNode host fuel state parentIndent nodeContext allowToSeek allowCompact) :=
  (compose_keeps host fuel).1 state parentIndent nodeContext allowToSeek allowCompact hd

theorem throwWarning_result (state : State) (message : String) :
    (throwWarning state message).result = state.result := by
  unfold throwWarning
  split <;> rfl

theorem ite_result {c : Prop} [Decidable c] (x y : State) :
    (if c then x else y).result = if c then x.result else y.result := by
  split <;> rfl

theorem skipWhiteSpace_result :
    ∀ (fuel : Nat) (state : State), (skipWhiteSpace fuel state).result = state.result := by
  intro fuel
  induction fuel with
  | zero => intro state; rfl
  | succ fuel ih =>
    intro state
    unfold skipWhiteSpace
    split
    · rw [ih]
      dsimp only
      split <;> rfl
    · rfl

theorem advanceWhile_result (p : Option Nat → Bool) :
    ∀ (fuel : Nat) (state : State), (advanceWhile p fuel state).result = state.result := by
  intro fuel
  induction fuel with
  | zero => intro state; rfl
  | succ fuel ih =>
    intro state
    unfold advanceWhile
    split
    · rw [ih]
    · rfl

theorem countIndent_result :
    ∀ (fuel : Nat) (state : State), (countIndent fuel state).result = state.result := by
  intro fuel
  induction fuel with
  | zero => intro state; rfl
  | succ fuel ih =>
    intro state
    unfold countIndent
    split
    · rw [ih]
    · rfl

theorem readLineBreak_result (state s1 : State) (h : readLineBreak state = .ok s1) :
    s1.result = state.result := by
  rw [readLineBreak] at h
  dsimp only at h
  split at h
  · cases h
  · rename_i s2 heq
    cases h
    show s2.result = state.result
    revert heq
    repeat' split
    all_goals intro heq
    all_goals cases heq
    all_goals rfl

theorem skipSeparationLoop_result (allowComments : Bool) :
    ∀ (fuel : Nat) (state : State) (lineBreaks : Nat),
      (skipSeparationLoop allowComments fuel state lineBreaks).1.result = state.result := by
  intro fuel
  induction fuel with
  | zero => intro state lineBreaks; rfl
  | succ fuel ih =>
    intro state lineBreaks
    rw [skipSeparationLoop]
    split
    · lift_lets
      intro s1 s2
      have h1 : s1.result = state.result := skipWhiteSpace_result _ _
      have h2 : s2.result = state.result := by
        show (if _ then _ else _ : State).result = _
        split
        · rw [advanceWhile_result]; exact h1
        · exact h1
      clear_value s2
      clear h1
      clear_value s1
      split
      · split
        · exact h2
        · rename_i s3 heq
          have h3 : s3.result = s2.result := readLineBreak_result s2 s3 heq
          lift_lets
          intro s4
          have h4 : s4.result = state.result :=
            (countIndent_result _ _).trans (h3.trans h2)
          clear_value s4
          rw [ih]
          exact h4
      · exact h2
    · rfl

theorem skipSeparationSpace_result (state : State) (allowComments : Bool) (checkIndent : Int) :
    (skipSeparationSpace state allowComments checkIndent).1.result = state.result := by
  unfold skipSeparationSpace
  have := skipSeparationLoop_result allowComments state.input.length state 0
  split
  rename_i s n heq
  rw [heq] at this
  split
  · rw [← this]; exact throwWarning_result _ _
  · exact this

theorem readDocument_ends (host : Host) (fuel : Nat) (state : State) :
    Ends (fun s1 => s1.documents = state.documents ++ [s1.result])
      (readDocument host fuel state) := by
  rw [readDocument]
  repeat' first
    | exact ends_throw
    | (with_reducible apply ends_pure)
    | (with_reducible apply keeps_pure)
    | (intro x_; simp only [HasDocs.docs] at x_)
    | (with_reducible apply directivesLoop_keeps)
    | (with_reducible apply composeNode_keeps)
    | (with_reducible apply ends_bind (d := state.documents))
    | (with_reducible apply ends_ite)
    | rfl
    | (with_reducible assumption)
    | (simp only [HasDocs.docs, ite_documents, ite_result, ite_self, throwWarning_documents,
         throwWarning_result, skipSeparationSpace_documents, skipSeparationSpace_result, *])

theorem readDocument_documents (host : Host) (fuel : Nat) (state s1 : State)
    (h : readDocument host fuel state = .ok s1) :
    s1.documents = state.documents ++ [s1.result] :=
  (readDocument_ends host fuel state).run s1 h

theorem documentsLoop_roots (host : Host) (fuel : Nat) :
    ∀ (n : Nat) (state final : State), documentsLoop host fuel n state = .ok final →
      ∃ roots, documentRoots host fuel n state = .ok roots
        ∧ final.documents = state.documents ++ roots := by
  intro n
  induction n with
  | zero =>
    intro state final h
    rw [documentsLoop] at h
    cases h
  | succ n ih =>
    intro state final h
    rw [documentsLoop] at h
    rw [documentRoots]
    split
    · rename_i hlt
      rw [if_pos hlt] at h
      cases hr : readDocument host fuel state with
      | error e => rw [hr] at h; cases h
      | ok s1 =>
        rw [hr] at h
        obtain ⟨roots, hroots, hdocs⟩ := ih s1 final h
        refine ⟨s1.result :: roots, ?_, ?_⟩
        · simp only [hroots]
        · rw [hdocs, readDocument_documents host fuel state s1 hr, List.append_assoc]
          rfl
    · rename_i hlt
      rw [if_neg hlt] at h
      cases h
      exact ⟨[], rfl, (List.append_nil _).symm⟩

theorem loadDocuments_roots (host : Host) (fuel : Nat) (input : JSString) (options : Options)
    (final : State) (h : loadDocuments host fuel input options = .ok final) :
    streamRoots host fuel input options = .ok final.documents := by
  unfold loadDocuments at h
  unfold streamRoots
  dsimp only at h ⊢
  generalize (if input.length ≠ 0 then _ else input : JSString) = prepared at h ⊢
  by_cases hz : prepared.contains 0 = true
  · rw [if_pos hz] at h
    cases h
  · rw [if_neg hz] at h
    rw [if_neg hz]
    obtain ⟨roots, hroots, hdocs⟩ := documentsLoop_roots host fuel fuel _ final h
    rw [hroots, hdocs, countIndent_documents]
    rfl

end Loader

/-! ## Claims on `load`, `dump` and the scalar style -/

open Dumper in
/-- C1 (round trip), at the string `...`: `dump` writes the three dots as a
plain scalar, and `load` reads that text as a document end marker, so that
`load(dump("..."))` is `null` and not the string. -/
theorem roundTrip_fails_on_three_dots :
    Dumper.dump Host.reference 100 [] (.str (js "...")) = .ok (js "...\n")
    ∧ (Loader.load Host.reference 100 (js "...\n")).map Prod.fst = .ok .null := by
  decide!

/-- C2, as amended: when the stream holds no document, `load` raises no error
and returns `undefined`. -/
theorem load_undefined_of_no_document (host : Host) (fuel : Nat) (input : JSString)
    (options : Loader.Options)
    (h : (Loader.loadDocuments host fuel input options).map (fun s => s.documents) = .ok []) :
    (Loader.load host fuel input options).map Prod.fst = .ok .undefined := by
  unfold Loader.load
  cases hl : Loader.loadDocuments host fuel input options with
  | error e => rw [hl] at h; simp [Except.map] at h
  | ok state =>
    rw [hl] at h
    simp only [Except.map, Except.ok.injEq] at h
    simp [h, Except.map]

/-- C2, witness: the empty string holds no document and loads as `undefined`. -/
theorem load_undefined_of_no_document_witness :
    (Loader.load Host.reference 100 (js "") {}).map Prod.fst = .ok .undefined :=
  load_undefined_of_no_document Host.reference 100 (js "") {} (by decide!)

/-- C2, as stated, fails: for the empty string `load` returns `undefined`
instead of raising, and a text that holds only a comment is one document whose
root is `null`. -/
theorem load_no_document_counterexample :
    (Loader.load Host.reference 100 (js "") {}).map Prod.fst = .ok .undefined
    ∧ (Loader.load Host.reference 100 (js "# only a comment\n") {}).map Prod.fst = .ok .null
    ∧ (Loader.load Host.reference 100 (js "\n") {}).map Prod.fst = .ok .undefined := by
  decide!

/-- C3: when `loadDocuments` yields two or more documents `load` raises
`expected a single document in the stream, but found more`, and when it
yields one document `load` returns exactly its root. -/
theorem load_single_document (host : Host) (fuel : Nat) (input : JSString)
    (options : Loader.Options) (docs : List JSVal)
    (h : (Loader.loadDocuments host fuel input options).map (fun s => s.documents) = .ok docs) :
    (2 ≤ docs.length → Loader.load host fuel input options
        = .error (.yaml "expected a single document in the stream, but found more"))
    ∧ (∀ d, docs = [d] → (Loader.load host fuel input options).map Prod.fst = .ok d) := by
  unfold Loader.load
  cases hl : Loader.loadDocuments host fuel input options with
  | error e => rw [hl] at h; simp [Except.map] at h
  | ok state =>
    rw [hl] at h
    simp only [Except.map, Except.ok.injEq] at h
    subst h
    refine ⟨?_, ?_⟩
    · intro h2
      have : state.documents.length ≠ 0 := by omega
      have : state.documents.length ≠ 1 := by omega
      simp [*]
    · intro d hd; simp [hd, Except.map]

/-- C3, witness: a stream of two documents is refused, a stream of one
document gives its root. -/
theorem load_single_document_witness :
    Loader.load Host.reference 100 (js "a\n---\nb\n") {}
      = .error (.yaml "expected a single document in the stream, but found more")
    ∧ (Loader.load Host.reference 100 (js "a\n") {}).map Prod.fst = .ok (.str (js "a")) :=
  ⟨(load_single_document Host.reference 100 (js "a\n---\nb\n") {}
      [.str (js "a"), .str (js "b")] (by decide!)).1 (by decide),
   (load_single_document Host.reference 100 (js "a\n") {} [.str (js "a")] (by decide!)).2
      _ rfl⟩

/-- C4, as amended: a text that `dump` returns is empty (nothing was written)
or is the text of the node followed by one line feed, so that its last
character is a line feed. -/
theorem dump_ends_with_line_feed (host : Host) (fuel : Nat) (heap : Heap) (input : JSVal)
    (options : Dumper.Options) (text : JSString)
    (h : Dumper.dump host fuel heap input options = .ok text) :
    text = [] ∨ ∃ node, text = node ++ [10] := by
  unfold Dumper.dump at h
  simp only [bind, Except.bind, pure, Except.pure] at h
  split at h <;> (try split at h) <;> (try split at h) <;> (try split at h) <;>
    first
    | (cases h; done)
    | (simp only [Except.ok.injEq] at h
       first
       | (right; exact ⟨_, h.symm⟩)
       | (left; exact h.symm))

/-- C4, witness: the text of the string `a`. -/
theorem dump_ends_with_line_feed_witness :
    js "a\n" = [] ∨ ∃ node, js "a\n" = node ++ [10] :=
  dump_ends_with_line_feed Host.reference 100 [] (.str (js "a")) {} (js "a\n") (by decide!)

/-- C4, as stated, fails: the text of a string that ends in two line feeds
ends in two line feeds, and the text of `undefined` is empty. -/
theorem dump_line_feed_counterexample :
    Dumper.dump Host.reference 100 [] (.str (js "a\n\n")) {} = .ok (js "|+\n  a\n\n")
    ∧ Dumper.dump Host.reference 100 [] .undefined {} = .ok [] := by
  decide!

namespace Dumper

/-- C8, as amended: a non-empty string without line break whose first
character is plain-safe-first, whose last character is plain-safe-last, whose
every character is plain-safe relative to its predecessor and that
`testAmbiguousType` does not claim is given the plain style when `forceQuotes`
is off and no line can be folded: `singleLineOnly` is set, or the line width is
`-1`, or the string is not longer than the line width. -/
theorem chooseScalarStyle_plain (s : JSString) (singleLineOnly : Bool) (indentPerLevel : Nat)
    (lineWidth : Int) (testAmbiguousType : JSString → Bool) (quotingType : Nat)
    (inblock : Bool)
    (hs : ∀ u ∈ s, u < 65536)
    (_hne : s ≠ [])
    (hnb : 10 ∉ s ∧ 13 ∉ s)
    (hfirst : isPlainSafeFirst (codePointAt s 0) = true)
    (hlast : isPlainSafeLast (codePointAt s ((s.length : Int) - 1)) = true)
    (hall : allPlainSafe inblock none (codePoints s) = true)
    (hamb : testAmbiguousType s = false)
    (hw : singleLineOnly = true ∨ lineWidth = -1 ∨ (s.length : Int) ≤ lineWidth) :
    chooseScalarStyle s singleLineOnly indentPerLevel lineWidth testAmbiguousType
      quotingType false inblock = STYLE_PLAIN := by
  have hpr := allPlainSafe_printable inblock (codePoints s) none hall
  cases hslo : singleLineOnly with
  | true =>
    rw [chooseScalarStyle_single_eq s true indentPerLevel lineWidth testAmbiguousType
      quotingType false inblock rfl hs hpr]
    simp [hfirst, hlast, hall, hamb]
  | false =>
    rw [chooseScalarStyle_multi_eq s indentPerLevel lineWidth testAmbiguousType
      quotingType inblock hs (fun c hc => Or.inr (hpr c hc))]
    have hLF : decide (10 ∈ s) = false := by simpa using hnb.1
    have hF : ((lineWidth != -1) && hasLongLine lineWidth (splitLines s)) = false := by
      rcases hw with h | h | h
      · simp [hslo] at h
      · simp [h]
      · rw [splitLines_noLF s hnb.1]
        have : ¬ ((s.length : Int) > lineWidth) := by omega
        simp [hasLongLine, this]
    simp [hLF, hF, hfirst, hlast, hall, hamb]

/-- C8, witness: the string `abc` with a line width of 78. -/
theorem chooseScalarStyle_plain_witness :
    chooseScalarStyle (js "abc") false 2 78 (fun _ => false) QUOTING_TYPE_SINGLE false true
      = STYLE_PLAIN :=
  chooseScalarStyle_plain (js "abc") false 2 78 (fun _ => false) QUOTING_TYPE_SINGLE true
    (by decide) (by decide) (by decide) (by decide) (by decide) (by decide) rfl
    (Or.inr (Or.inr (by decide)))

/-- C8, as stated, fails: the string `aaa` meets every condition of the claim,
and with a line width of 2 it is given the folded style. -/
theorem chooseScalarStyle_plain_counterexample :
    (js "aaa" ≠ [] ∧ 10 ∉ js "aaa" ∧ 13 ∉ js "aaa"
      ∧ isPlainSafeFirst (codePointAt (js "aaa") 0) = true
      ∧ isPlainSafeLast (codePointAt (js "aaa") (((js "aaa").length : Int) - 1)) = true
      ∧ allPlainSafe true none (codePoints (js "aaa")) = true)
    ∧ chooseScalarStyle (js "aaa") false 2 2 (fun _ => false) QUOTING_TYPE_SINGLE false true
        = STYLE_FOLDED := by
  decide

/-- C9, as amended: a string made of printable characters only (so without
line break) in which no line can be folded (`singleLineOnly` or `forceQuotes`
is set, or the line width is `-1`, or the string is not longer than the line
width, or it starts with a space) and that is not given the plain style is
given the single-quoted style when the quoting preference is single and the
double-quoted style when it is double. -/
theorem chooseScalarStyle_quoting_preference (s : JSString) (singleLineOnly : Bool)
    (indentPerLevel : Nat) (lineWidth : Int) (testAmbiguousType : JSString → Bool)
    (quotingType : Nat) (forceQuotes inblock : Bool)
    (hs : ∀ u ∈ s, u < 65536)
    (hpr : ∀ c ∈ codePoints s, isPrintable (some c) = true)
    (hw : singleLineOnly = true ∨ forceQuotes = true ∨ lineWidth = -1
      ∨ (s.length : Int) ≤ lineWidth ∨ s.head? = some 32)
    (hnp : chooseScalarStyle s singleLineOnly indentPerLevel lineWidth testAmbiguousType
      quotingType forceQuotes inblock ≠ STYLE_PLAIN) :
    (quotingType = QUOTING_TYPE_SINGLE →
      chooseScalarStyle s singleLineOnly indentPerLevel lineWidth testAmbiguousType
        quotingType forceQuotes inblock = STYLE_SINGLE)
    ∧ (quotingType = QUOTING_TYPE_DOUBLE →
      chooseScalarStyle s singleLineOnly indentPerLevel lineWidth testAmbiguousType
        quotingType forceQuotes inblock = STYLE_DOUBLE) := by
  have key : chooseScalarStyle s singleLineOnly indentPerLevel lineWidth testAmbiguousType
        quotingType forceQuotes inblock = STYLE_PLAIN
      ∨ chooseScalarStyle s singleLineOnly indentPerLevel lineWidth testAmbiguousType
        quotingType forceQuotes inblock
          = if quotingType = QUOTING_TYPE_DOUBLE then STYLE_DOUBLE else STYLE_SINGLE := by
    by_cases hm : (singleLineOnly || forceQuotes) = true
    · rw [chooseScalarStyle_single_eq s singleLineOnly indentPerLevel lineWidth
        testAmbiguousType quotingType forceQuotes inblock hm hs hpr]
      split
      · left; rfl
      · right; rfl
    · have h1 : singleLineOnly = false := by
        cases singleLineOnly <;> simp_all
      have h2 : forceQuotes = false := by
        cases forceQuotes <;> simp_all
      subst h1 h2
      have hnLF := not_mem_LF_of_printable s hs hpr
      rw [chooseScalarStyle_multi_eq s indentPerLevel lineWidth testAmbiguousType
        quotingType inblock hs (fun c hc => Or.inr (hpr c hc))]
      have hLF : decide (10 ∈ s) = false := by simpa using hnLF
      have hF : ((lineWidth != -1) && hasLongLine lineWidth (splitLines s)) = false := by
        rcases hw with h | h | h | h | h
        · simp at h
        · simp at h
        · simp [h]
        · rw [splitLines_noLF s hnLF]
          have : ¬ ((s.length : Int) > lineWidth) := by omega
          simp [hasLongLine, this]
        · rw [splitLines_noLF s hnLF]
          simp [hasLongLine, h]
      simp only [hLF, hF, Bool.not_false, Bool.and_self, if_true]
      split
      · left; rfl
      · right; rfl
  rcases key with h | h
  · exact absurd h hnp
  · rw [h]
    constructor
    · intro hq; simp [hq, QUOTING_TYPE_SINGLE, QUOTING_TYPE_DOUBLE]
    · intro hq; simp [hq]

/-- C9, witness: the string `- x` is quoted as the preference asks. -/
theorem chooseScalarStyle_quoting_preference_witness :
    (QUOTING_TYPE_SINGLE = QUOTING_TYPE_SINGLE →
      chooseScalarStyle (js "- x") false 2 78 (fun _ => false) QUOTING_TYPE_SINGLE false true
        = STYLE_SINGLE)
    ∧ (QUOTING_TYPE_SINGLE = QUOTING_TYPE_DOUBLE →
      chooseScalarStyle (js "- x") false 2 78 (fun _ => false) QUOTING_TYPE_SINGLE false true
        = STYLE_DOUBLE) :=
  chooseScalarStyle_quoting_preference (js "- x") false 2 78 (fun _ => false)
    QUOTING_TYPE_SINGLE false true (by decide) (by decide)
    (Or.inr (Or.inr (Or.inr (Or.inl (by decide))))) (by decide)

/-- C9, as stated, fails: with the single-quote preference, a string that
holds a bell character is given the double-quoted style, and a long string
without line break is given the folded style. -/
theorem chooseScalarStyle_quoting_counterexample :
    (10 ∉ [97, 7] ∧ 13 ∉ [97, 7]
      ∧ chooseScalarStyle [97, 7] false 2 78 (fun _ => false) QUOTING_TYPE_SINGLE false true
          = STYLE_DOUBLE)
    ∧ (10 ∉ js "aaa" ∧ 13 ∉ js "aaa"
      ∧ chooseScalarStyle (js "aaa") false 2 2 (fun _ => true) QUOTING_TYPE_SINGLE false true
          = STYLE_FOLDED) := by
  decide

/-- C10, as amended: for a string that holds a line feed and otherwise only
printable characters, with `singleLineOnly` and `forceQuotes` off and an
indent per level of at most 9, the style is folded when the line width is not
`-1` and some line is longer than the line width and does not start with a
space, and literal otherwise (always literal for the line width `-1`). -/
theorem chooseScalarStyle_block (s : JSString) (indentPerLevel : Nat) (lineWidth : Int)
    (testAmbiguousType : JSString → Bool) (quotingType : Nat) (inblock : Bool)
    (hs : ∀ u ∈ s, u < 65536)
    (hlf : 10 ∈ s)
    (hpr : ∀ c ∈ codePoints s, c = 10 ∨ isPrintable (some c) = true)
    (hind : indentPerLevel ≤ 9) :
    chooseScalarStyle s false indentPerLevel lineWidth testAmbiguousType quotingType
        false inblock
      = if lineWidth ≠ -1 ∧ hasLongLine lineWidth (splitLines s) = true then STYLE_FOLDED
        else STYLE_LITERAL := by
  rw [chooseScalarStyle_multi_eq s indentPerLevel lineWidth testAmbiguousType
    quotingType inblock hs hpr]
  have hLF : decide (10 ∈ s) = true := by simpa using hlf
  have hi : ¬ (indentPerLevel > 9) := by omega
  simp [hLF, hi]

/-- C10, witness: two short lines are literal, a long line makes it folded. -/
theorem chooseScalarStyle_block_witness :
    chooseScalarStyle (js "a\nbcdef") false 2 3 (fun _ => false) QUOTING_TYPE_SINGLE
        false true
      = if (3 : Int) ≠ -1 ∧ hasLongLine 3 (splitLines (js "a\nbcdef")) = true then STYLE_FOLDED
        else STYLE_LITERAL :=
  chooseScalarStyle_block (js "a\nbcdef") 2 3 (fun _ => false) QUOTING_TYPE_SINGLE true
    (by decide) (by decide) (by decide) (by decide)

/-- C10, as stated, fails: with the line width `-1` the line `a` of the
string is longer than the line width and does not start with a space, and the
style is literal. -/
theorem chooseScalarStyle_block_counterexample :
    hasLongLine (-1) (splitLines (js "a\nb")) = true
    ∧ chooseScalarStyle (js "a\nb") false 2 (-1) (fun _ => false) QUOTING_TYPE_SINGLE
        false true = STYLE_LITERAL := by
  decide

end Dumper

/-! ## Claims on the mapping store, the merge key and the scalar styles -/

namespace Loader

/-- C5: with `json` off, a store of a key that is not the merge key into a
mapping under construction raises `duplicated mapping key` exactly when the key
is an own key of the mapping and is not overridable; when the key is
overridable (a merge introduced it) the store succeeds, the mapping then holds
the explicit value, the key is no longer overridable, and a second explicit
store of the same key raises `duplicated mapping key`. -/
theorem storeMappingPair_duplicate_key (host : Host) (state : State) (a : Nat) (proto : Proto)
    (props : List (JSString × JSVal)) (overridableKeys : List JSString)
    (keyTag : Option JSString) (keyNode valueNode : JSVal) (key : JSString)
    (hjson : state.json = false)
    (hobj : state.heap[a]? = some (.object proto props))
    (htag : keyTag ≠ some (js "tag:yaml.org,2002:merge"))
    (hkey : keyText host state.heap keyNode = .ok key) :
    (storeMappingPair host state (.ref a) overridableKeys keyTag keyNode valueNode
        = .error (.yaml "duplicated mapping key")
      ↔ (hasOwnProperty state.heap (.ref a) key = true ∧ overridableKeys.contains key = false))
    ∧ (overridableKeys.contains key = true →
        ∃ state', storeMappingPair host state (.ref a) overridableKeys keyTag keyNode valueNode
            = .ok (state', .ref a, overridableKeys.filter (· != key))
          ∧ getOwn? state'.heap (.ref a) key = some valueNode
          ∧ (overridableKeys.filter (· != key)).contains key = false
          ∧ ∀ second, storeMappingPair host state' (.ref a)
              (overridableKeys.filter (· != key)) keyTag keyNode second
                = .error (.yaml "duplicated mapping key")) := by
  have hstore := store_heap state a proto props valueNode key hobj
  have hun := storeMappingPair_unfold host state a overridableKeys keyTag keyNode valueNode key
    htag hkey
  rw [hstore] at hun
  obtain ⟨state', hst'⟩ : ∃ state' : State, state' =
      { state with heap := state.heap.put a (.object proto (assign props key valueNode)) } :=
    ⟨_, rfl⟩
  have hheap : state'.heap = state.heap.put a (.object proto (assign props key valueNode)) := by
    rw [hst']
  have hjson' : state'.json = false := by rw [hst']; exact hjson
  simp only [← hst'] at hun
  rw [hjson] at hun
  simp only [Bool.not_false, Bool.true_and] at hun
  have hfil : (overridableKeys.filter (· != key)).contains key = false := by
    cases hc : (overridableKeys.filter (· != key)).contains key
    · rfl
    · have := List.elem_iff.mp hc
      simp [List.mem_filter] at this
  refine ⟨?_, ?_⟩
  · rw [hun]
    constructor
    · intro h
      split at h
      · rename_i hc
        simp only [Bool.and_eq_true, Bool.not_eq_true'] at hc
        exact ⟨hc.2, hc.1⟩
      · cases h
    · intro h
      rw [h.1, h.2]; rfl
  · intro hov
    rw [hun]
    simp only [hov, Bool.not_true, Bool.false_and, Bool.false_eq_true, if_false]
    have hobj' : state'.heap[a]? = some (.object proto (assign props key valueNode)) := by
      rw [hheap]
      simp only [getElem?_put state.heap a a _ _ hobj, if_true]
    refine ⟨state', rfl, ?_, hfil, ?_⟩
    · simp only [getOwn?, hobj']
      exact find_assign props key valueNode
    · intro second
      have hkey' : keyText host state'.heap keyNode = .ok key := by
        rw [hheap, keyText_put host state.heap a proto proto props _ hobj, hkey]
      rw [storeMappingPair_unfold host state' a _ keyTag keyNode second key htag hkey']
      have hown : hasOwnProperty state'.heap (.ref a) key = true := by
        simp only [hasOwnProperty, getOwn?, hobj']
        have := find_assign props key valueNode
        unfold lookup at this
        rw [this]; rfl
      rw [hjson', hfil, hown]; rfl

/-- C5, witness: in a mapping that holds the key `a`, a store of `a` fails when
`a` is not overridable and replaces the value when it is; the flow mapping
`{a: 1, a: 2}` is refused, and an explicit `a` after a merge that brought `a`
wins. -/
theorem storeMappingPair_duplicate_key_witness :
    storeMappingPair Host.reference
        { State.new Host.reference (js "") {} with
          heap := [.object .objectPrototype [(js "a", .num 1)]] }
        (.ref 0) [] none (.str (js "a")) (.num 2) = .error (.yaml "duplicated mapping key")
    ∧ (∃ state', storeMappingPair Host.reference
          { State.new Host.reference (js "") {} with
            heap := [.object .objectPrototype [(js "a", .num 1)]] }
          (.ref 0) [js "a"] none (.str (js "a")) (.num 2)
            = .ok (state', .ref 0, [js "a"].filter (· != js "a"))
        ∧ getOwn? state'.heap (.ref 0) (js "a") = some (.num 2))
    ∧ load Host.reference 100 (js "{a: 1, a: 2}") {} = .error (.yaml "duplicated mapping key")
    ∧ (load Host.reference 100 (js "{<<: {a: 1}, a: 2}") {}).map
        (fun r => getOwn? r.2 r.1 (js "a")) = .ok (some (.num 2)) :=
  ⟨(storeMappingPair_duplicate_key Host.reference
      { State.new Host.reference (js "") {} with
        heap := [.object .objectPrototype [(js "a", .num 1)]] }
      0 .objectPrototype [(js "a", .num 1)] [] none (.str (js "a")) (.num 2) (js "a")
      rfl rfl (by decide) rfl).1.mpr ⟨by decide, by decide⟩,
   (fun ⟨state', h1, h2, _⟩ => ⟨state', h1, h2⟩)
     ((storeMappingPair_duplicate_key Host.reference
      { State.new Host.reference (js "") {} with
        heap := [.object .objectPrototype [(js "a", .num 1)]] }
      0 .objectPrototype [(js "a", .num 1)] [js "a"] none (.str (js "a")) (.num 2) (js "a")
      rfl rfl (by decide) rfl).2 (by decide)),
   by decide!, by decide!⟩

/-- C6, at a source that has the own key `__proto__`: the merge of
`{x: 1, y: 2}` and the pair `y: 3` gives `{x: 1, y: 3}` in either order, but a
merge whose source holds the own key `__proto__` adds no own key to the
destination: it replaces the prototype of the destination, which then inherits
`x`. -/
theorem mergeMappings_proto_key :
    (load Host.reference 100 (js "{<<: {x: 1, y: 2}, y: 3}") {}).map
        (fun r => (objectKeys r.2 r.1, getOwn? r.2 r.1 (js "x"), getOwn? r.2 r.1 (js "y")))
      = .ok ([js "x", js "y"], some (.num 1), some (.num 3))
    ∧ (load Host.reference 100 (js "{y: 3, <<: {x: 1, y: 2}}") {}).map
        (fun r => (objectKeys r.2 r.1, getOwn? r.2 r.1 (js "x"), getOwn? r.2 r.1 (js "y")))
      = .ok ([js "y", js "x"], some (.num 1), some (.num 3))
    ∧ hasOwnProperty
        [.object .objectPrototype [], .object .objectPrototype [(js "__proto__", .ref 2)],
          .object .objectPrototype [(js "x", .num 1)]] (.ref 1) (js "__proto__") = true
    ∧ mergeMappings
        [.object .objectPrototype [], .object .objectPrototype [(js "__proto__", .ref 2)],
          .object .objectPrototype [(js "x", .num 1)]] (.ref 0) (.ref 1) []
      = .ok ([.object (.ref 2) [], .object .objectPrototype [(js "__proto__", .ref 2)],
          .object .objectPrototype [(js "x", .num 1)]], [js "__proto__"])
    ∧ (load Host.reference 100 (js "{<<: {__proto__: {x: 1}}}") {}).map
        (fun r => (r.1, objectKeys r.2 r.1, protoOf r.2 2))
      = .ok (.ref 2, [], .ref 4) := by
  decide!

end Loader
namespace Dumper

/-- C7: a string that some implicit type of the state resolves is never given
the plain style when `testAmbiguousType` is `testImplicitResolving`, for every
value of the other arguments. -/
theorem chooseScalarStyle_not_plain_of_implicit (state : State) (s : JSString)
    (singleLineOnly : Bool) (indentPerLevel : Nat) (lineWidth : Int) (quotingType : Nat)
    (forceQuotes inblock : Bool)
    (h : ∃ type ∈ state.implicitTypes, type.resolve state.heap (.str s) none = true) :
    chooseScalarStyle s singleLineOnly indentPerLevel lineWidth (testImplicitResolving state)
      quotingType forceQuotes inblock ≠ STYLE_PLAIN := by
  intro hp
  have hf := chooseScalarStyle_plain_imp s singleLineOnly indentPerLevel lineWidth
    (testImplicitResolving state) quotingType forceQuotes inblock hp
  have ht : testImplicitResolving state s = true := by
    unfold testImplicitResolving
    exact List.any_eq_true.mpr h
  rw [ht] at hf
  cases hf

/-- C7, witness: under the default schema the strings `123`, `true`, `null`,
`0x1F` and `2001-01-01` are resolved by an implicit type, `123` is not given
the plain style, and `dump` writes it in single quotes. -/
theorem chooseScalarStyle_not_plain_of_implicit_witness :
    chooseScalarStyle (js "123") false 2 78
        (testImplicitResolving (State.new Host.reference {} [])) QUOTING_TYPE_SINGLE false true
      ≠ STYLE_PLAIN
    ∧ testImplicitResolving (State.new Host.reference {} []) (js "123") = true
    ∧ testImplicitResolving (State.new Host.reference {} []) (js "true") = true
    ∧ testImplicitResolving (State.new Host.reference {} []) (js "null") = true
    ∧ testImplicitResolving (State.new Host.reference {} []) (js "0x1F") = true
    ∧ testImplicitResolving (State.new Host.reference {} []) (js "2001-01-01") = true
    ∧ dump Host.reference 100 [] (.str (js "123")) {} = .ok (js "'123'\n") :=
  ⟨chooseScalarStyle_not_plain_of_implicit (State.new Host.reference {} []) (js "123")
      false 2 78 QUOTING_TYPE_SINGLE false true (List.any_eq_true.mp (by decide!)),
   by decide!, by decide!, by decide!, by decide!, by decide!, by decide!⟩

/-- C11, as amended: a string without line feed that holds only printable
characters, is longer than the line width (the width not being `-1`) and does
not start with a space is given the folded style when `singleLineOnly` and
`forceQuotes` are off. -/
theorem chooseScalarStyle_folded_long_line (s : JSString) (indentPerLevel : Nat)
    (lineWidth : Int) (testAmbiguousType : JSString → Bool) (quotingType : Nat)
    (inblock : Bool)
    (hs : ∀ u ∈ s, u < 65536)
    (hlf : 10 ∉ s)
    (hpr : ∀ c ∈ codePoints s, isPrintable (some c) = true)
    (hlen : (s.length : Int) > lineWidth) (hw : lineWidth ≠ -1)
    (hsp : s.head? ≠ some 32) :
    chooseScalarStyle s false indentPerLevel lineWidth testAmbiguousType quotingType
      false inblock = STYLE_FOLDED := by
  rw [chooseScalarStyle_multi_eq s indentPerLevel lineWidth testAmbiguousType quotingType
    inblock hs (fun c hc => Or.inr (hpr c hc))]
  have hLF : decide (10 ∈ s) = false := by simpa using hlf
  have hF : ((lineWidth != -1) && hasLongLine lineWidth (splitLines s)) = true := by
    rw [splitLines_noLF s hlf]
    simp [hasLongLine, hw, hlen, hsp]
  have hni : needIndentIndicator s = false := by
    cases s with
    | nil => rfl
    | cons c cs =>
      have hc : c ≠ 10 := fun e => hlf (by simp [e])
      have hc2 : c ≠ 32 := fun e => hsp (by simp [e])
      simp [needIndentIndicator, hc, hc2]
  simp [hLF, hF, hni]

/-- C11, witness: the string `aaa` with a line width of 2. -/
theorem chooseScalarStyle_folded_long_line_witness :
    chooseScalarStyle (js "aaa") false 2 2 (fun _ => false) QUOTING_TYPE_SINGLE false true
      = STYLE_FOLDED :=
  chooseScalarStyle_folded_long_line (js "aaa") 2 2 (fun _ => false) QUOTING_TYPE_SINGLE true
    (by decide) (by decide) (by decide) (by decide) (by decide) (by decide)

/-- C11, as stated, fails: a string that starts with a space is never folded,
so that ` aa` with a line width of 2 is quoted. -/
theorem chooseScalarStyle_folded_counterexample :
    10 ∉ js " aa" ∧ (∀ c ∈ codePoints (js " aa"), isPrintable (some c) = true)
    ∧ ((js " aa").length : Int) > 2
    ∧ chooseScalarStyle (js " aa") false 2 2 (fun _ => false) QUOTING_TYPE_SINGLE false true
        = STYLE_SINGLE := by
  decide

/-- C12: with `forceQuotes` set, the style is single or double, whatever the
string and the other arguments are. -/
theorem chooseScalarStyle_forceQuotes (s : JSString) (singleLineOnly : Bool)
    (indentPerLevel : Nat) (lineWidth : Int) (testAmbiguousType : JSString → Bool)
    (quotingType : Nat) (inblock : Bool) :
    (chooseScalarStyle s singleLineOnly indentPerLevel lineWidth testAmbiguousType quotingType
        true inblock = STYLE_SINGLE
      ∨ chooseScalarStyle s singleLineOnly indentPerLevel lineWidth testAmbiguousType
        quotingType true inblock = STYLE_DOUBLE)
    ∧ chooseScalarStyle s singleLineOnly indentPerLevel lineWidth testAmbiguousType quotingType
        true inblock ≠ STYLE_PLAIN
    ∧ chooseScalarStyle s singleLineOnly indentPerLevel lineWidth testAmbiguousType quotingType
        true inblock ≠ STYLE_LITERAL
    ∧ chooseScalarStyle s singleLineOnly indentPerLevel lineWidth testAmbiguousType quotingType
        true inblock ≠ STYLE_FOLDED := by
  have key : chooseScalarStyle s singleLineOnly indentPerLevel lineWidth testAmbiguousType
        quotingType true inblock = STYLE_SINGLE
      ∨ chooseScalarStyle s singleLineOnly indentPerLevel lineWidth testAmbiguousType
        quotingType true inblock = STYLE_DOUBLE := by
    unfold chooseScalarStyle
    simp only [Bool.or_true, if_true]
    cases hsc : scanSingleLine s inblock s.length
        { plain := isPlainSafeFirst (codePointAt s 0)
            && isPlainSafeLast (codePointAt s ((s.length : Int) - 1)) } with
    | none => right; rfl
    | some st =>
      have := scanSingleLine_fields s inblock _ _ _ hsc
      simp only [this.1, this.2]
      by_cases hq : quotingType = QUOTING_TYPE_DOUBLE
      · right; simp [hq]
      · left; simp [hq]
  refine ⟨key, ?_, ?_, ?_⟩ <;>
    (rcases key with h | h <;> rw [h] <;> decide)

/-- C13, as amended: for a non-empty string the block header is the indent
indicator, the chomping indicator and a line feed; the chomping indicator is
`-` when the string does not end in a line feed, `+` when it ends in two line
feeds or is a single line feed, and empty otherwise; the indent indicator is
the decimal indent when the first character after the leading line feeds is a
space and is empty otherwise. -/
theorem blockHeader_eq (s : JSString) (n : Nat) (hne : s ≠ []) :
    blockHeader s n =
      (if (s.dropWhile (· == 10)).head? = some 32 then natToString 10 n else [])
      ++ (if s.getLast? ≠ some 10 then js "-"
          else if s = [10] ∨ s.dropLast.getLast? = some 10 then js "+"
          else [])
      ++ [10] := by
  unfold blockHeader
  simp only [needIndentIndicator_eq, charCodeAt_last s hne, charCodeAt_before_last]
  by_cases h1 : s.getLast? = some 10
  · by_cases h2 : s.dropLast.getLast? = some 10
    · simp [h1, h2]
    · by_cases h3 : s = [10]
      · simp [h3]
      · simp [h1, h2, h3]
  · simp [h1]

/-- C13, witness: the headers of ` a`, of a text that ends in one line feed and
of a text that ends in two. -/
theorem blockHeader_eq_witness :
    blockHeader (js " a") 2 = js "2-\n" ∧ blockHeader (js "a\n") 2 = js "\n"
    ∧ blockHeader (js "a\n\n") 2 = js "+\n" :=
  ⟨(blockHeader_eq (js " a") 2 (by decide)).trans (by decide),
   (blockHeader_eq (js "a\n") 2 (by decide)).trans (by decide),
   (blockHeader_eq (js "a\n\n") 2 (by decide)).trans (by decide)⟩

/-- C13, as stated, fails: the string made of one line feed ends in exactly one
line feed and its chomping indicator is `+`. -/
theorem blockHeader_counterexample :
    blockHeader (js "\n") 2 = js "+\n" := by
  decide

end Dumper

/-! ## Claims on the schema -/

/-- C22: for a schema `S` held in a store and a definition of an accepted form
whose implicit types are not multi types, `extend` returns a new object, whose
implicit list is that of `S` followed by the implicit types of the definition
and whose explicit list is that of `S` followed by the explicit types of the
definition, with the lists compiled from these; every object of the store,
`S` among them, is after the call what it was before. -/
theorem extendAt_frame (store : List Schema) (this : Nat) (S : Schema)
    (definition : Definition)
    (hS : store[this]? = some S)
    (hform : definition.accepted = true)
    (hmulti : ∀ t ∈ definition.implicit, t.multi = false) :
    ∃ result store',
      Schema.extendAt store this definition = .ok (store.length, store')
      ∧ store'[store.length]? = some result
      ∧ result.implicit = S.implicit ++ definition.implicit
      ∧ result.explicit = S.explicit ++ definition.explicit
      ∧ result.compiledImplicit = compileList result.implicit
      ∧ result.compiledExplicit = compileList result.explicit
      ∧ result.compiledTypeMap = compileMap [result.compiledImplicit, result.compiledExplicit]
      ∧ (∀ a, a < store.length → store'[a]? = store[a]?)
      ∧ store'[this]? = some S := by
  have hlt : this < store.length := by
    by_contra hc
    have : store[this]? = none := List.getElem?_eq_none (by omega)
    rw [this] at hS; cases hS
  have hext : S.extend definition = .ok
      { implicit := S.implicit ++ definition.implicit
        explicit := S.explicit ++ definition.explicit
        compiledImplicit := compileList (S.implicit ++ definition.implicit)
        compiledExplicit := compileList (S.explicit ++ definition.explicit)
        compiledTypeMap := compileMap [compileList (S.implicit ++ definition.implicit),
          compileList (S.explicit ++ definition.explicit)] } := by
    unfold Schema.extend
    simp only [hform, Bool.not_true, Bool.false_eq_true, if_false,
      checkImplicit_ok definition.implicit hmulti]
  obtain ⟨R, hR, h1, h2, h3, h4, h5⟩ : ∃ R : Schema, S.extend definition = .ok R
      ∧ R.implicit = S.implicit ++ definition.implicit
      ∧ R.explicit = S.explicit ++ definition.explicit
      ∧ R.compiledImplicit = compileList R.implicit
      ∧ R.compiledExplicit = compileList R.explicit
      ∧ R.compiledTypeMap = compileMap [R.compiledImplicit, R.compiledExplicit] :=
    ⟨_, hext, rfl, rfl, rfl, rfl, rfl⟩
  refine ⟨R, store ++ [R], ?_, ?_, h1, h2, h3, h4, h5, ?_, ?_⟩
  · unfold Schema.extendAt
    simp only [hS, hR]
  · simp
  · intro a ha
    exact List.getElem?_append_left ha
  · rw [List.getElem?_append_left hlt]; exact hS

/-- C22, witness: the failsafe schema extended with the timestamp type as
implicit and the binary type as explicit. -/
theorem extendAt_frame_witness :
    ∃ result store',
      Schema.extendAt [FAILSAFE_SCHEMA] 0 (.lists (some [timestampType]) (some [binaryType]))
        = .ok (1, store')
      ∧ store'[1]? = some result
      ∧ result.implicit = FAILSAFE_SCHEMA.implicit ++ [timestampType]
      ∧ result.explicit = FAILSAFE_SCHEMA.explicit ++ [binaryType]
      ∧ store'[0]? = some FAILSAFE_SCHEMA :=
  (fun ⟨result, store', h1, h2, h3, h4, _, _, _, _, h9⟩ => ⟨result, store', h1, h2, h3, h4, h9⟩)
    (extendAt_frame [FAILSAFE_SCHEMA] 0 FAILSAFE_SCHEMA
      (.lists (some [timestampType]) (some [binaryType])) rfl rfl
      (by intro t ht; simp only [Definition.implicit, Option.getD_some, List.mem_singleton] at ht
          subst ht; rfl))

/-- C23, at a definition whose implicit list holds the mapping-kind type `map`
and the sequence-kind type `seq`: `extend` raises nothing and returns a schema
that has both types in its compiled implicit list. -/
theorem extend_accepts_non_scalar_implicit :
    mapType.kind = .mapping ∧ seqType.kind = .sequence
    ∧ (Schema.extend {} (.lists (some [mapType, seqType]) none)).map
        (fun s => s.compiledImplicit.map (fun t => (t.tag, t.kind)))
      = .ok [(js "tag:yaml.org,2002:map", .mapping), (js "tag:yaml.org,2002:seq", .sequence)] := by
  decide

/-- C24: the list `compileList` returns has no two types that agree on tag,
kind and multi, and it holds the triples of the registered types and no other;
registering one more type puts it at the place of the type of the same triple
when the list has one, the other types staying where they are, and at the end
of the list otherwise. -/
theorem compileList_distinct (types : List YType) (t : YType) :
    ((compileList types).map (fun p => (p.tag, p.kind, p.multi))).Nodup
    ∧ (∀ k, k ∈ (compileList types).map (fun p => (p.tag, p.kind, p.multi))
        ↔ k ∈ types.map (fun p => (p.tag, p.kind, p.multi)))
    ∧ compileList (types ++ [t]) =
        (if (compileList types).any
            (fun p => decide ((p.tag, p.kind, p.multi) = (t.tag, t.kind, t.multi))) then
          (compileList types).map (fun p =>
            if (p.tag, p.kind, p.multi) = (t.tag, t.kind, t.multi) then t else p)
        else compileList types ++ [t]) :=
  ⟨compileList_nodup types, compileList_triples types,
    (compileList_snoc types t).trans (compileStep_eq _ t (compileList_nodup types))⟩

namespace Loader

/-! ## Claims on directives, documents, aliases and tags -/

/-- C35: `handleYamlDirective` raises an error exactly when a version is
already recorded, or there is not exactly one argument, or the argument is not
`digits . digits` with a major number equal to 1; otherwise it records the
version, sets `checkLineBreaks` to `minor < 2`, and calls `throwWarning`
exactly when the minor number is neither 1 nor 2. -/
theorem handleYamlDirective_spec (state : State) (args : List JSString) :
    ((∃ e, handleYamlDirective state args = .error e) ↔
      (state.version ≠ none ∨ args.length ≠ 1
        ∨ ¬ ∃ major minor : JSString, major ≠ [] ∧ minor ≠ []
            ∧ (∀ c ∈ major, 48 ≤ c ∧ c ≤ 57) ∧ (∀ c ∈ minor, 48 ≤ c ∧ c ≤ 57)
            ∧ args = [major ++ 46 :: minor] ∧ parseDecimal major = 1))
    ∧ (∀ major minor : JSString, state.version = none → major ≠ [] → minor ≠ [] →
        (∀ c ∈ major, 48 ≤ c ∧ c ≤ 57) → (∀ c ∈ minor, 48 ≤ c ∧ c ≤ 57) →
        args = [major ++ 46 :: minor] → parseDecimal major = 1 →
        handleYamlDirective state args = .ok
          (if parseDecimal minor ≠ 1 ∧ parseDecimal minor ≠ 2 then
            throwWarning { state with version := some (major ++ 46 :: minor)
                                      checkLineBreaks := decide (parseDecimal minor < 2) }
              "unsupported YAML version of the document"
           else { state with version := some (major ++ 46 :: minor)
                             checkLineBreaks := decide (parseDecimal minor < 2) })) := by
  have hB : ∀ major minor : JSString, state.version = none → major ≠ [] → minor ≠ [] →
        (∀ c ∈ major, 48 ≤ c ∧ c ≤ 57) → (∀ c ∈ minor, 48 ≤ c ∧ c ≤ 57) →
        args = [major ++ 46 :: minor] → parseDecimal major = 1 →
        handleYamlDirective state args = .ok
          (if parseDecimal minor ≠ 1 ∧ parseDecimal minor ≠ 2 then
            throwWarning { state with version := some (major ++ 46 :: minor)
                                      checkLineBreaks := decide (parseDecimal minor < 2) }
              "unsupported YAML version of the document"
           else { state with version := some (major ++ 46 :: minor)
                             checkLineBreaks := decide (parseDecimal minor < 2) }) := by
    intro major minor hv hmaj hmin hdmaj hdmin hargs hone
    subst hargs
    have hsp := span_version major minor hdmaj hdmin
    unfold handleYamlDirective
    simp only [hv, bne_self_eq_false, Bool.false_eq_true, if_false, List.length_singleton,
      ne_eq, not_true_eq_false, List.headD_cons, hsp.1, List.drop_succ_cons, List.drop_zero,
      hsp.2, List.head?_cons, hmaj, hmin, or_self, hone]
    split <;> rfl
  refine ⟨⟨?_, ?_⟩, hB⟩
  · rintro ⟨e, he⟩
    by_contra hcon
    simp only [not_or, not_not] at hcon
    obtain ⟨hv, -, major, minor, hmaj, hmin, hdmaj, hdmin, hargs, hone⟩ := hcon
    rw [hB major minor hv hmaj hmin hdmaj hdmin hargs hone] at he
    cases he
  · intro h
    by_cases hv : state.version = none
    swap
    · refine ⟨.yaml "duplication of %YAML directive", ?_⟩
      unfold handleYamlDirective
      have : (state.version != none) = true := by simpa using hv
      rw [if_pos this]
    by_cases hl : args.length = 1
    swap
    · refine ⟨.yaml "YAML directive accepts exactly one argument", ?_⟩
      unfold handleYamlDirective
      have : (state.version != none) = false := by simp [hv]
      simp only [this, Bool.false_eq_true, if_false]
      rw [if_pos hl]
    have hno : ¬ ∃ major minor : JSString, major ≠ [] ∧ minor ≠ []
            ∧ (∀ c ∈ major, 48 ≤ c ∧ c ≤ 57) ∧ (∀ c ∈ minor, 48 ≤ c ∧ c ≤ 57)
            ∧ args = [major ++ 46 :: minor] ∧ parseDecimal major = 1 := by
      rcases h with h | h | h
      · exact absurd hv h
      · exact absurd hl h
      · exact h
    obtain ⟨arg, harg⟩ : ∃ arg, args = [arg] := by
      match args, hl with
      | [a], _ => exact ⟨a, rfl⟩
    subst harg
    have hvb : (state.version != none) = false := by simp [hv]
    have s1 := spanDigits_spec arg
    have s2 := spanDigits_spec ((spanDigits arg).2.drop 1)
    by_cases hill : (spanDigits arg).1 = [] ∨ (spanDigits arg).2.head? ≠ some 46
        ∨ (spanDigits ((spanDigits arg).2.drop 1)).1 = []
        ∨ (spanDigits ((spanDigits arg).2.drop 1)).2 ≠ []
    · refine ⟨.yaml "ill-formed argument of the YAML directive", ?_⟩
      unfold handleYamlDirective
      simp only [hvb, Bool.false_eq_true, if_false, List.length_singleton, ne_eq,
        not_true_eq_false, List.headD_cons]
      rw [if_pos hill]
    · simp only [not_or, not_not] at hill
      obtain ⟨h1, h2, h3, h4⟩ := hill
      have hrest : (spanDigits arg).2 = 46 :: (spanDigits arg).2.drop 1 := by
        cases hr : (spanDigits arg).2 with
        | nil => rw [hr] at h2; simp at h2
        | cons c cs => rw [hr] at h2; simp at h2; subst h2; rfl
      have hminor : (spanDigits arg).2.drop 1
          = (spanDigits ((spanDigits arg).2.drop 1)).1 := by
        have := s2.2
        rw [h4, List.append_nil] at this
        exact this.symm
      have harg : arg = (spanDigits arg).1 ++ 46 :: (spanDigits ((spanDigits arg).2.drop 1)).1 := by
        rw [← hminor, ← hrest, s1.2]
      by_cases hone : parseDecimal (spanDigits arg).1 = 1
      · exact absurd ⟨_, _, h1, h3, s1.1, s2.1, by rw [← harg], hone⟩ hno
      · refine ⟨.yaml "unacceptable YAML version of the document", ?_⟩
        unfold handleYamlDirective
        simp only [hvb, Bool.false_eq_true, if_false, List.length_singleton, ne_eq,
          not_true_eq_false, List.headD_cons]
        have hill' : ¬ ((spanDigits arg).1 = [] ∨ ¬ (spanDigits arg).2.head? = some 46
            ∨ (spanDigits ((spanDigits arg).2.drop 1)).1 = []
            ∨ ¬ (spanDigits ((spanDigits arg).2.drop 1)).2 = []) := by
          rintro (hc | hc | hc | hc)
          · exact h1 hc
          · exact hc h2
          · exact h3 hc
          · exact hc h4
        rw [if_neg hill', if_pos hone]

/-- C35, witness: the argument `1.3` on a state that delivers warnings: the
version is recorded, line breaks are not checked and one warning is
delivered; the argument `2.0` is refused. -/
theorem handleYamlDirective_spec_witness :
    (handleYamlDirective (State.new Host.reference (js "") { onWarning := true })
        [js "1.3"]).map (fun s => (s.version, s.checkLineBreaks, s.warnings))
      = .ok (some (js "1.3"), false, ["unsupported YAML version of the document"])
    ∧ ∃ e, handleYamlDirective (State.new Host.reference (js "") { onWarning := true })
        [js "2.0"] = .error e :=
  ⟨(congrArg (Except.map (fun s : State => (s.version, s.checkLineBreaks, s.warnings)))
      ((handleYamlDirective_spec (State.new Host.reference (js "") { onWarning := true })
        [js "1.3"]).2 (js "1") (js "3") rfl (by decide) (by decide) (by decide) (by decide)
        rfl (by decide))).trans (by decide),
   (handleYamlDirective_spec (State.new Host.reference (js "") { onWarning := true })
      [js "2.0"]).1.mpr (Or.inr (Or.inr (by
        rintro ⟨major, minor, _, _, hmaj, _, hargs, hone⟩
        have h2 : js "2.0" = major ++ 46 :: minor := by simpa using hargs
        cases major with
        | nil => simp [js] at h2
        | cons c cs =>
          have hc : c = 50 := by
            have := congrArg List.head? h2
            simpa [js] using this.symm
          subst hc
          cases cs with
          | nil => simp [parseDecimal] at hone
          | cons d ds =>
            have hd : d = 46 := by
              have := congrArg (fun l => l.tail.head?) h2
              simpa [js] using this.symm
            have := (hmaj d (by simp)).1
            omega)))⟩

/-- C28, as amended: the version directive is handled under the name `YAML`.
At a line `%YAML M.m` (M and m digits) that starts at the margin of a document
without a version, the loop over the directives raises
`unacceptable YAML version of the document` when M is not 1; when M is 1 it
records the version `M.m`, sets `checkLineBreaks` to `m < 2`, delivers the
warning `unsupported YAML version of the document` exactly when m is neither 1
nor 2, and goes on after the line.  A stream that starts with such a line
with M not 1 is refused by `loadDocuments`.  At a line `%VERSION M.m` the loop
delivers the warning of an unknown directive, leaves the version as it is and
goes on after the line, whatever M is. -/
theorem yaml_directive_by_name (host : Host) (fuel : Nat) (state : State)
    (A major minor rest : JSString) (hasDirectives : Bool) (options : Options)
    (hmaj : major ≠ []) (hmin : minor ≠ [])
    (hdmaj : ∀ c ∈ major, 48 ≤ c ∧ c ≤ 57) (hdmin : ∀ c ∈ minor, 48 ≤ c ∧ c ≤ 57) :
    (state.input = A ++ js "%YAML " ++ major ++ [46] ++ minor ++ [10] ++ rest →
      state.position = A.length → state.lineIndent = 0 → state.version = none →
      (parseDecimal major ≠ 1 →
        directivesLoop (fuel + 1) state hasDirectives
          = .error (.yaml "unacceptable YAML version of the document"))
      ∧ (parseDecimal major = 1 →
        directivesLoop (fuel + 1) state hasDirectives
          = directivesLoop fuel
              (if parseDecimal minor ≠ 1 ∧ parseDecimal minor ≠ 2 then
                throwWarning
                  { state with position := A.length + major.length + minor.length + 8
                               line := state.line + 1
                               lineStart := A.length + major.length + minor.length + 8
                               firstTabInLine := -1
                               version := some (major ++ 46 :: minor)
                               checkLineBreaks := decide (parseDecimal minor < 2) }
                  "unsupported YAML version of the document"
               else
                  { state with position := A.length + major.length + minor.length + 8
                               line := state.line + 1
                               lineStart := A.length + major.length + minor.length + 8
                               firstTabInLine := -1
                               version := some (major ++ 46 :: minor)
                               checkLineBreaks := decide (parseDecimal minor < 2) }) true))
    ∧ (0 ∉ rest → parseDecimal major ≠ 1 →
        loadDocuments host (fuel + 1)
            (js "%YAML " ++ major ++ [46] ++ minor ++ [10] ++ rest) options
          = .error (.yaml "unacceptable YAML version of the document"))
    ∧ (state.input = A ++ js "%VERSION " ++ major ++ [46] ++ minor ++ [10] ++ rest →
      state.position = A.length → state.lineIndent = 0 →
        directivesLoop (fuel + 1) state hasDirectives
          = directivesLoop fuel
              (throwWarning
                { state with position := A.length + major.length + minor.length + 11
                             line := state.line + 1
                             lineStart := A.length + major.length + minor.length + 11
                             firstTabInLine := -1 }
                "unknown document directive \"VERSION\"") true
        ∧ (throwWarning
                { state with position := A.length + major.length + minor.length + 11
                             line := state.line + 1
                             lineStart := A.length + major.length + minor.length + 11
                             firstTabInLine := -1 }
                "unknown document directive \"VERSION\"").version = state.version) := by
  refine ⟨?_, ?_, ?_⟩
  · intro hinput hpos hindent hversion
    have e : state.input
        = A ++ [37] ++ js "YAML" ++ [32] ++ (major ++ 46 :: minor) ++ [10] ++ rest := by
      rw [hinput]; simp [js]
    have hline := directivesLoop_line state A (js "YAML") (major ++ 46 :: minor) rest fuel
      hasDirectives e hpos hindent (by decide) directive_names.1 (by simp)
      (version_chars major minor hdmaj hdmin) (version_head major minor hdmaj)
    rw [if_pos (by decide)] at hline
    have hp : A.length + (js "YAML").length + (major ++ 46 :: minor).length + 3
        = A.length + major.length + minor.length + 8 := by
      simp only [List.length_append, List.length_cons]
      have : (js "YAML").length = 4 := by decide
      omega
    rw [hp] at hline
    constructor
    · intro hone
      rw [hline]
      refine (congrArg (fun r => Except.bind r (fun s => directivesLoop fuel s true))
        (handleYamlDirective_major _ major minor ?_ hmaj hmin hdmaj hdmin hone)).trans rfl
      exact hversion
    · intro hone
      rw [hline]
      refine (congrArg (fun r => Except.bind r (fun s => directivesLoop fuel s true))
        (handleYamlDirective_version _ major minor ?_ hmaj hmin hdmaj hdmin hone)).trans ?_
      · exact hversion
      · simp only [Except.bind]
  · intro h0 hone
    exact loadDocuments_version_major host fuel major minor rest options hmaj hmin hdmaj hdmin
      h0 hone
  · intro hinput hpos hindent
    have e : state.input
        = A ++ [37] ++ js "VERSION" ++ [32] ++ (major ++ 46 :: minor) ++ [10] ++ rest := by
      rw [hinput]; simp [js]
    have hline := directivesLoop_line state A (js "VERSION") (major ++ 46 :: minor) rest fuel
      hasDirectives e hpos hindent (by decide) directive_names.2 (by simp)
      (version_chars major minor hdmaj hdmin) (version_head major minor hdmaj)
    rw [if_neg (by decide), if_neg (by decide)] at hline
    have hp : A.length + (js "VERSION").length + (major ++ 46 :: minor).length + 3
        = A.length + major.length + minor.length + 11 := by
      simp only [List.length_append, List.length_cons]
      have : (js "VERSION").length = 7 := by decide
      omega
    rw [hp] at hline
    have hs : showString (js "VERSION") = "VERSION" := by decide
    rw [hs] at hline
    refine ⟨?_, ?_⟩
    · rw [hline]
      rfl
    · unfold throwWarning
      split <;> rfl

/-- C28, as amended, witness: the stream `%YAML 2.0`, `--- a` is refused; on
the stream `%YAML 1.3`, `--- a` the loop over the directives records the
version `1.3` and delivers the warning, and the load gives the document `a`
with that warning; `%YAML 1.2` is accepted without warning. -/
theorem yaml_directive_by_name_witness :
    loadDocuments Host.reference 100 (js "%YAML 2.0\n--- a\n") { onWarning := true }
      = .error (.yaml "unacceptable YAML version of the document")
    ∧ (directivesLoop 10
          { State.new Host.reference (js "%YAML 1.3\n--- a\n") { onWarning := true } with
              input := js "%YAML 1.3\n--- a\n\x00" } false).map
        (fun r => (r.1.version, r.1.checkLineBreaks, r.1.warnings, r.1.position, r.2))
      = .ok (some (js "1.3"), false, ["unsupported YAML version of the document"], 10, true)
    ∧ (loadDocuments Host.reference 100 (js "%YAML 1.3\n--- a\n") { onWarning := true }).map
        (fun s => (s.documents, s.warnings))
      = .ok ([.str (js "a")], ["unsupported YAML version of the document"])
    ∧ (loadDocuments Host.reference 100 (js "%YAML 1.2\n--- a\n") { onWarning := true }).map
        (fun s => (s.documents, s.warnings))
      = .ok ([.str (js "a")], []) :=
  ⟨(yaml_directive_by_name Host.reference 99
      (State.new Host.reference (js "%YAML 2.0\n--- a\n") { onWarning := true })
      [] (js "2") (js "0") (js "--- a\n") false { onWarning := true }
      (by decide) (by decide) (by decide) (by decide)).2.1 (by decide) (by decide),
   (congrArg (Except.map (fun r : State × Bool =>
        (r.1.version, r.1.checkLineBreaks, r.1.warnings, r.1.position, r.2)))
      (((yaml_directive_by_name Host.reference 9
        { State.new Host.reference (js "%YAML 1.3\n--- a\n") { onWarning := true } with
            input := js "%YAML 1.3\n--- a\n\x00" }
        [] (js "1") (js "3") (js "--- a\n\x00") false {}
        (by decide) (by decide) (by decide) (by decide)).1 rfl rfl rfl rfl).2
          (by decide))).trans (by decide!),
   by decide!, by decide!⟩

/-- C28, as stated, fails: a line `%VERSION 2.0` does not make the load fail,
and `%VERSION 1.3` is not taken as a version; both are unknown directives,
which are skipped with a warning. -/
theorem version_directive_counterexample :
    (loadDocuments Host.reference 100 (js "%VERSION 2.0\n--- a\n") { onWarning := true }).map
        (fun s => (s.documents, s.version, s.warnings))
      = .ok ([.str (js "a")], none, ["unknown document directive \"VERSION\""])
    ∧ (loadDocuments Host.reference 100 (js "%VERSION 1.3\n--- a\n") { onWarning := true }).map
        (fun s => (s.documents, s.version, s.warnings))
      = .ok ([.str (js "a")], none, ["unknown document directive \"VERSION\""]) := by
  decide!

/-- C27: `loadAll` returns one element per document of the stream, in stream
order.  Whenever `loadDocuments` succeeds on an input, the list of documents
that it leaves is the list `streamRoots` of the roots of the documents, one
for each round of reading a document and in the order of the rounds;
`loadAll` without an iterator returns that list, and `loadAll` with an
iterator returns nothing and calls the iterator once for each element, in the
same order.  Each successful `readDocument` appends exactly one element to the
documents, the root that it leaves in `state.result`, and each run of the loop
of `loadDocuments` appends the roots of its rounds in their order. -/
theorem loadAll_in_stream_order (host : Host) (fuel : Nat) (input : JSString)
    (options : Options) (documents : List JSVal) (heap : Heap)
    (h : (loadDocuments host fuel input options).map (fun s => (s.documents, s.heap))
      = .ok (documents, heap)) :
    streamRoots host fuel input options = .ok documents
    ∧ loadAll host fuel input false options = .ok (some documents, [], heap)
    ∧ loadAll host fuel input true options = .ok (none, documents, heap)
    ∧ (∀ state s1 : State, readDocument host fuel state = .ok s1 →
        s1.documents = state.documents ++ [s1.result])
    ∧ (∀ (n : Nat) (state final : State), documentsLoop host fuel n state = .ok final →
        ∃ roots, documentRoots host fuel n state = .ok roots
          ∧ final.documents = state.documents ++ roots) := by
  cases hl : loadDocuments host fuel input options with
  | error e => rw [hl] at h; simp [Except.map] at h
  | ok state =>
    rw [hl] at h
    simp only [Except.map, Except.ok.injEq, Prod.mk.injEq] at h
    refine ⟨?_, ?_, ?_, readDocument_documents host fuel, documentsLoop_roots host fuel⟩
    · rw [← h.1]
      exact loadDocuments_roots host fuel input options state hl
    · unfold loadAll
      simp [hl, h.1, h.2]
    · unfold loadAll
      simp [hl, h.1, h.2]

/-- C27, witness: the text `a`, `---`, `b` on three lines has the roots `a`
then `b`, and `loadAll` gives them in that order, as the list it returns or as
the arguments of the calls of the iterator. -/
theorem loadAll_in_stream_order_witness :
    streamRoots Host.reference 100 (js "a\n---\nb") {}
      = .ok [.str (js "a"), .str (js "b")]
    ∧ (loadAll Host.reference 100 (js "a\n---\nb") false {}).map (fun r => r.1)
      = .ok (some [.str (js "a"), .str (js "b")])
    ∧ (loadAll Host.reference 100 (js "a\n---\nb") true {}).map (fun r => (r.1, r.2.1))
      = .ok (none, [.str (js "a"), .str (js "b")]) :=
  have hw := loadAll_in_stream_order Host.reference 100 (js "a\n---\nb") {}
    [.str (js "a"), .str (js "b")]
    [.array [], .object .objectPrototype [], .array [], .object .objectPrototype []]
    (by decide!)
  ⟨hw.1,
   (congrArg (Except.map (fun r : Option (List JSVal) × List JSVal × Heap => r.1))
      hw.2.1).trans rfl,
   (congrArg (Except.map (fun r : Option (List JSVal) × List JSVal × Heap => (r.1, r.2.1)))
      hw.2.2.1).trans rfl⟩

/-- C29: `readDocument` does not depend on the anchors and tag handles of the
state it receives (it starts from empty maps), and on a `*` followed by a name
of at least one character `readAlias` raises `unidentified alias` exactly when
the name is not a key of the anchor map. -/
theorem readAlias_current_document (host : Host) (fuel : Nat) (state : State)
    (name : JSString)
    (hch : state.ch = some 42)
    (hname : name = slice state.input (state.position + 1)
      (advanceWhile (fun ch => ch != some 0 && !is_WS_OR_EOL ch && !is_FLOW_INDICATOR ch)
        state.input.length { state with position := state.position + 1 }).position)
    (hne : (advanceWhile (fun ch => ch != some 0 && !is_WS_OR_EOL ch && !is_FLOW_INDICATOR ch)
        state.input.length { state with position := state.position + 1 }).position
      ≠ state.position + 1) :
    (∀ anchorMap tagMap, readDocument host fuel { state with anchorMap := anchorMap
                                                             tagMap := tagMap }
      = readDocument host fuel { state with anchorMap := [], tagMap := [] })
    ∧ (readAlias state = .error (.yaml ("unidentified alias \"" ++ showString name ++ "\""))
        ↔ lookup state.anchorMap name = none) := by
  refine ⟨fun _ _ => rfl, ?_⟩
  have hch' : (state.ch != some 42) = false := by simp [hch]
  have hfr := advanceWhile_anchorMap
    (fun ch => ch != some 0 && !is_WS_OR_EOL ch && !is_FLOW_INDICATOR ch)
    state.input.length { state with position := state.position + 1 }
  have hne' : ((advanceWhile
      (fun ch => ch != some 0 && !is_WS_OR_EOL ch && !is_FLOW_INDICATOR ch)
        state.input.length { state with position := state.position + 1 }).position
      == state.position + 1) = false := by simpa using hne
  unfold readAlias
  simp only [hch', Bool.false_eq_true, if_false, hne', hfr.1, hfr.2, ← hname]
  cases hl : lookup state.anchorMap name with
  | none => simp
  | some v => simp

/-- C29, witness: in a stream of two documents the alias `*x` of the second
document is not identified, although the first document defines the anchor
`x`; within one document it is. -/
theorem readAlias_current_document_witness :
    readAlias (State.new Host.reference (js "*x \u0000") {})
      = .error (.yaml ("unidentified alias \"" ++ showString (js "x") ++ "\""))
    ∧ (loadDocuments Host.reference 100 (js "&x a\n---\n*x\n") {}).map (fun s => s.documents)
      = .error (.yaml "unidentified alias \"x\"")
    ∧ (loadDocuments Host.reference 100 (js "- &x a\n- *x\n") {}).map
        (fun s => s.documents.map (arrayItems s.heap))
      = .ok [[.str (js "a"), .str (js "a")]] :=
  ⟨((readAlias_current_document Host.reference 100
      (State.new Host.reference (js "*x \u0000") {}) (js "x") (by decide) (by decide)
      (by decide)).2).mpr (by decide),
   by decide!, by decide!⟩

/-- C26: for a node whose tag is the implicit marker `?` and whose kind is
scalar, the tag is finalized by the first type of the implicit list whose
`resolve` accepts the result: the result becomes what its `construct` returns
and the tag becomes its tag; when no implicit type accepts the result, the
state, and so the result, is unchanged.  The implicit list of the default
schema is null, bool, int, float, timestamp, merge. -/
theorem finalizeTag_implicit (state : State)
    (htag : state.tag = some (js "?")) (hkind : state.kind = some .scalar) :
    (∀ (before : List YType) (type : YType) (after : List YType),
        state.implicitTypes = before ++ type :: after →
        (∀ t ∈ before, t.resolve state.heap state.result none = false) →
        type.resolve state.heap state.result none = true →
        finalizeTag state =
          (type.construct state.heap state.result none).map (fun r =>
            ({ state with result := r.1, heap := r.2, tag := some type.tag }).recordAnchor))
    ∧ ((∀ t ∈ state.implicitTypes, t.resolve state.heap state.result none = false) →
        finalizeTag state = .ok state)
    ∧ (State.new Host.reference (js "") {}).implicitTypes.map (fun t => t.tag)
        = [js "tag:yaml.org,2002:null", js "tag:yaml.org,2002:bool",
           js "tag:yaml.org,2002:int", js "tag:yaml.org,2002:float",
           js "tag:yaml.org,2002:timestamp", js "tag:yaml.org,2002:merge"] := by
  have hfin : finalizeTag state = resolveImplicit state.implicitTypes state := by
    unfold finalizeTag
    simp [htag, hkind]
  have hnone : ∀ (types : List YType) (st : State),
      (∀ t ∈ types, t.resolve st.heap st.result none = false) →
      resolveImplicit types st = .ok st := by
    intro types
    induction types with
    | nil => intro st _; rfl
    | cons t ts ih =>
      intro st h
      simp only [resolveImplicit, h t (by simp), Bool.false_eq_true, if_false]
      exact ih st (fun x hx => h x (by simp [hx]))
  have hfirst : ∀ (before : List YType) (type : YType) (after : List YType) (st : State),
      (∀ t ∈ before, t.resolve st.heap st.result none = false) →
      type.resolve st.heap st.result none = true →
      resolveImplicit (before ++ type :: after) st =
        (type.construct st.heap st.result none).map (fun r =>
          ({ st with result := r.1, heap := r.2, tag := some type.tag }).recordAnchor) := by
    intro before
    induction before with
    | nil =>
      intro type after st _ hres
      simp only [List.nil_append, resolveImplicit, hres, if_true]
      cases type.construct st.heap st.result none with
      | error e => rfl
      | ok r => rfl
    | cons t ts ih =>
      intro type after st h hres
      simp only [List.cons_append, resolveImplicit, h t (by simp), Bool.false_eq_true, if_false]
      exact ih type after st (fun x hx => h x (by simp [hx])) hres
  refine ⟨?_, ?_, by decide!⟩
  · intro before type after hsplit hbefore hres
    exact (hfin.trans (congrArg (fun l => resolveImplicit l state) hsplit)).trans
      (hfirst before type after state hbefore hres)
  · intro h
    rw [hfin]
    exact hnone _ state h

/-- C26, witness: the plain scalar `123` is constructed by the int type and
`abc` stays a string. -/
theorem finalizeTag_implicit_witness :
    (finalizeTag { State.new Host.reference (js "") {} with
        tag := some (js "?"), kind := some .scalar, result := .str (js "abc") }).map
        (fun s => (s.result, s.tag))
      = .ok (.str (js "abc"), some (js "?"))
    ∧ (load Host.reference 100 (js "123") {}).map Prod.fst = .ok (.num 123)
    ∧ (load Host.reference 100 (js "abc") {}).map Prod.fst = .ok (.str (js "abc")) :=
  ⟨(congrArg (Except.map (fun s : State => (s.result, s.tag)))
      ((finalizeTag_implicit { State.new Host.reference (js "") {} with
        tag := some (js "?"), kind := some .scalar, result := .str (js "abc") } rfl rfl).2.1
        (by decide!))).trans rfl,
   by decide!, by decide!⟩

/-- C25, as amended: for a node whose tag is neither `!` nor `?`, the tag is
finalized by the type of the exact entry of the type map for the node's kind
and tag when there is one, and otherwise by the first multi type of that kind
whose tag is a prefix of the node's tag; when there is neither, `unknown tag`
is raised; when the type's `resolve` rejects the result, `cannot resolve a
node` is raised; otherwise the result is what the type's `construct`
returns. -/
theorem finalizeTag_explicit (state : State) (tag : JSString) (selected : Option YType)
    (htag : state.tag = some tag) (h1 : tag ≠ js "!") (h2 : tag ≠ js "?")
    (hsel : selected =
      match lookup (state.typeMap.exact state.kind) tag with
      | some type => some type
      | none => (state.typeMap.multi state.kind).find?
          (fun t => tag.take t.tag.length == t.tag)) :
    (selected = none →
      finalizeTag state = .error (.yaml ("unknown tag !<" ++ showString tag ++ ">")))
    ∧ (∀ type, selected = some type →
        (state.result = .null ∨ some type.kind = state.kind) →
        type.resolve state.heap state.result (some tag) = false →
        finalizeTag state = .error
          (.yaml ("cannot resolve a node with !<" ++ showString tag ++ "> explicit tag")))
    ∧ (∀ type, selected = some type →
        (state.result = .null ∨ some type.kind = state.kind) →
        type.resolve state.heap state.result (some tag) = true →
        finalizeTag state =
          (type.construct state.heap state.result (some tag)).map (fun r =>
            ({ state with result := r.1, heap := r.2 }).recordAnchor)) := by
  have hq : (tag == js "?") = false := by simpa using h2
  have hb : (tag != js "!") = true := by simpa using h1
  have hbody : ∀ sel : Option YType,
      (match sel with
        | none => (Except.error (.yaml ("unknown tag !<" ++ showString tag ++ ">")) :
            Except JSError State)
        | some type =>
          if state.result != .null && some type.kind != state.kind then
            .error (.yaml ("unacceptable node kind for !<" ++ showString tag
              ++ "> tag; it should be \"" ++ type.kind.text ++ "\", not \""
              ++ kindText state.kind ++ "\""))
          else if !type.resolve state.heap state.result (some tag) then
            .error (.yaml ("cannot resolve a node with !<" ++ showString tag
              ++ "> explicit tag"))
          else
            match type.construct state.heap state.result (some tag) with
            | .error e => .error e
            | .ok (v, heap) => .ok ({ state with result := v, heap := heap }).recordAnchor) =
      (match sel with
        | none => .error (.yaml ("unknown tag !<" ++ showString tag ++ ">"))
        | some type =>
          if state.result != .null && some type.kind != state.kind then
            .error (.yaml ("unacceptable node kind for !<" ++ showString tag
              ++ "> tag; it should be \"" ++ type.kind.text ++ "\", not \""
              ++ kindText state.kind ++ "\""))
          else if !type.resolve state.heap state.result (some tag) then
            .error (.yaml ("cannot resolve a node with !<" ++ showString tag
              ++ "> explicit tag"))
          else
            (type.construct state.heap state.result (some tag)).map (fun r =>
              ({ state with result := r.1, heap := r.2 }).recordAnchor)) := by
    intro sel
    cases sel with
    | none => rfl
    | some type =>
      simp only []
      split
      · rfl
      · split
        · rfl
        · cases type.construct state.heap state.result (some tag) with
          | error e => rfl
          | ok r => rfl
  have hu' : ∀ sel : Option YType, sel = selected → finalizeTag state =
      match sel with
      | none => .error (.yaml ("unknown tag !<" ++ showString tag ++ ">"))
      | some type =>
        if state.result != .null && some type.kind != state.kind then
          .error (.yaml ("unacceptable node kind for !<" ++ showString tag
            ++ "> tag; it should be \"" ++ type.kind.text ++ "\", not \""
            ++ kindText state.kind ++ "\""))
        else if !type.resolve state.heap state.result (some tag) then
          .error (.yaml ("cannot resolve a node with !<" ++ showString tag ++ "> explicit tag"))
        else
          (type.construct state.heap state.result (some tag)).map (fun r =>
            ({ state with result := r.1, heap := r.2 }).recordAnchor) := by
    intro sel hsel'
    rw [← hbody sel]
    subst hsel'
    unfold finalizeTag
    simp only [htag, hq, hb, Bool.false_eq_true, if_false, if_true]
    cases hl : lookup (state.typeMap.exact state.kind) tag with
    | some t =>
      have hs : sel = some t := by rw [hsel, hl]
      subst hs; rfl
    | none =>
      cases hf : (state.typeMap.multi state.kind).find?
          (fun t => tag.take t.tag.length == t.tag) with
      | none =>
        have hs : sel = none := by rw [hsel, hl]; exact hf
        subst hs; rfl
      | some t =>
        have hs : sel = some t := by rw [hsel, hl]; exact hf
        subst hs; rfl
  have hu := hu' selected rfl
  have hk : ∀ type : YType, (state.result = .null ∨ some type.kind = state.kind) →
      (state.result != .null && some type.kind != state.kind) = false := by
    intro type h
    rcases h with h | h
    · simp [h]
    · simp [h]
  refine ⟨?_, ?_, ?_⟩
  · intro hs
    rw [hu, hs]
  · intro type hs hkind hres
    rw [hu, hs]
    simp only [hk type hkind, hres, Bool.false_eq_true, if_false, Bool.not_false, if_true]
  · intro type hs hkind hres
    rw [hu, hs]
    simp only [hk type hkind, hres, Bool.false_eq_true, if_false, Bool.not_true]

/-- C25, witness: the tag `!custom` is unknown to the default schema, and the
int type does not resolve the text `abc`. -/
theorem finalizeTag_explicit_witness :
    finalizeTag { State.new Host.reference (js "") {} with
        tag := some (js "!custom"), kind := some .scalar, result := .str (js "value") }
      = .error (.yaml ("unknown tag !<" ++ showString (js "!custom") ++ ">"))
    ∧ load Host.reference 100 (js "!<!custom> value") {}
      = .error (.yaml "unknown tag !<!custom>")
    ∧ load Host.reference 100 (js "!!int abc") {}
      = .error (.yaml "cannot resolve a node with !<tag:yaml.org,2002:int> explicit tag")
    ∧ (load Host.reference 100 (js "!!str 123") {}).map Prod.fst = .ok (.str (js "123")) :=
  ⟨(finalizeTag_explicit { State.new Host.reference (js "") {} with
        tag := some (js "!custom"), kind := some .scalar, result := .str (js "value") }
      (js "!custom") none rfl (by decide) (by decide) rfl).1 rfl,
   by decide!, by decide!, by decide!⟩

/-- C25, as stated, fails: the verbatim tag `!<?>` is an explicit tag other
than `!` for which no type is registered, and the node is resolved as an
untagged one instead of raising `unknown tag`. -/
theorem explicit_tag_counterexample :
    (load Host.reference 100 (js "!<?> 123") {}).map Prod.fst = .ok (.num 123) := by
  decide!

end Loader

/-! ## Claims on quoting, code points and re-serialization -/

/-- C32, at the string `...`: `dump` writes it as the plain text `...`, which
`load` reads as `null`, and `dump(null)` is the text `null`, so that
`dump(load(dump(v)))` differs from `dump(v)`. -/
theorem reserialization_fails_on_three_dots :
    Dumper.dump Host.reference 100 [] (.str (js "...")) {} = .ok (js "...\n")
    ∧ (Loader.load Host.reference 100 (js "...\n") {}).map Prod.fst = .ok .null
    ∧ Dumper.dump Host.reference 100 [] .null {} = .ok (js "null\n")
    ∧ js "null\n" ≠ js "...\n" := by
  decide!

/-- C33: for a code point `c` of at most `0xFFFF`, `charFromCodepoint(c)` is
the one-unit string `c`, whose code point at index 0 is `c`; for a code point
from `0x10000` to `0x10FFFF` it is a high surrogate followed by a low
surrogate, and the code point of that string at index 0 is `c`. -/
theorem charFromCodepoint_codePointAt (c : Nat) (h : c ≤ 1114111) :
    (c ≤ 65535 → Loader.charFromCodepoint c = [c]
      ∧ Dumper.codePointAt (Loader.charFromCodepoint c) 0 = some c)
    ∧ (65536 ≤ c → ∃ high low, Loader.charFromCodepoint c = [high, low]
      ∧ 55296 ≤ high ∧ high ≤ 56319 ∧ 56320 ≤ low ∧ low ≤ 57343
      ∧ Dumper.codePointAt (Loader.charFromCodepoint c) 0 = some c) := by
  constructor
  · intro hc
    have h1 : ((c : Int) ≤ 65535) := by omega
    have h2 : Loader.fromCharCode (c : Int) = c := by
      unfold Loader.fromCharCode; omega
    have hcf : Loader.charFromCodepoint c = [c] := by
      unfold Loader.charFromCodepoint
      rw [if_pos h1, h2]
    refine ⟨hcf, ?_⟩
    rw [hcf]
    simp [Dumper.codePointAt, charCodeAt]
  · intro hc
    have h1 : ¬ ((c : Int) ≤ 65535) := by omega
    have hh : Loader.fromCharCode (((c : Int) - 65536) / 1024 + 55296)
        = (c - 65536) / 1024 + 55296 := by
      unfold Loader.fromCharCode; omega
    have hl : Loader.fromCharCode (((c : Int) - 65536) % 1024 + 56320)
        = (c - 65536) % 1024 + 56320 := by
      unfold Loader.fromCharCode; omega
    have hcf : Loader.charFromCodepoint c
        = [(c - 65536) / 1024 + 55296, (c - 65536) % 1024 + 56320] := by
      unfold Loader.charFromCodepoint
      rw [if_neg h1, hh, hl]
    refine ⟨_, _, hcf, by omega, by omega, by omega, by omega, ?_⟩
    rw [hcf]
    have a1 : (c - 65536) / 1024 + 55296 ≥ 55296 := by omega
    have a2 : (c - 65536) / 1024 + 55296 ≤ 56319 := by omega
    have a3 : (c - 65536) % 1024 + 56320 ≥ 56320 := by omega
    have a4 : (c - 65536) % 1024 + 56320 ≤ 57343 := by omega
    simp only [Dumper.codePointAt, charCodeAt]
    simp [a2, a4]
    omega

/-- C33, witness: the code points `0x1F600` and `0x41`. -/
theorem charFromCodepoint_codePointAt_witness :
    (∃ high low, Loader.charFromCodepoint (128512 : Nat) = [high, low]
      ∧ 55296 ≤ high ∧ high ≤ 56319 ∧ 56320 ≤ low ∧ low ≤ 57343
      ∧ Dumper.codePointAt (Loader.charFromCodepoint (128512 : Nat)) 0 = some 128512)
    ∧ Loader.charFromCodepoint (65 : Nat) = [65] :=
  ⟨(charFromCodepoint_codePointAt 128512 (by decide)).2 (by decide),
   ((charFromCodepoint_codePointAt 65 (by decide)).1 (by decide)).1⟩

namespace Dumper

/-- C36: `writeScalar` writes the empty string as two single quotes, or as two
double quotes when the quoting preference is double, for every state, level
and position; this is never the empty text. -/
theorem writeScalar_empty (state : State) (level : Nat) (iskey inblock : Bool) :
    writeScalar state [] level iskey inblock
      = .ok (if state.quotingType = QUOTING_TYPE_DOUBLE then js "\"\"" else js "''")
    ∧ writeScalar state [] level iskey inblock ≠ .ok []
    ∧ dump Host.reference 100 [] (.str []) {} = .ok (js "''\n")
    ∧ (Loader.load Host.reference 100 (js "''\n") {}).map Prod.fst = .ok (.str [])
    ∧ dump Host.reference 100 [] (.str []) { quotingDouble := true } = .ok (js "\"\"\n")
    ∧ (Loader.load Host.reference 100 (js "\"\"\n") {}).map Prod.fst = .ok (.str []) := by
  have h : writeScalar state [] level iskey inblock
      = .ok (if state.quotingType = QUOTING_TYPE_DOUBLE then js "\"\"" else js "''") := by
    simp [writeScalar]
  refine ⟨h, ?_, by decide!, by decide!, by decide!, by decide!⟩
  rw [h]
  split <;> decide

/-- C38: a string that holds a code point that is neither printable nor a line
feed is given the double-quoted style whatever the other arguments are, and
with `singleLineOnly` or `forceQuotes` set so is a string that holds a line
feed. -/
theorem chooseScalarStyle_double_of_non_printable (s : JSString) (singleLineOnly : Bool)
    (indentPerLevel : Nat) (lineWidth : Int) (testAmbiguousType : JSString → Bool)
    (quotingType : Nat) (forceQuotes inblock : Bool)
    (hs : ∀ u ∈ s, u < 65536) :
    ((∃ c ∈ codePoints s, c ≠ 10 ∧ isPrintable (some c) = false) →
      chooseScalarStyle s singleLineOnly indentPerLevel lineWidth testAmbiguousType quotingType
        forceQuotes inblock = STYLE_DOUBLE)
    ∧ ((singleLineOnly = true ∨ forceQuotes = true) → 10 ∈ s →
      chooseScalarStyle s singleLineOnly indentPerLevel lineWidth testAmbiguousType quotingType
        forceQuotes inblock = STYLE_DOUBLE) := by
  have hsingle : (singleLineOnly || forceQuotes) = true →
      (∃ c ∈ codePoints s, isPrintable (some c) = false) →
      chooseScalarStyle s singleLineOnly indentPerLevel lineWidth testAmbiguousType quotingType
        forceQuotes inblock = STYLE_DOUBLE := by
    intro hm hbad
    have e := scanSingleLine_none inblock s.length [] s
      { plain := isPlainSafeFirst (codePointAt s 0)
          && isPlainSafeLast (codePointAt s ((s.length : Int) - 1)) }
      s.length (Nat.le_refl _) (Nat.le_refl _) hs hbad (by simp)
    simp only [List.nil_append] at e
    unfold chooseScalarStyle
    simp only [hm, if_true, e]
  constructor
  · rintro ⟨c, hcm, hc10, hcbad⟩
    by_cases hm : (singleLineOnly || forceQuotes) = true
    · exact hsingle hm ⟨c, hcm, hcbad⟩
    · have e := scanMultiLine_none lineWidth (lineWidth != -1) inblock s.length [] s
        { plain := isPlainSafeFirst (codePointAt s 0)
            && isPlainSafeLast (codePointAt s ((s.length : Int) - 1)) }
        s.length (Nat.le_refl _) (Nat.le_refl _) hs ⟨c, hcm, hc10, hcbad⟩ (by simp)
      simp only [List.nil_append] at e
      unfold chooseScalarStyle
      simp only [hm, Bool.false_eq_true, if_false, e]
  · intro hm hlf
    apply hsingle
    · rcases hm with h | h <;> simp [h]
    · exact ⟨10, (mem_codePoints_LF s hs).mpr hlf, by decide⟩

/-- C38, witness: a string with a bell character, and a string with a line
feed as a key. -/
theorem chooseScalarStyle_double_of_non_printable_witness :
    chooseScalarStyle (js "a\u0007b") false 2 78 (fun _ => false) QUOTING_TYPE_SINGLE false true
      = STYLE_DOUBLE
    ∧ chooseScalarStyle (js "a\nb") true 2 78 (fun _ => false) QUOTING_TYPE_SINGLE false true
      = STYLE_DOUBLE :=
  ⟨(chooseScalarStyle_double_of_non_printable (js "a\u0007b") false 2 78 (fun _ => false)
      QUOTING_TYPE_SINGLE false true (by decide)).1 ⟨7, by decide, by decide, by decide⟩,
   (chooseScalarStyle_double_of_non_printable (js "a\nb") true 2 78 (fun _ => false)
      QUOTING_TYPE_SINGLE false true (by decide)).2 (Or.inl rfl) (by decide)⟩

end Dumper

namespace Dumper

/-! ## Claims on `writeNode` -/

/-- C16, as amended: with `sortKeys` unset a mapping is written over the keys of
`Object.keys`, in that order, in block style and in flow style; with `sortKeys`
set to `true` a mapping in block style is written over the same keys in
ascending order. -/
theorem blockMappingKeys_order (host : Host) (fuel : Nat) (state : State) (level : Nat)
    (object : JSVal) (compact : Bool) :
    (state.sortKeys = .unset →
      blockMappingKeys state object = .ok (objectKeys state.heap object))
    ∧ (state.sortKeys = .yes →
      ∃ keys, blockMappingKeys state object = .ok keys
        ∧ keys.Perm (objectKeys state.heap object)
        ∧ keys.Pairwise (fun a b => keyLe a b = true))
    ∧ writeBlockMapping host (fuel + 1) state level object compact =
        (match blockMappingKeys state object with
          | .error e => .error e
          | .ok keys =>
            (writeBlockMappingLoop host fuel state level object compact keys []).map
              (fun r => { r.1 with tag := state.tag
                                   dump := .str (if r.2 != [] then r.2 else js "{}") }))
    ∧ (state.sortKeys = .unset →
      writeFlowMapping host (fuel + 1) state level object =
        (writeFlowMappingLoop host fuel state level object (objectKeys state.heap object) []).map
          (fun r => { r.1 with tag := state.tag, dump := .str ([123] ++ r.2 ++ [125]) })) := by
  refine ⟨?_, ?_, ?_, ?_⟩
  · intro h
    simp [blockMappingKeys, h]
  · intro h
    exact ⟨sortKeysBy keyLe (objectKeys state.heap object), by simp [blockMappingKeys, h],
      sortKeysBy_perm _ _, sortKeysBy_sorted _⟩
  · unfold writeBlockMapping
    simp only [bind, Except.bind, pure, Except.pure]
    cases blockMappingKeys state object with
    | error e => rfl
    | ok keys =>
      simp only []
      cases writeBlockMappingLoop host fuel state level object compact keys [] with
      | error e => rfl
      | ok r => rfl
  · intro _
    unfold writeFlowMapping
    simp only [bind, Except.bind, pure, Except.pure]
    cases writeFlowMappingLoop host fuel state level object (objectKeys state.heap object) [] with
    | error e => rfl
    | ok r => rfl

/-- C16, witness: the mapping `{b: 1, a: 2}` is written `b` first by default, in
block style and in flow style, and `a` first in block style with `sortKeys`, at
the root and one level down. -/
theorem blockMappingKeys_order_witness :
    (∃ keys, blockMappingKeys
        (State.new Host.reference { sortKeys := .yes }
            [.object .objectPrototype [(js "b", .num 1), (js "a", .num 2)]])
        (.ref 0) = .ok keys
      ∧ keys.Perm (objectKeys [.object .objectPrototype [(js "b", .num 1), (js "a", .num 2)]]
          (.ref 0))
      ∧ keys.Pairwise (fun a b => keyLe a b = true))
    ∧ dump Host.reference 100 [.object .objectPrototype [(js "b", .num 1), (js "a", .num 2)]]
        (.ref 0) {} = .ok (js "b: 1\na: 2\n")
    ∧ dump Host.reference 100 [.object .objectPrototype [(js "b", .num 1), (js "a", .num 2)]]
        (.ref 0) { sortKeys := .yes } = .ok (js "a: 2\nb: 1\n")
    ∧ dump Host.reference 100
        [.object .objectPrototype [(js "x", .ref 1)],
         .object .objectPrototype [(js "b", .num 1), (js "a", .num 2)]]
        (.ref 0) { sortKeys := .yes } = .ok (js "x:\n  a: 2\n  b: 1\n")
    ∧ dump Host.reference 100 [.object .objectPrototype [(js "b", .num 1), (js "a", .num 2)]]
        (.ref 0) { flowLevel := some 0 } = .ok (js "\x7bb: 1, a: 2\x7d\n") :=
  ⟨(blockMappingKeys_order Host.reference 0
      (State.new Host.reference { sortKeys := .yes }
          [.object .objectPrototype [(js "b", .num 1), (js "a", .num 2)]])
      0 (.ref 0) false).2.1 rfl,
   by decide!, by decide!, by decide!, by decide!⟩

/-- C16, as stated, fails: without `sortKeys` the keys that are array indices
come first, in ascending order, whatever the insertion order was, in block style
and in flow style. -/
theorem sortKeys_counterexample :
    dump Host.reference 100
        [.object .objectPrototype [(js "b", .num 1), (js "10", .num 2), (js "2", .num 3)]]
        (.ref 0) {} = .ok (js "'2': 3\n'10': 2\nb: 1\n")
    ∧ dump Host.reference 100
        [.object .objectPrototype [(js "b", .num 1), (js "10", .num 2), (js "2", .num 3)]]
        (.ref 0) { flowLevel := some 0 } = .ok (js "\x7b'2': 3, '10': 2, b: 1\x7d\n") := by
  decide!

/-- C18: a plain object or an array that no type detects and that stands at
index `N` of `state.duplicates` is written as `*ref_N` when
`usedDuplicates[N]` is set; when it is not, `usedDuplicates[N]` is set, the
collection is written, and the text is `&ref_N` followed by the text of the
block collection, or by a space and the text of the flow collection. -/
theorem writeNode_anchor (host : Host) (fuel : Nat) (state : State) (level : Nat)
    (object : JSVal) (block compact iskey isblockseq : Bool) (N : Nat)
    (hdet : (state.implicitTypes ++ state.explicitTypes).any (detects state object) = false)
    (hclass : classOf state.heap object = .object ∨ classOf state.heap object = .array)
    (hidx : indexOf? state.duplicates object = some N) :
    (state.usedDuplicates.getD N false = true →
      writeNode host (fuel + 1) state level object block compact iskey isblockseq
        = .ok ({ state with tag := none, dump := .str (js "*ref_" ++ natToString 10 N) }, true))
    ∧ (state.usedDuplicates.getD N false = false →
      ∃ written : Except JSError State, ∃ separator : JSString,
        (separator = [] ∨ separator = [32])
        ∧ writeNode host (fuel + 1) state level object block compact iskey isblockseq
          = written.map (fun s =>
              ({ s with dump := .str (js "&ref_" ++ natToString 10 N ++ separator
                  ++ textOf host s.heap s.dump) }, true))
        ∧ (written = writeBlockMapping host fuel
              { state with tag := none, dump := object
                           usedDuplicates := state.usedDuplicates.set N true } level object false
          ∨ written = writeFlowMapping host fuel
              { state with tag := none, dump := object
                           usedDuplicates := state.usedDuplicates.set N true } level object
          ∨ written = writeBlockSequence host fuel
              { state with tag := none, dump := object
                           usedDuplicates := state.usedDuplicates.set N true }
              (if state.noArrayIndent && !isblockseq && level > 0 then level - 1 else level)
              object false
          ∨ written = writeFlowSequence host fuel
              { state with tag := none, dump := object
                           usedDuplicates := state.usedDuplicates.set N true } level object)) := by
  rcases hclass with hc | hc
  · have hw := writeNode_object host fuel state level object block compact iskey isblockseq
      hdet hc
    rw [hidx] at hw
    simp only [] at hw
    refine ⟨?_, ?_⟩
    · intro hu
      rw [hw, if_pos hu]
    · intro hu
      rw [hw]
      simp only [hu, Bool.false_eq_true, if_false]
      split
      · exact ⟨_, [], Or.inl rfl, by simp only [List.append_nil], Or.inl rfl⟩
      · exact ⟨_, [32], Or.inr rfl, rfl, Or.inr (Or.inl rfl)⟩
  · have hw := writeNode_array host fuel state level object block compact iskey isblockseq
      hdet hc
    rw [hidx] at hw
    simp only [] at hw
    refine ⟨?_, ?_⟩
    · intro hu
      rw [hw, if_pos hu]
    · intro hu
      rw [hw]
      simp only [hu, Bool.false_eq_true, if_false]
      split
      · exact ⟨_, [], Or.inl rfl, by simp only [List.append_nil], Or.inr (Or.inr (Or.inl rfl))⟩
      · exact ⟨_, [32], Or.inr rfl, rfl, Or.inr (Or.inr (Or.inr rfl))⟩

/-- C18, witness: a mapping whose key `a` holds the mapping itself is written
as `&ref_0`, a line feed, `a: *ref_0` and a line feed; the second meeting of a
duplicate writes the alias alone. -/
theorem writeNode_anchor_witness :
    (writeNode Host.reference 1
        { State.new Host.reference {} [.object .objectPrototype [(js "a", .ref 0)]] with
          duplicates := [.ref 0], usedDuplicates := [true] }
        1 (.ref 0) true false false false).map (fun r => (r.1.dump, r.2))
      = .ok (.str (js "*ref_0"), true)
    ∧ dump Host.reference 100 [.object .objectPrototype [(js "a", .ref 0)]] (.ref 0) {}
      = .ok (js "&ref_0\na: *ref_0\n") :=
  ⟨(congrArg (Except.map (fun r : State × Bool => (r.1.dump, r.2)))
      ((writeNode_anchor Host.reference 0
        { State.new Host.reference {} [.object .objectPrototype [(js "a", .ref 0)]] with
          duplicates := [.ref 0], usedDuplicates := [true] }
        1 (.ref 0) true false false false 0 (by decide!) (Or.inl (by decide)) (by decide)).1
        (by decide))).trans rfl,
   by decide!⟩

/-- C19: a value that no type of the schema detects and that is not a string,
an array, a plain object or `undefined` makes `writeNode` raise `unacceptable
kind of an object to dump` when `skipInvalid` is off, and return `false` with
nothing written when it is on.  With `skipInvalid` on, the value is left out of
its parent and the rest of the parent is written: in the loop of a sequence, in
block or in flow style, the turn of the value adds nothing to the text and the
loop goes on with the items that follow; in the loop of a mapping, in block or
in flow style, the turn of a key whose value it is adds nothing to the text, so
that key and value are both left out, and the loop goes on with the keys that
follow. -/
theorem writeNode_unrepresentable (host : Host) (fuel : Nat) (state : State) (level : Nat)
    (object : JSVal) (block compact iskey isblockseq : Bool)
    (hdet : (state.implicitTypes ++ state.explicitTypes).any (detects state object) = false)
    (hclass : classOf state.heap object ≠ .string ∧ classOf state.heap object ≠ .array
      ∧ classOf state.heap object ≠ .object ∧ classOf state.heap object ≠ .undefined) :
    writeNode host (fuel + 1) state level object block compact iskey isblockseq =
      (if state.skipInvalid then .ok ({ state with tag := none, dump := object }, false)
      else .error (.yaml ("unacceptable kind of an object to dump "
        ++ (classOf state.heap object).text)))
    ∧ (state.skipInvalid = true →
      (∀ (parent value : JSVal) (rest : List JSVal) (index : Nat) (_result : JSString)
          (compact1 : Bool),
        state.replace parent (natToString 10 index) value = object →
        writeBlockSequenceLoop host (fuel + 2) state level parent compact1 (value :: rest) index
            _result
          = writeBlockSequenceLoop host (fuel + 1) { state with tag := none, dump := object }
              level parent compact1 rest (index + 1) _result)
      ∧ (∀ (parent value : JSVal) (rest : List JSVal) (index : Nat) (_result : JSString),
        state.replace parent (natToString 10 index) value = object →
        writeFlowSequenceLoop host (fuel + 2) state level parent (value :: rest) index _result
          = writeFlowSequenceLoop host (fuel + 1) { state with tag := none, dump := object }
              level parent rest (index + 1) _result)
      ∧ (∀ (state0 : State) (parent : JSVal) (objectKey : JSString) (rest : List JSString)
          (_result : JSString) (compact1 : Bool),
        writeNode host (fuel + 1) state0 (level + 1) (.str objectKey) true true true false
          = .ok (state, true) →
        state0.replace parent objectKey (getProperty state0.heap parent objectKey) = object →
        writeBlockMappingLoop host (fuel + 2) state0 level parent compact1 (objectKey :: rest)
            _result
          = writeBlockMappingLoop host (fuel + 1) { state with tag := none, dump := object }
              level parent compact1 rest _result)
      ∧ (∀ (state0 : State) (parent : JSVal) (objectKey : JSString) (rest : List JSString)
          (_result : JSString),
        writeNode host (fuel + 1) state0 level (.str objectKey) false false false false
          = .ok (state, true) →
        state0.replace parent objectKey (getProperty state0.heap parent objectKey) = object →
        writeFlowMappingLoop host (fuel + 2) state0 level parent (objectKey :: rest) _result
          = writeFlowMappingLoop host (fuel + 1) { state with tag := none, dump := object }
              level parent rest _result)) := by
  refine ⟨writeNode_unacceptable host fuel state level object block compact iskey isblockseq
    hdet hclass, ?_⟩
  intro hskip
  refine ⟨?_, ?_, ?_, ?_⟩
  · intro parent value rest index _result compact1 hrep
    subst hrep
    exact writeBlockSequenceLoop_skip host fuel state level parent compact1 value rest index
      _result hskip hdet hclass
  · intro parent value rest index _result hrep
    subst hrep
    exact writeFlowSequenceLoop_skip host fuel state level parent value rest index _result
      hskip hdet hclass
  · intro state0 parent objectKey rest _result compact1 hkey hrep
    subst hrep
    exact writeBlockMappingLoop_skip host fuel state0 state level parent compact1 objectKey
      rest _result hkey hskip hdet hclass
  · intro state0 parent objectKey rest _result hkey hrep
    subst hrep
    exact writeFlowMappingLoop_skip host fuel state0 state level parent objectKey rest _result
      hkey hskip hdet hclass

/-- C19, witness: a function is refused by default; with `skipInvalid` the loop
of a sequence passes over it, and a sequence drops the item and a mapping drops
the pair, in block and in flow style, while the rest is written. -/
theorem writeNode_unrepresentable_witness :
    writeNode Host.reference 1 (State.new Host.reference {} []) 0 (.fn 0) true true false false
      = .error (.yaml ("unacceptable kind of an object to dump " ++ Class.function.text))
    ∧ writeBlockSequenceLoop Host.reference 2
        (State.new Host.reference { skipInvalid := true } [.array [.fn 0, .num 2]]) 0 (.ref 0)
        false [.fn 0, .num 2] 0 (js "- 1")
      = writeBlockSequenceLoop Host.reference 1
        { State.new Host.reference { skipInvalid := true } [.array [.fn 0, .num 2]] with
          tag := none, dump := .fn 0 } 0 (.ref 0) false [.num 2] 1 (js "- 1")
    ∧ dump Host.reference 100 [.array [.num 1, .fn 0, .num 2]] (.ref 0) {}
      = .error (.yaml "unacceptable kind of an object to dump [object Function]")
    ∧ dump Host.reference 100 [.array [.num 1, .fn 0, .num 2]] (.ref 0) { skipInvalid := true }
      = .ok (js "- 1\n- 2\n")
    ∧ dump Host.reference 100 [.array [.num 1, .fn 0, .num 2]] (.ref 0)
        { skipInvalid := true, flowLevel := some 0 } = .ok (js "[1, 2]\n")
    ∧ dump Host.reference 100 [.object .objectPrototype [(js "a", .fn 0), (js "b", .num 1)]]
        (.ref 0) { skipInvalid := true } = .ok (js "b: 1\n")
    ∧ dump Host.reference 100 [.object .objectPrototype [(js "a", .fn 0), (js "b", .num 1)]]
        (.ref 0) { skipInvalid := true, flowLevel := some 0 } = .ok (js "\x7bb: 1\x7d\n") :=
  ⟨((writeNode_unrepresentable Host.reference 0 (State.new Host.reference {} []) 0 (.fn 0)
      true true false false (by decide!) (by decide)).1).trans rfl,
   ((writeNode_unrepresentable Host.reference 0
      (State.new Host.reference { skipInvalid := true } [.array [.fn 0, .num 2]]) 0 (.fn 0)
      true true false false (by decide!) (by decide)).2 rfl).1 (.ref 0) (.fn 0) [.num 2] 0
      (js "- 1") false rfl,
   by decide!, by decide!, by decide!, by decide!, by decide!⟩

/-- C20, as amended: a plain object or an array that no type detects and that
is not a duplicate is written in block style exactly when `writeNode` is
called in block context, `flowLevel` is negative or greater than the level,
and the collection is not empty; otherwise it is written in flow style, an
empty mapping as `{}` and an empty sequence as `[]`. -/
theorem writeNode_block_or_flow (host : Host) (fuel : Nat) (state : State) (level : Nat)
    (object : JSVal) (block compact iskey isblockseq : Bool)
    (hdet : (state.implicitTypes ++ state.explicitTypes).any (detects state object) = false)
    (hdup : indexOf? state.duplicates object = none) :
    (classOf state.heap object = .object →
      writeNode host (fuel + 1) state level object block compact iskey isblockseq =
        (if (block && (decide (state.flowLevel < 0)
              || decide (state.flowLevel > (level : Int))))
            && (objectKeys state.heap object).length != 0 then
          writeBlockMapping host fuel { state with tag := none, dump := object } level object
            (if state.indent != 2 && level > 0 then false else compact)
        else writeFlowMapping host fuel { state with tag := none, dump := object } level
          object).map (fun s => (s, true)))
    ∧ (classOf state.heap object = .array →
      writeNode host (fuel + 1) state level object block compact iskey isblockseq =
        (if (block && (decide (state.flowLevel < 0)
              || decide (state.flowLevel > (level : Int))))
            && (arrayItems state.heap object).length != 0 then
          writeBlockSequence host fuel { state with tag := none, dump := object }
            (if state.noArrayIndent && !isblockseq && level > 0 then level - 1 else level)
            object (if state.indent != 2 && level > 0 then false else compact)
        else writeFlowSequence host fuel { state with tag := none, dump := object } level
          object).map (fun s => (s, true)))
    ∧ (classOf state.heap object = .object → objectKeys state.heap object = [] →
      writeNode host (fuel + 3) state level object block compact iskey isblockseq
        = .ok ({ state with tag := none, dump := .str (js "{}") }, true))
    ∧ (classOf state.heap object = .array → arrayItems state.heap object = [] →
      writeNode host (fuel + 3) state level object block compact iskey isblockseq
        = .ok ({ state with tag := none, dump := .str (js "[]") }, true)) := by
  refine ⟨?_, ?_, ?_, ?_⟩
  · intro hc
    rw [writeNode_object host fuel state level object block compact iskey isblockseq hdet hc,
      hdup]
  · intro hc
    rw [writeNode_array host fuel state level object block compact iskey isblockseq hdet hc,
      hdup]
  · intro hc hk
    rw [writeNode_object host (fuel + 2) state level object block compact iskey isblockseq hdet
      hc, hdup]
    simp only [hk, List.length_nil, bne_self_eq_false, Bool.and_false, Bool.false_eq_true,
      if_false]
    rw [writeFlowMapping_empty host fuel { state with tag := none, dump := object } level
      object hk]
    rfl
  · intro hc hk
    rw [writeNode_array host (fuel + 2) state level object block compact iskey isblockseq hdet
      hc, hdup]
    simp only [hk, List.length_nil, bne_self_eq_false, Bool.and_false, Bool.false_eq_true,
      if_false]
    rw [writeFlowSequence_empty host fuel { state with tag := none, dump := object } level
      object hk]
    rfl

/-- C20, witness: an empty mapping and an empty sequence at the root, and a
mapping under `flowLevel = 1`, whose value at level 1 is written in flow
style. -/
theorem writeNode_block_or_flow_witness :
    (writeNode Host.reference 3 (State.new Host.reference {} [.object .objectPrototype []]) 0
        (.ref 0) true true false false).map (fun r => (r.1.dump, r.2))
      = .ok (.str (js "{}"), true)
    ∧ dump Host.reference 100 [.array []] (.ref 0) {} = .ok (js "[]\n")
    ∧ dump Host.reference 100
        [.object .objectPrototype [(js "x", .ref 1)],
         .object .objectPrototype [(js "b", .num 1)]]
        (.ref 0) { flowLevel := some 1 } = .ok (js "x: {b: 1}\n")
    ∧ dump Host.reference 100
        [.object .objectPrototype [(js "x", .ref 1)],
         .object .objectPrototype [(js "b", .num 1)]]
        (.ref 0) { flowLevel := some 2 } = .ok (js "x:\n  b: 1\n") :=
  ⟨(congrArg (Except.map (fun r : State × Bool => (r.1.dump, r.2)))
      ((writeNode_block_or_flow Host.reference 0
        (State.new Host.reference {} [.object .objectPrototype []]) 0 (.ref 0) true true false
        false (by decide!) (by decide)).2.2.1 (by decide) (by decide))).trans rfl,
   by decide!, by decide!, by decide!⟩

/-- C20, as stated, fails: an empty sequence and an empty mapping that are met
twice are written as `&ref_0 []` and `&ref_0 {}` the first time and as
`*ref_0` the second time, not as `[]` and `{}`. -/
theorem empty_collection_counterexample :
    dump Host.reference 100 [.array [.ref 1, .ref 1], .array []] (.ref 0) {}
      = .ok (js "- &ref_0 []\n- *ref_0\n")
    ∧ dump Host.reference 100 [.array [.ref 1, .ref 1], .object .objectPrototype []] (.ref 0) {}
      = .ok (js "- &ref_0 {}\n- *ref_0\n") := by
  decide!

/-- C21, as amended: the tag annotation of a tag that starts with `!` is `!`
followed by the encoded rest, that of a tag `tag:yaml.org,2002:name` is `!!`
followed by the encoded name, that of any other tag is the encoded tag between
`!<` and `>`, the encoding being `encodeURI` followed by the replacement of
every `!` by `%21` (it changes nothing in a text of letters, digits and the
marks `encodeURI` keeps, `!` apart).  A value that an explicit type represents
as a string is written as the annotation of its tag, a space and the scalar;
a string that no type detects is written as the scalar alone. -/
theorem tagAnnotation_forms (host : Host) (fuel : Nat) (state : State) (level : Nat)
    (block compact iskey isblockseq : Bool) :
    (∀ tag, tagAnnotation tag =
      (encodeURI (if tag.head? == some 33 then tag.drop 1 else tag)).map (fun encoded =>
        if tag.head? == some 33 then
          33 :: encoded.flatMap (fun c => if c = 33 then js "%21" else [c])
        else if (encoded.flatMap (fun c => if c = 33 then js "%21" else [c])).take 18
            == js "tag:yaml.org,2002:" then
          js "!!" ++ (encoded.flatMap (fun c => if c = 33 then js "%21" else [c])).drop 18
        else js "!<" ++ encoded.flatMap (fun c => if c = 33 then js "%21" else [c]) ++ js ">"))
    ∧ (∀ suffix, (∀ c ∈ suffix, uriUnescaped c = true) → 33 ∉ suffix →
        tagAnnotation (33 :: suffix) = .ok (33 :: suffix))
    ∧ (∀ name, (∀ c ∈ name, uriUnescaped c = true) → 33 ∉ name →
        tagAnnotation (js "tag:yaml.org,2002:" ++ name) = .ok (js "!!" ++ name))
    ∧ (∀ tag, (∀ c ∈ tag, uriUnescaped c = true) → 33 ∉ tag →
        tag.take 18 ≠ js "tag:yaml.org,2002:" →
        tagAnnotation tag = .ok (js "!<" ++ tag ++ js ">"))
    ∧ (∀ object st1 st2 tag,
        detectType { state with tag := none, dump := object } object false = .ok (st1, false) →
        detectType st1 object true = .ok (st2, true) →
        classOf st2.heap st2.dump = .string → st2.tag = some tag → tag ≠ js "?" →
        writeNode host (fuel + 1) state level object block compact iskey isblockseq =
          match writeScalar st2 (textOf host st2.heap st2.dump) level iskey block with
          | .error e => .error e
          | .ok text =>
            match tagAnnotation tag with
            | .error e => .error e
            | .ok tagStr => .ok ({ st2 with dump := .str (tagStr ++ [32] ++ text) }, true))
    ∧ (∀ s, (state.implicitTypes ++ state.explicitTypes).any (detects state (.str s)) = false →
        writeNode host (fuel + 1) state level (.str s) block compact iskey isblockseq =
          (writeScalar { state with tag := none, dump := .str s } s level iskey block).map
            (fun text => ({ state with tag := none, dump := .str text }, true))) := by
  have hgen : ∀ tag, tagAnnotation tag =
      (encodeURI (if tag.head? == some 33 then tag.drop 1 else tag)).map (fun encoded =>
        if tag.head? == some 33 then
          33 :: encoded.flatMap (fun c => if c = 33 then js "%21" else [c])
        else if (encoded.flatMap (fun c => if c = 33 then js "%21" else [c])).take 18
            == js "tag:yaml.org,2002:" then
          js "!!" ++ (encoded.flatMap (fun c => if c = 33 then js "%21" else [c])).drop 18
        else js "!<" ++ encoded.flatMap (fun c => if c = 33 then js "%21" else [c])
          ++ js ">") := by
    intro tag
    unfold tagAnnotation
    cases encodeURI (if tag.head? == some 33 then tag.drop 1 else tag) with
    | error e => rfl
    | ok encoded =>
      simp only [Except.map]
      split
      · rfl
      · split <;> rfl
  refine ⟨hgen, ?_, ?_, ?_, ?_, ?_⟩
  · intro suffix hs hb
    rw [hgen]
    simp only [List.head?_cons, beq_self_eq_true, if_true, List.drop_succ_cons, List.drop_zero,
      encodeURI_unescaped suffix hs, Except.map, flatMap_bang suffix hb]
  · intro name hs hb
    have hpre : ∀ c ∈ js "tag:yaml.org,2002:", uriUnescaped c = true := by decide
    have hall : ∀ c ∈ js "tag:yaml.org,2002:" ++ name, uriUnescaped c = true := by
      intro c hc
      rcases List.mem_append.mp hc with h | h
      · exact hpre c h
      · exact hs c h
    have hbang : 33 ∉ js "tag:yaml.org,2002:" ++ name := by
      intro hc
      rcases List.mem_append.mp hc with h | h
      · revert h; decide
      · exact hb h
    have hhead : ((js "tag:yaml.org,2002:" ++ name).head? == some 33) = false := by
      rfl
    rw [hgen]
    simp only [hhead, Bool.false_eq_true, if_false, encodeURI_unescaped _ hall, Except.map,
      flatMap_bang _ hbang]
    have h18 : (js "tag:yaml.org,2002:" ++ name).take 18 = js "tag:yaml.org,2002:" := by
      rw [List.take_append_of_le_length (by decide)]; rfl
    have hd18 : (js "tag:yaml.org,2002:" ++ name).drop 18 = name := by
      rw [List.drop_append_of_le_length (by decide)]; rfl
    simp only [h18, hd18, beq_self_eq_true, if_true]
  · intro tag hs hb h18
    have hhead : (tag.head? == some 33) = false := by
      cases tag with
      | nil => rfl
      | cons c cs =>
        have : c ≠ 33 := fun e => hb (by simp [e])
        simpa using this
    have h18' : (tag.take 18 == js "tag:yaml.org,2002:") = false := by simpa using h18
    rw [hgen]
    simp only [hhead, Bool.false_eq_true, if_false, encodeURI_unescaped _ hs, Except.map,
      flatMap_bang _ hb, h18']
  · intro object st1 st2 tag h1 h2 hclass htag hq
    exact writeNode_scalar_tagged host fuel state level object block compact iskey isblockseq
      st1 st2 tag h1 h2 hclass htag hq
  · intro s hdet
    exact writeNode_string host fuel state level s block compact iskey isblockseq hdet

/-- C21, witness: the annotations of `!foo`, of the binary tag and of a tag
of another kind, and the text of a byte array, which the binary type
represents. -/
theorem tagAnnotation_forms_witness :
    tagAnnotation (js "!foo") = .ok (js "!foo")
    ∧ tagAnnotation (js "tag:yaml.org,2002:binary") = .ok (js "!!binary")
    ∧ tagAnnotation (js "tag:example.com,2000:x") = .ok (js "!<tag:example.com,2000:x>")
    ∧ dump Host.reference 100 [.bytes [1, 2, 3]] (.ref 0) {} = .ok (js "!!binary AQID\n") :=
  ⟨(tagAnnotation_forms Host.reference 0 (State.new Host.reference {} []) 0 true true false
      false).2.1 (js "foo") (by decide) (by decide),
   (tagAnnotation_forms Host.reference 0 (State.new Host.reference {} []) 0 true true false
      false).2.2.1 (js "binary") (by decide) (by decide),
   (tagAnnotation_forms Host.reference 0 (State.new Host.reference {} []) 0 true true false
      false).2.2.2.1 (js "tag:example.com,2000:x") (by decide) (by decide) (by decide),
   by decide!⟩

/-- C21, as stated, fails: the name of a tag `tag:yaml.org,2002:name` and the
text of a tag of another kind are encoded, so that the annotation is not `!!`
followed by the name, nor the tag between `!<` and `>`. -/
theorem tagAnnotation_counterexample :
    tagAnnotation (js "tag:yaml.org,2002:a b") = .ok (js "!!a%20b")
    ∧ tagAnnotation (js "tag:yaml.org,2002:a!b") = .ok (js "!!a%21b")
    ∧ tagAnnotation (js "tag:example.com,2000:x y") = .ok (js "!<tag:example.com,2000:x%20y>")
    := by
  decide!

end Dumper

/-! ## Claims on the scalar types -/

/-- C30: for an integer `n` with `|n| < 2^53` and each of the styles binary,
octal, decimal and hexadecimal, the int type has a represent function for the
style, the text it gives for `n` is accepted by the type's `resolve`
(`resolveYamlInteger`), and the type's `construct` (`constructYamlInteger`)
gives `n` back. -/
theorem int_round_trip (host : Host) (heap : Heap) (n : Int) (hn : n.natAbs < 2 ^ 53) :
    ∀ style ∈ [js "binary", js "octal", js "decimal", js "hexadecimal"],
      ∃ f t,
        (match (intType host).represent with
          | some (.styles m) => lookup m style
          | _ => none) = some f
        ∧ f heap (.num n) = .ok (.str t)
        ∧ (intType host).resolve heap (.str t) none = true
        ∧ resolveYamlInteger (.str t) = true
        ∧ (intType host).construct heap (.str t) none = .ok (.num n, heap)
        ∧ constructYamlInteger host t = .num n := by
  have hm : n.natAbs ≤ 2 ^ 53 := by omega
  have h21 : ¬ ((1000000000000000000000 : Nat) ≤ n.natAbs) := by
    have : (2 : Nat) ^ 53 < 1000000000000000000000 := by norm_num
    omega
  -- the digit texts
  have hbin : ∀ c ∈ natToString 2 n.natAbs, (fun c => c == 48 || c == 49) c = true ∧ c ≠ 95 := by
    intro c hc
    have := natToString_chars 2 (by omega) (by omega) _ c hc
    have h2 : c = 48 ∨ c = 49 := by omega
    rcases h2 with rfl | rfl <;> decide
  have hoct : ∀ c ∈ natToString 8 n.natAbs, isOctCode c = true ∧ c ≠ 95 := by
    intro c hc
    have := natToString_chars 8 (by omega) (by omega) _ c hc
    refine ⟨?_, by omega⟩
    unfold isOctCode
    simp only [Bool.and_eq_true, decide_eq_true_eq]
    omega
  have hhex := natToString_upper_chars n.natAbs
  have hhexne : upperAscii (natToString 16 n.natAbs) ≠ [] := by
    unfold upperAscii
    simpa using natToString_ne_nil 16 (by omega) n.natAbs
  have key : ∀ t : JSString, resolveYamlInteger (.str t) = true →
      constructYamlInteger host t = .num n →
      (intType host).resolve heap (.str t) none = true
        ∧ resolveYamlInteger (.str t) = true
        ∧ (intType host).construct heap (.str t) none = .ok (.num n, heap)
        ∧ constructYamlInteger host t = .num n := by
    intro t h1 h2
    refine ⟨h1, h1, ?_, h2⟩
    show Except.ok (constructYamlInteger host t, heap) = _
    rw [h2]
  have hneg : n < 0 → negate (.num (n.natAbs : Int)) = .num n := by
    intro h
    have h0 : ((n.natAbs : Nat) : Int) ≠ 0 := by omega
    have h1 : -((n.natAbs : Nat) : Int) = n := by omega
    simp only [negate, h0, if_false, h1]
  have hpos : ¬ n < 0 → JSVal.num (n.natAbs : Int) = .num n := by
    intro h
    have h1 : ((n.natAbs : Nat) : Int) = n := by omega
    rw [h1]
  have p2 := parseInt_natToString host 2 (by omega) (by omega) n.natAbs hm
  have p8 := parseInt_natToString host 8 (by omega) (by omega) n.natAbs hm
  have p10 := parseInt_natToString host 10 (by omega) (by omega) n.natAbs hm
  have p16 := parseInt_upper host n.natAbs hm
  intro style hs
  simp only [List.mem_cons, List.mem_singleton, List.not_mem_nil, or_false] at hs
  rcases hs with rfl | rfl | rfl | rfl
  · -- binary
    have hr := resolve_prefixed 98 _ (natToString 2 n.natAbs) (Or.inl ⟨rfl, rfl⟩)
      (natToString_ne_nil 2 (by omega) _) hbin
    have hc := construct_prefixed host 98 2 (natToString 2 n.natAbs) (Or.inl ⟨rfl, rfl⟩)
      (fun c h => (hbin c h).2)
    by_cases hlt : n < 0
    · refine ⟨_, 45 :: 48 :: 98 :: natToString 2 n.natAbs, rfl, ?_,
        key _ hr.2 (by rw [hc.2, p2, hneg hlt])⟩
      have hge : ¬ n ≥ 0 := by omega
      simp [representInt, intToString, hlt, hge, js]
    · refine ⟨_, 48 :: 98 :: natToString 2 n.natAbs, rfl, ?_,
        key _ hr.1 (by rw [hc.1, p2, hpos hlt])⟩
      have hge : n ≥ 0 := by omega
      simp [representInt, intToString, hlt, hge, js]
  · -- octal
    have hr := resolve_prefixed 111 _ (natToString 8 n.natAbs) (Or.inr (Or.inr ⟨rfl, rfl⟩))
      (natToString_ne_nil 8 (by omega) _) hoct
    have hc := construct_prefixed host 111 8 (natToString 8 n.natAbs)
      (Or.inr (Or.inr ⟨rfl, rfl⟩)) (fun c h => (hoct c h).2)
    by_cases hlt : n < 0
    · refine ⟨_, 45 :: 48 :: 111 :: natToString 8 n.natAbs, rfl, ?_,
        key _ hr.2 (by rw [hc.2, p8, hneg hlt])⟩
      have hge : ¬ n ≥ 0 := by omega
      simp [representInt, intToString, hlt, hge, js]
    · refine ⟨_, 48 :: 111 :: natToString 8 n.natAbs, rfl, ?_,
        key _ hr.1 (by rw [hc.1, p8, hpos hlt])⟩
      have hge : n ≥ 0 := by omega
      simp [representInt, intToString, hlt, hge, js]
  · -- decimal
    by_cases h0 : n = 0
    · subst h0
      refine ⟨_, js "0", rfl, ?_, key _ (by decide) (by simp [constructYamlInteger, js])⟩
      simp [intToString, natToString_zero]
    · have hmpos : 0 < n.natAbs := by omega
      obtain ⟨c, cs, hcs, hc1, hc2⟩ := natToString_head 10 (by omega) (by omega) n.natAbs hmpos
      have hall : ∀ x ∈ c :: cs, 48 ≤ x ∧ x < 58 := by
        intro x hx
        rw [← hcs] at hx
        have := natToString_chars 10 (by omega) (by omega) _ x hx
        omega
      obtain ⟨r1, r2, c1, c2⟩ := decimal_text host c cs ⟨hc1, hc2⟩ hall
      rw [← hcs] at r1 r2 c1 c2
      by_cases hlt : n < 0
      · refine ⟨_, 45 :: natToString 10 n.natAbs, rfl, ?_,
          key _ r2 (by rw [c2, p10, hneg hlt])⟩
        simp [intToString, hlt, h21]
      · refine ⟨_, natToString 10 n.natAbs, rfl, ?_,
          key _ r1 (by rw [c1, p10, hpos hlt])⟩
        simp [intToString, hlt, h21]
  · -- hexadecimal
    have hr := resolve_prefixed 120 _ (upperAscii (natToString 16 n.natAbs))
      (Or.inr (Or.inl ⟨rfl, rfl⟩)) hhexne hhex
    have hc := construct_prefixed host 120 16 (upperAscii (natToString 16 n.natAbs))
      (Or.inr (Or.inl ⟨rfl, rfl⟩)) (fun c h => (hhex c h).2)
    by_cases hlt : n < 0
    · refine ⟨_, 45 :: 48 :: 120 :: upperAscii (natToString 16 n.natAbs), rfl, ?_,
        key _ hr.2 (by rw [hc.2, p16, hneg hlt])⟩
      have hge : ¬ n ≥ 0 := by omega
      simp [representInt, intToString, hlt, hge, js, upperAscii]
    · refine ⟨_, 48 :: 120 :: upperAscii (natToString 16 n.natAbs), rfl, ?_,
        key _ hr.1 (by rw [hc.1, p16, hpos hlt])⟩
      have hge : n ≥ 0 := by omega
      simp [representInt, intToString, hlt, hge, js, upperAscii]

/-- C30, witness: the number `-255` in the hexadecimal style. -/
theorem int_round_trip_witness :
    ∃ f t,
      (match (intType Host.reference).represent with
        | some (.styles m) => lookup m (js "hexadecimal")
        | _ => none) = some f
      ∧ f [] (.num (-255)) = .ok (.str t)
      ∧ (intType Host.reference).resolve [] (.str t) none = true
      ∧ resolveYamlInteger (.str t) = true
      ∧ (intType Host.reference).construct [] (.str t) none = .ok (.num (-255), [])
      ∧ constructYamlInteger Host.reference t = .num (-255) :=
  int_round_trip Host.reference [] (-255) (by decide) (js "hexadecimal") (by decide)

/-- C31, at the empty byte sequence: its base64 text is `AAAA`, which is
accepted and decoded as three zero bytes, so that the round trip through
`representYamlBinary` and `constructYamlBinary` does not give the empty
sequence back; a sequence that is not empty, such as `1, 2, 3, 4`, comes
back. -/
theorem binary_round_trip_fails_on_empty :
    representYamlBinary [] = js "AAAA"
    ∧ resolveYamlBinary (.str (representYamlBinary [])) = true
    ∧ constructYamlBinary (representYamlBinary []) = [0, 0, 0]
    ∧ Dumper.dump Host.reference 100 [.bytes []] (.ref 0) {} = .ok (js "!!binary AAAA\n")
    ∧ Loader.load Host.reference 100 (js "!!binary AAAA\n") {} = .ok (.ref 0, [.bytes [0, 0, 0]])
    ∧ constructYamlBinary (representYamlBinary [1, 2, 3, 4]) = [1, 2, 3, 4] := by
  decide!

namespace Dumper

/-- C40: for a line without line feed and every width, the replacement of
every line feed of `foldLine(line, width)` by a space gives the line back. -/
theorem foldLine_spaces (text : JSString) (width : Int) (hlf : 10 ∉ text) :
    (foldLine text width).map (fun c => if c = 10 then 32 else c) = text := by
  unfold foldLine
  by_cases h0 : text = [] ∨ text.head? = some 32
  · rw [if_pos h0]
    exact map_LF_id text hlf
  · rw [if_neg h0]
    obtain ⟨i1, i2, i3⟩ := foldLineLoop_inv text width hlf text [] {} rfl rfl
      (Nat.le_refl _) (fun h => absurd h (Nat.lt_irrefl _)) (Nat.le_refl _)
    simp only [List.length_nil] at i1 i2 i3
    generalize foldLineLoop text width text 0 {} = l at i1 i2 i3
    simp only []
    have hdrop : ∀ k, 10 ∉ text.drop k := fun k h => hlf (List.mem_of_mem_drop h)
    rw [List.map_drop]
    split
    · rename_i hc
      have hcs : l.curr > l.start := hc.2
      have hsp := i3 hcs
      have e : (l.result ++ [10] ++ slice text l.start l.curr ++ 10 :: List.drop (l.curr + 1) text).map
          (fun c => if c = 10 then 32 else c)
          = 32 :: text := by
        rw [List.map_append, List.map_append, i1, map_LF_id _ (not_mem_slice text _ _ hlf)]
        simp only [List.map_cons, if_true, map_LF_id _ (hdrop _)]
        have := take_slice_space text l.start l.curr (by omega) hsp
        calc 32 :: List.take l.start text ++ slice text l.start l.curr
                ++ 32 :: List.drop (l.curr + 1) text
            = 32 :: ((List.take l.start text ++ slice text l.start l.curr ++ [32])
                ++ List.drop (l.curr + 1) text) := by simp
          _ = 32 :: text := by rw [this, List.take_append_drop]
      rw [e]; rfl
    · have e : (l.result ++ [10] ++ List.drop l.start text).map
          (fun c => if c = 10 then 32 else c) = 32 :: text := by
        rw [List.map_append, i1, map_LF_id _ (hdrop _)]
        simp only [List.cons_append, List.take_append_drop]
      rw [e]; rfl

/-- C40, witness: a line of four words folded at width 5. -/
theorem foldLine_spaces_witness :
    foldLine (js "aaa bbb ccc ddd") 5 = js "aaa\nbbb\nccc\nddd"
    ∧ (foldLine (js "aaa bbb ccc ddd") 5).map (fun c => if c = 10 then 32 else c)
      = js "aaa bbb ccc ddd" :=
  ⟨by decide, foldLine_spaces (js "aaa bbb ccc ddd") 5 (by decide)⟩

end Dumper

namespace Snippet

/-! ## Claims on the snippet of a mark -/

/-- C34 fails: `load` of the text `{a: 1, a: 2` followed by nine line feeds
raises `duplicated mapping key`, and the mark of the error has the position 7 of
the second `a` and the line 9 the loader has come to (`storeMappingPair` keeps
`state.line` when the line of the key is 0).  The width of the line numbers is
taken from the nine line breaks of the buffer, and the number `10` does not fit
in: the rendered line is ` 10 | {a: 1, a: 2`, where the unit at position 7 is in
column 13, and the `^` of the caret line is in column 12. -/
theorem makeSnippet_caret_misaligned :
    (Loader.load Host.reference 100 (js "\x7ba: 1, a: 2\n\n\n\n\n\n\n\n\n") {}).map
        (fun r => r.1) = .error (.yaml "duplicated mapping key")
    ∧ (js "\x7ba: 1, a: 2\n\n\n\n\n\n\n\n\n")[7]? = some 97
    ∧ makeSnippet Host.reference
        { buffer := js "\x7ba: 1, a: 2\n\n\n\n\n\n\n\n\n", position := 7, line := 9 }
      = some (js " 10 | \x7ba: 1, a: 2" ++ [10] ++ js "------------^" ++ [10]
          ++ js " 11 | \n 12 | ")
    ∧ (js " 10 | \x7ba: 1, a: 2")[13]? = some 97
    ∧ (js "------------^")[12]? = some 94 := by
  decide!

end Snippet

namespace Fs

/-! ## Claims on the file-system shim -/

/-- C37 (amended): `readFile` resolves with the argument itself exactly when the
argument is a string that is empty or starts with `{` or `[`; for every other
string it rejects with the error `[API2SDK FS Shim] File system access not
available for path: ` followed by the string; for an argument that is not a
string it resolves with a text `json` exactly when `String(argument)` does not
throw and `JSON.stringify(argument)` returns `json`, and otherwise it rejects:
with the error of `String`, or with `[API2SDK FS Shim] Could not serialize
object passed to readFile: ` followed by the message of the error of
`JSON.stringify` or, when `JSON.stringify` returns `undefined`, of the error of
reading a property of `undefined`. -/
theorem readFile_settles (b : Builtins) (heap : Heap) (filePath : JSVal) :
    (∀ s, (filePath = .str s ∧ readFile b heap filePath = .resolved s)
      ↔ (filePath = .str s ∧ (s = [] ∨ s.head? = some 123 ∨ s.head? = some 91)))
    ∧ (∀ s, filePath = .str s → ¬ (s = [] ∨ s.head? = some 123 ∨ s.head? = some 91) →
        readFile b heap filePath
          = .rejected (js "[API2SDK FS Shim] File system access not available for path: " ++ s))
    ∧ (isString filePath = false →
        (∀ json, readFile b heap filePath = .resolved json
          ↔ ((∃ pathStr, toStr b heap filePath = .ok pathStr)
            ∧ stringify b heap filePath = .ok (some json)))
        ∧ (∀ message, toStr b heap filePath = .error message →
            readFile b heap filePath = .rejected message)
        ∧ (∀ pathStr message, toStr b heap filePath = .ok pathStr →
            stringify b heap filePath = .error message →
            readFile b heap filePath = .rejected
              (js "[API2SDK FS Shim] Could not serialize object passed to readFile: " ++ message))
        ∧ (∀ pathStr, toStr b heap filePath = .ok pathStr →
            stringify b heap filePath = .ok none →
            readFile b heap filePath = .rejected
              (js "[API2SDK FS Shim] Could not serialize object passed to readFile: "
                ++ b.undefinedProperty))) := by
  have hstr : ∀ s, readFile b heap (.str s)
      = if s = [] ∨ s.head? = some 123 ∨ s.head? = some 91 then .resolved s
        else .rejected (js "[API2SDK FS Shim] File system access not available for path: "
          ++ s) := by
    intro s
    unfold readFile
    simp only [toStr, isString, Bool.not_true, Bool.false_eq_true, if_false, startsWith,
      Bool.or_eq_true, beq_iff_eq, JSVal.str.injEq, or_assoc]
  refine ⟨?_, ?_, ?_⟩
  · intro s
    constructor
    · rintro ⟨rfl, h⟩
      refine ⟨rfl, ?_⟩
      rw [hstr] at h
      by_contra hcon
      rw [if_neg hcon] at h
      cases h
    · rintro ⟨rfl, h⟩
      refine ⟨rfl, ?_⟩
      rw [hstr, if_pos h]
  · rintro s rfl h
    rw [hstr, if_neg h]
  · intro hns
    unfold readFile
    simp only [hns, Bool.not_false, if_true]
    cases h1 : toStr b heap filePath with
    | error m =>
      refine ⟨?_, ?_, ?_, ?_⟩
      · intro json
        simp
      · intro message h; cases h; rfl
      · intro p message h; cases h
      · intro p h; cases h
    | ok p =>
      cases h2 : stringify b heap filePath with
      | error m =>
        refine ⟨?_, ?_, ?_, ?_⟩
        · intro json
          simp
        · intro message h; cases h
        · intro p1 message _ h; cases h; rfl
        · intro p1 _ h; cases h
      | ok r =>
        cases r with
        | none =>
          refine ⟨?_, ?_, ?_, ?_⟩
          · intro json
            simp
          · intro message h; cases h
          · intro p1 message _ h; cases h
          · intro p1 _ _; rfl
        | some j =>
          refine ⟨?_, ?_, ?_, ?_⟩
          · intro json
            simp
          · intro message h; cases h
          · intro p1 message _ h; cases h
          · intro p1 _ h; cases h

theorem readFile_settles_witness :
    readFile ⟨fun _ _ => .ok [], fun _ => [], fun _ _ => .ok none, fun _ => [], []⟩ []
        (.str (js "\x7b\"a\": 1\x7d")) = .resolved (js "\x7b\"a\": 1\x7d")
    ∧ readFile ⟨fun _ _ => .ok [], fun _ => [], fun _ _ => .ok none, fun _ => [], []⟩ []
        (.str (js "a.json"))
      = .rejected (js "[API2SDK FS Shim] File system access not available for path: "
          ++ js "a.json") :=
  ⟨(((readFile_settles ⟨fun _ _ => .ok [], fun _ => [], fun _ _ => .ok none, fun _ => [], []⟩ []
      (.str (js "\x7b\"a\": 1\x7d"))).1 (js "\x7b\"a\": 1\x7d")).mpr ⟨rfl, by decide⟩).2,
   (readFile_settles ⟨fun _ _ => .ok [], fun _ => [], fun _ _ => .ok none, fun _ => [], []⟩ []
      (.str (js "a.json"))).2.1 (js "a.json") rfl (by decide)⟩

/-- C37 (counterexample): the argument `undefined` is not a string, and
`JSON.stringify(undefined)` is `undefined`; the read of `substring` of it throws
a `TypeError`, and `readFile` rejects (the built-ins for objects and numbers play
no part here, and the message of the `TypeError` is the one of V8). -/
theorem readFile_undefined_counterexample :
    readFile ⟨fun _ _ => .ok [], fun _ => [], fun _ _ => .ok none, fun _ => [],
        js "Cannot read properties of undefined (reading 'substring')"⟩ [] .undefined
      = .rejected (js "[API2SDK FS Shim] Could not serialize object passed to readFile: "
          ++ js "Cannot read properties of undefined (reading 'substring')") := rfl

end Fs

namespace Dumper

/-! ## Claims on the duplicate pre-pass -/

/-- C39: for every heap (a finite object graph, cycles and shared objects
included) and every value, `inspectNode` returns once the recursion bound is
above the number of children of all objects of the heap plus one; the objects
list it returns has no object twice, it holds exactly the objects the calls
were made with, and the number of calls made with an object is at most the
number of all children plus one, as the children of an object are walked
through only when the object is pushed. -/
theorem inspectNode_terminates (heap : Heap) (object : JSVal) (fuel : Nat)
    (hfuel : childCount heap + 1 < fuel) :
    ∃ objects duplicatesIndexes calls,
      inspectNode heap fuel object [] [] = some (objects, duplicatesIndexes)
      ∧ inspectedCalls heap fuel [object] [] = some calls
      ∧ objects.Nodup
      ∧ (∀ x, x ∈ objects ↔ x ∈ calls)
      ∧ calls.length ≤ childCount heap + 1 := by
  obtain ⟨o1, d1, calls, h1, h2, h3, h4, _, h6, _⟩ :=
    inspectNodes_run heap fuel [object] [] [] []
      (by simp only [List.length_singleton]; unfold childCount at hfuel; omega)
      List.nodup_nil (fun x => Iff.rfl) (fun i hi => by cases hi) rfl
  refine ⟨o1, d1, calls, h1, h2, h3, ?_, ?_⟩
  · intro x
    rw [h4 x, List.nil_append]
  · simp only [List.length_singleton] at h6
    unfold childCount
    omega

theorem inspectNode_terminates_witness :
    childCount [.object .objectPrototype [(js "a", .ref 0), (js "b", .ref 1)],
        .array [.ref 0, .ref 1]] + 1 < 10
    ∧ ∃ objects duplicatesIndexes calls,
      inspectNode [.object .objectPrototype [(js "a", .ref 0), (js "b", .ref 1)],
          .array [.ref 0, .ref 1]] 10 (.ref 0) [] [] = some (objects, duplicatesIndexes)
      ∧ inspectedCalls [.object .objectPrototype [(js "a", .ref 0), (js "b", .ref 1)],
          .array [.ref 0, .ref 1]] 10 [.ref 0] [] = some calls
      ∧ objects.Nodup
      ∧ (∀ x, x ∈ objects ↔ x ∈ calls)
      ∧ calls.length ≤ childCount [.object .objectPrototype [(js "a", .ref 0), (js "b", .ref 1)],
          .array [.ref 0, .ref 1]] + 1 :=
  ⟨by decide, inspectNode_terminates _ (.ref 0) 10 (by decide)⟩

/-- C17: on a heap where no plain object has a key twice, and with a recursion
bound above the number of children of all objects of the heap plus one,
`getDuplicateReferences(object, state)` returns, and it adds to
`state.duplicates` (empty in a new state) the objects that the depth-first
walk of `inspectNode` is called with a second time, in the order of these
second calls.  The list has no object twice.  The walk pushes exactly the
objects of the graph of `object` (those reached from it through array items
and property values), each once, and it is called with an object as many times
as the graph leads to it: once for the root, and once for each place where the
object stands among the values held by an object of the graph.  So an object
is listed exactly when it is in the graph and the graph leads to it at least
twice; an object reached once is not listed. -/
theorem getDuplicateReferences_duplicates (fuel : Nat) (object : JSVal) (state : State)
    (hfuel : childCount state.heap + 1 < fuel) (hkeys : keysDistinct state.heap = true) :
    ∃ calls objects state1,
      inspectedCalls state.heap fuel [object] [] = some calls
      ∧ getDuplicateReferences fuel object state = .ok state1
      ∧ state1.duplicates = state.duplicates ++ secondOccurrences [] calls
      ∧ (secondOccurrences [] calls).Nodup
      ∧ (∀ x, x ∈ secondOccurrences [] calls ↔ 2 ≤ calls.count x)
      ∧ objects.Nodup
      ∧ (∀ y, y ∈ objects ↔ GraphFrom (heldValues state.heap) [object] y)
      ∧ (∀ x, calls.count x
          = if isInspected x = true then encounters state.heap object objects x else 0)
      ∧ (∀ x, x ∈ secondOccurrences [] calls ↔
          (GraphFrom (heldValues state.heap) [object] x
            ∧ 2 ≤ encounters state.heap object objects x)) := by
  obtain ⟨o1, d1, calls, h1, h2, h3, h4, h5, _, h7⟩ :=
    inspectNodes_run state.heap fuel [object] [] [] []
      (by simp only [List.length_singleton]; unfold childCount at hfuel; omega)
      List.nodup_nil (fun x => Iff.rfl) (fun i hi => by cases hi) rfl
  obtain ⟨added, hobj, hcount, hpend, hchild, hgraph⟩ :=
    inspectNodes_graph state.heap fuel [object] [] [] o1 d1 calls h1 h2
  rw [List.nil_append] at hobj
  subst hobj
  have hmem : ∀ y, y ∈ o1 ↔ GraphFrom (heldValues state.heap) [object] y := by
    intro y
    constructor
    · intro hy
      exact GraphFrom.congr _ _ _
        (fun y x hy hx h => (mem_childrenOf state.heap hkeys y x hy hx).mp h) y (hgraph y hy)
    · intro hy
      induction hy with
      | root r hr hi => exact hpend r hr hi
      | child y x hy hx hi ih =>
        exact hchild y ih x
          ((mem_childrenOf state.heap hkeys y x (GraphFrom.inspected _ _ _ hy) hi).mpr hx) hi
  have hcalls : ∀ x, calls.count x
      = if isInspected x = true then encounters state.heap object o1 x else 0 := by
    intro x
    by_cases hx : isInspected x = true
    · rw [if_pos hx, hcount x hx]
      unfold encounters
      congr 1
      · rw [List.count_singleton]
        by_cases h : x = object
        · subst h; simp
        · have : (object == x) = false := by
            rw [beq_eq_false_iff_ne]; exact fun e => h e.symm
          simp [h, this]
      · congr 1
        apply List.map_congr_left
        intro y hy
        obtain ⟨a, rfl⟩ := isInspected_ref y (GraphFrom.inspected _ _ _ (hgraph y hy))
        exact childrenOf_count state.heap hkeys a x hx
    · rw [if_neg hx, List.count_eq_zero]
      intro hmemx
      exact hx (h7 x hmemx)
  have hsec : ∀ x, x ∈ secondOccurrences [] calls ↔ 2 ≤ calls.count x := by
    intro x
    have := mem_secondOccurrences x calls []
    simpa using this
  refine ⟨calls, o1, { state with
      duplicates := state.duplicates ++ d1.map (fun i => o1.getD i .undefined)
      usedDuplicates := List.replicate d1.length false },
    h2, ?_, ?_, secondOccurrences_nodup calls [], hsec, h3, hmem, hcalls, ?_⟩
  · unfold getDuplicateReferences inspectNode
    rw [h1]
  · show state.duplicates ++ d1.map (fun i => o1.getD i .undefined) = _
    rw [List.nil_append] at h5
    rw [← h5]
    rfl
  · intro x
    rw [hsec x]
    constructor
    · intro h2le
      have hxc : x ∈ calls := List.count_pos_iff.mp (by omega)
      have hx : isInspected x = true := h7 x hxc
      refine ⟨(hmem x).mp ((h4 x).mpr (by simpa using hxc)), ?_⟩
      have := hcalls x
      rw [if_pos hx] at this
      omega
    · rintro ⟨hg, h2le⟩
      have := hcalls x
      rw [if_pos (GraphFrom.inspected _ _ _ hg)] at this
      omega

/-- C17, witness: an object whose properties `a` and `b` hold the same array,
which holds the object again, and whose property `c` holds another array: the
object and the first array are listed, in this order, as the graph leads to
each of them twice; the second array, reached once, is not. -/
theorem getDuplicateReferences_duplicates_witness :
    childCount (State.new Host.reference {}
        [.object .objectPrototype [(js "a", .ref 1), (js "b", .ref 1), (js "c", .ref 2)],
          .array [.ref 0], .array []]).heap + 1 < 10
    ∧ keysDistinct (State.new Host.reference {}
        [.object .objectPrototype [(js "a", .ref 1), (js "b", .ref 1), (js "c", .ref 2)],
          .array [.ref 0], .array []]).heap = true
    ∧ (∃ calls objects state1,
      inspectedCalls (State.new Host.reference {}
        [.object .objectPrototype [(js "a", .ref 1), (js "b", .ref 1), (js "c", .ref 2)],
          .array [.ref 0], .array []]).heap 10 [.ref 0] [] = some calls
      ∧ getDuplicateReferences 10 (.ref 0) (State.new Host.reference {}
        [.object .objectPrototype [(js "a", .ref 1), (js "b", .ref 1), (js "c", .ref 2)],
          .array [.ref 0], .array []]) = .ok state1
      ∧ state1.duplicates = (State.new Host.reference {}
        [.object .objectPrototype [(js "a", .ref 1), (js "b", .ref 1), (js "c", .ref 2)],
          .array [.ref 0], .array []]).duplicates ++ secondOccurrences [] calls
      ∧ (secondOccurrences [] calls).Nodup
      ∧ (∀ x, x ∈ secondOccurrences [] calls ↔ 2 ≤ calls.count x)
      ∧ objects.Nodup
      ∧ (∀ y, y ∈ objects ↔ GraphFrom (heldValues (State.new Host.reference {}
        [.object .objectPrototype [(js "a", .ref 1), (js "b", .ref 1), (js "c", .ref 2)],
          .array [.ref 0], .array []]).heap) [.ref 0] y)
      ∧ (∀ x, calls.count x
          = if isInspected x = true then encounters (State.new Host.reference {}
        [.object .objectPrototype [(js "a", .ref 1), (js "b", .ref 1), (js "c", .ref 2)],
          .array [.ref 0], .array []]).heap (.ref 0) objects x else 0)
      ∧ (∀ x, x ∈ secondOccurrences [] calls ↔
          (GraphFrom (heldValues (State.new Host.reference {}
        [.object .objectPrototype [(js "a", .ref 1), (js "b", .ref 1), (js "c", .ref 2)],
          .array [.ref 0], .array []]).heap) [.ref 0] x
            ∧ 2 ≤ encounters (State.new Host.reference {}
        [.object .objectPrototype [(js "a", .ref 1), (js "b", .ref 1), (js "c", .ref 2)],
          .array [.ref 0], .array []]).heap (.ref 0) objects x)))
    ∧ (getDuplicateReferences 10 (.ref 0) (State.new Host.reference {}
        [.object .objectPrototype [(js "a", .ref 1), (js "b", .ref 1), (js "c", .ref 2)],
          .array [.ref 0], .array []])).map (fun s => s.duplicates) = .ok [.ref 0, .ref 1]
    ∧ encounters
        [.object .objectPrototype [(js "a", .ref 1), (js "b", .ref 1), (js "c", .ref 2)],
          .array [.ref 0], .array []] (.ref 0) [.ref 0, .ref 1, .ref 2] (.ref 0) = 2
    ∧ encounters
        [.object .objectPrototype [(js "a", .ref 1), (js "b", .ref 1), (js "c", .ref 2)],
          .array [.ref 0], .array []] (.ref 0) [.ref 0, .ref 1, .ref 2] (.ref 1) = 2
    ∧ encounters
        [.object .objectPrototype [(js "a", .ref 1), (js "b", .ref 1), (js "c", .ref 2)],
          .array [.ref 0], .array []] (.ref 0) [.ref 0, .ref 1, .ref 2] (.ref 2) = 1 :=
  ⟨by decide, by decide, getDuplicateReferences_duplicates 10 (.ref 0) _ (by decide) (by decide),
    by decide, by decide, by decide, by decide⟩

end Dumper

namespace Loader

/-! ## Claims on the quoted scalars -/

/-- C15: let `s` be a string whose units are tabs or units from the space on
(every printable character is made of such units, and no line break is), and let
the input hold, at the current position, a single quote, `s` with every single
quote doubled, and a single quote that no single quote follows.  Then
`readSingleQuotedScalar` succeeds, the result is exactly `s`, and the position
is behind the closing quote. -/
theorem readSingleQuotedScalar_round_trip (state : State) (nodeIndent : Int)
    (pre s rest : JSString)
    (hs : ∀ c ∈ s, (c = 9 ∨ 32 ≤ c) ∧ c < 65536)
    (hinput : state.input = pre ++ [39] ++ Dumper.doubleQuotes s ++ [39] ++ rest)
    (hpos : state.position = pre.length) (hls : state.lineStart ≤ pre.length)
    (hrest : rest.head? ≠ some 39) :
    ∃ state1, readSingleQuotedScalar state nodeIndent = .ok (state1, true)
      ∧ state1.result = .str s ∧ state1.kind = some .scalar
      ∧ state1.position = pre.length + (Dumper.doubleQuotes s).length + 2 := by
  have hin : state.input = pre ++ 39 :: (Dumper.doubleQuotes s ++ [39] ++ rest) := by
    rw [hinput]; simp
  have hin2 : state.input = (pre ++ [39]) ++ Dumper.doubleQuotes s ++ 39 :: rest := by
    rw [hinput]; simp
  have hch : state.input[pre.length]? = some 39 := by
    rw [hin]; exact getElem?_append_here pre _ 39
  have hlen : (pre ++ [39]).length = pre.length + 1 := by simp
  have key := readSingleQuotedLoop_run { state with kind := some .scalar } nodeIndent rest hrest
    s (pre ++ [39]) (pre.length + 1) (pre.length + 1) [] (state.input.length + 1) hs hin2
    (by rw [hlen]; exact Nat.lt_succ_of_le hls) (by rw [hlen])
    (by
      rw [hlen, slice_empty]
      intro c hc
      cases hc)
    (by
      show (Dumper.doubleQuotes s).length + 1 ≤ state.input.length + 1
      rw [hin2]
      simp only [List.length_append]
      omega)
  rw [hlen, slice_empty] at key
  unfold readSingleQuotedScalar
  simp only [State.ch, hpos, charCodeAt_nat, hch, bne_self_eq_false, Bool.false_eq_true,
    if_false]
  refine ⟨_, key, ?_, rfl, ?_⟩
  · simp
  · show pre.length + 1 + (Dumper.doubleQuotes s).length + 1 = _
    omega

theorem readSingleQuotedScalar_round_trip_witness :
    ∃ state1, readSingleQuotedScalar (State.new Host.reference (js "'it''s'") {}) 0
        = .ok (state1, true)
      ∧ state1.result = .str (js "it's") ∧ state1.kind = some .scalar
      ∧ state1.position = ([] : JSString).length + (Dumper.doubleQuotes (js "it's")).length + 2 :=
  readSingleQuotedScalar_round_trip (State.new Host.reference (js "'it''s'") {}) 0 []
    (js "it's") [] (by decide) (by decide) rfl (by decide) (by decide)

/-- C14: for every string `s` of UTF-16 code units, `escapeString(s)` returns a
text `E`, and on an input that holds, at the current position, a double quote,
`E` and a double quote, `readDoubleQuotedScalar` succeeds with exactly `s` as the
result and the position behind the closing quote.  In particular, every entry of
`ESCAPE_SEQUENCES` is a backslash and a character that `simpleEscapeSequence`
maps back to the unit of the entry, and for every unit `c` the text of
`encodeHex(c)` is a backslash, `x` or `u`, and as many hexadecimal digits as
`escapedHexLen` tells, which `readHexDigits` reads as `c` and
`charFromCodepoint` turns into the unit `c`. -/
theorem readDoubleQuotedScalar_round_trip (s : JSString) (hs : ∀ u ∈ s, u < 65536) :
    ∃ E, Dumper.escapeString s = .ok E
      ∧ (∀ (state : State) (nodeIndent : Int) (pre rest : JSString),
          state.input = pre ++ [34] ++ E ++ [34] ++ rest → state.position = pre.length →
          state.lineStart ≤ pre.length →
          ∃ state1, readDoubleQuotedScalar state nodeIndent = .ok (state1, true)
            ∧ state1.result = .str s ∧ state1.kind = some .scalar
            ∧ state1.position = pre.length + E.length + 2)
      ∧ (∀ c seq, Dumper.ESCAPE_SEQUENCES c = some seq →
          ∃ e, seq = [92, e] ∧ e < 256 ∧ simpleEscapeSequence e = [c])
      ∧ (∀ c, c ≤ 65535 →
          ∃ (handle : Nat) (ds : List Nat),
            Dumper.encodeHex c = .ok (92 :: handle :: upperAscii (ds.map (digitChar false)))
            ∧ (handle = 120 ∨ handle = 117) ∧ escapedHexLen (some handle) = ds.length
            ∧ charFromCodepoint (c : Int) = [c]
            ∧ ∀ (state0 : State) (B C : JSString) (q : Nat) (r : JSString),
                state0.input = B ++ upperAscii (ds.map (digitChar false)) ++ C →
                B.length = q + 1 →
                readHexDigits ds.length { state0 with position := q, result := .str r } 0
                  = .ok ({ state0 with position := q + ds.length, result := .str r },
                      (c : Int))) := by
  obtain ⟨E, hE⟩ := escapeLoop_total s hs s.length 0 []
  refine ⟨E, hE, ?_, ?_, ?_⟩
  · intro state nodeIndent pre rest hinput hpos hls
    have hin : state.input = pre ++ 34 :: (E ++ [34] ++ rest) := by
      rw [hinput]; simp
    have hin2 : state.input = (pre ++ [34]) ++ E ++ 34 :: rest := by
      rw [hinput]; simp
    have hch : state.input[pre.length]? = some 34 := by
      rw [hin]; exact getElem?_append_here pre _ 34
    have hlen : (pre ++ [34]).length = pre.length + 1 := by simp
    have key := readDoubleQuotedLoop_run { state with kind := some .scalar } nodeIndent s rest hs
      s.length 0 (pre ++ [34]) E (pre.length + 1) (pre.length + 1) [] (state.input.length + 1)
      (by omega) hE hin2
      (by rw [hlen]; exact Nat.lt_succ_of_le hls) (by rw [hlen])
      (by
        rw [hlen, slice_empty]
        intro c hc
        cases hc)
      (by
        show E.length + 1 ≤ state.input.length + 1
        rw [hin2]
        simp only [List.length_append]
        omega)
    rw [hlen, slice_empty] at key
    unfold readDoubleQuotedScalar
    simp only [State.ch, hpos, charCodeAt_nat, hch, bne_self_eq_false, Bool.false_eq_true,
      if_false]
    refine ⟨_, key, ?_, rfl, ?_⟩
    · simp
    · show pre.length + 1 + E.length + 1 = _
      omega
  · intro c seq h
    obtain ⟨e, h1, h2, h3, _⟩ := ESCAPE_SEQUENCES_some c seq h
    exact ⟨e, h1, h2, h3⟩
  · intro c hc
    obtain ⟨handle, ds, hhex, hds, hfold, hhandle⟩ := encodeHex_spec c hc
    refine ⟨handle, ds, hhex, ?_, ?_, charFromCodepoint_unit c (by omega), ?_⟩
    · rcases hhandle with ⟨h, _⟩ | ⟨h, _⟩
      · exact Or.inl h
      · exact Or.inr h
    · rcases hhandle with ⟨rfl, h⟩ | ⟨rfl, h⟩ <;> rw [h] <;> decide
    · intro state0 B C q r hinput hB
      have hbound : (0 + 1) * 16 ^ ds.length ≤ 16 ^ 7 := by
        rcases hhandle with ⟨_, h⟩ | ⟨_, h⟩ <;> rw [h] <;> norm_num
      have hrun := readHexDigits_run state0 ds B C q r 0 hds hbound hinput hB
      simp only [Nat.cast_zero] at hrun
      rw [hrun, hfold]

theorem readDoubleQuotedScalar_round_trip_witness :
    ∃ state1, readDoubleQuotedScalar
          (State.new Host.reference (js "\"a\\\"\\n\\x01\"") {}) 0 = .ok (state1, true)
      ∧ state1.result = .str [97, 34, 10, 1] := by
  obtain ⟨E, hE, h, _⟩ := readDoubleQuotedScalar_round_trip [97, 34, 10, 1] (by decide)
  have hval : Dumper.escapeString [97, 34, 10, 1] = .ok (js "a\\\"\\n\\x01") := by decide
  rw [hval] at hE
  cases hE
  obtain ⟨state1, h1, h2, _⟩ := h (State.new Host.reference (js "\"a\\\"\\n\\x01\"") {}) 0
    [] [] (by decide) rfl (by decide)
  exact ⟨state1, h1, h2⟩

end Loader

end JsYaml
